import Mathlib

/-!
Verification of the qpid-proton value-tree codec (`src/proton-c/src/codec/codec.c`).

The C code is shallowly embedded: machine integers become `Nat`/`Int` with
explicit wrapping where overflow matters, the mutable byte window `pn_bytes_t`
becomes either a read cursor (`List Nat` of remaining bytes) or a write cursor
(`WBuf`: a fixed byte list plus a position), and fallible paths return a result
code paired with the possibly-updated state, mirroring the C control flow.
-/

namespace Codec

/-- `pn_type_t` together with the internal `PN_TYPE` marker (value 64 in C). -/
inductive PnType where
  | tNull | tBool | tUbyte | tByte | tUshort | tShort | tUint | tInt | tChar
  | tUlong | tLong | tTimestamp | tFloat | tDouble | tDec32 | tDec64 | tDec128
  | tUuid | tBinary | tString | tSymbol | tDescriptor | tArray | tList | tMap
  | tType
  deriving DecidableEq, Repr

/-- `pn_iatom_t`: a tagged value. The C union is rendered as one constructor per
kind, carrying exactly the payload the C code stores for that kind.  `float` and
`double` payloads are kept as their raw big-endian bit patterns, exactly the
words the C `conv_t` union moves (the codec itself never interprets them). -/
inductive PnAtom where
  | anull
  | abool (b : Bool)
  | aubyte (v : Nat)
  | abyte (v : Int)
  | aushort (v : Nat)
  | ashort (v : Int)
  | auint (v : Nat)
  | aint (v : Int)
  | achar (v : Nat)
  | aulong (v : Nat)
  | along (v : Int)
  | atimestamp (v : Int)
  | afloat (bits : Nat)
  | adouble (bits : Nat)
  | adec32 (v : Nat)
  | adec64 (v : Nat)
  | adec128 (bs : List Nat)
  | auuid (bs : List Nat)
  | abinary (bs : List Nat)
  | astring (bs : List Nat)
  | asymbol (bs : List Nat)
  | adescriptor
  | aarray (count : Nat)
  | alist (count : Nat)
  | amap (count : Nat)
  | atype (t : PnType)
  deriving DecidableEq, Repr

/-- The `type` discriminator of an atom. -/
def PnAtom.ptype : PnAtom → PnType
  | .anull => .tNull
  | .abool _ => .tBool
  | .aubyte _ => .tUbyte
  | .abyte _ => .tByte
  | .aushort _ => .tUshort
  | .ashort _ => .tShort
  | .auint _ => .tUint
  | .aint _ => .tInt
  | .achar _ => .tChar
  | .aulong _ => .tUlong
  | .along _ => .tLong
  | .atimestamp _ => .tTimestamp
  | .afloat _ => .tFloat
  | .adouble _ => .tDouble
  | .adec32 _ => .tDec32
  | .adec64 _ => .tDec64
  | .adec128 _ => .tDec128
  | .auuid _ => .tUuid
  | .abinary _ => .tBinary
  | .astring _ => .tString
  | .asymbol _ => .tSymbol
  | .adescriptor => .tDescriptor
  | .aarray _ => .tArray
  | .alist _ => .tList
  | .amap _ => .tMap
  | .atype _ => .tType

/-- Result codes of the codec paths (the negative sentinels of the C API). -/
inductive PnRes where
  | ok
  | overflow
  | underflow
  | argErr
  | err
  deriving DecidableEq, Repr

/-! ## Primitive I/O (component 4.A)

`pn_bytes_t` used as a write target: `data` is the whole caller buffer (its
length is the capacity) and `pos` is the cursor; the C window's `start` is
`data` at offset `pos` and its `size` is `data.length - pos`. -/

structure WBuf where
  data : List Nat
  pos : Nat
  deriving DecidableEq, Repr

/-- The C window's `size` field. -/
def WBuf.size (w : WBuf) : Nat := w.data.length - w.pos

/-- `pn_bytes_ltrim`: advance the cursor by `size`, clamped to the window. -/
def WBuf.ltrim (w : WBuf) (size : Nat) : WBuf :=
  { w with pos := w.pos + min size w.size }

/-- Store one byte at offset `k` from the cursor (the C `bytes->start[k] = v`). -/
def WBuf.setByte (w : WBuf) (k : Nat) (v : Nat) : WBuf :=
  { w with data := w.data.set (w.pos + k) (v % 256) }

/-- `pn_i_bytes_writef8` -/
def pn_i_bytes_writef8 (w : WBuf) (value : Nat) : PnRes × WBuf :=
  if w.size ≠ 0 then
    (.ok, ((w.setByte 0 value).ltrim 1))
  else
    (.overflow, w)

/-- `pn_i_bytes_writef16` -/
def pn_i_bytes_writef16 (w : WBuf) (value : Nat) : PnRes × WBuf :=
  if w.size < 2 then
    (.overflow, w)
  else
    (.ok, (((w.setByte 0 ((value >>> 8) % 256)).setByte 1 (value % 256)).ltrim 2))

/-- `pn_i_bytes_writef32` -/
def pn_i_bytes_writef32 (w : WBuf) (value : Nat) : PnRes × WBuf :=
  if w.size < 4 then
    (.overflow, w)
  else
    (.ok, (((((w.setByte 0 ((value >>> 24) % 256)).setByte 1 ((value >>> 16) % 256)).setByte 2
        ((value >>> 8) % 256)).setByte 3 (value % 256)).ltrim 4))

/-- `pn_i_bytes_writef64` -/
def pn_i_bytes_writef64 (w : WBuf) (value : Nat) : PnRes × WBuf :=
  if w.size < 8 then
    (.overflow, w)
  else
    (.ok, (((((((((w.setByte 0 ((value >>> 56) % 256)).setByte 1 ((value >>> 48) % 256)).setByte 2
        ((value >>> 40) % 256)).setByte 3 ((value >>> 32) % 256)).setByte 4
        ((value >>> 24) % 256)).setByte 5 ((value >>> 16) % 256)).setByte 6
        ((value >>> 8) % 256)).setByte 7 (value % 256)).ltrim 8))

/-- Copy `vs` into the window starting at the cursor (the C `memmove`). -/
def WBuf.copyIn (w : WBuf) (vs : List Nat) : WBuf :=
  (List.range vs.length).foldl (fun acc k => acc.setByte k (vs.getD k 0)) w

/-- `pn_i_bytes_writef128`: copy-write of a 16-byte blob. -/
def pn_i_bytes_writef128 (w : WBuf) (value : List Nat) : PnRes × WBuf :=
  if w.size < 16 then
    (.overflow, w)
  else
    (.ok, ((w.copyIn (value.take 16)).ltrim 16))

/-- `pn_i_bytes_writev8`: 1-byte length prefix then the payload bytes. -/
def pn_i_bytes_writev8 (w : WBuf) (value : List Nat) : PnRes × WBuf :=
  if w.size < 1 + value.length then
    (.overflow, w)
  else
    match pn_i_bytes_writef8 w value.length with
    | (.ok, w1) => (.ok, ((w1.copyIn value).ltrim value.length))
    | (e, w1) => (e, w1)

/-- `pn_i_bytes_writev32`: 4-byte length prefix then the payload bytes. -/
def pn_i_bytes_writev32 (w : WBuf) (value : List Nat) : PnRes × WBuf :=
  if w.size < 4 + value.length then
    (.overflow, w)
  else
    match pn_i_bytes_writef32 w value.length with
    | (.ok, w1) => (.ok, ((w1.copyIn value).ltrim value.length))
    | (e, w1) => (e, w1)

/-! `pn_bytes_t` used as a read cursor: the list of remaining bytes; `ltrim`
drops from the front.  The raw `pn_i_bytes_readf*` helpers read blindly (the C
code indexes without a bound check); every call site in `pn_decode_value`
guards them with an explicit size test, and the guarded forms below mirror
those call sites. -/

/-- `pn_i_bytes_readf8` -/
def pn_i_bytes_readf8 (bs : List Nat) : Nat × List Nat :=
  (bs.headD 0, bs.drop 1)

/-- `pn_i_bytes_readf16` -/
def pn_i_bytes_readf16 (bs : List Nat) : Nat × List Nat :=
  (bs.headD 0 * 256 + (bs.drop 1).headD 0, bs.drop 2)

/-- `pn_i_bytes_readf32` -/
def pn_i_bytes_readf32 (bs : List Nat) : Nat × List Nat :=
  (bs.headD 0 * 2 ^ 24 + (bs.drop 1).headD 0 * 2 ^ 16 + (bs.drop 2).headD 0 * 2 ^ 8 +
    (bs.drop 3).headD 0, bs.drop 4)

/-- `pn_i_bytes_readf64`: two 32-bit reads combined. -/
def pn_i_bytes_readf64 (bs : List Nat) : Nat × List Nat :=
  let a := pn_i_bytes_readf32 bs
  let b := pn_i_bytes_readf32 a.2
  (a.1 * 2 ^ 32 + b.1, b.2)

/-- The `if (bytes->size < 1) return PN_UNDERFLOW;` + `pn_i_bytes_readf8`
pattern of `pn_decode_value`. -/
def pn_read_guard8 (bs : List Nat) : PnRes × Nat × List Nat :=
  if bs.length = 0 then (.underflow, 0, bs)
  else
    let r := pn_i_bytes_readf8 bs
    (.ok, r.1, r.2)

/-- Guarded 16-bit read as used in `pn_decode_value`. -/
def pn_read_guard16 (bs : List Nat) : PnRes × Nat × List Nat :=
  if bs.length < 2 then (.underflow, 0, bs)
  else
    let r := pn_i_bytes_readf16 bs
    (.ok, r.1, r.2)

/-- Guarded 32-bit read as used in `pn_decode_value`. -/
def pn_read_guard32 (bs : List Nat) : PnRes × Nat × List Nat :=
  if bs.length < 4 then (.underflow, 0, bs)
  else
    let r := pn_i_bytes_readf32 bs
    (.ok, r.1, r.2)

/-- Guarded 64-bit read as used in `pn_decode_value`. -/
def pn_read_guard64 (bs : List Nat) : PnRes × Nat × List Nat :=
  if bs.length < 8 then (.underflow, 0, bs)
  else
    let r := pn_i_bytes_readf64 bs
    (.ok, r.1, r.2)

/-- Guarded 16-byte read (`memmove` + `ltrim(16)` in the decimal128/uuid
branches of `pn_decode_value`). -/
def pn_read_guard128 (bs : List Nat) : PnRes × List Nat × List Nat :=
  if bs.length < 16 then (.underflow, [], bs)
  else (.ok, bs.take 16, bs.drop 16)

/-! Basic cursor facts used throughout. -/

@[simp] theorem WBuf.setByte_pos (w : WBuf) (k v : Nat) : (w.setByte k v).pos = w.pos := rfl

@[simp] theorem WBuf.setByte_length (w : WBuf) (k v : Nat) :
    (w.setByte k v).data.length = w.data.length := by
  simp [WBuf.setByte]

@[simp] theorem WBuf.setByte_size (w : WBuf) (k v : Nat) : (w.setByte k v).size = w.size := by
  simp [WBuf.size]

@[simp] theorem WBuf.ltrim_pos (w : WBuf) (n : Nat) : (w.ltrim n).pos = w.pos + min n w.size :=
  rfl

@[simp] theorem WBuf.ltrim_data (w : WBuf) (n : Nat) : (w.ltrim n).data = w.data := rfl

theorem WBuf.foldl_setByte_pos (l : List Nat) (w : WBuf) (f : Nat → Nat) :
    (l.foldl (fun acc k => acc.setByte k (f k)) w).pos = w.pos := by
  induction l generalizing w with
  | nil => rfl
  | cons a t ih => simpa using ih (w.setByte a (f a))

theorem WBuf.foldl_setByte_length (l : List Nat) (w : WBuf) (f : Nat → Nat) :
    (l.foldl (fun acc k => acc.setByte k (f k)) w).data.length = w.data.length := by
  induction l generalizing w with
  | nil => rfl
  | cons a t ih => simpa using ih (w.setByte a (f a))

@[simp] theorem WBuf.copyIn_pos (w : WBuf) (vs : List Nat) : (w.copyIn vs).pos = w.pos :=
  WBuf.foldl_setByte_pos _ _ _

@[simp] theorem WBuf.copyIn_length (w : WBuf) (vs : List Nat) :
    (w.copyIn vs).data.length = w.data.length :=
  WBuf.foldl_setByte_length _ _ _

@[simp] theorem WBuf.copyIn_size (w : WBuf) (vs : List Nat) : (w.copyIn vs).size = w.size := by
  simp [WBuf.size]

/-- C4: every primitive write advances the cursor by exactly the bytes consumed
on success and returns overflow with the cursor untouched on failure; every
guarded read advances by exactly the bytes consumed on success and returns
underflow with the input untouched on failure.  Stated for all eleven primitive
operations of component 4.A. -/
theorem c4_prim_io_no_partial_advance :
    (∀ w v, (1 ≤ w.size →
        (pn_i_bytes_writef8 w v).1 = PnRes.ok ∧
        (pn_i_bytes_writef8 w v).2.pos = w.pos + 1 ∧
        (pn_i_bytes_writef8 w v).2.data.length = w.data.length) ∧
      (w.size < 1 → pn_i_bytes_writef8 w v = (PnRes.overflow, w))) ∧
    (∀ w v, (2 ≤ w.size →
        (pn_i_bytes_writef16 w v).1 = PnRes.ok ∧
        (pn_i_bytes_writef16 w v).2.pos = w.pos + 2 ∧
        (pn_i_bytes_writef16 w v).2.data.length = w.data.length) ∧
      (w.size < 2 → pn_i_bytes_writef16 w v = (PnRes.overflow, w))) ∧
    (∀ w v, (4 ≤ w.size →
        (pn_i_bytes_writef32 w v).1 = PnRes.ok ∧
        (pn_i_bytes_writef32 w v).2.pos = w.pos + 4 ∧
        (pn_i_bytes_writef32 w v).2.data.length = w.data.length) ∧
      (w.size < 4 → pn_i_bytes_writef32 w v = (PnRes.overflow, w))) ∧
    (∀ w v, (8 ≤ w.size →
        (pn_i_bytes_writef64 w v).1 = PnRes.ok ∧
        (pn_i_bytes_writef64 w v).2.pos = w.pos + 8 ∧
        (pn_i_bytes_writef64 w v).2.data.length = w.data.length) ∧
      (w.size < 8 → pn_i_bytes_writef64 w v = (PnRes.overflow, w))) ∧
    (∀ w v, (16 ≤ w.size →
        (pn_i_bytes_writef128 w v).1 = PnRes.ok ∧
        (pn_i_bytes_writef128 w v).2.pos = w.pos + 16 ∧
        (pn_i_bytes_writef128 w v).2.data.length = w.data.length) ∧
      (w.size < 16 → pn_i_bytes_writef128 w v = (PnRes.overflow, w))) ∧
    (∀ w (v : List Nat), (1 + v.length ≤ w.size →
        (pn_i_bytes_writev8 w v).1 = PnRes.ok ∧
        (pn_i_bytes_writev8 w v).2.pos = w.pos + (1 + v.length) ∧
        (pn_i_bytes_writev8 w v).2.data.length = w.data.length) ∧
      (w.size < 1 + v.length → pn_i_bytes_writev8 w v = (PnRes.overflow, w))) ∧
    (∀ w (v : List Nat), (4 + v.length ≤ w.size →
        (pn_i_bytes_writev32 w v).1 = PnRes.ok ∧
        (pn_i_bytes_writev32 w v).2.pos = w.pos + (4 + v.length) ∧
        (pn_i_bytes_writev32 w v).2.data.length = w.data.length) ∧
      (w.size < 4 + v.length → pn_i_bytes_writev32 w v = (PnRes.overflow, w))) ∧
    (∀ bs : List Nat, (1 ≤ bs.length →
        (pn_read_guard8 bs).1 = PnRes.ok ∧ (pn_read_guard8 bs).2.2 = bs.drop 1) ∧
      (bs.length < 1 → pn_read_guard8 bs = (PnRes.underflow, 0, bs))) ∧
    (∀ bs : List Nat, (2 ≤ bs.length →
        (pn_read_guard16 bs).1 = PnRes.ok ∧ (pn_read_guard16 bs).2.2 = bs.drop 2) ∧
      (bs.length < 2 → pn_read_guard16 bs = (PnRes.underflow, 0, bs))) ∧
    (∀ bs : List Nat, (4 ≤ bs.length →
        (pn_read_guard32 bs).1 = PnRes.ok ∧ (pn_read_guard32 bs).2.2 = bs.drop 4) ∧
      (bs.length < 4 → pn_read_guard32 bs = (PnRes.underflow, 0, bs))) ∧
    (∀ bs : List Nat, (8 ≤ bs.length →
        (pn_read_guard64 bs).1 = PnRes.ok ∧ (pn_read_guard64 bs).2.2 = bs.drop 8) ∧
      (bs.length < 8 → pn_read_guard64 bs = (PnRes.underflow, 0, bs))) ∧
    (∀ bs : List Nat, (16 ≤ bs.length →
        (pn_read_guard128 bs).1 = PnRes.ok ∧ (pn_read_guard128 bs).2.2 = bs.drop 16) ∧
      (bs.length < 16 → pn_read_guard128 bs = (PnRes.underflow, [], bs))) := by
  refine ⟨?_, ?_, ?_, ?_, ?_, ?_, ?_, ?_, ?_, ?_, ?_, ?_⟩
  · intro w v
    constructor
    · intro h
      simp only [pn_i_bytes_writef8]
      rw [if_pos (by omega)]
      simp [Nat.min_eq_left h]
    · intro h
      simp only [pn_i_bytes_writef8]
      rw [if_neg (by omega)]
  · intro w v
    constructor
    · intro h
      simp only [pn_i_bytes_writef16]
      rw [if_neg (by omega)]
      simp [Nat.min_eq_left h]
    · intro h
      simp only [pn_i_bytes_writef16]
      rw [if_pos (by omega)]
  · intro w v
    constructor
    · intro h
      simp only [pn_i_bytes_writef32]
      rw [if_neg (by omega)]
      simp [Nat.min_eq_left h]
    · intro h
      simp only [pn_i_bytes_writef32]
      rw [if_pos (by omega)]
  · intro w v
    constructor
    · intro h
      simp only [pn_i_bytes_writef64]
      rw [if_neg (by omega)]
      simp [Nat.min_eq_left h]
    · intro h
      simp only [pn_i_bytes_writef64]
      rw [if_pos (by omega)]
  · intro w v
    constructor
    · intro h
      simp only [pn_i_bytes_writef128]
      rw [if_neg (by omega)]
      simp [Nat.min_eq_left h]
    · intro h
      simp only [pn_i_bytes_writef128]
      rw [if_pos (by omega)]
  · intro w v
    constructor
    · intro h
      simp only [pn_i_bytes_writev8]
      rw [if_neg (by omega)]
      simp only [pn_i_bytes_writef8]
      rw [if_pos (by omega)]
      have h1 : min 1 w.size = 1 := by omega
      have h2 : ((w.setByte 0 v.length).ltrim 1).size = w.size - 1 := by
        simp [WBuf.size, WBuf.ltrim, WBuf.setByte, h1]
        omega
      have h3 : min v.length (w.size - 1) = v.length := by omega
      refine ⟨rfl, ?_, by simp⟩
      rw [WBuf.ltrim_pos, WBuf.copyIn_size, h2, h3, WBuf.copyIn_pos, WBuf.ltrim_pos,
        WBuf.setByte_pos]
      simp only [WBuf.setByte_size]
      rw [h1]
      omega
    · intro h
      simp only [pn_i_bytes_writev8]
      rw [if_pos (by omega)]
  · intro w v
    constructor
    · intro h
      simp only [pn_i_bytes_writev32]
      rw [if_neg (by omega)]
      simp only [pn_i_bytes_writef32]
      rw [if_neg (by omega)]
      have h1 : min 4 w.size = 4 := by omega
      have h2 : (((((w.setByte 0 ((v.length >>> 24) % 256)).setByte 1 ((v.length >>> 16) % 256)).setByte 2
          ((v.length >>> 8) % 256)).setByte 3 (v.length % 256)).ltrim 4).size = w.size - 4 := by
        simp [WBuf.size, WBuf.ltrim, WBuf.setByte, h1]
        omega
      have h3 : min v.length (w.size - 4) = v.length := by omega
      refine ⟨rfl, ?_, by simp⟩
      rw [WBuf.ltrim_pos, WBuf.copyIn_size, h2, h3, WBuf.copyIn_pos, WBuf.ltrim_pos,
        WBuf.setByte_pos, WBuf.setByte_pos, WBuf.setByte_pos, WBuf.setByte_pos]
      simp only [WBuf.setByte_size]
      rw [h1]
      omega
    · intro h
      simp only [pn_i_bytes_writev32]
      rw [if_pos (by omega)]
  · intro bs
    constructor
    · intro h
      simp only [pn_read_guard8]
      rw [if_neg (by omega)]
      exact ⟨rfl, rfl⟩
    · intro h
      simp only [pn_read_guard8]
      rw [if_pos (by omega)]
  · intro bs
    constructor
    · intro h
      simp only [pn_read_guard16]
      rw [if_neg (by omega)]
      exact ⟨rfl, rfl⟩
    · intro h
      simp only [pn_read_guard16]
      rw [if_pos (by omega)]
  · intro bs
    constructor
    · intro h
      simp only [pn_read_guard32]
      rw [if_neg (by omega)]
      exact ⟨rfl, rfl⟩
    · intro h
      simp only [pn_read_guard32]
      rw [if_pos (by omega)]
  · intro bs
    constructor
    · intro h
      simp only [pn_read_guard64]
      rw [if_neg (by omega)]
      exact ⟨rfl, by simp [pn_i_bytes_readf64, pn_i_bytes_readf32]⟩
    · intro h
      simp only [pn_read_guard64]
      rw [if_pos (by omega)]
  · intro bs
    constructor
    · intro h
      simp only [pn_read_guard128]
      rw [if_neg (by omega)]
      exact ⟨rfl, rfl⟩
    · intro h
      simp only [pn_read_guard128]
      rw [if_pos (by omega)]

/-- Witness for C4 at a concrete cursor: writing one byte into a 2-byte window
advances the cursor to 1, and the failing write into an empty window is
overflow with the cursor untouched. -/
theorem c4_prim_io_no_partial_advance_witness :
    (pn_i_bytes_writef8 ⟨[0, 0], 0⟩ 7).2.pos = 0 + 1 ∧
    pn_i_bytes_writef8 ⟨[], 0⟩ 7 = (PnRes.overflow, ⟨[], 0⟩) :=
  ⟨((c4_prim_io_no_partial_advance.1 ⟨[0, 0], 0⟩ 7).1 (by decide)).2.1,
   (c4_prim_io_no_partial_advance.1 ⟨[], 0⟩ 7).2 (by decide)⟩

/-! ## The value tree (component 4.C)

`pn_node_t`.  The C allocator leaves every field except `next`, `down` and
`children` uninitialized; each path of `pn_data_add` then writes `prev` and
`parent`, and every `pn_data_put_*` writes the atom, so the defaults below are
never observed.  The interned byte store is not modelled separately: copying
the payload into the tree's buffer and rebasing the pointer leaves the byte
sequence itself unchanged, so `data_offset` stays inert here (the `data`
flag is called `dataFlag`). -/
structure PnNode where
  next : Nat := 0
  prev : Nat := 0
  down : Nat := 0
  parent : Nat := 0
  children : Nat := 0
  atom : PnAtom := .anull
  described : Bool := false
  etype : PnType := .tNull
  dataFlag : Bool := false
  data_offset : Nat := 0
  data_size : Nat := 0
  start : Nat := 0
  small : Bool := false
  deriving DecidableEq, Repr

/-- `pn_data_t`: node ids are 1-based indices into `nodes` (0 is the null id),
as in the C code where `pn_data_node(data, nd)` is `&data->nodes[nd-1]`.
Capacity and `pn_data_grow` are dropped: reallocation always succeeds and the
model appends nodes directly. -/
structure PnData where
  nodes : List PnNode := []
  parent : Nat := 0
  current : Nat := 0
  base_parent : Nat := 0
  base_current : Nat := 0
  extras : Nat := 0
  deriving DecidableEq, Repr

/-- `pn_data_size` -/
def pn_data_size (d : PnData) : Nat := d.nodes.length

/-- `pn_data_node`: `None` for the null id 0. -/
def pn_data_node (d : PnData) (nd : Nat) : Option PnNode :=
  if nd = 0 then none else d.nodes[nd - 1]?

/-- Total node lookup (meaningful for 1-based ids that are in range; the C
callers never dereference the null id 0, so it maps to the default record). -/
def getNode (d : PnData) (nd : Nat) : PnNode :=
  if nd = 0 then {} else d.nodes.getD (nd - 1) {}

/-- Overwrite the fields of node `nd` (a C pointer write through
`pn_data_node`; never reached with `nd = 0`). -/
def updNode (d : PnData) (nd : Nat) (f : PnNode → PnNode) : PnData :=
  if nd = 0 then d
  else { d with nodes := d.nodes.set (nd - 1) (f (d.nodes.getD (nd - 1) {})) }

/-- `pn_data_current` -/
def pn_data_current (d : PnData) : Option PnNode := pn_data_node d d.current

/-- The tail of every `pn_data_add` path: reset the child link, child count and
interning fields of the chosen node and move the cursor onto it. -/
def pn_data_add_finish (d : PnData) (nd : Nat) : PnData × Nat :=
  ({ updNode d nd (fun n =>
      { n with down := 0, children := 0, dataFlag := false, data_offset := 0, data_size := 0 })
      with current := nd }, nd)

/-- `pn_data_add`: the insertion algorithm (five cases, as in the C source). -/
def pn_data_add (d : PnData) : PnData × Nat :=
  if d.current ≠ 0 then
    let cur := getNode d d.current
    if cur.next ≠ 0 then
      pn_data_add_finish d cur.next
    else
      let n := d.nodes.length + 1
      let d1 : PnData := { d with nodes := d.nodes ++ [{}] }
      let d2 := updNode d1 n (fun nd => { nd with prev := d.current, parent := d.parent })
      let d3 := updNode d2 d.current (fun nd => { nd with next := n })
      let d4 := if d.parent ≠ 0 then
          updNode d3 d.parent (fun p =>
            { p with down := if p.down = 0 then n else p.down, children := p.children + 1 })
        else d3
      pn_data_add_finish d4 n
  else if d.parent ≠ 0 then
    let par := getNode d d.parent
    if par.down ≠ 0 then
      pn_data_add_finish d par.down
    else
      let n := d.nodes.length + 1
      let d1 : PnData := { d with nodes := d.nodes ++ [{}] }
      let d2 := updNode d1 n (fun nd => { nd with prev := 0, parent := d.parent })
      let d3 := updNode d2 d.parent (fun p => { p with down := n, children := p.children + 1 })
      pn_data_add_finish d3 n
  else if d.nodes.length ≠ 0 then
    pn_data_add_finish d 1
  else
    let d1 : PnData := { d with nodes := d.nodes ++ [{}] }
    let d2 := updNode d1 1 (fun nd => { nd with prev := 0, parent := 0 })
    pn_data_add_finish d2 1

/-- `pn_data_rewind` -/
def pn_data_rewind (d : PnData) : PnData :=
  { d with parent := d.base_parent, current := d.base_current }

/-- `pn_data_narrow` -/
def pn_data_narrow (d : PnData) : PnData :=
  { d with base_parent := d.parent, base_current := d.current }

/-- `pn_data_widen` -/
def pn_data_widen (d : PnData) : PnData :=
  { d with base_parent := 0, base_current := 0 }

/-- `pn_point_t` / `pn_data_point` -/
structure PnPoint where
  parent : Nat
  current : Nat
  deriving DecidableEq, Repr

def pn_data_point (d : PnData) : PnPoint := ⟨d.parent, d.current⟩

/-- `pn_data_restore` -/
def pn_data_restore (d : PnData) (p : PnPoint) : Bool × PnData :=
  if p.current ≠ 0 ∧ p.current ≤ d.nodes.length then
    (true, { d with current := p.current, parent := (getNode d p.current).parent })
  else if p.parent ≠ 0 ∧ p.parent ≤ d.nodes.length then
    (true, { d with parent := p.parent, current := 0 })
  else
    (false, d)

/-- `pn_data_peek` -/
def pn_data_peek (d : PnData) : Option PnNode :=
  match pn_data_current d with
  | some cur => pn_data_node d cur.next
  | none =>
    match pn_data_node d d.parent with
    | some par => pn_data_node d par.down
    | none => none

/-- `pn_data_next` -/
def pn_data_next (d : PnData) : Bool × PnData :=
  let nxt : Nat :=
    match pn_data_current d with
    | some cur => cur.next
    | none =>
      match pn_data_node d d.parent with
      | some par => if par.down ≠ 0 then par.down else 0
      | none => if d.nodes.length ≠ 0 then 1 else 0
  if nxt ≠ 0 then (true, { d with current := nxt }) else (false, d)

/-- `pn_data_prev` -/
def pn_data_prev (d : PnData) : Bool × PnData :=
  match pn_data_current d with
  | some cur => if cur.prev ≠ 0 then (true, { d with current := cur.prev }) else (false, d)
  | none => (false, d)

/-- `pn_data_type`: `none` plays the role of the C `(pn_type_t) -1`. -/
def pn_data_type (d : PnData) : Option PnType :=
  match pn_data_current d with
  | some n => some n.atom.ptype
  | none => none

/-- `pn_data_enter` -/
def pn_data_enter (d : PnData) : Bool × PnData :=
  if d.current ≠ 0 then
    (true, { d with parent := d.current, current := 0 })
  else
    (false, d)

/-- `pn_data_exit` -/
def pn_data_exit (d : PnData) : Bool × PnData :=
  if d.parent ≠ 0 then
    (true, { d with current := d.parent, parent := (getNode d d.parent).parent })
  else
    (false, d)

/-! The `pn_data_put_*` family.  Each one is `pn_data_add` followed by writing
the node's atom (and, for arrays, the `described`/`type` fields and the
`extras` bump; for binary-like kinds, `pn_data_intern_node`, which here only
records the interning bookkeeping since the byte payload is kept inline). -/

def putAtom (d : PnData) (a : PnAtom) : PnData :=
  let r := pn_data_add d
  updNode r.1 r.2 (fun n => { n with atom := a })

def pn_data_put_null (d : PnData) : PnData := putAtom d .anull

def pn_data_put_bool (d : PnData) (b : Bool) : PnData := putAtom d (.abool b)

def pn_data_put_ubyte (d : PnData) (v : Nat) : PnData := putAtom d (.aubyte v)

def pn_data_put_byte (d : PnData) (v : Int) : PnData := putAtom d (.abyte v)

def pn_data_put_ushort (d : PnData) (v : Nat) : PnData := putAtom d (.aushort v)

def pn_data_put_short (d : PnData) (v : Int) : PnData := putAtom d (.ashort v)

def pn_data_put_uint (d : PnData) (v : Nat) : PnData := putAtom d (.auint v)

def pn_data_put_int (d : PnData) (v : Int) : PnData := putAtom d (.aint v)

def pn_data_put_char (d : PnData) (v : Nat) : PnData := putAtom d (.achar v)

def pn_data_put_ulong (d : PnData) (v : Nat) : PnData := putAtom d (.aulong v)

def pn_data_put_long (d : PnData) (v : Int) : PnData := putAtom d (.along v)

def pn_data_put_timestamp (d : PnData) (v : Int) : PnData := putAtom d (.atimestamp v)

def pn_data_put_float (d : PnData) (bits : Nat) : PnData := putAtom d (.afloat bits)

def pn_data_put_double (d : PnData) (bits : Nat) : PnData := putAtom d (.adouble bits)

def pn_data_put_decimal32 (d : PnData) (v : Nat) : PnData := putAtom d (.adec32 v)

def pn_data_put_decimal64 (d : PnData) (v : Nat) : PnData := putAtom d (.adec64 v)

def pn_data_put_decimal128 (d : PnData) (bs : List Nat) : PnData := putAtom d (.adec128 bs)

def pn_data_put_uuid (d : PnData) (bs : List Nat) : PnData := putAtom d (.auuid bs)

/-- `pn_data_intern_node` bookkeeping on the current node. -/
def internCurrent (d : PnData) : PnData :=
  updNode d d.current (fun n =>
    { n with dataFlag := true, data_size :=
        match n.atom with
        | .abinary bs => bs.length
        | .astring bs => bs.length
        | .asymbol bs => bs.length
        | _ => n.data_size })

def pn_data_put_binary (d : PnData) (bs : List Nat) : PnData :=
  internCurrent (putAtom d (.abinary bs))

def pn_data_put_string (d : PnData) (bs : List Nat) : PnData :=
  internCurrent (putAtom d (.astring bs))

def pn_data_put_symbol (d : PnData) (bs : List Nat) : PnData :=
  internCurrent (putAtom d (.asymbol bs))

def pn_data_put_list (d : PnData) : PnData := putAtom d (.alist 0)

def pn_data_put_map (d : PnData) : PnData := putAtom d (.amap 0)

def pn_data_put_described (d : PnData) : PnData := putAtom d .adescriptor

def pn_data_put_array (d : PnData) (described : Bool) (t : PnType) : PnData :=
  let r := pn_data_add d
  { updNode r.1 r.2 (fun n =>
      { n with atom := .aarray 0, described := described, etype := t })
    with extras := r.1.extras + 2 }

/-! The `pn_data_get_*` accessors.  Each C body only reads
`pn_data_current(data)` and its atom, so the embeddings are functions of the
tree returning the value alone: the absence of any state change is reflected in
the type. -/

def pn_data_get_bool (d : PnData) : Bool :=
  match pn_data_current d with
  | some n => match n.atom with | .abool b => b | _ => false
  | none => false

def pn_data_get_ubyte (d : PnData) : Nat :=
  match pn_data_current d with
  | some n => match n.atom with | .aubyte v => v | _ => 0
  | none => 0

def pn_data_get_byte (d : PnData) : Int :=
  match pn_data_current d with
  | some n => match n.atom with | .abyte v => v | _ => 0
  | none => 0

def pn_data_get_ushort (d : PnData) : Nat :=
  match pn_data_current d with
  | some n => match n.atom with | .aushort v => v | _ => 0
  | none => 0

def pn_data_get_short (d : PnData) : Int :=
  match pn_data_current d with
  | some n => match n.atom with | .ashort v => v | _ => 0
  | none => 0

def pn_data_get_uint (d : PnData) : Nat :=
  match pn_data_current d with
  | some n => match n.atom with | .auint v => v | _ => 0
  | none => 0

def pn_data_get_int (d : PnData) : Int :=
  match pn_data_current d with
  | some n => match n.atom with | .aint v => v | _ => 0
  | none => 0

def pn_data_get_char (d : PnData) : Nat :=
  match pn_data_current d with
  | some n => match n.atom with | .achar v => v | _ => 0
  | none => 0

def pn_data_get_ulong (d : PnData) : Nat :=
  match pn_data_current d with
  | some n => match n.atom with | .aulong v => v | _ => 0
  | none => 0

def pn_data_get_long (d : PnData) : Int :=
  match pn_data_current d with
  | some n => match n.atom with | .along v => v | _ => 0
  | none => 0

def pn_data_get_timestamp (d : PnData) : Int :=
  match pn_data_current d with
  | some n => match n.atom with | .atimestamp v => v | _ => 0
  | none => 0

def pn_data_get_float (d : PnData) : Nat :=
  match pn_data_current d with
  | some n => match n.atom with | .afloat v => v | _ => 0
  | none => 0

def pn_data_get_double (d : PnData) : Nat :=
  match pn_data_current d with
  | some n => match n.atom with | .adouble v => v | _ => 0
  | none => 0

def pn_data_get_decimal32 (d : PnData) : Nat :=
  match pn_data_current d with
  | some n => match n.atom with | .adec32 v => v | _ => 0
  | none => 0

def pn_data_get_decimal64 (d : PnData) : Nat :=
  match pn_data_current d with
  | some n => match n.atom with | .adec64 v => v | _ => 0
  | none => 0

/-- The all-zero 16-byte block returned on a kind mismatch. -/
def zero16 : List Nat := List.replicate 16 0

def pn_data_get_decimal128 (d : PnData) : List Nat :=
  match pn_data_current d with
  | some n => match n.atom with | .adec128 bs => bs | _ => zero16
  | none => zero16

def pn_data_get_uuid (d : PnData) : List Nat :=
  match pn_data_current d with
  | some n => match n.atom with | .auuid bs => bs | _ => zero16
  | none => zero16

def pn_data_get_binary (d : PnData) : List Nat :=
  match pn_data_current d with
  | some n => match n.atom with | .abinary bs => bs | _ => []
  | none => []

def pn_data_get_string (d : PnData) : List Nat :=
  match pn_data_current d with
  | some n => match n.atom with | .astring bs => bs | _ => []
  | none => []

def pn_data_get_symbol (d : PnData) : List Nat :=
  match pn_data_current d with
  | some n => match n.atom with | .asymbol bs => bs | _ => []
  | none => []

/-- C8: every accessor `pn_data_get_<kind>` returns the stored payload when the
current node holds an atom of that kind, and the kind's zero/empty value when
the current node has a different kind or there is no current node.  (Each
accessor is a pure function of the tree — the C bodies perform no writes — so
the tree is unchanged by construction.) -/
theorem c8_accessors (d : PnData) :
    ((∀ n v, pn_data_current d = some n → n.atom = .abool v → pn_data_get_bool d = v) ∧
     (∀ n, pn_data_current d = some n → n.atom.ptype ≠ .tBool → pn_data_get_bool d = false) ∧
     (pn_data_current d = none → pn_data_get_bool d = false)) ∧
    ((∀ n v, pn_data_current d = some n → n.atom = .aubyte v → pn_data_get_ubyte d = v) ∧
     (∀ n, pn_data_current d = some n → n.atom.ptype ≠ .tUbyte → pn_data_get_ubyte d = 0) ∧
     (pn_data_current d = none → pn_data_get_ubyte d = 0)) ∧
    ((∀ n v, pn_data_current d = some n → n.atom = .abyte v → pn_data_get_byte d = v) ∧
     (∀ n, pn_data_current d = some n → n.atom.ptype ≠ .tByte → pn_data_get_byte d = 0) ∧
     (pn_data_current d = none → pn_data_get_byte d = 0)) ∧
    ((∀ n v, pn_data_current d = some n → n.atom = .aushort v → pn_data_get_ushort d = v) ∧
     (∀ n, pn_data_current d = some n → n.atom.ptype ≠ .tUshort → pn_data_get_ushort d = 0) ∧
     (pn_data_current d = none → pn_data_get_ushort d = 0)) ∧
    ((∀ n v, pn_data_current d = some n → n.atom = .ashort v → pn_data_get_short d = v) ∧
     (∀ n, pn_data_current d = some n → n.atom.ptype ≠ .tShort → pn_data_get_short d = 0) ∧
     (pn_data_current d = none → pn_data_get_short d = 0)) ∧
    ((∀ n v, pn_data_current d = some n → n.atom = .auint v → pn_data_get_uint d = v) ∧
     (∀ n, pn_data_current d = some n → n.atom.ptype ≠ .tUint → pn_data_get_uint d = 0) ∧
     (pn_data_current d = none → pn_data_get_uint d = 0)) ∧
    ((∀ n v, pn_data_current d = some n → n.atom = .aint v → pn_data_get_int d = v) ∧
     (∀ n, pn_data_current d = some n → n.atom.ptype ≠ .tInt → pn_data_get_int d = 0) ∧
     (pn_data_current d = none → pn_data_get_int d = 0)) ∧
    ((∀ n v, pn_data_current d = some n → n.atom = .achar v → pn_data_get_char d = v) ∧
     (∀ n, pn_data_current d = some n → n.atom.ptype ≠ .tChar → pn_data_get_char d = 0) ∧
     (pn_data_current d = none → pn_data_get_char d = 0)) ∧
    ((∀ n v, pn_data_current d = some n → n.atom = .aulong v → pn_data_get_ulong d = v) ∧
     (∀ n, pn_data_current d = some n → n.atom.ptype ≠ .tUlong → pn_data_get_ulong d = 0) ∧
     (pn_data_current d = none → pn_data_get_ulong d = 0)) ∧
    ((∀ n v, pn_data_current d = some n → n.atom = .along v → pn_data_get_long d = v) ∧
     (∀ n, pn_data_current d = some n → n.atom.ptype ≠ .tLong → pn_data_get_long d = 0) ∧
     (pn_data_current d = none → pn_data_get_long d = 0)) ∧
    ((∀ n v, pn_data_current d = some n → n.atom = .atimestamp v →
        pn_data_get_timestamp d = v) ∧
     (∀ n, pn_data_current d = some n → n.atom.ptype ≠ .tTimestamp →
        pn_data_get_timestamp d = 0) ∧
     (pn_data_current d = none → pn_data_get_timestamp d = 0)) ∧
    ((∀ n v, pn_data_current d = some n → n.atom = .afloat v → pn_data_get_float d = v) ∧
     (∀ n, pn_data_current d = some n → n.atom.ptype ≠ .tFloat → pn_data_get_float d = 0) ∧
     (pn_data_current d = none → pn_data_get_float d = 0)) ∧
    ((∀ n v, pn_data_current d = some n → n.atom = .adouble v → pn_data_get_double d = v) ∧
     (∀ n, pn_data_current d = some n → n.atom.ptype ≠ .tDouble → pn_data_get_double d = 0) ∧
     (pn_data_current d = none → pn_data_get_double d = 0)) ∧
    ((∀ n v, pn_data_current d = some n → n.atom = .adec32 v → pn_data_get_decimal32 d = v) ∧
     (∀ n, pn_data_current d = some n → n.atom.ptype ≠ .tDec32 →
        pn_data_get_decimal32 d = 0) ∧
     (pn_data_current d = none → pn_data_get_decimal32 d = 0)) ∧
    ((∀ n v, pn_data_current d = some n → n.atom = .adec64 v → pn_data_get_decimal64 d = v) ∧
     (∀ n, pn_data_current d = some n → n.atom.ptype ≠ .tDec64 →
        pn_data_get_decimal64 d = 0) ∧
     (pn_data_current d = none → pn_data_get_decimal64 d = 0)) ∧
    ((∀ n v, pn_data_current d = some n → n.atom = .adec128 v →
        pn_data_get_decimal128 d = v) ∧
     (∀ n, pn_data_current d = some n → n.atom.ptype ≠ .tDec128 →
        pn_data_get_decimal128 d = zero16) ∧
     (pn_data_current d = none → pn_data_get_decimal128 d = zero16)) ∧
    ((∀ n v, pn_data_current d = some n → n.atom = .auuid v → pn_data_get_uuid d = v) ∧
     (∀ n, pn_data_current d = some n → n.atom.ptype ≠ .tUuid → pn_data_get_uuid d = zero16) ∧
     (pn_data_current d = none → pn_data_get_uuid d = zero16)) ∧
    ((∀ n v, pn_data_current d = some n → n.atom = .abinary v → pn_data_get_binary d = v) ∧
     (∀ n, pn_data_current d = some n → n.atom.ptype ≠ .tBinary → pn_data_get_binary d = []) ∧
     (pn_data_current d = none → pn_data_get_binary d = [])) ∧
    ((∀ n v, pn_data_current d = some n → n.atom = .astring v → pn_data_get_string d = v) ∧
     (∀ n, pn_data_current d = some n → n.atom.ptype ≠ .tString → pn_data_get_string d = []) ∧
     (pn_data_current d = none → pn_data_get_string d = [])) ∧
    ((∀ n v, pn_data_current d = some n → n.atom = .asymbol v → pn_data_get_symbol d = v) ∧
     (∀ n, pn_data_current d = some n → n.atom.ptype ≠ .tSymbol → pn_data_get_symbol d = []) ∧
     (pn_data_current d = none → pn_data_get_symbol d = [])) := by
  repeat' apply And.intro
  all_goals
    first
    | (intro n v h1 h2
       simp [pn_data_get_bool, pn_data_get_ubyte, pn_data_get_byte, pn_data_get_ushort,
         pn_data_get_short, pn_data_get_uint, pn_data_get_int, pn_data_get_char,
         pn_data_get_ulong, pn_data_get_long, pn_data_get_timestamp, pn_data_get_float,
         pn_data_get_double, pn_data_get_decimal32, pn_data_get_decimal64,
         pn_data_get_decimal128, pn_data_get_uuid, pn_data_get_binary, pn_data_get_string,
         pn_data_get_symbol, h1, h2])
    | (intro n h1 h2
       cases hn : n.atom <;>
         simp_all [pn_data_get_bool, pn_data_get_ubyte, pn_data_get_byte, pn_data_get_ushort,
           pn_data_get_short, pn_data_get_uint, pn_data_get_int, pn_data_get_char,
           pn_data_get_ulong, pn_data_get_long, pn_data_get_timestamp, pn_data_get_float,
           pn_data_get_double, pn_data_get_decimal32, pn_data_get_decimal64,
           pn_data_get_decimal128, pn_data_get_uuid, pn_data_get_binary, pn_data_get_string,
           pn_data_get_symbol, PnAtom.ptype])
    | (intro h1
       simp [pn_data_get_bool, pn_data_get_ubyte, pn_data_get_byte, pn_data_get_ushort,
         pn_data_get_short, pn_data_get_uint, pn_data_get_int, pn_data_get_char,
         pn_data_get_ulong, pn_data_get_long, pn_data_get_timestamp, pn_data_get_float,
         pn_data_get_double, pn_data_get_decimal32, pn_data_get_decimal64,
         pn_data_get_decimal128, pn_data_get_uuid, pn_data_get_binary, pn_data_get_string,
         pn_data_get_symbol, h1])

/-- Witness for C8 at a concrete tree: a tree holding a single `uint 42`
returns 42 from `get_uint` and the empty default from mismatched accessors. -/
theorem c8_accessors_witness :
    pn_data_get_uint (pn_data_put_uint {} 42) = 42 ∧
    pn_data_get_bool (pn_data_put_uint {} 42) = false := by
  constructor
  · exact (c8_accessors (pn_data_put_uint {} 42)).2.2.2.2.2.1.1
      (getNode (pn_data_put_uint {} 42) 1) 42 (by decide) (by decide)
  · exact (c8_accessors (pn_data_put_uint {} 42)).1.2.1
      (getNode (pn_data_put_uint {} 42) 1) (by decide) (by decide)

/-! Node-array update facts. -/

@[simp] theorem updNode_length (d : PnData) (i : Nat) (f : PnNode → PnNode) :
    (updNode d i f).nodes.length = d.nodes.length := by
  unfold updNode; split <;> simp

@[simp] theorem updNode_parent (d : PnData) (i : Nat) (f : PnNode → PnNode) :
    (updNode d i f).parent = d.parent := by
  unfold updNode; split <;> simp

@[simp] theorem updNode_current (d : PnData) (i : Nat) (f : PnNode → PnNode) :
    (updNode d i f).current = d.current := by
  unfold updNode; split <;> simp

@[simp] theorem updNode_base_parent (d : PnData) (i : Nat) (f : PnNode → PnNode) :
    (updNode d i f).base_parent = d.base_parent := by
  unfold updNode; split <;> simp

@[simp] theorem updNode_base_current (d : PnData) (i : Nat) (f : PnNode → PnNode) :
    (updNode d i f).base_current = d.base_current := by
  unfold updNode; split <;> simp

@[simp] theorem updNode_extras (d : PnData) (i : Nat) (f : PnNode → PnNode) :
    (updNode d i f).extras = d.extras := by
  unfold updNode; split <;> simp

theorem getNode_updNode_self (d : PnData) (i : Nat) (f : PnNode → PnNode)
    (h0 : i ≠ 0) (hle : i ≤ d.nodes.length) :
    getNode (updNode d i f) i = f (getNode d i) := by
  unfold getNode updNode
  rw [if_neg h0, if_neg h0, if_neg h0]
  have hlt : i - 1 < d.nodes.length := by omega
  simp [List.getD_eq_getElem?_getD, List.getElem?_set_self hlt, List.getElem?_eq_getElem hlt]

theorem getNode_updNode_ne (d : PnData) (i j : Nat) (f : PnNode → PnNode) (h : j ≠ i) :
    getNode (updNode d i f) j = getNode d j := by
  unfold getNode updNode
  by_cases h0 : i = 0
  · rw [if_pos h0]
  · rw [if_neg h0]
    by_cases hj : j = 0
    · rw [if_pos hj, if_pos hj]
    · rw [if_neg hj, if_neg hj]
      have : i - 1 ≠ j - 1 := by omega
      simp [List.getD_eq_getElem?_getD, List.getElem?_set_ne this]

theorem pn_data_node_updNode_ne (d : PnData) (i j : Nat) (f : PnNode → PnNode) (h : j ≠ i) :
    pn_data_node (updNode d i f) j = pn_data_node d j := by
  unfold pn_data_node updNode
  by_cases h0 : i = 0
  · rw [if_pos h0]
  · rw [if_neg h0]
    by_cases hj : j = 0
    · rw [if_pos hj, if_pos hj]
    · rw [if_neg hj, if_neg hj]
      have : i - 1 ≠ j - 1 := by omega
      simp [List.getElem?_set_ne this]

theorem getNode_append_lt (d : PnData) (x : PnNode) (i : Nat) (h : i ≤ d.nodes.length) :
    getNode { d with nodes := d.nodes ++ [x] } i = getNode d i := by
  unfold getNode
  by_cases h0 : i = 0
  · rw [if_pos h0, if_pos h0]
  · rw [if_neg h0, if_neg h0]
    have hlt : i - 1 < d.nodes.length := by omega
    simp [List.getD_eq_getElem?_getD, List.getElem?_append_left hlt]

theorem getNode_append_eq (d : PnData) (x : PnNode) :
    getNode { d with nodes := d.nodes ++ [x] } (d.nodes.length + 1) = x := by
  unfold getNode
  rw [if_neg (by omega)]
  simp [List.getD_eq_getElem?_getD, List.getElem?_concat_length]

/-- The `pn_data_put_*` calls, reified so that a sequence of puts can be
replayed (claim C6). -/
inductive PutOp where
  | pnull
  | pbool (b : Bool)
  | pubyte (v : Nat)
  | pbyte (v : Int)
  | pushort (v : Nat)
  | pshort (v : Int)
  | puint (v : Nat)
  | pint (v : Int)
  | pchar (v : Nat)
  | pulong (v : Nat)
  | plong (v : Int)
  | ptimestamp (v : Int)
  | pfloat (v : Nat)
  | pdouble (v : Nat)
  | pdec32 (v : Nat)
  | pdec64 (v : Nat)
  | pdec128 (bs : List Nat)
  | puuid (bs : List Nat)
  | pbinary (bs : List Nat)
  | pstring (bs : List Nat)
  | psymbol (bs : List Nat)
  | plist
  | pmap
  | pdescribed
  | parray (described : Bool) (t : PnType)
  deriving DecidableEq, Repr

def applyPut (op : PutOp) (d : PnData) : PnData :=
  match op with
  | .pnull => pn_data_put_null d
  | .pbool b => pn_data_put_bool d b
  | .pubyte v => pn_data_put_ubyte d v
  | .pbyte v => pn_data_put_byte d v
  | .pushort v => pn_data_put_ushort d v
  | .pshort v => pn_data_put_short d v
  | .puint v => pn_data_put_uint d v
  | .pint v => pn_data_put_int d v
  | .pchar v => pn_data_put_char d v
  | .pulong v => pn_data_put_ulong d v
  | .plong v => pn_data_put_long d v
  | .ptimestamp v => pn_data_put_timestamp d v
  | .pfloat v => pn_data_put_float d v
  | .pdouble v => pn_data_put_double d v
  | .pdec32 v => pn_data_put_decimal32 d v
  | .pdec64 v => pn_data_put_decimal64 d v
  | .pdec128 bs => pn_data_put_decimal128 d bs
  | .puuid bs => pn_data_put_uuid d bs
  | .pbinary bs => pn_data_put_binary d bs
  | .pstring bs => pn_data_put_string d bs
  | .psymbol bs => pn_data_put_symbol d bs
  | .plist => pn_data_put_list d
  | .pmap => pn_data_put_map d
  | .pdescribed => pn_data_put_described d
  | .parray described t => pn_data_put_array d described t

def runPuts (ops : List PutOp) (d : PnData) : PnData :=
  ops.foldl (fun d op => applyPut op d) d

/-- The state of a tree built by a flat sequence of `put_*` calls: `n` nodes
forming one top-level sibling chain, all childless, with the cursor on node
`cur` at the root level. -/
def ChainShape (d : PnData) (n cur : Nat) : Prop :=
  d.nodes.length = n ∧ d.parent = 0 ∧ d.current = cur ∧
  d.base_parent = 0 ∧ d.base_current = 0 ∧
  ∀ i, 1 ≤ i → i ≤ n →
    (getNode d i).next = (if i < n then i + 1 else 0) ∧
    (getNode d i).down = 0 ∧ (getNode d i).children = 0 ∧ (getNode d i).parent = 0

theorem chainShape_updNode {d : PnData} {n k : Nat} (i : Nat) (f : PnNode → PnNode)
    (h : ChainShape d n k)
    (hf : ∀ nd, (f nd).next = nd.next ∧ (f nd).down = nd.down ∧
      (f nd).children = nd.children ∧ (f nd).parent = nd.parent) :
    ChainShape (updNode d i f) n k := by
  obtain ⟨h1, h2, h3, h4, h5, h6⟩ := h
  refine ⟨by simp [h1], by simp [h2], by simp [h3], by simp [h4], by simp [h5], ?_⟩
  intro j hj1 hj2
  by_cases hji : j = i
  · subst hji
    rw [getNode_updNode_self d j f (by omega) (by omega)]
    rcases hf (getNode d j) with ⟨e1, e2, e3, e4⟩
    rw [e1, e2, e3, e4]
    exact h6 j hj1 hj2
  · rw [getNode_updNode_ne d i j f hji]
    exact h6 j hj1 hj2

/-- Node lookup at the level of the raw node list (the same body as
`getNode`); lets facts survive the record updates `pn_data_add` performs on
the cursor fields. -/
def getNodeL (ns : List PnNode) (nd : Nat) : PnNode :=
  if nd = 0 then {} else ns.getD (nd - 1) {}

theorem getNode_mk (ns : List PnNode) (p c bp bc e i : Nat) :
    getNode (PnData.mk ns p c bp bc e) i = getNodeL ns i := rfl

theorem getNodeL_eq_getNode (d : PnData) (i : Nat) : getNodeL d.nodes i = getNode d i := rfl

theorem updNode_nodes_ne (d : PnData) (i : Nat) (f : PnNode → PnNode) (h0 : i ≠ 0) :
    (updNode d i f).nodes = d.nodes.set (i - 1) (f (getNodeL d.nodes i)) := by
  unfold updNode getNodeL
  rw [if_neg h0, if_neg h0]

theorem getNodeL_set_self (ns : List PnNode) (i : Nat) (x : PnNode) (h0 : i ≠ 0)
    (hle : i ≤ ns.length) : getNodeL (ns.set (i - 1) x) i = x := by
  unfold getNodeL
  rw [if_neg h0]
  have hlt : i - 1 < ns.length := by omega
  simp [List.getD_eq_getElem?_getD, List.getElem?_set_self hlt]

theorem getNodeL_set_ne (ns : List PnNode) (i j : Nat) (x : PnNode) (h0 : i ≠ 0)
    (hji : j ≠ i) : getNodeL (ns.set (i - 1) x) j = getNodeL ns j := by
  unfold getNodeL
  by_cases hj : j = 0
  · rw [if_pos hj, if_pos hj]
  · rw [if_neg hj, if_neg hj]
    have : i - 1 ≠ j - 1 := by omega
    simp [List.getD_eq_getElem?_getD, List.getElem?_set_ne this]

theorem getNodeL_append_lt (ns : List PnNode) (x : PnNode) (i : Nat) (h : i ≤ ns.length) :
    getNodeL (ns ++ [x]) i = getNodeL ns i := by
  unfold getNodeL
  by_cases h0 : i = 0
  · rw [if_pos h0, if_pos h0]
  · rw [if_neg h0, if_neg h0]
    have hlt : i - 1 < ns.length := by omega
    simp [List.getD_eq_getElem?_getD, List.getElem?_append_left hlt]

theorem getNodeL_append_eq (ns : List PnNode) (x : PnNode) :
    getNodeL (ns ++ [x]) (ns.length + 1) = x := by
  unfold getNodeL
  rw [if_neg (by omega)]
  simp [List.getD_eq_getElem?_getD, List.getElem?_concat_length]

theorem getNode_set_current (X : PnData) (c i : Nat) :
    getNode { X with current := c } i = getNode X i := rfl

theorem pn_data_node_set_current (X : PnData) (c i : Nat) :
    pn_data_node { X with current := c } i = pn_data_node X i := rfl

theorem getNode_set_nodes (X : PnData) (ns : List PnNode) (i : Nat) :
    getNode { X with nodes := ns } i = getNodeL ns i := rfl

theorem getNodeL_append_eq' (ns : List PnNode) (x : PnNode) (n : Nat) (h : ns.length = n) :
    getNodeL (ns ++ [x]) (n + 1) = x := by
  subst h; exact getNodeL_append_eq ns x

/-! Case equations for `pn_data_add`, one per branch of the C insertion
algorithm. -/

theorem pn_data_add_case_reuse_next (d : PnData) (hc : d.current ≠ 0)
    (hnx : (getNode d d.current).next ≠ 0) :
    pn_data_add d = pn_data_add_finish d ((getNode d d.current).next) := by
  unfold pn_data_add
  rw [if_pos hc]
  simp only []
  rw [if_pos hnx]

theorem pn_data_add_case_append (d : PnData) (hc : d.current ≠ 0)
    (hnx : (getNode d d.current).next = 0) :
    pn_data_add d =
      pn_data_add_finish
        (let d3 := updNode (updNode { d with nodes := d.nodes ++ [{}] } (d.nodes.length + 1)
            (fun nd => { nd with prev := d.current, parent := d.parent }))
          d.current (fun nd => { nd with next := d.nodes.length + 1 })
        if d.parent ≠ 0 then
          updNode d3 d.parent (fun p =>
            { p with
                down := if p.down = 0 then d.nodes.length + 1 else p.down
                children := p.children + 1 })
        else d3)
        (d.nodes.length + 1) := by
  unfold pn_data_add
  rw [if_pos hc]
  simp only []
  rw [if_neg (by simp [hnx])]

theorem pn_data_add_case_reuse_down (d : PnData) (hc : d.current = 0) (hp : d.parent ≠ 0)
    (hd : (getNode d d.parent).down ≠ 0) :
    pn_data_add d = pn_data_add_finish d ((getNode d d.parent).down) := by
  unfold pn_data_add
  rw [if_neg (by simp [hc]), if_pos hp]
  simp only []
  rw [if_pos hd]

theorem pn_data_add_case_first_child (d : PnData) (hc : d.current = 0) (hp : d.parent ≠ 0)
    (hd : (getNode d d.parent).down = 0) :
    pn_data_add d =
      pn_data_add_finish
        (updNode (updNode { d with nodes := d.nodes ++ [{}] } (d.nodes.length + 1)
            (fun nd => { nd with prev := 0, parent := d.parent }))
          d.parent (fun p =>
            { p with
                down := d.nodes.length + 1
                children := p.children + 1 }))
        (d.nodes.length + 1) := by
  unfold pn_data_add
  rw [if_neg (by simp [hc]), if_pos hp]
  simp only []
  rw [if_neg (by simp [hd])]

theorem pn_data_add_case_root_reuse (d : PnData) (hc : d.current = 0) (hp : d.parent = 0)
    (hl : d.nodes.length ≠ 0) :
    pn_data_add d = pn_data_add_finish d 1 := by
  unfold pn_data_add
  rw [if_neg (by simp [hc]), if_neg (by simp [hp]), if_pos hl]

theorem pn_data_add_case_root_empty (d : PnData) (hc : d.current = 0) (hp : d.parent = 0)
    (hl : d.nodes.length = 0) :
    pn_data_add d =
      pn_data_add_finish
        (updNode { d with nodes := d.nodes ++ [{}] } 1
          (fun nd => { nd with prev := 0, parent := 0 }))
        1 := by
  unfold pn_data_add
  rw [if_neg (by simp [hc]), if_neg (by simp [hp]), if_neg (by simp [hl])]

theorem chainShape_add_build {d : PnData} {n : Nat} (h : ChainShape d n n) :
    (pn_data_add d).2 = n + 1 ∧ ChainShape (pn_data_add d).1 (n + 1) (n + 1) := by
  obtain ⟨h1, h2, h3, h4, h5, h6⟩ := h
  by_cases hn : n = 0
  · subst hn
    rw [pn_data_add_case_root_empty d h3 h2 h1]
    simp only [pn_data_add_finish]
    refine ⟨by simp [h1], by simp [h1], by simp [h2], by simp [h1], by simp [h4],
      by simp [h5], ?_⟩
    intro i hi1 hi2
    have hi : i = 1 := by omega
    subst hi
    rw [getNode_mk, getNodeL_eq_getNode,
      getNode_updNode_self _ 1 _ (by omega) (by simp [h1]),
      getNode_updNode_self _ 1 _ (by omega) (by simp [h1]),
      getNode_mk]
    rw [List.length_eq_zero.mp h1]
    simp [getNodeL]
  · have hc : d.current ≠ 0 := by rw [h3]; exact hn
    have hnx : (getNode d d.current).next = 0 := by
      rw [h3]
      have := (h6 n (by omega) (by omega)).1
      simpa using this
    rw [pn_data_add_case_append d hc hnx]
    simp only [pn_data_add_finish]
    rw [if_neg (by simp [h2])]
    refine ⟨by simp [h1], by simp [h1], by simp [h2], by simp [h1], by simp [h4],
      by simp [h5], ?_⟩
    intro i hi1 hi2
    rw [getNode_mk, getNodeL_eq_getNode, h1, h3]
    by_cases hin1 : i = n + 1
    · subst hin1
      rw [getNode_updNode_self _ (n + 1) _ (by omega) (by simp [h1]),
        getNode_updNode_ne _ n (n + 1) _ (by omega),
        getNode_updNode_self _ (n + 1) _ (by omega) (by simp [h1]),
        getNode_mk,
        getNodeL_append_eq' d.nodes _ n h1]
      simp [h2]
    · by_cases hin : i = n
      · rw [hin,
          getNode_updNode_ne _ (n + 1) n _ (by omega),
          getNode_updNode_self _ n _ (by omega) (by simp [h1]),
          getNode_updNode_ne _ (n + 1) n _ (by omega),
          getNode_mk,
          getNodeL_append_lt d.nodes _ n (by omega),
          getNodeL_eq_getNode]
        have := h6 n (by omega) (by omega)
        refine ⟨by simp, by simp [this.2.1], by simp [this.2.2.1],
          by simp [this.2.2.2]⟩
      · have hilt : i < n := by omega
        rw [getNode_updNode_ne _ (n + 1) i _ (by omega),
          getNode_updNode_ne _ n i _ (by omega),
          getNode_updNode_ne _ (n + 1) i _ (by omega),
          getNode_mk,
          getNodeL_append_lt d.nodes _ i (by omega),
          getNodeL_eq_getNode]
        have := h6 i (by omega) (by omega)
        rw [if_pos hilt] at this
        exact ⟨by rw [this.1, if_pos (by omega)], this.2.1, this.2.2.1, this.2.2.2⟩

theorem chainShape_add_replay {d : PnData} {n k : Nat} (h : ChainShape d n k) (hk : k < n) :
    (pn_data_add d).2 = k + 1 ∧ ChainShape (pn_data_add d).1 n (k + 1) := by
  obtain ⟨h1, h2, h3, h4, h5, h6⟩ := h
  by_cases hk0 : k = 0
  · subst hk0
    rw [pn_data_add_case_root_reuse d h3 h2 (by omega)]
    simp only [pn_data_add_finish]
    refine ⟨by trivial, by simp [h1], by simp [h2], by simp, by simp [h4], by simp [h5], ?_⟩
    intro i hi1 hi2
    rw [getNode_mk, getNodeL_eq_getNode]
    by_cases hi : i = 1
    · subst hi
      rw [getNode_updNode_self _ 1 _ (by omega) (by omega)]
      have := h6 1 (by omega) (by omega)
      exact ⟨by simp [this.1], by simp, by simp, by simp [this.2.2.2]⟩
    · rw [getNode_updNode_ne _ 1 i _ hi]
      exact h6 i hi1 hi2
  · have hc : d.current ≠ 0 := by rw [h3]; exact hk0
    have hcur : (getNode d d.current).next = k + 1 := by
      rw [h3]
      have := (h6 k (by omega) (by omega)).1
      rw [if_pos hk] at this
      exact this
    rw [pn_data_add_case_reuse_next d hc (by rw [hcur]; omega)]
    simp only [pn_data_add_finish, hcur]
    refine ⟨by trivial, by simp [h1], by simp [h2], by simp, by simp [h4], by simp [h5], ?_⟩
    intro i hi1 hi2
    rw [getNode_mk, getNodeL_eq_getNode]
    by_cases hi : i = k + 1
    · subst hi
      rw [getNode_updNode_self _ (k + 1) _ (by omega) (by omega)]
      have := h6 (k + 1) (by omega) (by omega)
      exact ⟨by simp [this.1], by simp, by simp, by simp [this.2.2.2]⟩
    · rw [getNode_updNode_ne _ (k + 1) i _ hi]
      exact h6 i hi1 hi2


theorem chainShape_applyPut_build {d : PnData} {n : Nat} (op : PutOp)
    (h : ChainShape d n n) : ChainShape (applyPut op d) (n + 1) (n + 1) := by
  have hb := chainShape_add_build h
  cases op <;>
    simp only [applyPut, pn_data_put_null, pn_data_put_bool, pn_data_put_ubyte,
      pn_data_put_byte, pn_data_put_ushort, pn_data_put_short, pn_data_put_uint,
      pn_data_put_int, pn_data_put_char, pn_data_put_ulong, pn_data_put_long,
      pn_data_put_timestamp, pn_data_put_float, pn_data_put_double, pn_data_put_decimal32,
      pn_data_put_decimal64, pn_data_put_decimal128, pn_data_put_uuid, pn_data_put_binary,
      pn_data_put_string, pn_data_put_symbol, pn_data_put_list, pn_data_put_map,
      pn_data_put_described, pn_data_put_array, putAtom, internCurrent] <;>
    first
    | exact chainShape_updNode _ _ hb.2 (fun nd => by simp)
    | exact chainShape_updNode _ _ (chainShape_updNode _ _ hb.2 (fun nd => by simp))
        (fun nd => by simp)

theorem chainShape_applyPut_replay {d : PnData} {n k : Nat} (op : PutOp)
    (h : ChainShape d n k) (hk : k < n) : ChainShape (applyPut op d) n (k + 1) := by
  have hb := chainShape_add_replay h hk
  cases op <;>
    simp only [applyPut, pn_data_put_null, pn_data_put_bool, pn_data_put_ubyte,
      pn_data_put_byte, pn_data_put_ushort, pn_data_put_short, pn_data_put_uint,
      pn_data_put_int, pn_data_put_char, pn_data_put_ulong, pn_data_put_long,
      pn_data_put_timestamp, pn_data_put_float, pn_data_put_double, pn_data_put_decimal32,
      pn_data_put_decimal64, pn_data_put_decimal128, pn_data_put_uuid, pn_data_put_binary,
      pn_data_put_string, pn_data_put_symbol, pn_data_put_list, pn_data_put_map,
      pn_data_put_described, pn_data_put_array, putAtom, internCurrent] <;>
    first
    | exact chainShape_updNode _ _ hb.2 (fun nd => by simp)
    | exact chainShape_updNode _ _ (chainShape_updNode _ _ hb.2 (fun nd => by simp))
        (fun nd => by simp)

theorem chainShape_runPuts_build (ops : List PutOp) :
    ∀ (d : PnData) (n : Nat), ChainShape d n n →
      ChainShape (runPuts ops d) (n + ops.length) (n + ops.length) := by
  induction ops with
  | nil => intro d n h; simpa [runPuts] using h
  | cons op t ih =>
    intro d n h
    have h1 := chainShape_applyPut_build op h
    have h2 := ih (applyPut op d) (n + 1) h1
    simp only [runPuts, List.foldl_cons] at h2 ⊢
    have : n + (t.length + 1) = n + 1 + t.length := by omega
    rw [List.length_cons, this]
    exact h2

theorem chainShape_runPuts_replay (ops : List PutOp) :
    ∀ (d : PnData) (n k : Nat), ChainShape d n k → k + ops.length ≤ n →
      ChainShape (runPuts ops d) n (k + ops.length) := by
  induction ops with
  | nil => intro d n k h _; simpa [runPuts] using h
  | cons op t ih =>
    intro d n k h hle
    have h1 := chainShape_applyPut_replay op h (by simp at hle; omega)
    have h2 := ih (applyPut op d) n (k + 1) h1 (by simp at hle; omega)
    simp only [runPuts, List.foldl_cons] at h2 ⊢
    have : k + (t.length + 1) = k + 1 + t.length := by omega
    rw [List.length_cons, this]
    exact h2

theorem chainShape_empty : ChainShape {} 0 0 := by
  refine ⟨rfl, rfl, rfl, rfl, rfl, ?_⟩
  intro i h1 h2
  omega

theorem chainShape_rewind {d : PnData} {n k : Nat} (h : ChainShape d n k) :
    ChainShape (pn_data_rewind d) n 0 := by
  obtain ⟨h1, h2, h3, h4, h5, h6⟩ := h
  exact ⟨h1, by simp [pn_data_rewind, h4], by simp [pn_data_rewind, h5], h4, h5,
    fun i a b => h6 i a b⟩

/-- C6: when the cursor is on a node that has a next sibling, `pn_data_add`
moves the cursor onto that sibling and reuses it — the node count is unchanged,
no other node is touched, the reused node's child links are reset (its atom is
then overwritten by the calling `put_*`), and the parent's child count is not
changed.  Consequently, replaying any flat sequence of `put_*` calls after a
rewind leaves the tree size unchanged. -/
theorem c6_add_reuse_and_replay :
    (∀ d : PnData, d.current ≠ 0 → (getNode d d.current).next ≠ 0 →
      (getNode d d.current).next ≤ d.nodes.length →
      (pn_data_add d).2 = (getNode d d.current).next ∧
      (pn_data_add d).1.current = (getNode d d.current).next ∧
      (pn_data_add d).1.nodes.length = d.nodes.length ∧
      (pn_data_add d).1.parent = d.parent ∧
      (∀ i, i ≠ (getNode d d.current).next →
        pn_data_node (pn_data_add d).1 i = pn_data_node d i) ∧
      (getNode (pn_data_add d).1 ((getNode d d.current).next)).down = 0 ∧
      (getNode (pn_data_add d).1 ((getNode d d.current).next)).children = 0 ∧
      (getNode (pn_data_add d).1 ((getNode d d.current).next)).next =
        (getNode d ((getNode d d.current).next)).next ∧
      (getNode (pn_data_add d).1 ((getNode d d.current).next)).prev =
        (getNode d ((getNode d d.current).next)).prev ∧
      (getNode (pn_data_add d).1 ((getNode d d.current).next)).parent =
        (getNode d ((getNode d d.current).next)).parent ∧
      (getNode (pn_data_add d).1 ((getNode d d.current).next)).atom =
        (getNode d ((getNode d d.current).next)).atom) ∧
    (∀ ops : List PutOp,
      pn_data_size (runPuts ops (pn_data_rewind (runPuts ops {}))) =
        pn_data_size (runPuts ops {})) := by
  constructor
  · intro d hc hn hle
    rw [pn_data_add_case_reuse_next d hc hn]
    simp only [pn_data_add_finish]
    have hself := getNode_updNode_self d ((getNode d d.current).next)
      (fun nd =>
        { nd with
            down := 0
            children := 0
            dataFlag := false
            data_offset := 0
            data_size := 0 }) hn hle
    refine ⟨by trivial, by simp, by simp, by simp, ?_, ?_, ?_, ?_, ?_, ?_, ?_⟩
    · intro i hi
      rw [pn_data_node_set_current]
      exact pn_data_node_updNode_ne _ _ _ _ hi
    · rw [getNode_set_current, hself]
    · rw [getNode_set_current, hself]
    · rw [getNode_set_current, hself]
    · rw [getNode_set_current, hself]
    · rw [getNode_set_current, hself]
    · rw [getNode_set_current, hself]
  · intro ops
    have hbuild := chainShape_runPuts_build ops {} 0 chainShape_empty
    simp only [Nat.zero_add] at hbuild
    have hrew := chainShape_rewind hbuild
    have hrep := chainShape_runPuts_replay ops _ ops.length 0 hrew (by omega)
    simp only [Nat.zero_add] at hrep
    unfold pn_data_size
    rw [hrep.1, hbuild.1]

/-- Witness for C6: with the cursor on node 1, whose next sibling is node 2,
`pn_data_add` reuses node 2 without allocating; and replaying a two-put
sequence after a rewind does not change the size. -/
theorem c6_add_reuse_and_replay_witness :
    (pn_data_add ⟨[{ next := 2 }, { atom := .auint 7 }], 0, 1, 0, 0, 0⟩).1.nodes.length = 2 ∧
    pn_data_size (runPuts [.puint 1, .pnull]
        (pn_data_rewind (runPuts [.puint 1, .pnull] {}))) =
      pn_data_size (runPuts [.puint 1, .pnull] {}) := by
  constructor
  · exact (c6_add_reuse_and_replay.1 ⟨[{ next := 2 }, { atom := .auint 7 }], 0, 1, 0, 0, 0⟩
      (by decide) (by decide) (by decide)).2.2.1
  · exact c6_add_reuse_and_replay.2 [.puint 1, .pnull]

/-! ## Wire type codes (component 4.B)

Modelled from the spec: the generated header `encodings.h` is not under
`src/`; these are the AMQP 1.0 type-code values the spec names in §4.B/§6
(descriptor `0x00`, the fixed/variable/compound families, e.g. `smallulong`
`0x53`, `smalllong` `0x55`, `uint` `0x70` as pinned by the spec's examples).
`codec.c` additionally relies on `str/sym/vbin` codes having high nibble
`0xA`/`0xB` and low nibble `0/1/3`, which these values satisfy. -/

def PNE_DESCRIPTOR : Nat := 0x00
def PNE_NULL : Nat := 0x40
def PNE_TRUE : Nat := 0x41
def PNE_FALSE : Nat := 0x42
def PNE_UINT0 : Nat := 0x43
def PNE_ULONG0 : Nat := 0x44
def PNE_LIST0 : Nat := 0x45
def PNE_UBYTE : Nat := 0x50
def PNE_BYTE : Nat := 0x51
def PNE_SMALLUINT : Nat := 0x52
def PNE_SMALLULONG : Nat := 0x53
def PNE_SMALLINT : Nat := 0x54
def PNE_SMALLLONG : Nat := 0x55
def PNE_BOOLEAN : Nat := 0x56
def PNE_USHORT : Nat := 0x60
def PNE_SHORT : Nat := 0x61
def PNE_UINT : Nat := 0x70
def PNE_INT : Nat := 0x71
def PNE_FLOAT : Nat := 0x72
def PNE_UTF32 : Nat := 0x73
def PNE_DECIMAL32 : Nat := 0x74
def PNE_ULONG : Nat := 0x80
def PNE_LONG : Nat := 0x81
def PNE_DOUBLE : Nat := 0x82
def PNE_MS64 : Nat := 0x83
def PNE_DECIMAL64 : Nat := 0x84
def PNE_DECIMAL128 : Nat := 0x94
def PNE_UUID : Nat := 0x98
def PNE_VBIN8 : Nat := 0xa0
def PNE_STR8_UTF8 : Nat := 0xa1
def PNE_SYM8 : Nat := 0xa3
def PNE_VBIN32 : Nat := 0xb0
def PNE_STR32_UTF8 : Nat := 0xb1
def PNE_SYM32 : Nat := 0xb3
def PNE_LIST8 : Nat := 0xc0
def PNE_MAP8 : Nat := 0xc1
def PNE_LIST32 : Nat := 0xd0
def PNE_MAP32 : Nat := 0xd1
def PNE_ARRAY8 : Nat := 0xe0
def PNE_ARRAY32 : Nat := 0xf0

/-- `pn_type2code` (the `pn_fatal` default returns 0). -/
def pn_type2code (t : PnType) : Nat :=
  match t with
  | .tNull => PNE_NULL
  | .tBool => PNE_BOOLEAN
  | .tUbyte => PNE_UBYTE
  | .tByte => PNE_BYTE
  | .tUshort => PNE_USHORT
  | .tShort => PNE_SHORT
  | .tUint => PNE_UINT
  | .tInt => PNE_INT
  | .tChar => PNE_UTF32
  | .tFloat => PNE_FLOAT
  | .tLong => PNE_LONG
  | .tTimestamp => PNE_MS64
  | .tDouble => PNE_DOUBLE
  | .tDec32 => PNE_DECIMAL32
  | .tDec64 => PNE_DECIMAL64
  | .tDec128 => PNE_DECIMAL128
  | .tUuid => PNE_UUID
  | .tUlong => PNE_ULONG
  | .tBinary => PNE_VBIN32
  | .tString => PNE_STR32_UTF8
  | .tSymbol => PNE_SYM32
  | .tList => PNE_LIST32
  | .tArray => PNE_ARRAY32
  | .tMap => PNE_MAP32
  | .tDescriptor => PNE_DESCRIPTOR
  | .tType => 0

/-- `pn_node2code`: pick the most compact code the encoder supports. -/
def pn_node2code (node : PnNode) : Nat :=
  match node.atom with
  | .aulong v => if v < 256 then PNE_SMALLULONG else PNE_ULONG
  | .auint v => if v < 256 then PNE_SMALLUINT else PNE_UINT
  | .abool b => if b then PNE_TRUE else PNE_FALSE
  | .astring bs => if bs.length < 256 then PNE_STR8_UTF8 else PNE_STR32_UTF8
  | .asymbol bs => if bs.length < 256 then PNE_SYM8 else PNE_SYM32
  | .abinary bs => if bs.length < 256 then PNE_VBIN8 else PNE_VBIN32
  | _ => pn_type2code node.atom.ptype

/-! Union field reads (`atom->u.as_*`).  A C read of a field the atom does not
hold is unspecified; the model returns the zero value, and every claim stays on
the specified reads. -/

def PnAtom.as_bool : PnAtom → Bool
  | .abool b => b
  | _ => false

def PnAtom.as_ubyte : PnAtom → Nat
  | .aubyte v => v
  | _ => 0

def PnAtom.as_byte : PnAtom → Int
  | .abyte v => v
  | _ => 0

def PnAtom.as_ushort : PnAtom → Nat
  | .aushort v => v
  | _ => 0

def PnAtom.as_short : PnAtom → Int
  | .ashort v => v
  | _ => 0

def PnAtom.as_uint : PnAtom → Nat
  | .auint v => v
  | _ => 0

def PnAtom.as_int : PnAtom → Int
  | .aint v => v
  | _ => 0

def PnAtom.as_char : PnAtom → Nat
  | .achar v => v
  | _ => 0

def PnAtom.as_ulong : PnAtom → Nat
  | .aulong v => v
  | _ => 0

def PnAtom.as_long : PnAtom → Int
  | .along v => v
  | _ => 0

def PnAtom.as_timestamp : PnAtom → Int
  | .atimestamp v => v
  | _ => 0

def PnAtom.floatBits : PnAtom → Nat
  | .afloat v => v
  | _ => 0

def PnAtom.doubleBits : PnAtom → Nat
  | .adouble v => v
  | _ => 0

def PnAtom.as_decimal32 : PnAtom → Nat
  | .adec32 v => v
  | _ => 0

def PnAtom.as_decimal64 : PnAtom → Nat
  | .adec64 v => v
  | _ => 0

def PnAtom.as_decimal128 : PnAtom → List Nat
  | .adec128 bs => bs
  | _ => zero16

def PnAtom.as_uuid : PnAtom → List Nat
  | .auuid bs => bs
  | _ => zero16

/-- The aliased `as_binary`/`as_string`/`as_symbol` view (cf. `pn_data_bytes`). -/
def PnAtom.asBytes : PnAtom → List Nat
  | .abinary bs => bs
  | .astring bs => bs
  | .asymbol bs => bs
  | _ => []

/-- Two's-complement image of a signed value at width `2^bits` (the C implicit
conversion applied when a signed payload is passed to an unsigned write). -/
def toUnsigned (v : Int) (m : Nat) : Nat := (v % (m : Int)).toNat

/-- Write a 4-byte big-endian value at an absolute offset without moving the
cursor: the back-fill `pn_i_bytes_writef32(&size_bytes, size)` on the 4-byte
window the encoder reserved. -/
def backfill32 (w : WBuf) (off value : Nat) : WBuf :=
  { w with data :=
      ((((w.data.set off ((value >>> 24) % 256)).set (off + 1)
        ((value >>> 16) % 256)).set (off + 2) ((value >>> 8) % 256)).set (off + 3)
        (value % 256)) }

/-- Write a 1-byte value at an absolute offset (back-fill for `small` compound
headers; unreachable from `pn_data_encode`, which always reserves 4 bytes). -/
def backfill8 (w : WBuf) (off value : Nat) : WBuf :=
  { w with data := w.data.set off (value % 256) }

/-- `pn_data_encode_node`: write one node's constructor byte (unless an array
parent already fixed it) and payload; compound nodes reserve a 4-byte size slot
recorded in `start` for the exit pass. -/
def pn_data_encode_node (d : PnData) (parentId nodeId : Nat) (w : WBuf) :
    PnRes × PnData × WBuf :=
  let node := getNode d nodeId
  let atom := node.atom
  let inArray := parentId ≠ 0 ∧ (getNode d parentId).atom.ptype = .tArray
  let code :=
    if inArray then pn_type2code (getNode d parentId).etype else pn_node2code node
  let first :=
    if inArray then
      node.prev = 0 ∨ (node.prev ≠ 0 ∧ (getNode d parentId).described ∧
        (getNode d node.prev).prev = 0)
    else True
  let codeRes : PnRes × WBuf :=
    if first then pn_i_bytes_writef8 w code else (.ok, w)
  match codeRes with
  | (.ok, w1) =>
    if code = PNE_DESCRIPTOR ∨ code = PNE_NULL ∨ code = PNE_TRUE ∨ code = PNE_FALSE ∨
        code = PNE_UINT0 then
      (.ok, d, w1)
    else if code = PNE_BOOLEAN then
      let r := pn_i_bytes_writef8 w1 (if atom.as_bool then 1 else 0)
      (r.1, d, r.2)
    else if code = PNE_UBYTE then
      let r := pn_i_bytes_writef8 w1 atom.as_ubyte
      (r.1, d, r.2)
    else if code = PNE_BYTE then
      let r := pn_i_bytes_writef8 w1 (toUnsigned atom.as_byte 256)
      (r.1, d, r.2)
    else if code = PNE_USHORT then
      let r := pn_i_bytes_writef16 w1 atom.as_ushort
      (r.1, d, r.2)
    else if code = PNE_SHORT then
      let r := pn_i_bytes_writef16 w1 (toUnsigned atom.as_short (2 ^ 16))
      (r.1, d, r.2)
    else if code = PNE_SMALLUINT then
      let r := pn_i_bytes_writef8 w1 atom.as_uint
      (r.1, d, r.2)
    else if code = PNE_UINT then
      let r := pn_i_bytes_writef32 w1 atom.as_uint
      (r.1, d, r.2)
    else if code = PNE_SMALLINT then
      let r := pn_i_bytes_writef8 w1 (toUnsigned atom.as_int 256)
      (r.1, d, r.2)
    else if code = PNE_INT then
      let r := pn_i_bytes_writef32 w1 (toUnsigned atom.as_int (2 ^ 32))
      (r.1, d, r.2)
    else if code = PNE_UTF32 then
      let r := pn_i_bytes_writef32 w1 atom.as_char
      (r.1, d, r.2)
    else if code = PNE_ULONG then
      let r := pn_i_bytes_writef64 w1 atom.as_ulong
      (r.1, d, r.2)
    else if code = PNE_SMALLULONG then
      let r := pn_i_bytes_writef8 w1 atom.as_ulong
      (r.1, d, r.2)
    else if code = PNE_LONG then
      let r := pn_i_bytes_writef64 w1 (toUnsigned atom.as_long (2 ^ 64))
      (r.1, d, r.2)
    else if code = PNE_MS64 then
      let r := pn_i_bytes_writef64 w1 (toUnsigned atom.as_timestamp (2 ^ 64))
      (r.1, d, r.2)
    else if code = PNE_FLOAT then
      let r := pn_i_bytes_writef32 w1 atom.floatBits
      (r.1, d, r.2)
    else if code = PNE_DOUBLE then
      let r := pn_i_bytes_writef64 w1 atom.doubleBits
      (r.1, d, r.2)
    else if code = PNE_DECIMAL32 then
      let r := pn_i_bytes_writef32 w1 atom.as_decimal32
      (r.1, d, r.2)
    else if code = PNE_DECIMAL64 then
      let r := pn_i_bytes_writef64 w1 atom.as_decimal64
      (r.1, d, r.2)
    else if code = PNE_DECIMAL128 then
      let r := pn_i_bytes_writef128 w1 atom.as_decimal128
      (r.1, d, r.2)
    else if code = PNE_UUID then
      let r := pn_i_bytes_writef128 w1 atom.as_uuid
      (r.1, d, r.2)
    else if code = PNE_VBIN8 ∨ code = PNE_STR8_UTF8 ∨ code = PNE_SYM8 then
      let r := pn_i_bytes_writev8 w1 atom.asBytes
      (r.1, d, r.2)
    else if code = PNE_VBIN32 ∨ code = PNE_STR32_UTF8 ∨ code = PNE_SYM32 then
      let r := pn_i_bytes_writev32 w1 atom.asBytes
      (r.1, d, r.2)
    else if code = PNE_ARRAY32 then
      let d1 := updNode d nodeId (fun nd => { nd with start := w1.pos, small := false })
      if w1.size < 4 then (.overflow, d1, w1)
      else
        let w2 := w1.ltrim 4
        -- `node->children - 1` is size_t arithmetic: for children = 0 the C
        -- value wraps and `writef32` keeps its low 32 bits.
        let r := pn_i_bytes_writef32 w2
          (if node.described then (node.children + (2 ^ 32 - 1)) % 2 ^ 32
            else node.children)
        match r with
        | (.ok, w3) =>
          if node.described then
            let r2 := pn_i_bytes_writef8 w3 0
            (r2.1, d1, r2.2)
          else (.ok, d1, w3)
        | (e, w3) => (e, d1, w3)
    else if code = PNE_LIST32 ∨ code = PNE_MAP32 then
      let d1 := updNode d nodeId (fun nd => { nd with start := w1.pos, small := false })
      if w1.size < 4 then (.overflow, d1, w1)
      else
        let w2 := w1.ltrim 4
        let r := pn_i_bytes_writef32 w2 node.children
        (r.1, d1, r.2)
    else
      (.err, d, w1)
  | (e, w1) => (e, d, w1)

/-- `pn_data_encode_node_exit`: back-patch the reserved size slot; an empty
(or described-and-element-less) array still writes its element type code. -/
def pn_data_encode_node_exit (d : PnData) (nodeId : Nat) (w : WBuf) :
    PnRes × PnData × WBuf :=
  let node := getNode d nodeId
  match node.atom.ptype with
  | .tArray =>
    let r : PnRes × WBuf :=
      if (node.described ∧ node.children = 1) ∨ (¬node.described ∧ node.children = 0) then
        pn_i_bytes_writef8 w (pn_type2code node.etype)
      else (.ok, w)
    match r with
    | (.ok, w1) =>
      if node.small then
        (.ok, d, backfill8 w1 node.start (w1.pos - node.start - 1))
      else
        (.ok, d, backfill32 w1 node.start (w1.pos - node.start - 4))
    | (e, w1) => (e, d, w1)
  | .tList =>
    if node.small then
      (.ok, d, backfill8 w node.start (w.pos - node.start - 1))
    else
      (.ok, d, backfill32 w node.start (w.pos - node.start - 4))
  | .tMap =>
    if node.small then
      (.ok, d, backfill8 w node.start (w.pos - node.start - 1))
    else
      (.ok, d, backfill32 w node.start (w.pos - node.start - 4))
  | _ => (.ok, d, w)

/-- The parent-climbing loop at the bottom of `pn_data_encode`'s walk: exit
each finished ancestor until one has a `next` sibling (returned) or the root is
reached (0). -/
def pn_data_encode_climb (fuel : Nat) (d : PnData) (parentId : Nat) (w : WBuf) :
    PnRes × PnData × WBuf × Nat :=
  match fuel with
  | 0 => (.err, d, w, 0)
  | fuel + 1 =>
    if parentId = 0 then (.ok, d, w, 0)
    else
      match pn_data_encode_node_exit d parentId w with
      | (.ok, d1, w1) =>
        if (getNode d1 parentId).next ≠ 0 then (.ok, d1, w1, (getNode d1 parentId).next)
        else pn_data_encode_climb fuel d1 (getNode d1 parentId).parent w1
      | (e, d1, w1) => (e, d1, w1, 0)

/-- The main pre-order walk of `pn_data_encode`. -/
def pn_data_encode_loop (fuel : Nat) (d : PnData) (nodeId : Nat) (w : WBuf) :
    PnRes × PnData × WBuf :=
  match fuel with
  | 0 => (.err, d, w)
  | fuel + 1 =>
    if nodeId = 0 then (.ok, d, w)
    else
      match pn_data_encode_node d (getNode d nodeId).parent nodeId w with
      | (.ok, d1, w1) =>
        let node := getNode d1 nodeId
        if node.down ≠ 0 then
          pn_data_encode_loop fuel d1 node.down w1
        else if node.next ≠ 0 then
          match pn_data_encode_node_exit d1 nodeId w1 with
          | (.ok, d2, w2) => pn_data_encode_loop fuel d2 node.next w2
          | (e, d2, w2) => (e, d2, w2)
        else
          match pn_data_encode_node_exit d1 nodeId w1 with
          | (.ok, d2, w2) =>
            match pn_data_encode_climb (fuel + 1) d2 node.parent w2 with
            | (.ok, d3, w3, nxt) => pn_data_encode_loop fuel d3 nxt w3
            | (e, d3, w3, _) => (e, d3, w3)
          | (e, d2, w2) => (e, d2, w2)
      | (e, d1, w1) => (e, d1, w1)

/-- `pn_data_encode`: on success the bytes written are the final cursor
position of the returned buffer (`size - lbytes.size` in C). -/
def pn_data_encode (d : PnData) (cap : Nat) : PnRes × PnData × WBuf :=
  let w : WBuf := ⟨List.replicate cap 0, 0⟩
  if d.nodes.length ≠ 0 then
    pn_data_encode_loop (2 * d.nodes.length + 2) d 1 w
  else
    (.ok, d, w)

/-- C2 counterexample: the encoder has no `ulong0`/`uint0` compaction.
`ulong 0` encodes through `smallulong` to exactly TWO bytes (`0x53 0x00`), not
one, and `uint 0` encodes with the `smalluint` code `0x52` (then one payload
byte), not the zero-payload `uint0` code `0x43`. -/
theorem c2_counterexample :
    (pn_data_encode (pn_data_put_ulong {} 0) 64).1 = PnRes.ok ∧
    (pn_data_encode (pn_data_put_ulong {} 0) 64).2.2.pos = 2 ∧
    ¬(pn_data_encode (pn_data_put_ulong {} 0) 64).2.2.pos = 1 ∧
    (pn_data_encode (pn_data_put_ulong {} 0) 64).2.2.data.headD 0 = PNE_SMALLULONG ∧
    (pn_data_encode (pn_data_put_uint {} 0) 64).1 = PnRes.ok ∧
    (pn_data_encode (pn_data_put_uint {} 0) 64).2.2.pos = 2 ∧
    (pn_data_encode (pn_data_put_uint {} 0) 64).2.2.data.headD 0 = PNE_SMALLUINT ∧
    ¬(pn_data_encode (pn_data_put_uint {} 0) 64).2.2.data.headD 0 = PNE_UINT0 := by
  decide

set_option maxRecDepth 8000 in
/-- General byte count for encoding a tree holding one string that fits the
`str8` code: one constructor byte, a 1-byte length prefix, then the payload. -/
theorem encode_put_string_pos8 (bs : List Nat) (h8 : bs.length < 256) :
    (pn_data_encode (pn_data_put_string {} bs) 600).1 = PnRes.ok ∧
    (pn_data_encode (pn_data_put_string {} bs) 600).2.2.pos = 1 + 1 + bs.length := by
  have e1 : ¬(599 < 1 + bs.length) := by omega
  have e2 : min bs.length 598 = bs.length := by omega
  have e2' : bs.length ≤ 598 := by omega
  constructor <;>
    simp [pn_data_encode, pn_data_encode_loop, pn_data_encode_node,
      pn_data_encode_node_exit, pn_data_encode_climb, pn_data_put_string, internCurrent,
      putAtom, pn_data_add, pn_data_add_finish, updNode, getNode, getNodeL,
      pn_node2code, PnAtom.ptype, PnAtom.asBytes, pn_i_bytes_writef8, pn_i_bytes_writev8,
      WBuf.size, WBuf.ltrim, WBuf.setByte, h8, e1, e2, e2', PNE_STR8_UTF8, PNE_DESCRIPTOR,
      PNE_NULL, PNE_TRUE, PNE_FALSE, PNE_UINT0, PNE_BOOLEAN, PNE_UBYTE, PNE_BYTE,
      PNE_USHORT, PNE_SHORT, PNE_SMALLUINT, PNE_UINT, PNE_SMALLINT, PNE_INT, PNE_UTF32,
      PNE_ULONG, PNE_SMALLULONG, PNE_LONG, PNE_MS64, PNE_FLOAT, PNE_DOUBLE,
      PNE_DECIMAL32, PNE_DECIMAL64, PNE_DECIMAL128, PNE_UUID, PNE_VBIN8, PNE_SYM8,
      PNE_VBIN32, PNE_STR32_UTF8, PNE_SYM32, PNE_ARRAY32, PNE_LIST32, PNE_MAP32]

set_option maxRecDepth 8000 in
/-- General byte count for a string that needs `str32`: one constructor byte, a
4-byte length prefix, then the payload. -/
theorem encode_put_string_pos32 (bs : List Nat) (h1 : 256 ≤ bs.length)
    (h2 : bs.length ≤ 500) :
    (pn_data_encode (pn_data_put_string {} bs) 600).1 = PnRes.ok ∧
    (pn_data_encode (pn_data_put_string {} bs) 600).2.2.pos = 1 + 4 + bs.length := by
  have e0 : ¬bs.length < 256 := by omega
  have e1 : ¬(599 < 4 + bs.length) := by omega
  have e2 : min bs.length 595 = bs.length := by omega
  have e2' : bs.length ≤ 595 := by omega
  have e3 : ¬(599 < 4) := by omega
  constructor <;>
    simp [pn_data_encode, pn_data_encode_loop, pn_data_encode_node,
      pn_data_encode_node_exit, pn_data_encode_climb, pn_data_put_string, internCurrent,
      putAtom, pn_data_add, pn_data_add_finish, updNode, getNode, getNodeL,
      pn_node2code, PnAtom.ptype, PnAtom.asBytes, pn_i_bytes_writef8, pn_i_bytes_writef32,
      pn_i_bytes_writev32, WBuf.size, WBuf.ltrim, WBuf.setByte, e0, e1, e2, e2', e3,
      PNE_STR8_UTF8, PNE_DESCRIPTOR, PNE_NULL, PNE_TRUE, PNE_FALSE, PNE_UINT0,
      PNE_BOOLEAN, PNE_UBYTE, PNE_BYTE, PNE_USHORT, PNE_SHORT, PNE_SMALLUINT, PNE_UINT,
      PNE_SMALLINT, PNE_INT, PNE_UTF32, PNE_ULONG, PNE_SMALLULONG, PNE_LONG, PNE_MS64,
      PNE_FLOAT, PNE_DOUBLE, PNE_DECIMAL32, PNE_DECIMAL64, PNE_DECIMAL128, PNE_UUID,
      PNE_VBIN8, PNE_SYM8, PNE_VBIN32, PNE_STR32_UTF8, PNE_SYM32, PNE_ARRAY32,
      PNE_LIST32, PNE_MAP32]

/-- C2 (amended): the encoder picks `smallulong` for every `ulong < 256` (so
`ulong 0` takes 2 bytes, not 1), `smalluint` for every `uint < 256` (so
`uint 0` takes 2 bytes through `smalluint`, not `uint0`), `str8` for strings
shorter than 256 bytes, and the `true`/`false` singletons for bool; the
resulting sizes are `bool true` 1 byte, `ulong 0` 2 bytes, `ulong 255` 2
bytes, `ulong 256` 9 bytes, a 255-byte string 1+1+255 and a 256-byte string
1+4+256. -/
theorem c2_compactness_amended :
    (∀ v : Nat, pn_node2code { atom := .aulong v } =
      if v < 256 then PNE_SMALLULONG else PNE_ULONG) ∧
    (∀ bs : List Nat, pn_node2code { atom := .astring bs } =
      if bs.length < 256 then PNE_STR8_UTF8 else PNE_STR32_UTF8) ∧
    pn_node2code { atom := .abool true } = PNE_TRUE ∧
    pn_node2code { atom := .abool false } = PNE_FALSE ∧
    (∀ v : Nat, pn_node2code { atom := .auint v } =
      if v < 256 then PNE_SMALLUINT else PNE_UINT) ∧
    (pn_data_encode (pn_data_put_bool {} true) 64).2.2.pos = 1 ∧
    (pn_data_encode (pn_data_put_ulong {} 0) 64).2.2.pos = 2 ∧
    (pn_data_encode (pn_data_put_ulong {} 255) 64).2.2.pos = 2 ∧
    (pn_data_encode (pn_data_put_ulong {} 256) 64).2.2.pos = 9 ∧
    (pn_data_encode (pn_data_put_uint {} 0) 64).2.2.pos = 2 ∧
    (∀ bs : List Nat, bs.length = 255 →
      (pn_data_encode (pn_data_put_string {} bs) 600).2.2.pos = 1 + 1 + 255) ∧
    (∀ bs : List Nat, bs.length = 256 →
      (pn_data_encode (pn_data_put_string {} bs) 600).2.2.pos = 1 + 4 + 256) := by
  refine ⟨fun v => rfl, fun bs => rfl, rfl, rfl, fun v => rfl, by decide, by decide,
    by decide, by decide, by decide, ?_, ?_⟩
  · intro bs h
    have := (encode_put_string_pos8 bs (by omega)).2
    rw [this, h]
  · intro bs h
    have := (encode_put_string_pos32 bs (by omega) (by omega)).2
    rw [this, h]

/-- Witness for C2 (amended) at concrete strings of length 255 and 256. -/
theorem c2_compactness_amended_witness :
    (pn_data_encode (pn_data_put_string {} (List.replicate 255 65)) 600).2.2.pos =
      1 + 1 + 255 ∧
    (pn_data_encode (pn_data_put_string {} (List.replicate 256 65)) 600).2.2.pos =
      1 + 4 + 256 :=
  ⟨c2_compactness_amended.2.2.2.2.2.2.2.2.2.2.1 (List.replicate 255 65) (by rw [List.length_replicate]),
   c2_compactness_amended.2.2.2.2.2.2.2.2.2.2.2 (List.replicate 256 65) (by rw [List.length_replicate])⟩

/-! ## Byte-level decode (component 4.B, reading side)

The read cursor is the list of remaining bytes; the atom output window
(`pn_atoms_t`) is a remaining capacity plus the atoms written so far.  The
mutually recursive C functions are given a fuel argument decremented on every
call; callers pass enough fuel for any input (each decoded atom consumes at
least its constructor byte). -/

structure ABuf where
  rem : Nat
  out : List PnAtom
  deriving DecidableEq, Repr

/-- Append one atom (`atoms->start[0] = a; pn_atoms_ltrim(atoms, 1)`). -/
def ABuf.emit (ab : ABuf) (a : PnAtom) : ABuf := ⟨ab.rem - 1, ab.out ++ [a]⟩

/-- `pn_code2type` (`none` is the negative `PN_ARG_ERR` return). -/
def pn_code2type (code : Nat) : Option PnType :=
  if code = PNE_DESCRIPTOR then none
  else if code = PNE_NULL then some .tNull
  else if code = PNE_TRUE ∨ code = PNE_FALSE ∨ code = PNE_BOOLEAN then some .tBool
  else if code = PNE_UBYTE then some .tUbyte
  else if code = PNE_BYTE then some .tByte
  else if code = PNE_USHORT then some .tUshort
  else if code = PNE_SHORT then some .tShort
  else if code = PNE_UINT0 ∨ code = PNE_SMALLUINT ∨ code = PNE_SMALLINT ∨
    code = PNE_UINT then some .tUint
  else if code = PNE_INT then some .tInt
  else if code = PNE_UTF32 then some .tChar
  else if code = PNE_FLOAT then some .tFloat
  else if code = PNE_LONG then some .tLong
  else if code = PNE_MS64 then some .tTimestamp
  else if code = PNE_DOUBLE then some .tDouble
  else if code = PNE_DECIMAL32 then some .tDec32
  else if code = PNE_DECIMAL64 then some .tDec64
  else if code = PNE_DECIMAL128 then some .tDec128
  else if code = PNE_UUID then some .tUuid
  else if code = PNE_ULONG0 ∨ code = PNE_SMALLULONG ∨ code = PNE_SMALLLONG ∨
    code = PNE_ULONG then some .tUlong
  else if code = PNE_VBIN8 ∨ code = PNE_VBIN32 then some .tBinary
  else if code = PNE_STR8_UTF8 ∨ code = PNE_STR32_UTF8 then some .tString
  else if code = PNE_SYM8 ∨ code = PNE_SYM32 then some .tSymbol
  else if code = PNE_LIST0 ∨ code = PNE_LIST8 ∨ code = PNE_LIST32 then some .tList
  else if code = PNE_ARRAY8 ∨ code = PNE_ARRAY32 then some .tArray
  else if code = PNE_MAP8 ∨ code = PNE_MAP32 then some .tMap
  else none

/-- Reinterpret an unsigned payload of modulus `m` as the signed value the C
cast `(intN_t)` produces. -/
def toSigned (v m : Nat) : Int := if v < m / 2 then (v : Int) else (v : Int) - (m : Int)

/-- Which of the mutually recursive decode functions is being run.  The C
functions `pn_decode_type` / `pn_decode_atom` / `pn_decode_value` (and the two
`for` loops inside the compound cases) call one another; a single
fuel-structural dispatcher keeps the recursion kernel-reducible. -/
inductive DecReq where
  | dtype
  | datom
  | datomsN (count : Nat)
  | dvaluesN (code count : Nat)
  | dvalue (code : Nat)
  deriving DecidableEq, Repr

def pn_decode_go (fuel : Nat) (req : DecReq) (bs : List Nat) (ab : ABuf) :
    PnRes × List Nat × ABuf × Nat :=
  match fuel with
  | 0 => (.err, bs, ab, 0)
  | fuel + 1 =>
    match req with
    | .dtype =>
      -- `pn_decode_type`: unroll leading descriptor bytes, emitting a
      -- descriptor atom and decoding the descriptor value, then return the
      -- described value's code.
      if bs.length = 0 then (.underflow, bs, ab, 0)
      else if ab.rem = 0 then (.overflow, bs, ab, 0)
      else if bs.headD 0 ≠ PNE_DESCRIPTOR then
        (.ok, bs.drop 1, ab, bs.headD 0)
      else
        match pn_decode_go fuel .datom (bs.drop 1) (ab.emit .adescriptor) with
        | (.ok, bs2, ab2, _) => pn_decode_go fuel .dtype bs2 ab2
        | (e, bs2, ab2, _) => (e, bs2, ab2, 0)
    | .datom =>
      -- `pn_decode_atom`
      match pn_decode_go fuel .dtype bs ab with
      | (.ok, bs1, ab1, code) => pn_decode_go fuel (.dvalue code) bs1 ab1
      | (e, bs1, ab1, _) => (e, bs1, ab1, 0)
    | .datomsN count =>
      -- the compound trailer loop: decode `count` further atoms
      match count with
      | 0 => (.ok, bs, ab, 0)
      | count + 1 =>
        match pn_decode_go fuel .datom bs ab with
        | (.ok, bs1, ab1, _) => pn_decode_go fuel (.datomsN count) bs1 ab1
        | e => e
    | .dvaluesN code count =>
      -- the array trailer loop: decode `count` payloads with the element code
      match count with
      | 0 => (.ok, bs, ab, 0)
      | count + 1 =>
        match pn_decode_go fuel (.dvalue code) bs ab with
        | (.ok, bs1, ab1, _) => pn_decode_go fuel (.dvaluesN code count) bs1 ab1
        | e => e
    | .dvalue code =>
      -- `pn_decode_value`
      if ab.rem = 0 then (.overflow, bs, ab, 0)
      else if code = PNE_DESCRIPTOR then (.argErr, bs, ab, 0)
      else if code = PNE_NULL then (.ok, bs, ab.emit .anull, 0)
      else if code = PNE_TRUE then (.ok, bs, ab.emit (.abool true), 0)
      else if code = PNE_FALSE then (.ok, bs, ab.emit (.abool false), 0)
      else if code = PNE_BOOLEAN then
        match pn_read_guard8 bs with
        | (.ok, v, bs1) => (.ok, bs1, ab.emit (.abool (v ≠ 0)), 0)
        | (e, _, bs1) => (e, bs1, ab, 0)
      else if code = PNE_UBYTE then
        match pn_read_guard8 bs with
        | (.ok, v, bs1) => (.ok, bs1, ab.emit (.aubyte v), 0)
        | (e, _, bs1) => (e, bs1, ab, 0)
      else if code = PNE_BYTE then
        match pn_read_guard8 bs with
        | (.ok, v, bs1) => (.ok, bs1, ab.emit (.abyte (toSigned v 256)), 0)
        | (e, _, bs1) => (e, bs1, ab, 0)
      else if code = PNE_USHORT then
        match pn_read_guard16 bs with
        | (.ok, v, bs1) => (.ok, bs1, ab.emit (.aushort v), 0)
        | (e, _, bs1) => (e, bs1, ab, 0)
      else if code = PNE_SHORT then
        match pn_read_guard16 bs with
        | (.ok, v, bs1) => (.ok, bs1, ab.emit (.ashort (toSigned v (2 ^ 16))), 0)
        | (e, _, bs1) => (e, bs1, ab, 0)
      else if code = PNE_UINT then
        match pn_read_guard32 bs with
        | (.ok, v, bs1) => (.ok, bs1, ab.emit (.auint v), 0)
        | (e, _, bs1) => (e, bs1, ab, 0)
      else if code = PNE_UINT0 then (.ok, bs, ab.emit (.auint 0), 0)
      else if code = PNE_SMALLUINT then
        match pn_read_guard8 bs with
        | (.ok, v, bs1) => (.ok, bs1, ab.emit (.auint v), 0)
        | (e, _, bs1) => (e, bs1, ab, 0)
      else if code = PNE_SMALLINT then
        -- `atom.u.as_int = pn_i_bytes_readf8(bytes)`: uint8 zero-extended
        match pn_read_guard8 bs with
        | (.ok, v, bs1) => (.ok, bs1, ab.emit (.aint (v : Int)), 0)
        | (e, _, bs1) => (e, bs1, ab, 0)
      else if code = PNE_INT then
        match pn_read_guard32 bs with
        | (.ok, v, bs1) => (.ok, bs1, ab.emit (.aint (toSigned v (2 ^ 32))), 0)
        | (e, _, bs1) => (e, bs1, ab, 0)
      else if code = PNE_UTF32 then
        match pn_read_guard32 bs with
        | (.ok, v, bs1) => (.ok, bs1, ab.emit (.achar v), 0)
        | (e, _, bs1) => (e, bs1, ab, 0)
      else if code = PNE_FLOAT then
        match pn_read_guard32 bs with
        | (.ok, v, bs1) => (.ok, bs1, ab.emit (.afloat v), 0)
        | (e, _, bs1) => (e, bs1, ab, 0)
      else if code = PNE_DECIMAL32 then
        match pn_read_guard32 bs with
        | (.ok, v, bs1) => (.ok, bs1, ab.emit (.adec32 v), 0)
        | (e, _, bs1) => (e, bs1, ab, 0)
      else if code = PNE_ULONG then
        match pn_read_guard64 bs with
        | (.ok, v, bs1) => (.ok, bs1, ab.emit (.aulong v), 0)
        | (e, _, bs1) => (e, bs1, ab, 0)
      else if code = PNE_LONG then
        match pn_read_guard64 bs with
        | (.ok, v, bs1) => (.ok, bs1, ab.emit (.along (toSigned v (2 ^ 64))), 0)
        | (e, _, bs1) => (e, bs1, ab, 0)
      else if code = PNE_MS64 then
        match pn_read_guard64 bs with
        | (.ok, v, bs1) => (.ok, bs1, ab.emit (.atimestamp (toSigned v (2 ^ 64))), 0)
        | (e, _, bs1) => (e, bs1, ab, 0)
      else if code = PNE_DOUBLE then
        match pn_read_guard64 bs with
        | (.ok, v, bs1) => (.ok, bs1, ab.emit (.adouble v), 0)
        | (e, _, bs1) => (e, bs1, ab, 0)
      else if code = PNE_DECIMAL64 then
        match pn_read_guard64 bs with
        | (.ok, v, bs1) => (.ok, bs1, ab.emit (.adec64 v), 0)
        | (e, _, bs1) => (e, bs1, ab, 0)
      else if code = PNE_ULONG0 then (.ok, bs, ab.emit (.aulong 0), 0)
      else if code = PNE_SMALLULONG then
        match pn_read_guard8 bs with
        | (.ok, v, bs1) => (.ok, bs1, ab.emit (.aulong v), 0)
        | (e, _, bs1) => (e, bs1, ab, 0)
      else if code = PNE_SMALLLONG then
        -- `atom.u.as_long = (int8_t) pn_i_bytes_readf8(bytes)`: sign-extended
        match pn_read_guard8 bs with
        | (.ok, v, bs1) => (.ok, bs1, ab.emit (.along (toSigned v 256)), 0)
        | (e, _, bs1) => (e, bs1, ab, 0)
      else if code = PNE_DECIMAL128 then
        match pn_read_guard128 bs with
        | (.ok, v, bs1) => (.ok, bs1, ab.emit (.adec128 v), 0)
        | (e, _, bs1) => (e, bs1, ab, 0)
      else if code = PNE_UUID then
        match pn_read_guard128 bs with
        | (.ok, v, bs1) => (.ok, bs1, ab.emit (.auuid v), 0)
        | (e, _, bs1) => (e, bs1, ab, 0)
      else if code = PNE_VBIN8 ∨ code = PNE_STR8_UTF8 ∨ code = PNE_SYM8 ∨
          code = PNE_VBIN32 ∨ code = PNE_STR32_UTF8 ∨ code = PNE_SYM32 then
        let sizeRes : PnRes × Nat × List Nat :=
          if code &&& 0xF0 = 0xA0 then pn_read_guard8 bs
          else if code &&& 0xF0 = 0xB0 then pn_read_guard32 bs
          else (.argErr, 0, bs)
        match sizeRes with
        | (.ok, size, bs1) =>
          let payload := bs1.take size
          let kind : Option (List Nat → PnAtom) :=
            if code &&& 0x0F = 0x0 then some .abinary
            else if code &&& 0x0F = 0x1 then some .astring
            else if code &&& 0x0F = 0x3 then some .asymbol
            else none
          match kind with
          | some mk =>
            if bs1.length < size then (.underflow, bs1, ab, 0)
            else (.ok, bs1.drop size, ab.emit (mk payload), 0)
          | none => (.argErr, bs1, ab, 0)
        | (e, _, bs1) => (e, bs1, ab, 0)
      else if code = PNE_LIST0 then (.ok, bs, ab.emit (.alist 0), 0)
      else if code = PNE_ARRAY8 ∨ code = PNE_ARRAY32 ∨ code = PNE_LIST8 ∨
          code = PNE_LIST32 ∨ code = PNE_MAP8 ∨ code = PNE_MAP32 then
        let szRes : PnRes × Nat × Nat × List Nat :=
          if code = PNE_ARRAY8 ∨ code = PNE_LIST8 ∨ code = PNE_MAP8 then
            if bs.length < 2 then (.underflow, 0, 0, bs)
            else
              let r1 := pn_i_bytes_readf8 bs
              let r2 := pn_i_bytes_readf8 r1.2
              (.ok, r1.1, r2.1, r2.2)
          else
            -- the C 32-bit branch reads size and count with no underflow
            -- check; reads past the end are modelled as zero bytes
            let r1 := pn_i_bytes_readf32 bs
            let r2 := pn_i_bytes_readf32 r1.2
            (.ok, r1.1, r2.1, r2.2)
        match szRes with
        | (.ok, _, count, bs1) =>
          if code = PNE_ARRAY8 ∨ code = PNE_ARRAY32 then
            if ab.rem = 0 then (.overflow, bs1, ab, 0)
            else
              match pn_decode_go fuel .dtype bs1 (ab.emit (.aarray count)) with
              | (.ok, bs2, ab2, acode) =>
                if ab2.rem = 0 then (.overflow, bs2, ab2, 0)
                else
                  match pn_code2type acode with
                  | none => (.argErr, bs2, ab2, 0)
                  | some t =>
                    pn_decode_go fuel (.dvaluesN acode count) bs2 (ab2.emit (.atype t))
              | (e, bs2, ab2, _) => (e, bs2, ab2, 0)
          else if code = PNE_LIST8 ∨ code = PNE_LIST32 then
            if ab.rem = 0 then (.overflow, bs1, ab, 0)
            else pn_decode_go fuel (.datomsN count) bs1 (ab.emit (.alist count))
          else
            if ab.rem = 0 then (.overflow, bs1, ab, 0)
            else pn_decode_go fuel (.datomsN count) bs1 (ab.emit (.amap count))
        | (e, _, _, bs1) => (e, bs1, ab, 0)
      else
        (.argErr, bs, ab, 0)

/-- `pn_decode_type` -/
def pn_decode_type (fuel : Nat) (bs : List Nat) (ab : ABuf) :
    PnRes × List Nat × ABuf × Nat :=
  pn_decode_go fuel .dtype bs ab

/-- `pn_decode_atom` -/
def pn_decode_atom (fuel : Nat) (bs : List Nat) (ab : ABuf) : PnRes × List Nat × ABuf :=
  let r := pn_decode_go fuel .datom bs ab
  (r.1, r.2.1, r.2.2.1)

/-- `pn_decode_value` -/
def pn_decode_value (fuel : Nat) (bs : List Nat) (ab : ABuf) (code : Nat) :
    PnRes × List Nat × ABuf :=
  let r := pn_decode_go fuel (.dvalue code) bs ab
  (r.1, r.2.1, r.2.2.1)


/-- `pn_decode_one`: decode a single top-level value; on success the consumed
byte count is committed (`bytes->size -= buf.size`). -/
def pn_decode_one (bs : List Nat) (cap : Nat) : PnRes × Nat × List PnAtom :=
  match pn_decode_atom (4 * bs.length + 8) bs ⟨cap, []⟩ with
  | (.ok, bs1, ab1) => (.ok, bs.length - bs1.length, ab1.out)
  | (e, _, ab1) => (e, 0, ab1.out)

/-- C10: the two one-byte signed codes decode asymmetrically.  `smallint`
stores the payload byte zero-extended (`atom.u.as_int = readf8`, always in
0..255, never negative), while `smalllong` sign-extends it
(`atom.u.as_long = (int8_t) readf8`, negative whenever the byte is ≥ 128). -/
theorem c10_smallint_smalllong (b : Nat) (hb : b < 256) (cap : Nat) (hc : 1 ≤ cap) :
    pn_decode_value 1 [b] ⟨cap, []⟩ PNE_SMALLINT =
      (PnRes.ok, [], ⟨cap - 1, [.aint (b : Int)]⟩) ∧
    (0 : Int) ≤ (b : Int) ∧
    pn_decode_value 1 [b] ⟨cap, []⟩ PNE_SMALLLONG =
      (PnRes.ok, [], ⟨cap - 1, [.along (toSigned b 256)]⟩) ∧
    (128 ≤ b → toSigned b 256 < 0) ∧
    (b < 128 → toSigned b 256 = (b : Int)) := by
  have hcap : cap ≠ 0 := by omega
  refine ⟨?_, by positivity, ?_, ?_, ?_⟩
  · simp [pn_decode_value, pn_decode_go, pn_read_guard8, pn_i_bytes_readf8, ABuf.emit,
      hcap, PNE_SMALLINT, PNE_DESCRIPTOR, PNE_NULL, PNE_TRUE, PNE_FALSE, PNE_BOOLEAN,
      PNE_UBYTE, PNE_BYTE, PNE_USHORT, PNE_SHORT, PNE_UINT, PNE_UINT0, PNE_SMALLUINT]
  · simp [pn_decode_value, pn_decode_go, pn_read_guard8, pn_i_bytes_readf8, ABuf.emit,
      hcap, PNE_SMALLLONG, PNE_DESCRIPTOR, PNE_NULL, PNE_TRUE, PNE_FALSE, PNE_BOOLEAN,
      PNE_UBYTE, PNE_BYTE, PNE_USHORT, PNE_SHORT, PNE_UINT, PNE_UINT0, PNE_SMALLUINT,
      PNE_SMALLINT, PNE_INT, PNE_UTF32, PNE_FLOAT, PNE_DECIMAL32, PNE_ULONG, PNE_LONG,
      PNE_MS64, PNE_DOUBLE, PNE_DECIMAL64, PNE_ULONG0, PNE_SMALLULONG]
  · intro h
    simp only [toSigned]
    rw [if_neg (by omega)]
    omega
  · intro h
    simp only [toSigned]
    rw [if_pos (by omega)]

/-- Witness for C10 at byte `0xC8`: `smallint` yields `int 200`, `smalllong`
yields `long (-56)`. -/
theorem c10_smallint_smalllong_witness :
    pn_decode_value 1 [200] ⟨4, []⟩ PNE_SMALLINT =
      (PnRes.ok, [], ⟨3, [.aint 200]⟩) ∧
    pn_decode_value 1 [200] ⟨4, []⟩ PNE_SMALLLONG =
      (PnRes.ok, [], ⟨3, [.along (-56)]⟩) := by
  have h := c10_smallint_smalllong 200 (by decide) 4 (by decide)
  refine ⟨h.1, ?_⟩
  have h2 := h.2.2.1
  have h3 : toSigned 200 256 = (-56 : Int) := by decide
  rw [h3] at h2
  exact h2

/-! ## Rebuilding the tree from the flat atom stream (`pn_data_parse_atoms`). -/

/-- The loop of `pn_data_parse_atoms`: `i` is the scan index, `count` the
number of items completed at this level, `limit` the item bound (`-1` for
unlimited).  Returns the number of atoms consumed (`i - offset`) and the
updated tree.  C indexes `atoms.start[i+1]` in the array branch without a
bound check; out-of-range reads are modelled as a null atom. -/
def pn_data_parse_atoms_loop (fuel : Nat) (d : PnData) (atoms : List PnAtom)
    (offset i : Nat) (limit : Int) (count : Nat) : PnRes × Nat × PnData :=
  match fuel with
  | 0 => (.err, 0, d)
  | fuel + 1 =>
    if i ≥ atoms.length then (.ok, i - offset, d)
    else if (count : Int) = limit then (.ok, i - offset, d)
    else
      let atom := atoms.getD i .anull
      match atom with
      | .atype _ => (.err, 0, d)
      | .anull => pn_data_parse_atoms_loop fuel (pn_data_put_null d) atoms offset (i + 1)
          limit (count + 1)
      | .abool b => pn_data_parse_atoms_loop fuel (pn_data_put_bool d b) atoms offset
          (i + 1) limit (count + 1)
      | .aubyte v => pn_data_parse_atoms_loop fuel (pn_data_put_ubyte d v) atoms offset
          (i + 1) limit (count + 1)
      | .abyte v => pn_data_parse_atoms_loop fuel (pn_data_put_byte d v) atoms offset
          (i + 1) limit (count + 1)
      | .aushort v => pn_data_parse_atoms_loop fuel (pn_data_put_ushort d v) atoms offset
          (i + 1) limit (count + 1)
      | .ashort v => pn_data_parse_atoms_loop fuel (pn_data_put_short d v) atoms offset
          (i + 1) limit (count + 1)
      | .auint v => pn_data_parse_atoms_loop fuel (pn_data_put_uint d v) atoms offset
          (i + 1) limit (count + 1)
      | .aint v => pn_data_parse_atoms_loop fuel (pn_data_put_int d v) atoms offset
          (i + 1) limit (count + 1)
      | .achar v => pn_data_parse_atoms_loop fuel (pn_data_put_char d v) atoms offset
          (i + 1) limit (count + 1)
      | .aulong v => pn_data_parse_atoms_loop fuel (pn_data_put_ulong d v) atoms offset
          (i + 1) limit (count + 1)
      | .along v => pn_data_parse_atoms_loop fuel (pn_data_put_long d v) atoms offset
          (i + 1) limit (count + 1)
      | .atimestamp v => pn_data_parse_atoms_loop fuel (pn_data_put_timestamp d v) atoms
          offset (i + 1) limit (count + 1)
      | .afloat v => pn_data_parse_atoms_loop fuel (pn_data_put_float d v) atoms offset
          (i + 1) limit (count + 1)
      | .adouble v => pn_data_parse_atoms_loop fuel (pn_data_put_double d v) atoms offset
          (i + 1) limit (count + 1)
      | .adec32 v => pn_data_parse_atoms_loop fuel (pn_data_put_decimal32 d v) atoms
          offset (i + 1) limit (count + 1)
      | .adec64 v => pn_data_parse_atoms_loop fuel (pn_data_put_decimal64 d v) atoms
          offset (i + 1) limit (count + 1)
      | .adec128 v => pn_data_parse_atoms_loop fuel (pn_data_put_decimal128 d v) atoms
          offset (i + 1) limit (count + 1)
      | .auuid v => pn_data_parse_atoms_loop fuel (pn_data_put_uuid d v) atoms offset
          (i + 1) limit (count + 1)
      | .abinary v => pn_data_parse_atoms_loop fuel (pn_data_put_binary d v) atoms offset
          (i + 1) limit (count + 1)
      | .astring v => pn_data_parse_atoms_loop fuel (pn_data_put_string d v) atoms offset
          (i + 1) limit (count + 1)
      | .asymbol v => pn_data_parse_atoms_loop fuel (pn_data_put_symbol d v) atoms offset
          (i + 1) limit (count + 1)
      | .alist n =>
        let d1 := (pn_data_enter (pn_data_put_list d)).2
        match pn_data_parse_atoms_loop fuel d1 atoms (i + 1) (i + 1) (n : Int) 0 with
        | (.ok, step, d2) =>
          let d3 := (pn_data_exit d2).2
          pn_data_parse_atoms_loop fuel d3 atoms offset (i + step + 1) limit (count + 1)
        | (e, s, d2) => (e, s, d2)
      | .amap n =>
        let d1 := (pn_data_enter (pn_data_put_map d)).2
        match pn_data_parse_atoms_loop fuel d1 atoms (i + 1) (i + 1) (n : Int) 0 with
        | (.ok, step, d2) =>
          let d3 := (pn_data_exit d2).2
          pn_data_parse_atoms_loop fuel d3 atoms offset (i + step + 1) limit (count + 1)
        | (e, s, d2) => (e, s, d2)
      | .adescriptor =>
        let d1 := (pn_data_enter (pn_data_put_described d)).2
        match pn_data_parse_atoms_loop fuel d1 atoms (i + 1) (i + 1) 2 0 with
        | (.ok, step, d2) =>
          let d3 := (pn_data_exit d2).2
          pn_data_parse_atoms_loop fuel d3 atoms offset (i + step + 1) limit (count + 1)
        | (e, s, d2) => (e, s, d2)
      | .aarray n =>
        let described := (atoms.getD (i + 1) .anull) = .adescriptor
        let d1 := pn_data_put_array d described .tNull
        let arrayId := d1.current
        let d2 := (pn_data_enter d1).2
        let afterDesc : PnRes × Nat × PnData :=
          if described then
            match pn_data_parse_atoms_loop fuel d2 atoms (i + 2) (i + 2) 1 0 with
            | (.ok, step, dd) => (.ok, i + 1 + step, dd)
            | (e, s, dd) => (e, s, dd)
          else (.ok, i, d2)
        match afterDesc with
        | (.ok, i1, d3) =>
          match atoms.getD (i1 + 1) .anull with
          | .atype t =>
            let d4 := updNode d3 arrayId (fun nd => { nd with etype := t })
            let i2 := i1 + 1
            match pn_data_parse_atoms_loop fuel d4 atoms (i2 + 1) (i2 + 1) (n : Int) 0 with
            | (.ok, step, d5) =>
              let d6 := (pn_data_exit d5).2
              pn_data_parse_atoms_loop fuel d6 atoms offset (i2 + step + 1) limit
                (count + 1)
            | (e, s, d5) => (e, s, d5)
          | _ => (.err, 0, d3)
        | (e, s, d3) => (e, s, d3)

/-- `pn_data_parse_atoms` -/
def pn_data_parse_atoms (d : PnData) (atoms : List PnAtom) (offset : Nat) (limit : Int) :
    PnRes × Nat × PnData :=
  pn_data_parse_atoms_loop (4 * atoms.length + 8) d atoms offset offset limit 0

/-- The retry loop of `pn_data_decode`: grow the scratch atom buffer on
overflow; once the byte-level decode succeeds, run `pn_data_parse_atoms` and
return the consumed byte count, whatever the parse stage returned. -/
def pn_data_decode_loop (fuel : Nat) (asize : Nat) (d : PnData) (bs : List Nat) :
    PnRes × Nat × PnData :=
  match fuel with
  | 0 => (.err, 0, d)
  | fuel + 1 =>
    match pn_decode_one bs asize with
    | (.ok, consumed, atoms) =>
      let r := pn_data_parse_atoms d atoms 0 (-1)
      (.ok, consumed, r.2.2)
    | (.overflow, _, _) => pn_data_decode_loop fuel (asize * 2) d bs
    | (e, _, _) => (e, 0, d)

/-- `pn_data_decode` -/
def pn_data_decode (d : PnData) (bs : List Nat) : PnRes × Nat × PnData :=
  pn_data_decode_loop (bs.length + 2) 64 d bs

/-- C9: once the byte-level decode of one top-level value succeeds,
`pn_data_decode` returns the consumed byte count unconditionally — the result
code and count do not depend on what `pn_data_parse_atoms` returns, so a parse
failure after a successful byte-level decode is never surfaced to the caller.
(The equations hold with no assumption at all on the parse stage: its error
code is dropped and only its tree state is kept.) -/
theorem c9_parse_error_not_surfaced :
    (∀ (d : PnData) (bs : List Nat) (asize fuel : Nat),
      (pn_decode_one bs asize).1 = PnRes.ok →
      pn_data_decode_loop (fuel + 1) asize d bs =
        (PnRes.ok, (pn_decode_one bs asize).2.1,
          (pn_data_parse_atoms d (pn_decode_one bs asize).2.2 0 (-1)).2.2)) ∧
    (∀ (d : PnData) (bs : List Nat),
      (pn_decode_one bs 64).1 = PnRes.ok →
      pn_data_decode d bs =
        (PnRes.ok, (pn_decode_one bs 64).2.1,
          (pn_data_parse_atoms d (pn_decode_one bs 64).2.2 0 (-1)).2.2)) := by
  have main : ∀ (d : PnData) (bs : List Nat) (asize fuel : Nat),
      (pn_decode_one bs asize).1 = PnRes.ok →
      pn_data_decode_loop (fuel + 1) asize d bs =
        (PnRes.ok, (pn_decode_one bs asize).2.1,
          (pn_data_parse_atoms d (pn_decode_one bs asize).2.2 0 (-1)).2.2) := by
    intro d bs asize fuel h
    unfold pn_data_decode_loop
    rcases hE : pn_decode_one bs asize with ⟨res, consumed, atoms⟩
    rw [hE] at h
    simp only at h
    subst h
    simp
  refine ⟨main, ?_⟩
  intro d bs h
  unfold pn_data_decode
  have : bs.length + 2 = (bs.length + 1) + 1 := by omega
  rw [this]
  exact main d bs 64 (bs.length + 1) h

/-- Witness for C9 at the one-byte wire value `null` (`0x40`): the byte-level
decode succeeds consuming 1 byte and `pn_data_decode` returns 1. -/
theorem c9_parse_error_not_surfaced_witness :
    (pn_data_decode {} [0x40]).1 = PnRes.ok ∧ (pn_data_decode {} [0x40]).2.1 = 1 := by
  have h := c9_parse_error_not_surfaced.2 {} [0x40] (by decide)
  rw [h]
  constructor
  · rfl
  · decide

/-! ## Copying between trees (`pn_data_appendn`), used by the `C` format
codes. -/

/-- `pn_data_is_array_described` -/
def pn_data_is_array_described (d : PnData) : Bool :=
  match pn_data_current d with
  | some n => n.atom.ptype = .tArray ∧ n.described
  | none => false

/-- `pn_data_get_array_type` (`none` is the C `(pn_type_t) -1`). -/
def pn_data_get_array_type (d : PnData) : Option PnType :=
  match pn_data_current d with
  | some n => if n.atom.ptype = .tArray then some n.etype else none
  | none => none

/-- One copied element in `pn_data_appendn`: put the source's current value
into `data`; for composites enter both trees. -/
def pn_data_appendn_copy (data src : PnData) (level count : Nat) :
    PnData × PnData × Nat × Nat :=
  match pn_data_type src with
  | some .tNull => (pn_data_put_null data, src, level,
      if level = 0 then count + 1 else count)
  | some .tBool => (pn_data_put_bool data (pn_data_get_bool src), src, level,
      if level = 0 then count + 1 else count)
  | some .tUbyte => (pn_data_put_ubyte data (pn_data_get_ubyte src), src, level,
      if level = 0 then count + 1 else count)
  | some .tByte => (pn_data_put_byte data (pn_data_get_byte src), src, level,
      if level = 0 then count + 1 else count)
  | some .tUshort => (pn_data_put_ushort data (pn_data_get_ushort src), src, level,
      if level = 0 then count + 1 else count)
  | some .tShort => (pn_data_put_short data (pn_data_get_short src), src, level,
      if level = 0 then count + 1 else count)
  | some .tUint => (pn_data_put_uint data (pn_data_get_uint src), src, level,
      if level = 0 then count + 1 else count)
  | some .tInt => (pn_data_put_int data (pn_data_get_int src), src, level,
      if level = 0 then count + 1 else count)
  | some .tChar => (pn_data_put_char data (pn_data_get_char src), src, level,
      if level = 0 then count + 1 else count)
  | some .tUlong => (pn_data_put_ulong data (pn_data_get_ulong src), src, level,
      if level = 0 then count + 1 else count)
  | some .tLong => (pn_data_put_long data (pn_data_get_long src), src, level,
      if level = 0 then count + 1 else count)
  | some .tTimestamp => (pn_data_put_timestamp data (pn_data_get_timestamp src), src,
      level, if level = 0 then count + 1 else count)
  | some .tFloat => (pn_data_put_float data (pn_data_get_float src), src, level,
      if level = 0 then count + 1 else count)
  | some .tDouble => (pn_data_put_double data (pn_data_get_double src), src, level,
      if level = 0 then count + 1 else count)
  | some .tDec32 => (pn_data_put_decimal32 data (pn_data_get_decimal32 src), src, level,
      if level = 0 then count + 1 else count)
  | some .tDec64 => (pn_data_put_decimal64 data (pn_data_get_decimal64 src), src, level,
      if level = 0 then count + 1 else count)
  | some .tDec128 => (pn_data_put_decimal128 data (pn_data_get_decimal128 src), src,
      level, if level = 0 then count + 1 else count)
  | some .tUuid => (pn_data_put_uuid data (pn_data_get_uuid src), src, level,
      if level = 0 then count + 1 else count)
  | some .tBinary => (pn_data_put_binary data (pn_data_get_binary src), src, level,
      if level = 0 then count + 1 else count)
  | some .tString => (pn_data_put_string data (pn_data_get_string src), src, level,
      if level = 0 then count + 1 else count)
  | some .tSymbol => (pn_data_put_symbol data (pn_data_get_symbol src), src, level,
      if level = 0 then count + 1 else count)
  | some .tDescriptor =>
    let data1 := (pn_data_enter (pn_data_put_described data)).2
    ((data1 : PnData), (pn_data_enter src).2, level + 1,
      if level = 0 then count + 1 else count)
  | some .tArray =>
    let data1 := (pn_data_enter (pn_data_put_array data
      (pn_data_is_array_described src)
      ((pn_data_get_array_type src).getD .tNull))).2
    (data1, (pn_data_enter src).2, level + 1, if level = 0 then count + 1 else count)
  | some .tList =>
    let data1 := (pn_data_enter (pn_data_put_list data)).2
    (data1, (pn_data_enter src).2, level + 1, if level = 0 then count + 1 else count)
  | some .tMap =>
    let data1 := (pn_data_enter (pn_data_put_map data)).2
    (data1, (pn_data_enter src).2, level + 1, if level = 0 then count + 1 else count)
  | some .tType => (data, src, level, if level = 0 then count + 1 else count)
  | none => (data, src, level, count)

/-- The main loop of `pn_data_appendn`.  The inner `while` of the C source
makes at most one exit attempt per outer iteration: when `next` fails it pops
one level (if any), retries `next`, and stops if that also fails. -/
def pn_data_appendn_loop (fuel : Nat) (data src : PnData) (limit : Int)
    (level count : Nat) : PnData × PnData :=
  match fuel with
  | 0 => (data, src)
  | fuel + 1 =>
    let n1 := pn_data_next src
    let step : Bool × PnData × PnData × Nat :=
      if n1.1 then (false, data, n1.2, level)
      else
        let (data2, src2, level2) :=
          if level > 0 then ((pn_data_exit data).2, (pn_data_exit n1.2).2, level - 1)
          else (data, n1.2, level)
        let n2 := pn_data_next src2
        if n2.1 then (false, data2, n2.2, level2)
        else (true, data2, n2.2, level2)
    match step with
    | (true, data1, src1, _) => (data1, src1)
    | (false, data1, src1, level1) =>
      if level1 = 0 ∧ (count : Int) = limit then (data1, src1)
      else
        let (data2, src2, level2, count2) := pn_data_appendn_copy data1 src1 level1 count
        pn_data_appendn_loop fuel data2 src2 limit level2 count2

/-- `pn_data_appendn` (the put error paths cannot fire in the model, so the
return is the pair of updated trees; `src`'s cursor is restored). -/
def pn_data_appendn (data src : PnData) (limit : Int) : PnData × PnData :=
  let point := pn_data_point src
  let r := pn_data_appendn_loop (2 * src.nodes.length + 4) data (pn_data_rewind src)
    limit 0 0
  (r.1, (pn_data_restore r.2 point).2)

/-! ## The fill interpreter (`pn_data_vfill`, component 4.D). -/

/-- The format characters (one constructor per byte the C `switch` accepts). -/
inductive FChar where
  | fn | fo | fB | fb | fH | fh | fI | fi | fc | fL | fl | ft | ff | fd | fz | fS | fs
  | fD | fT | fAt | fLBracket | fRBracket | fLBrace | fRBrace | fQuest | fStar
  | fC | fDot
  deriving DecidableEq, Repr

/-- One variadic argument consumed by `pn_data_vfill`. -/
inductive FillArg where
  | aNat (v : Nat)
  | aInt (v : Int)
  | aBytes (bs : Option (List Nat))
  | aType (t : PnType)
  | aPred (b : Bool)
  | aTree (d : PnData)
  | aSymbols (syms : List (Option (List Nat)))
  deriving Repr

def FillArg.getNat : FillArg → Nat
  | .aNat v => v
  | _ => 0

def FillArg.getInt : FillArg → Int
  | .aInt v => v
  | _ => 0

def FillArg.getBytes : FillArg → Option (List Nat)
  | .aBytes bs => bs
  | _ => none

def FillArg.getType : FillArg → PnType
  | .aType t => t
  | _ => .tNull

def FillArg.getPred : FillArg → Bool
  | .aPred b => b
  | _ => false

def FillArg.getTree : FillArg → Option PnData
  | .aTree d => some d
  | _ => none

def FillArg.getSymbols : FillArg → List (Option (List Nat))
  | .aSymbols s => s
  | _ => []

/-- The post-element walk of `pn_data_vfill`: exit a descriptor parent once it
has its two children; exit a `?`-emitted null sentinel once it has one child,
discarding that child (`current->down = 0; current->children = 0`). -/
def pn_data_vfill_walkup (fuel : Nat) (d : PnData) : PnData :=
  match fuel with
  | 0 => d
  | fuel + 1 =>
    match pn_data_node d d.parent with
    | none => d
    | some parent =>
      if parent.atom.ptype = .tDescriptor ∧ parent.children = 2 then
        pn_data_vfill_walkup fuel (pn_data_exit d).2
      else if parent.atom.ptype = .tNull ∧ parent.children = 1 then
        let d1 := (pn_data_exit d).2
        let d2 := updNode d1 d1.current (fun nd => { nd with down := 0, children := 0 })
        pn_data_vfill_walkup fuel d2
      else d

/-- The `*s` sub-loop: `pn_data_fill(data, "s", sym)` for each of `count`
symbols (a null pointer puts null, as in the `s` case). -/
def pn_data_vfill_syms (d : PnData) (syms : List (Option (List Nat))) (count : Nat) :
    PnData :=
  match count with
  | 0 => d
  | count + 1 =>
    let d1 := match syms.headD none with
      | some bs => pn_data_vfill_walkup (d.nodes.length + 2) (pn_data_put_symbol d bs)
      | none => pn_data_vfill_walkup (d.nodes.length + 2) (pn_data_put_null d)
    pn_data_vfill_syms d1 (syms.drop 1) count

/-- The loop of `pn_data_vfill`.  The format is the reified character list;
`prevT` records whether the previous character was `T` (the C code inspects
`*(fmt - 2)` at `[`); the `@D` lookahead (`*(fmt + 1)` at `@`) is a nested
match.  `fuel` only bounds the format length, keeping the recursion
structural. -/
def pn_data_vfill_go (fuel : Nat) (d : PnData) (fmt : List FChar) (args : List FillArg)
    (prevT : Bool) : PnRes × PnData :=
  match fuel with
  | 0 => (.err, d)
  | fuel + 1 =>
  match fmt with
  | [] => (.ok, d)
  | code :: fmt =>
    let walk := fun (d1 : PnData) => pn_data_vfill_walkup (d1.nodes.length + 2) d1
    match code with
    | .fn => pn_data_vfill_go fuel (walk (pn_data_put_null d)) fmt args false
    | .fo => pn_data_vfill_go fuel (walk (pn_data_put_bool d ((args.headD (.aNat 0)).getNat ≠ 0)))
        fmt (args.drop 1) false
    | .fB => pn_data_vfill_go fuel (walk (pn_data_put_ubyte d (args.headD (.aNat 0)).getNat))
        fmt (args.drop 1) false
    | .fb => pn_data_vfill_go fuel (walk (pn_data_put_byte d (args.headD (.aInt 0)).getInt))
        fmt (args.drop 1) false
    | .fH => pn_data_vfill_go fuel (walk (pn_data_put_ushort d (args.headD (.aNat 0)).getNat))
        fmt (args.drop 1) false
    | .fh => pn_data_vfill_go fuel (walk (pn_data_put_short d (args.headD (.aInt 0)).getInt))
        fmt (args.drop 1) false
    | .fI => pn_data_vfill_go fuel (walk (pn_data_put_uint d (args.headD (.aNat 0)).getNat))
        fmt (args.drop 1) false
    | .fi => pn_data_vfill_go fuel (walk (pn_data_put_int d (args.headD (.aInt 0)).getInt))
        fmt (args.drop 1) false
    | .fL => pn_data_vfill_go fuel (walk (pn_data_put_ulong d (args.headD (.aNat 0)).getNat))
        fmt (args.drop 1) false
    | .fl => pn_data_vfill_go fuel (walk (pn_data_put_long d (args.headD (.aInt 0)).getInt))
        fmt (args.drop 1) false
    | .ft => pn_data_vfill_go fuel (walk (pn_data_put_timestamp d (args.headD (.aInt 0)).getInt))
        fmt (args.drop 1) false
    | .ff => pn_data_vfill_go fuel (walk (pn_data_put_float d (args.headD (.aNat 0)).getNat))
        fmt (args.drop 1) false
    | .fd => pn_data_vfill_go fuel (walk (pn_data_put_double d (args.headD (.aNat 0)).getNat))
        fmt (args.drop 1) false
    | .fz =>
      match (args.headD (.aBytes none)).getBytes with
      | some bs => pn_data_vfill_go fuel (walk (pn_data_put_binary d bs)) fmt (args.drop 1) false
      | none => pn_data_vfill_go fuel (walk (pn_data_put_null d)) fmt (args.drop 1) false
    | .fS =>
      match (args.headD (.aBytes none)).getBytes with
      | some bs => pn_data_vfill_go fuel (walk (pn_data_put_string d bs)) fmt (args.drop 1) false
      | none => pn_data_vfill_go fuel (walk (pn_data_put_null d)) fmt (args.drop 1) false
    | .fs =>
      match (args.headD (.aBytes none)).getBytes with
      | some bs => pn_data_vfill_go fuel (walk (pn_data_put_symbol d bs)) fmt (args.drop 1) false
      | none => pn_data_vfill_go fuel (walk (pn_data_put_null d)) fmt (args.drop 1) false
    | .fD =>
      pn_data_vfill_go fuel (walk (pn_data_enter (pn_data_put_described d)).2) fmt args false
    | .fT =>
      match pn_data_node d d.parent with
      | some parent =>
        if parent.atom.ptype = .tArray then
          pn_data_vfill_go fuel
            (walk (updNode d d.parent (fun nd =>
              { nd with etype := (args.headD (.aType .tNull)).getType })))
            fmt (args.drop 1) true
        else (.err, d)
      | none => (.err, d)
    | .fAt =>
      -- `@`: the C peeks `*(fmt + 1)` — the second character after `@` — and
      -- on `D` skips one character (`fmt++`), leaving the `D` itself to be
      -- interpreted next.
      match fmt with
      | _ :: .fD :: fmt1 =>
        pn_data_vfill_go fuel (walk (pn_data_enter (pn_data_put_array d true .tNull)).2)
          (.fD :: fmt1) args false
      | _ =>
        pn_data_vfill_go fuel (walk (pn_data_enter (pn_data_put_array d false .tNull)).2)
          fmt args false
    | .fLBracket =>
      if prevT then pn_data_vfill_go fuel d fmt args false
      else pn_data_vfill_go fuel (walk (pn_data_enter (pn_data_put_list d)).2) fmt args false
    | .fLBrace =>
      pn_data_vfill_go fuel (walk (pn_data_enter (pn_data_put_map d)).2) fmt args false
    | .fRBracket =>
      let r := pn_data_exit d
      if r.1 then pn_data_vfill_go fuel (walk r.2) fmt args false else (.err, r.2)
    | .fRBrace =>
      let r := pn_data_exit d
      if r.1 then pn_data_vfill_go fuel (walk r.2) fmt args false else (.err, r.2)
    | .fQuest =>
      if (args.headD (.aPred false)).getPred then
        pn_data_vfill_go fuel (walk d) fmt (args.drop 1) false
      else
        pn_data_vfill_go fuel (walk (pn_data_enter (pn_data_put_null d)).2) fmt (args.drop 1)
          false
    | .fStar =>
      let count := (args.headD (.aNat 0)).getNat
      let syms := (args.getD 1 (.aSymbols [])).getSymbols
      match fmt with
      | .fs :: fmt1 =>
        pn_data_vfill_go fuel (walk (pn_data_vfill_syms d syms count)) fmt1 (args.drop 2) false
      | _ => (.argErr, d)
    | .fC =>
      match (args.headD (.aBytes none)).getTree with
      | some src =>
        if pn_data_size src > 0 then
          pn_data_vfill_go fuel (walk (pn_data_appendn d src 1).1) fmt (args.drop 1) false
        else
          pn_data_vfill_go fuel (walk (pn_data_put_null d)) fmt (args.drop 1) false
      | none => pn_data_vfill_go fuel (walk (pn_data_put_null d)) fmt (args.drop 1) false
    | .fDot => (.argErr, d)
    | .fc => (.argErr, d)

/-- `pn_data_vfill` -/
def pn_data_vfill (d : PnData) (fmt : List FChar) (args : List FillArg) :
    PnRes × PnData :=
  pn_data_vfill_go (fmt.length + 1) d fmt args false

/-! ## The scan interpreter (`pn_data_vscan`). -/

/-- `pn_scan_next`: advance within the current level; at the end of a sibling
list climb out of descriptor parents and retry.  `none` plays the C
`*type = -1`; the fuel bounds the number of `pn_data_exit` climbs (at most the
tree depth). -/
def pn_scan_next (fuel : Nat) (d : PnData) (suspend : Bool) :
    Bool × Option PnType × PnData :=
  match fuel with
  | 0 => (false, none, d)
  | fuel + 1 =>
    if suspend then (false, none, d)
    else
      let r := pn_data_next d
      if r.1 then (true, pn_data_type r.2, r.2)
      else
        match pn_data_node r.2 r.2.parent with
        | some parent =>
          if parent.atom.ptype = PnType.tDescriptor then
            pn_scan_next fuel (pn_data_exit r.2).2 suspend
          else (false, none, r.2)
        | none => (false, none, r.2)

/-- One value written through a `pn_data_vscan` output pointer, in the order
the C writes it (a `?` scanarg write is emitted at the moment of the write,
at the end of the iteration that consumes the guarded code). -/
inductive ScanVal where
  | vBool (b : Bool)
  | vNat (n : Nat)
  | vInt (i : Int)
  | vBytes (bs : List Nat)
  | vTree (d : PnData)
  | vArg (b : Bool)
  deriving DecidableEq, Repr

/-- The interpreter state of `pn_data_vscan`: the tree plus the C locals
(`at`, `level`, `count_level`, `resume_count`, the pending `scanarg` pointer
and the per-iteration `scanned` flag), the output-pointer write trace, and the
remaining `C`-code destination trees. -/
structure ScanSt where
  d : PnData
  atFlag : Bool := false
  level : Int := 0
  count_level : Int := -1
  resume_count : Nat := 0
  scanargPending : Bool := false
  scanned : Bool := false
  out : List ScanVal := []
  cargs : List PnData := []
  deriving Repr

/-- The per-iteration `if (resume_count && level == count_level)
resume_count--;` bookkeeping shared by most scan codes. -/
def ScanSt.dec (st : ScanSt) : ScanSt :=
  if st.resume_count ≠ 0 ∧ st.level = st.count_level then
    { st with resume_count := st.resume_count - 1 }
  else st

/-- A value-reading scan code: `pn_scan_next`, compare the type, then write
the payload (on a match) or the zero value of the kind through the output
pointer. -/
def pn_data_vscan_leaf (st : ScanSt) (want : PnType) (read : PnData → ScanVal)
    (zero : ScanVal) : ScanSt :=
  let suspend := decide (st.resume_count > 0)
  let r := pn_scan_next (st.d.nodes.length + 1) st.d suspend
  if r.1 ∧ r.2.1 = some want then
    ScanSt.dec { st with d := r.2.2, scanned := true, out := st.out ++ [read r.2.2] }
  else
    ScanSt.dec { st with d := r.2.2, scanned := false, out := st.out ++ [zero] }

/-- One iteration of the `pn_data_vscan` loop: dispatch on the scan code.
`rest` is the remaining format (the `?` lookahead reads it); the second
component is `some r` when the C returns early with `r`.  `T` and `*` fall to
the `default` case of the C switch (the `T` case is commented out in the
source), and `]`/`}` leave `scanned` untouched (the C reads an uninitialized
local if a `?` guards them; the model keeps the previous iteration's value). -/
def pn_data_vscan_step (st : ScanSt) (code : FChar) (rest : List FChar) :
    ScanSt × Option PnRes :=
  let suspend := decide (st.resume_count > 0)
  match code with
  | .fn =>
    let r := pn_scan_next (st.d.nodes.length + 1) st.d suspend
    (ScanSt.dec { st with d := r.2.2, scanned := r.1 && decide (r.2.1 = some PnType.tNull) }, none)
  | .fo => (pn_data_vscan_leaf st .tBool (fun d => .vBool (pn_data_get_bool d))
      (.vBool false), none)
  | .fB => (pn_data_vscan_leaf st .tUbyte (fun d => .vNat (pn_data_get_ubyte d))
      (.vNat 0), none)
  | .fb => (pn_data_vscan_leaf st .tByte (fun d => .vInt (pn_data_get_byte d))
      (.vInt 0), none)
  | .fH => (pn_data_vscan_leaf st .tUshort (fun d => .vNat (pn_data_get_ushort d))
      (.vNat 0), none)
  | .fh => (pn_data_vscan_leaf st .tShort (fun d => .vInt (pn_data_get_short d))
      (.vInt 0), none)
  | .fI => (pn_data_vscan_leaf st .tUint (fun d => .vNat (pn_data_get_uint d))
      (.vNat 0), none)
  | .fi => (pn_data_vscan_leaf st .tInt (fun d => .vInt (pn_data_get_int d))
      (.vInt 0), none)
  | .fc => (pn_data_vscan_leaf st .tChar (fun d => .vNat (pn_data_get_char d))
      (.vNat 0), none)
  | .fL => (pn_data_vscan_leaf st .tUlong (fun d => .vNat (pn_data_get_ulong d))
      (.vNat 0), none)
  | .fl => (pn_data_vscan_leaf st .tLong (fun d => .vInt (pn_data_get_long d))
      (.vInt 0), none)
  | .ft => (pn_data_vscan_leaf st .tTimestamp
      (fun d => .vInt (pn_data_get_timestamp d)) (.vInt 0), none)
  | .ff => (pn_data_vscan_leaf st .tFloat (fun d => .vNat (pn_data_get_float d))
      (.vNat 0), none)
  | .fd => (pn_data_vscan_leaf st .tDouble (fun d => .vNat (pn_data_get_double d))
      (.vNat 0), none)
  | .fz => (pn_data_vscan_leaf st .tBinary (fun d => .vBytes (pn_data_get_binary d))
      (.vBytes []), none)
  | .fS => (pn_data_vscan_leaf st .tString (fun d => .vBytes (pn_data_get_string d))
      (.vBytes []), none)
  | .fs => (pn_data_vscan_leaf st .tSymbol (fun d => .vBytes (pn_data_get_symbol d))
      (.vBytes []), none)
  | .fD =>
    let r := pn_scan_next (st.d.nodes.length + 1) st.d suspend
    let st1 :=
      if r.1 ∧ r.2.1 = some PnType.tDescriptor then
        { st with d := (pn_data_enter r.2.2).2, scanned := true }
      else if suspend then { st with d := r.2.2, scanned := false }
      else { st with d := r.2.2, scanned := false, resume_count := 3, count_level := st.level }
    (ScanSt.dec st1, none)
  | .fT => (st, some .argErr)
  | .fAt =>
    let r := pn_scan_next (st.d.nodes.length + 1) st.d suspend
    let st1 :=
      if r.1 ∧ r.2.1 = some PnType.tArray then
        { st with d := (pn_data_enter r.2.2).2, scanned := true, atFlag := true }
      else if suspend then { st with d := r.2.2, scanned := false }
      else { st with d := r.2.2, scanned := false, resume_count := 3, count_level := st.level }
    (ScanSt.dec st1, none)
  | .fLBracket =>
    let st1 :=
      if st.atFlag then { st with scanned := true, atFlag := false }
      else
        let r := pn_scan_next (st.d.nodes.length + 1) st.d suspend
        if r.1 ∧ r.2.1 = some PnType.tList then
          { st with d := (pn_data_enter r.2.2).2, scanned := true }
        else if suspend then { st with d := r.2.2, scanned := false }
        else { st with d := r.2.2, scanned := false, resume_count := 1, count_level := st.level }
    ({ st1 with level := st1.level + 1 }, none)
  | .fLBrace =>
    -- The failure branch here is guarded by `if (resume_count)` — unlike the
    -- `if (!suspend)` of the `D`/`@`/`[` cases.
    let r := pn_scan_next (st.d.nodes.length + 1) st.d suspend
    let st1 :=
      if r.1 ∧ r.2.1 = some PnType.tMap then
        { st with d := (pn_data_enter r.2.2).2, scanned := true }
      else if st.resume_count ≠ 0 then
        { st with d := r.2.2, scanned := false, resume_count := 1, count_level := st.level }
      else { st with d := r.2.2, scanned := false }
    ({ st1 with level := st1.level + 1 }, none)
  | .fRBracket =>
    let st1 : ScanSt := { st with level := st.level - 1 }
    if suspend then (ScanSt.dec st1, none)
    else
      let r := pn_data_exit st1.d
      if r.1 then (ScanSt.dec { st1 with d := r.2 }, none)
      else ({ st1 with d := r.2 }, some .err)
  | .fRBrace =>
    let st1 : ScanSt := { st with level := st.level - 1 }
    if suspend then (ScanSt.dec st1, none)
    else
      let r := pn_data_exit st1.d
      if r.1 then (ScanSt.dec { st1 with d := r.2 }, none)
      else ({ st1 with d := r.2 }, some .err)
  | .fDot =>
    let r := pn_scan_next (st.d.nodes.length + 1) st.d suspend
    (ScanSt.dec { st with d := r.2.2, scanned := r.1 }, none)
  | .fQuest =>
    match rest with
    | [] => (st, some .argErr)
    | c :: _ =>
      if c = FChar.fQuest then (st, some .argErr)
      else ({ st with scanargPending := true }, none)
  | .fC =>
    let dst := st.cargs.headD {}
    let st1 :=
      if suspend then
        { st with scanned := false, out := st.out ++ [ScanVal.vTree dst], cargs := st.cargs.drop 1 }
      else
        let old := pn_data_size dst
        match pn_data_peek st.d with
        | some n =>
          if n.atom.ptype ≠ PnType.tNull then
            let r := pn_data_appendn dst (pn_data_narrow st.d) 1
            let dW := pn_data_widen r.2
            { st with
              d := (pn_data_next dW).2
              scanned := decide (pn_data_size r.1 > old)
              out := st.out ++ [ScanVal.vTree r.1]
              cargs := st.cargs.drop 1 }
          else
            { st with
              d := (pn_data_next st.d).2
              scanned := false
              out := st.out ++ [ScanVal.vTree dst]
              cargs := st.cargs.drop 1 }
        | none =>
          { st with
            d := (pn_data_next st.d).2
            scanned := false
            out := st.out ++ [ScanVal.vTree dst]
            cargs := st.cargs.drop 1 }
    (ScanSt.dec st1, none)
  | .fStar => (st, some .argErr)

/-- The loop of `pn_data_vscan`: run the step for each format character and
apply the shared epilogue (a pending `?` scanarg is written after every
non-`?` code). -/
def pn_data_vscan_go (st : ScanSt) (fmt : List FChar) : PnRes × ScanSt :=
  match fmt with
  | [] => (.ok, st)
  | code :: rest =>
    let r := pn_data_vscan_step st code rest
    match r.2 with
    | some res => (res, r.1)
    | none =>
      let st1 := r.1
      let st2 :=
        if st1.scanargPending ∧ code ≠ FChar.fQuest then
          { st1 with out := st1.out ++ [ScanVal.vArg st1.scanned], scanargPending := false }
        else st1
      pn_data_vscan_go st2 rest

/-- `pn_data_vscan`: rewind, then interpret the format.  The result pairs the
C return value with the final interpreter state (data, locals and the output
write trace). -/
def pn_data_vscan (d : PnData) (fmt : List FChar) (cargs : List PnData) :
    PnRes × ScanSt :=
  pn_data_vscan_go { d := pn_data_rewind d, cargs := cargs } fmt

/-- C3.  Suspend entry on a failed structural match, while not already
suspended: `D` and `@` set `resume_count` to 3 keyed to the current level (the
shared end-of-iteration bookkeeping then decrements it once, leaving 2), and
`[` sets it to 1 — but `{` does NOT enter the suspend state: its failure
branch is guarded by `if (resume_count)` instead of `if (!suspend)`, so with
`resume_count = 0` nothing is set and `count_level` is untouched.  While
suspended, value codes consume format characters without advancing the tree
cursor.  Concretely, scanning a tree holding one boolean with `"[o]"`
suspends and returns ok, while the same scan with `"{o}"` reaches the `}`
unsuspended and fails with an exit error. -/
theorem c3_map_suspend_guard (st : ScanSt) (rest : List FChar)
    (hrc : st.resume_count = 0) (hat : st.atFlag = false)
    (hfail : (pn_scan_next (st.d.nodes.length + 1) st.d false).1 = false) :
    (((pn_data_vscan_step st .fD rest).1.resume_count = 2 ∧
      (pn_data_vscan_step st .fD rest).1.count_level = st.level) ∧
     ((pn_data_vscan_step st .fAt rest).1.resume_count = 2 ∧
      (pn_data_vscan_step st .fAt rest).1.count_level = st.level) ∧
     ((pn_data_vscan_step st .fLBracket rest).1.resume_count = 1 ∧
      (pn_data_vscan_step st .fLBracket rest).1.count_level = st.level ∧
      (pn_data_vscan_step st .fLBracket rest).1.level = st.level + 1) ∧
     ((pn_data_vscan_step st .fLBrace rest).1.resume_count = 0 ∧
      (pn_data_vscan_step st .fLBrace rest).1.count_level = st.count_level ∧
      (pn_data_vscan_step st .fLBrace rest).1.level = st.level + 1)) ∧
    (∀ (st' : ScanSt) (rest' : List FChar), st'.resume_count ≠ 0 →
      (pn_data_vscan_step st' .fo rest').1.d = st'.d ∧
      (pn_data_vscan_step st' .fI rest').1.d = st'.d ∧
      (pn_data_vscan_step st' .fS rest').1.d = st'.d) ∧
    ((pn_data_vscan (pn_data_put_bool {} true) [.fLBracket, .fo, .fRBracket] []).1 = .ok ∧
     (pn_data_vscan (pn_data_put_bool {} true) [.fLBrace, .fo, .fRBrace] []).1 = .err) := by
  refine ⟨⟨?_, ?_, ?_, ?_⟩, ?_, by decide⟩
  · simp [pn_data_vscan_step, hrc, hfail, ScanSt.dec]
  · simp [pn_data_vscan_step, hrc, hfail, ScanSt.dec]
  · simp [pn_data_vscan_step, hrc, hat, hfail, ScanSt.dec]
  · simp [pn_data_vscan_step, hrc, hfail, ScanSt.dec]
  · intro st' rest' h
    have hpos : 0 < st'.resume_count := Nat.pos_of_ne_zero h
    refine ⟨?_, ?_, ?_⟩ <;>
      (simp [pn_data_vscan_step, pn_data_vscan_leaf, pn_scan_next, hpos, ScanSt.dec];
        split <;> rfl)

/-- C5.  The post-element walkup of the fill interpreter: when the current
parent is a descriptor with exactly 2 children the walk exits it and
continues; when the current parent is a null sentinel (the node a false `?`
put and entered) with exactly 1 child, the walk exits and resets the
sentinel's child link and count, discarding the child; any other parent stops
the walk.  Consequently a descriptor consumes exactly two elements — filling
`"DLl"` into an empty tree ends with the cursor back at the root, which is a
descriptor holding exactly the two payloads — and a false-guarded composite
consumes its body while writing nothing inside: filling `"?[I]"` with a false
predicate leaves a single bare null at the root (no child link, no
children), with the cursor back at the root. -/
theorem c5_vfill_walkup_descriptor_and_null (fuel : Nat) (d : PnData) (parent : PnNode)
    (hp : pn_data_node d d.parent = some parent) :
    ((parent.atom.ptype = PnType.tDescriptor ∧ parent.children = 2 →
      pn_data_vfill_walkup (fuel + 1) d = pn_data_vfill_walkup fuel (pn_data_exit d).2) ∧
     (parent.atom.ptype = PnType.tNull ∧ parent.children = 1 →
      pn_data_vfill_walkup (fuel + 1) d =
        pn_data_vfill_walkup fuel
          (updNode (pn_data_exit d).2 (pn_data_exit d).2.current
            (fun nd => { nd with down := 0, children := 0 }))) ∧
     (¬ (parent.atom.ptype = PnType.tDescriptor ∧ parent.children = 2) →
      ¬ (parent.atom.ptype = PnType.tNull ∧ parent.children = 1) →
      pn_data_vfill_walkup (fuel + 1) d = d)) ∧
    ((pn_data_vfill {} [.fD, .fL, .fl] [.aNat 18, .aInt (-7)]).1 = PnRes.ok ∧
     (pn_data_vfill {} [.fD, .fL, .fl] [.aNat 18, .aInt (-7)]).2.parent = 0 ∧
     (pn_data_vfill {} [.fD, .fL, .fl] [.aNat 18, .aInt (-7)]).2.current = 1 ∧
     (getNode (pn_data_vfill {} [.fD, .fL, .fl] [.aNat 18, .aInt (-7)]).2 1).atom =
       PnAtom.adescriptor ∧
     (getNode (pn_data_vfill {} [.fD, .fL, .fl] [.aNat 18, .aInt (-7)]).2 1).children = 2 ∧
     (getNode (pn_data_vfill {} [.fD, .fL, .fl] [.aNat 18, .aInt (-7)]).2 1).down = 2 ∧
     (getNode (pn_data_vfill {} [.fD, .fL, .fl] [.aNat 18, .aInt (-7)]).2 2).atom =
       PnAtom.aulong 18 ∧
     (getNode (pn_data_vfill {} [.fD, .fL, .fl] [.aNat 18, .aInt (-7)]).2 2).next = 3 ∧
     (getNode (pn_data_vfill {} [.fD, .fL, .fl] [.aNat 18, .aInt (-7)]).2 3).atom =
       PnAtom.along (-7)) ∧
    ((pn_data_vfill {} [.fQuest, .fLBracket, .fI, .fRBracket] [.aPred false, .aNat 3]).1 =
       PnRes.ok ∧
     (pn_data_vfill {} [.fQuest, .fLBracket, .fI, .fRBracket]
       [.aPred false, .aNat 3]).2.parent = 0 ∧
     (pn_data_vfill {} [.fQuest, .fLBracket, .fI, .fRBracket]
       [.aPred false, .aNat 3]).2.current = 1 ∧
     (getNode (pn_data_vfill {} [.fQuest, .fLBracket, .fI, .fRBracket]
       [.aPred false, .aNat 3]).2 1).atom = PnAtom.anull ∧
     (getNode (pn_data_vfill {} [.fQuest, .fLBracket, .fI, .fRBracket]
       [.aPred false, .aNat 3]).2 1).down = 0 ∧
     (getNode (pn_data_vfill {} [.fQuest, .fLBracket, .fI, .fRBracket]
       [.aPred false, .aNat 3]).2 1).children = 0 ∧
     (getNode (pn_data_vfill {} [.fQuest, .fLBracket, .fI, .fRBracket]
       [.aPred false, .aNat 3]).2 1).next = 0) := by
  refine ⟨⟨?_, ?_, ?_⟩, by decide, by decide⟩
  · intro h
    simp [pn_data_vfill_walkup, hp, h.1, h.2]
  · intro h
    have hnd : ¬ (parent.atom.ptype = PnType.tDescriptor ∧ parent.children = 2) := by
      rintro ⟨h1, -⟩
      rw [h.1] at h1
      exact absurd h1 (by decide)
    simp only [pn_data_vfill_walkup, hp]
    rw [if_neg hnd, if_pos h]
  · intro h1 h2
    simp only [pn_data_vfill_walkup, hp]
    rw [if_neg h1, if_neg h2]

theorem c5_vfill_walkup_descriptor_and_null_witness :
    pn_data_vfill_walkup 1 ({ nodes := [{}], parent := 1 } : PnData) =
      { nodes := [{}], parent := 1 } ∧
    (pn_data_vfill {} [.fD, .fL, .fl] [.aNat 18, .aInt (-7)]).1 = PnRes.ok :=
  ⟨(c5_vfill_walkup_descriptor_and_null 0 { nodes := [{}], parent := 1 } {}
      (by decide)).1.2.2 (by decide) (by decide),
   (c5_vfill_walkup_descriptor_and_null 0 { nodes := [{}], parent := 1 } {}
      (by decide)).2.1.1⟩

/-! ## The structural tree invariants (C7): every child's `parent` equals its
parent's index, siblings form a doubly linked list headed by the parent's
`down` link, and `children` counts that list. -/

/-- A counted sibling list: starting at `head` and following `next` visits
exactly `count` nodes, each nonzero, in range, with parent field `p`, and with
`prev` naming the previous sibling (`prevId` before the head); the last
node's `next` is 0. -/
def chainOk (ns : List PnNode) (p head prevId count : Nat) : Bool :=
  match count with
  | 0 => head == 0
  | count + 1 =>
    (head != 0) && decide (head ≤ ns.length) &&
    ((getNodeL ns head).parent == p) && ((getNodeL ns head).prev == prevId) &&
    chainOk ns p (getNodeL ns head).next head count

/-- Membership in a counted sibling list. -/
def chainMem (ns : List PnNode) (head count i : Nat) : Bool :=
  match count with
  | 0 => false
  | count + 1 => (head != 0) && ((head == i) || chainMem ns (getNodeL ns head).next count i)

/-- The top-level sibling list (head node 1 once the tree is nonempty),
checked with fuel instead of a stored count. -/
def rootOk (ns : List PnNode) (fuel head prevId : Nat) : Bool :=
  match fuel with
  | 0 => head == 0
  | fuel + 1 =>
    (head == 0) ||
    (decide (head ≤ ns.length) && ((getNodeL ns head).parent == 0) &&
     ((getNodeL ns head).prev == prevId) && rootOk ns fuel (getNodeL ns head).next head)

/-- Membership in the top-level sibling list. -/
def rootMem (ns : List PnNode) (fuel head i : Nat) : Bool :=
  match fuel with
  | 0 => false
  | fuel + 1 => (head != 0) && ((head == i) || rootMem ns fuel (getNodeL ns head).next i)

def rootHead (ns : List PnNode) : Nat := if ns.length = 0 then 0 else 1

/-- `i` is a member of the sibling list under `q` (`q = 0`: the top level). -/
def sibMem (ns : List PnNode) (q i : Nat) : Bool :=
  if q = 0 then rootMem ns ns.length (rootHead ns) i
  else chainMem ns (getNodeL ns q).down (getNodeL ns q).children i

/-- Parents precede their children in the node store (`pn_data_add` only ever
hands out fresh indices below an existing parent). -/
def parentLt (ns : List PnNode) : Bool :=
  (List.range ns.length).all (fun k => decide ((getNodeL ns (k + 1)).parent ≤ k))

/-- Every node's child list is well formed. -/
def nodesOk (ns : List PnNode) : Bool :=
  (List.range ns.length).all (fun k =>
    chainOk ns (k + 1) (getNodeL ns (k + 1)).down 0 (getNodeL ns (k + 1)).children)

/-- Every node on the parent chain from `p` sits in its own parent's sibling
list. -/
def pathOk (ns : List PnNode) (fuel p : Nat) : Bool :=
  match fuel with
  | 0 => p == 0
  | fuel + 1 =>
    (p == 0) ||
    (decide (p ≤ ns.length) && sibMem ns (getNodeL ns p).parent p &&
     pathOk ns fuel (getNodeL ns p).parent)

/-- The full structural invariant of a `pn_data_t`: well-formed child lists
everywhere, a well-formed top-level list, parent indices below child indices,
and a valid cursor (the parent chain from `data->parent` is real and
`data->current`, when set, lies in `data->parent`'s sibling list). -/
def treeWF (d : PnData) : Bool :=
  nodesOk d.nodes && rootOk d.nodes d.nodes.length (rootHead d.nodes) 0 &&
  parentLt d.nodes && decide (d.parent ≤ d.nodes.length) &&
  decide (d.current ≤ d.nodes.length) &&
  pathOk d.nodes (d.nodes.length + 1) d.parent &&
  (d.current == 0 ||
   (((getNodeL d.nodes d.current).parent == d.parent) && sibMem d.nodes d.parent d.current))

/-! Unfolding lemmas for the invariant checkers. -/

theorem chainOk_zero_iff (ns : List PnNode) (p head prevId : Nat) :
    chainOk ns p head prevId 0 = true ↔ head = 0 := by
  simp [chainOk]

theorem chainOk_succ_iff (ns : List PnNode) (p head prevId c : Nat) :
    chainOk ns p head prevId (c + 1) = true ↔
      head ≠ 0 ∧ head ≤ ns.length ∧ (getNodeL ns head).parent = p ∧
      (getNodeL ns head).prev = prevId ∧
      chainOk ns p (getNodeL ns head).next head c = true := by
  simp [chainOk, Bool.and_eq_true, decide_eq_true_eq, and_assoc]

theorem chainMem_succ_iff (ns : List PnNode) (head c i : Nat) :
    chainMem ns head (c + 1) i = true ↔
      head ≠ 0 ∧ (head = i ∨ chainMem ns (getNodeL ns head).next c i = true) := by
  simp [chainMem, Bool.and_eq_true, Bool.or_eq_true]

theorem rootOk_succ_iff (ns : List PnNode) (fuel head prevId : Nat) :
    rootOk ns (fuel + 1) head prevId = true ↔
      head = 0 ∨ (head ≤ ns.length ∧ (getNodeL ns head).parent = 0 ∧
        (getNodeL ns head).prev = prevId ∧
        rootOk ns fuel (getNodeL ns head).next head = true) := by
  simp [rootOk, Bool.and_eq_true, Bool.or_eq_true, decide_eq_true_eq, and_assoc]

theorem rootMem_succ_iff (ns : List PnNode) (fuel head i : Nat) :
    rootMem ns (fuel + 1) head i = true ↔
      head ≠ 0 ∧ (head = i ∨ rootMem ns fuel (getNodeL ns head).next i = true) := by
  simp [rootMem, Bool.and_eq_true, Bool.or_eq_true]

theorem pathOk_succ_iff (ns : List PnNode) (fuel p : Nat) :
    pathOk ns (fuel + 1) p = true ↔
      p = 0 ∨ (p ≤ ns.length ∧ sibMem ns (getNodeL ns p).parent p = true ∧
        pathOk ns fuel (getNodeL ns p).parent = true) := by
  simp [pathOk, Bool.and_eq_true, Bool.or_eq_true, decide_eq_true_eq, and_assoc]

theorem nodesOk_iff (ns : List PnNode) :
    nodesOk ns = true ↔
      ∀ q, q ≠ 0 → q ≤ ns.length →
        chainOk ns q (getNodeL ns q).down 0 (getNodeL ns q).children = true := by
  simp only [nodesOk, List.all_eq_true, List.mem_range]
  constructor
  · intro h q hq hle
    have := h (q - 1) (by omega)
    have hq1 : q - 1 + 1 = q := by omega
    rwa [hq1] at this
  · intro h k hk
    exact h (k + 1) (by omega) (by omega)

theorem parentLt_spec (ns : List PnNode) (h : parentLt ns = true) (p : Nat) (hp : p ≠ 0)
    (hle : p ≤ ns.length) : (getNodeL ns p).parent < p := by
  simp only [parentLt, List.all_eq_true, List.mem_range, decide_eq_true_eq] at h
  have := h (p - 1) (by omega)
  have hp1 : p - 1 + 1 = p := by omega
  rw [hp1] at this
  omega

theorem parentLt_iff (ns : List PnNode) :
    parentLt ns = true ↔ ∀ p, p ≠ 0 → p ≤ ns.length → (getNodeL ns p).parent < p := by
  constructor
  · exact fun h p => parentLt_spec ns h p
  · intro h
    simp only [parentLt, List.all_eq_true, List.mem_range, decide_eq_true_eq]
    intro k hk
    have := h (k + 1) (by omega) (by omega)
    omega

theorem treeWF_iff (d : PnData) :
    treeWF d = true ↔
      nodesOk d.nodes = true ∧
      rootOk d.nodes d.nodes.length (rootHead d.nodes) 0 = true ∧
      parentLt d.nodes = true ∧
      d.parent ≤ d.nodes.length ∧
      d.current ≤ d.nodes.length ∧
      pathOk d.nodes (d.nodes.length + 1) d.parent = true ∧
      (d.current = 0 ∨
        ((getNodeL d.nodes d.current).parent = d.parent ∧
         sibMem d.nodes d.parent d.current = true)) := by
  simp [treeWF, Bool.and_eq_true, Bool.or_eq_true, decide_eq_true_eq, and_assoc]

/-! Transfer lemmas: the checkers only look at a node's link fields
(`parent`, `prev`, `next`) for list members and at `down`/`children` of the
list owner, so they carry over to any node store agreeing there. -/

theorem rootOk_zero_head (ns : List PnNode) (fuel prevId : Nat) :
    rootOk ns fuel 0 prevId = true := by
  cases fuel <;> simp [rootOk]

theorem chainOk_head_zero (ns : List PnNode) (p prevId c : Nat)
    (h : chainOk ns p 0 prevId c = true) : c = 0 := by
  cases c with
  | zero => rfl
  | succ c => rw [chainOk_succ_iff] at h; exact absurd rfl h.1

theorem chainOk_mono_env {ns ns' : List PnNode} {p : Nat}
    (hlen : ns.length ≤ ns'.length)
    (hE : ∀ i, i ≠ 0 → i ≤ ns.length → (getNodeL ns i).parent = p →
      (getNodeL ns' i).parent = (getNodeL ns i).parent ∧
      (getNodeL ns' i).prev = (getNodeL ns i).prev ∧
      (getNodeL ns' i).next = (getNodeL ns i).next) :
    ∀ count head prevId, chainOk ns p head prevId count = true →
      chainOk ns' p head prevId count = true := by
  intro count
  induction count with
  | zero => intro head prevId h; rw [chainOk_zero_iff] at h ⊢; exact h
  | succ c ih =>
    intro head prevId h
    rw [chainOk_succ_iff] at h ⊢
    obtain ⟨h1, h2, h3, h4, h5⟩ := h
    obtain ⟨e1, e2, e3⟩ := hE head h1 h2 h3
    exact ⟨h1, le_trans h2 hlen, by rw [e1, h3], by rw [e2, h4], by rw [e3]; exact ih _ _ h5⟩

theorem chainMem_mono_env {ns ns' : List PnNode} {p : Nat}
    (hE : ∀ i, i ≠ 0 → i ≤ ns.length → (getNodeL ns i).parent = p →
      (getNodeL ns' i).next = (getNodeL ns i).next) :
    ∀ count head prevId i, chainOk ns p head prevId count = true →
      chainMem ns head count i = true → chainMem ns' head count i = true := by
  intro count
  induction count with
  | zero => intro head prevId i _ hm; simp [chainMem] at hm
  | succ c ih =>
    intro head prevId i hok hm
    rw [chainOk_succ_iff] at hok
    rw [chainMem_succ_iff] at hm ⊢
    obtain ⟨h1, h2, h3, h4, h5⟩ := hok
    refine ⟨hm.1, ?_⟩
    rcases hm.2 with he | hmm
    · exact Or.inl he
    · right
      rw [hE head h1 h2 h3]
      exact ih _ _ _ h5 hmm

theorem chainMem_spec {ns : List PnNode} {p : Nat} :
    ∀ count head prevId i, chainOk ns p head prevId count = true →
      chainMem ns head count i = true →
      i ≠ 0 ∧ i ≤ ns.length ∧ (getNodeL ns i).parent = p := by
  intro count
  induction count with
  | zero => intro head prevId i _ hm; simp [chainMem] at hm
  | succ c ih =>
    intro head prevId i hok hm
    rw [chainOk_succ_iff] at hok
    rw [chainMem_succ_iff] at hm
    obtain ⟨h1, h2, h3, h4, h5⟩ := hok
    rcases hm.2 with he | hmm
    · subst he; exact ⟨h1, h2, h3⟩
    · exact ih _ _ _ h5 hmm

theorem rootOk_mono_env {ns ns' : List PnNode}
    (hlen : ns.length ≤ ns'.length)
    (hE : ∀ i, i ≠ 0 → i ≤ ns.length → (getNodeL ns i).parent = 0 →
      (getNodeL ns' i).parent = (getNodeL ns i).parent ∧
      (getNodeL ns' i).prev = (getNodeL ns i).prev ∧
      (getNodeL ns' i).next = (getNodeL ns i).next) :
    ∀ fuel head prevId, rootOk ns fuel head prevId = true →
      rootOk ns' fuel head prevId = true := by
  intro fuel
  induction fuel with
  | zero => intro head prevId h; simpa [rootOk] using h
  | succ f ih =>
    intro head prevId h
    rw [rootOk_succ_iff] at h ⊢
    rcases h with h0 | ⟨h1, h2, h3, h4⟩
    · exact Or.inl h0
    · by_cases hz : head = 0
      · exact Or.inl hz
      · obtain ⟨e1, e2, e3⟩ := hE head hz h1 h2
        exact Or.inr ⟨le_trans h1 hlen, by rw [e1, h2], by rw [e2, h3],
          by rw [e3]; exact ih _ _ h4⟩

theorem rootMem_mono_env {ns ns' : List PnNode}
    (hE : ∀ i, i ≠ 0 → i ≤ ns.length → (getNodeL ns i).parent = 0 →
      (getNodeL ns' i).next = (getNodeL ns i).next) :
    ∀ fuel head prevId i, rootOk ns fuel head prevId = true →
      rootMem ns fuel head i = true → rootMem ns' fuel head i = true := by
  intro fuel
  induction fuel with
  | zero => intro head prevId i _ hm; simp [rootMem] at hm
  | succ f ih =>
    intro head prevId i hok hm
    rw [rootOk_succ_iff] at hok
    rw [rootMem_succ_iff] at hm ⊢
    refine ⟨hm.1, ?_⟩
    rcases hok with h0 | ⟨h1, h2, h3, h4⟩
    · exact absurd h0 hm.1
    · rcases hm.2 with he | hmm
      · exact Or.inl he
      · right
        rw [hE head hm.1 h1 h2]
        exact ih _ _ _ h4 hmm

theorem rootMem_spec {ns : List PnNode} :
    ∀ fuel head prevId i, rootOk ns fuel head prevId = true →
      rootMem ns fuel head i = true →
      i ≠ 0 ∧ i ≤ ns.length ∧ (getNodeL ns i).parent = 0 := by
  intro fuel
  induction fuel with
  | zero => intro head prevId i _ hm; simp [rootMem] at hm
  | succ f ih =>
    intro head prevId i hok hm
    rw [rootOk_succ_iff] at hok
    rw [rootMem_succ_iff] at hm
    rcases hok with h0 | ⟨h1, h2, h3, h4⟩
    · exact absurd h0 hm.1
    · rcases hm.2 with he | hmm
      · subst he; exact ⟨hm.1, h1, h2⟩
      · exact ih _ _ _ h4 hmm

theorem rootOk_fuel_mono {ns : List PnNode} :
    ∀ fuel fuel' head prevId, fuel ≤ fuel' → rootOk ns fuel head prevId = true →
      rootOk ns fuel' head prevId = true := by
  intro fuel
  induction fuel with
  | zero =>
    intro fuel' head prevId _ h
    simp only [rootOk, beq_iff_eq] at h
    subst h
    exact rootOk_zero_head ns fuel' prevId
  | succ f ih =>
    intro fuel' head prevId hle h
    rw [rootOk_succ_iff] at h
    rcases h with h0 | ⟨h1, h2, h3, h4⟩
    · subst h0; exact rootOk_zero_head ns fuel' prevId
    · obtain ⟨f', rfl⟩ : ∃ f', fuel' = f' + 1 := ⟨fuel' - 1, by omega⟩
      rw [rootOk_succ_iff]
      exact Or.inr ⟨h1, h2, h3, ih f' _ _ (by omega) h4⟩

theorem rootMem_fuel_mono {ns : List PnNode} :
    ∀ fuel fuel' head i, fuel ≤ fuel' → rootMem ns fuel head i = true →
      rootMem ns fuel' head i = true := by
  intro fuel
  induction fuel with
  | zero => intro fuel' head i _ hm; simp [rootMem] at hm
  | succ f ih =>
    intro fuel' head i hle hm
    rw [rootMem_succ_iff] at hm
    obtain ⟨f', rfl⟩ : ∃ f', fuel' = f' + 1 := ⟨fuel' - 1, by omega⟩
    rw [rootMem_succ_iff]
    refine ⟨hm.1, ?_⟩
    rcases hm.2 with he | hmm
    · exact Or.inl he
    · exact Or.inr (ih f' _ _ (by omega) hmm)

theorem chainMem_next {ns : List PnNode} {p : Nat} :
    ∀ count head prevId i, chainOk ns p head prevId count = true →
      chainMem ns head count i = true → (getNodeL ns i).next ≠ 0 →
      chainMem ns head count ((getNodeL ns i).next) = true := by
  intro count
  induction count with
  | zero => intro head prevId i _ hm; simp [chainMem] at hm
  | succ c ih =>
    intro head prevId i hok hm hnext
    rw [chainOk_succ_iff] at hok
    rw [chainMem_succ_iff] at hm ⊢
    obtain ⟨h1, h2, h3, h4, h5⟩ := hok
    refine ⟨h1, ?_⟩
    rcases hm.2 with he | hmm
    · subst he
      have hc : c ≠ 0 := by
        intro hc0
        subst hc0
        rw [chainOk_zero_iff] at h5
        exact hnext h5
      obtain ⟨c', rfl⟩ : ∃ c', c = c' + 1 := ⟨c - 1, by omega⟩
      right
      rw [chainMem_succ_iff]
      rw [chainOk_succ_iff] at h5
      exact ⟨h5.1, Or.inl rfl⟩
    · exact Or.inr (ih _ _ _ h5 hmm hnext)

theorem rootMem_zero_head (ns : List PnNode) (fuel i : Nat) :
    rootMem ns fuel 0 i = false := by
  cases fuel <;> simp [rootMem]

theorem rootMem_next {ns : List PnNode} :
    ∀ fuel head prevId i, rootOk ns fuel head prevId = true →
      rootMem ns fuel head i = true → (getNodeL ns i).next ≠ 0 →
      rootMem ns fuel head ((getNodeL ns i).next) = true := by
  intro fuel
  induction fuel with
  | zero => intro head prevId i _ hm; simp [rootMem] at hm
  | succ f ih =>
    intro head prevId i hok hm hnext
    rw [rootOk_succ_iff] at hok
    rw [rootMem_succ_iff] at hm ⊢
    rcases hok with h0 | ⟨h1, h2, h3, h4⟩
    · exact absurd h0 hm.1
    refine ⟨hm.1, ?_⟩
    rcases hm.2 with he | hmm
    · subst he
      have hf : f ≠ 0 := by
        intro hf0
        subst hf0
        simp only [rootOk, beq_iff_eq] at h4
        exact hnext h4
      obtain ⟨f', rfl⟩ : ∃ f', f = f' + 1 := ⟨f - 1, by omega⟩
      right
      rw [rootMem_succ_iff]
      exact ⟨hnext, Or.inl rfl⟩
    · exact Or.inr (ih _ _ _ h4 hmm hnext)

/-- Appending a fresh node after the last sibling `cur` (whose `next` becomes
`n`) extends a well-formed counted list by one, and the fresh node is a
member. -/
theorem chainOk_extend {ns ns' : List PnNode} {p cur n : Nat}
    (hlen : ns.length ≤ ns'.length)
    (hn0 : n ≠ 0) (hnle : n ≤ ns'.length)
    (hnew : (getNodeL ns' n).parent = p ∧ (getNodeL ns' n).prev = cur ∧
      (getNodeL ns' n).next = 0)
    (hcur : (getNodeL ns' cur).parent = (getNodeL ns cur).parent ∧
      (getNodeL ns' cur).prev = (getNodeL ns cur).prev ∧
      (getNodeL ns' cur).next = n)
    (hE : ∀ i, i ≠ 0 → i ≤ ns.length → (getNodeL ns i).parent = p → i ≠ cur →
      (getNodeL ns' i).parent = (getNodeL ns i).parent ∧
      (getNodeL ns' i).prev = (getNodeL ns i).prev ∧
      (getNodeL ns' i).next = (getNodeL ns i).next) :
    ∀ count head prevId, chainOk ns p head prevId count = true →
      chainMem ns head count cur = true → (getNodeL ns cur).next = 0 →
      chainOk ns' p head prevId (count + 1) = true ∧
      chainMem ns' head (count + 1) n = true := by
  intro count
  induction count with
  | zero => intro head prevId _ hm; simp [chainMem] at hm
  | succ c ih =>
    intro head prevId hok hm hcn
    rw [chainOk_succ_iff] at hok
    rw [chainMem_succ_iff] at hm
    obtain ⟨h1, h2, h3, h4, h5⟩ := hok
    rcases hm.2 with he | hmm
    · subst he
      have hc0 : c = 0 := chainOk_head_zero ns p head c (by rwa [hcn] at h5)
      subst hc0
      constructor
      · rw [chainOk_succ_iff]
        refine ⟨h1, le_trans h2 hlen, by rw [hcur.1, h3], by rw [hcur.2.1, h4], ?_⟩
        rw [hcur.2.2, chainOk_succ_iff]
        exact ⟨hn0, hnle, hnew.1, hnew.2.1, by rw [hnew.2.2, chainOk_zero_iff]⟩
      · rw [chainMem_succ_iff]
        refine ⟨h1, Or.inr ?_⟩
        rw [hcur.2.2, chainMem_succ_iff]
        exact ⟨hn0, Or.inl rfl⟩
    · have hne : head ≠ cur := by
        intro he
        subst he
        have hc0 : c = 0 := chainOk_head_zero ns p head c (by rwa [hcn] at h5)
        subst hc0
        simp [chainMem] at hmm
      obtain ⟨e1, e2, e3⟩ := hE head h1 h2 h3 hne
      obtain ⟨ih1, ih2⟩ := ih _ _ h5 hmm hcn
      constructor
      · rw [chainOk_succ_iff]
        exact ⟨h1, le_trans h2 hlen, by rw [e1, h3], by rw [e2, h4], by rw [e3]; exact ih1⟩
      · rw [chainMem_succ_iff]
        exact ⟨h1, Or.inr (by rw [e3]; exact ih2)⟩

/-- The top-level version of `chainOk_extend` (one extra unit of fuel pays
for the appended node). -/
theorem rootOk_extend {ns ns' : List PnNode} {cur n : Nat}
    (hlen : ns.length ≤ ns'.length)
    (hn0 : n ≠ 0) (hnle : n ≤ ns'.length)
    (hnew : (getNodeL ns' n).parent = 0 ∧ (getNodeL ns' n).prev = cur ∧
      (getNodeL ns' n).next = 0)
    (hcur : (getNodeL ns' cur).parent = (getNodeL ns cur).parent ∧
      (getNodeL ns' cur).prev = (getNodeL ns cur).prev ∧
      (getNodeL ns' cur).next = n)
    (hE : ∀ i, i ≠ 0 → i ≤ ns.length → (getNodeL ns i).parent = 0 → i ≠ cur →
      (getNodeL ns' i).parent = (getNodeL ns i).parent ∧
      (getNodeL ns' i).prev = (getNodeL ns i).prev ∧
      (getNodeL ns' i).next = (getNodeL ns i).next) :
    ∀ fuel head prevId, rootOk ns fuel head prevId = true →
      rootMem ns fuel head cur = true → (getNodeL ns cur).next = 0 →
      rootOk ns' (fuel + 1) head prevId = true ∧
      rootMem ns' (fuel + 1) head n = true := by
  intro fuel
  induction fuel with
  | zero => intro head prevId _ hm; simp [rootMem] at hm
  | succ f ih =>
    intro head prevId hok hm hcn
    rw [rootOk_succ_iff] at hok
    rw [rootMem_succ_iff] at hm
    rcases hok with h0 | ⟨h1, h2, h3, h4⟩
    · exact absurd h0 hm.1
    rcases hm.2 with he | hmm
    · subst he
      constructor
      · rw [rootOk_succ_iff]
        refine Or.inr ⟨le_trans h1 hlen, by rw [hcur.1, h2], by rw [hcur.2.1, h3], ?_⟩
        rw [hcur.2.2, rootOk_succ_iff]
        exact Or.inr ⟨hnle, hnew.1, hnew.2.1, by rw [hnew.2.2]; exact rootOk_zero_head ns' f n⟩
      · rw [rootMem_succ_iff]
        refine ⟨hm.1, Or.inr ?_⟩
        rw [hcur.2.2, rootMem_succ_iff]
        exact ⟨hn0, Or.inl rfl⟩
    · have hne : head ≠ cur := by
        intro he
        subst he
        rw [hcn] at hmm
        rw [rootMem_zero_head] at hmm
        exact Bool.false_ne_true hmm
      obtain ⟨e1, e2, e3⟩ := hE head hm.1 h1 h2 hne
      obtain ⟨ih1, ih2⟩ := ih _ _ h4 hmm hcn
      constructor
      · rw [rootOk_succ_iff]
        exact Or.inr ⟨le_trans h1 hlen, by rw [e1, h2], by rw [e2, h3], by rw [e3]; exact ih1⟩
      · rw [rootMem_succ_iff]
        exact ⟨hm.1, Or.inr (by rw [e3]; exact ih2)⟩

theorem pathOk_zero (ns : List PnNode) (fuel : Nat) : pathOk ns fuel 0 = true := by
  cases fuel <;> simp [pathOk]

/-- With parents preceding children, the fuel of `pathOk` is irrelevant once
it covers `p`. -/
theorem pathOk_fuel_change {ns : List PnNode} (hlt : parentLt ns = true) :
    ∀ p fuel fuel', p ≤ fuel → p ≤ fuel' → pathOk ns fuel p = true →
      pathOk ns fuel' p = true := by
  intro p
  induction p using Nat.strong_induction_on with
  | _ p ih =>
    intro fuel fuel' h1 h2 hok
    by_cases hp : p = 0
    · subst hp; exact pathOk_zero ns fuel'
    · obtain ⟨f, rfl⟩ : ∃ f, fuel = f + 1 := ⟨fuel - 1, by omega⟩
      obtain ⟨f', rfl⟩ : ∃ f'', fuel' = f'' + 1 := ⟨fuel' - 1, by omega⟩
      rw [pathOk_succ_iff] at hok ⊢
      rcases hok with h0 | ⟨hlen, hsib, hrec⟩
      · exact Or.inl h0
      have hq : (getNodeL ns p).parent < p := parentLt_spec ns hlt p hp hlen
      exact Or.inr ⟨hlen, hsib, ih _ hq f f' (by omega) (by omega) hrec⟩

/-- `pathOk` carries over to a modified node store when (i) link fields are
preserved except possibly on nodes parented under `P`, and (ii) `down`/
`children` are preserved strictly below `P`: the parent chain from any
`p ≤ P` never reads the modified data. -/
theorem pathOk_transfer {ns ns' : List PnNode} (P : Nat)
    (hlen : ns.length ≤ ns'.length)
    (hlt : parentLt ns = true)
    (hnodes : nodesOk ns = true)
    (hroot : rootOk ns ns.length (rootHead ns) 0 = true)
    (hlink : ∀ i, i ≠ 0 → i ≤ ns.length → (getNodeL ns i).parent ≠ P →
      (getNodeL ns' i).parent = (getNodeL ns i).parent ∧
      (getNodeL ns' i).prev = (getNodeL ns i).prev ∧
      (getNodeL ns' i).next = (getNodeL ns i).next)
    (hdc : ∀ q, q ≠ 0 → q < P →
      (getNodeL ns' q).down = (getNodeL ns q).down ∧
      (getNodeL ns' q).children = (getNodeL ns q).children) :
    ∀ fuel p, p ≤ P → pathOk ns fuel p = true → pathOk ns' fuel p = true := by
  intro fuel
  induction fuel with
  | zero =>
    intro p _ hok
    simpa [pathOk] using hok
  | succ f ih =>
    intro p hpP hok
    rw [pathOk_succ_iff] at hok ⊢
    rcases hok with h0 | ⟨hple, hsib, hrec⟩
    · exact Or.inl h0
    by_cases hp : p = 0
    · exact Or.inl hp
    have hPpos : P ≠ 0 := by omega
    have hqlt : (getNodeL ns p).parent < p := parentLt_spec ns hlt p hp hple
    have hpne : (getNodeL ns p).parent ≠ P := by omega
    obtain ⟨e1, e2, e3⟩ := hlink p hp hple hpne
    refine Or.inr ⟨le_trans hple hlen, ?_, ?_⟩
    · rw [e1]
      unfold sibMem at hsib ⊢
      by_cases hq : (getNodeL ns p).parent = 0
      · rw [if_pos hq] at hsib ⊢
        have hlpos : 0 < ns.length := by omega
        have hh : rootHead ns = 1 := by unfold rootHead; rw [if_neg (by omega)]
        have hh' : rootHead ns' = 1 := by unfold rootHead; rw [if_neg (by omega)]
        have hroot1 : rootOk ns ns.length 1 0 = true := by rwa [hh] at hroot
        have hsib1 : rootMem ns ns.length 1 p = true := by rwa [hh] at hsib
        rw [hh']
        have hE0 : ∀ i, i ≠ 0 → i ≤ ns.length → (getNodeL ns i).parent = 0 →
            (getNodeL ns' i).next = (getNodeL ns i).next := by
          intro i hi hile hi0
          exact (hlink i hi hile (by rw [hi0]; exact fun hc => hPpos hc.symm)).2.2
        have hm1 := rootMem_mono_env hE0 ns.length 1 0 p hroot1 hsib1
        exact rootMem_fuel_mono ns.length ns'.length 1 p hlen hm1
      · rw [if_neg hq] at hsib ⊢
        have hqP : (getNodeL ns p).parent < P := by omega
        obtain ⟨ed, ec⟩ := hdc _ hq hqP
        rw [ed, ec]
        have hqle : (getNodeL ns p).parent ≤ ns.length := by omega
        have hcq := (nodesOk_iff ns).1 hnodes _ hq hqle
        have hEq : ∀ i, i ≠ 0 → i ≤ ns.length →
            (getNodeL ns i).parent = (getNodeL ns p).parent →
            (getNodeL ns' i).next = (getNodeL ns i).next := by
          intro i hi hile hiq
          exact (hlink i hi hile (by omega)).2.2
        exact chainMem_mono_env hEq _ _ _ p hcq hsib
    · rw [e1]
      exact ih _ (by omega) hrec

theorem getNodeL_oob (ns : List PnNode) (i : Nat) (h : ns.length < i) :
    getNodeL ns i = {} := by
  unfold getNodeL
  rw [if_neg (by omega)]
  exact List.getD_eq_default ns {} (by omega)

/-- `sibMem` is stable under a change of store that keeps the length, the
members' `next` links, and the owner's `down`/`children`. -/
theorem sibMem_stable {ns ns' : List PnNode} (q i : Nat)
    (hlen : ns'.length = ns.length)
    (hnodes : nodesOk ns = true)
    (hroot : rootOk ns ns.length (rootHead ns) 0 = true)
    (hqle : q ≤ ns.length)
    (hnext : ∀ k, k ≠ 0 → k ≤ ns.length → (getNodeL ns' k).next = (getNodeL ns k).next)
    (hqf : q ≠ 0 → (getNodeL ns' q).down = (getNodeL ns q).down ∧
      (getNodeL ns' q).children = (getNodeL ns q).children)
    (h : sibMem ns q i = true) : sibMem ns' q i = true := by
  unfold sibMem at h ⊢
  by_cases hq : q = 0
  · rw [if_pos hq] at h ⊢
    have hh : rootHead ns' = rootHead ns := by unfold rootHead; rw [hlen]
    rw [hh, hlen]
    exact rootMem_mono_env (fun k hk hkle _ => hnext k hk hkle) _ _ _ _ hroot h
  · rw [if_neg hq] at h ⊢
    rw [(hqf hq).1, (hqf hq).2]
    exact chainMem_mono_env (fun k hk hkle _ => hnext k hk hkle) _ _ _ i
      ((nodesOk_iff ns).1 hnodes q hq hqle) h

/-- `treeWF` only reads the cursor, the store length and each node's five
structural fields, so it carries over to any state agreeing there. -/
theorem treeWF_congr {d d' : PnData}
    (hp : d'.parent = d.parent) (hc : d'.current = d.current)
    (hlen : d'.nodes.length = d.nodes.length)
    (hf : ∀ i, i ≠ 0 →
      (getNodeL d'.nodes i).parent = (getNodeL d.nodes i).parent ∧
      (getNodeL d'.nodes i).prev = (getNodeL d.nodes i).prev ∧
      (getNodeL d'.nodes i).next = (getNodeL d.nodes i).next ∧
      (getNodeL d'.nodes i).down = (getNodeL d.nodes i).down ∧
      (getNodeL d'.nodes i).children = (getNodeL d.nodes i).children)
    (h : treeWF d = true) : treeWF d' = true := by
  rw [treeWF_iff] at h ⊢
  obtain ⟨h1, h2, h3, h4, h5, h6, h7⟩ := h
  have hlen' : d.nodes.length ≤ d'.nodes.length := by omega
  have hE3 : ∀ i, i ≠ 0 →
      (getNodeL d'.nodes i).parent = (getNodeL d.nodes i).parent ∧
      (getNodeL d'.nodes i).prev = (getNodeL d.nodes i).prev ∧
      (getNodeL d'.nodes i).next = (getNodeL d.nodes i).next :=
    fun i hi => ⟨(hf i hi).1, (hf i hi).2.1, (hf i hi).2.2.1⟩
  refine ⟨?_, ?_, ?_, ?_, ?_, ?_, ?_⟩
  · rw [nodesOk_iff]
    intro q hq hqle
    rw [(hf q hq).2.2.2.1, (hf q hq).2.2.2.2]
    exact chainOk_mono_env hlen' (fun i hi _ _ => hE3 i hi) _ _ _
      ((nodesOk_iff d.nodes).1 h1 q hq (by omega))
  · have hh : rootHead d'.nodes = rootHead d.nodes := by unfold rootHead; rw [hlen]
    rw [hh, hlen]
    exact rootOk_mono_env hlen' (fun i hi _ _ => hE3 i hi) _ _ _ h2
  · rw [parentLt_iff] at h3 ⊢
    intro p hpne hple
    rw [(hf p hpne).1]
    exact h3 p hpne (by omega)
  · rw [hp, hlen]; exact h4
  · rw [hc, hlen]; exact h5
  · rw [hp, hlen]
    refine pathOk_transfer d.parent hlen' h3 h1 h2 ?_ ?_ _ _ (le_refl _) h6
    · exact fun i hi _ _ => hE3 i hi
    · exact fun q hq _ => ⟨(hf q hq).2.2.2.1, (hf q hq).2.2.2.2⟩
  · rw [hc, hp]
    by_cases hc0 : d.current = 0
    · exact Or.inl hc0
    rcases h7 with h70 | ⟨h71, h72⟩
    · exact Or.inl h70
    right
    refine ⟨by rw [(hf d.current hc0).1]; exact h71, ?_⟩
    exact sibMem_stable d.parent d.current hlen h1 h2 h4
      (fun k hk hkle => (hf k hk).2.2.1)
      (fun hq => ⟨(hf d.parent hq).2.2.2.1, (hf d.parent hq).2.2.2.2⟩) h72

/-- Moving the cursor onto a member `j` of the current level while replacing
`j` by a copy with an empty child list (the `pn_data_add` reuse paths)
preserves the invariant. -/
theorem treeWF_reuse_core (d : PnData) (j : Nat) (x : PnNode)
    (h : treeWF d = true)
    (hj0 : j ≠ 0) (hjle : j ≤ d.nodes.length)
    (hjp : (getNodeL d.nodes j).parent = d.parent)
    (hjm : sibMem d.nodes d.parent j = true)
    (hx1 : x.parent = (getNodeL d.nodes j).parent)
    (hx2 : x.prev = (getNodeL d.nodes j).prev)
    (hx3 : x.next = (getNodeL d.nodes j).next)
    (hx4 : x.down = 0) (hx5 : x.children = 0) :
    treeWF { d with nodes := d.nodes.set (j - 1) x, current := j } = true := by
  rw [treeWF_iff] at h
  obtain ⟨h1, h2, h3, h4, h5, h6, h7⟩ := h
  have hPj : d.parent < j := hjp ▸ parentLt_spec d.nodes h3 j hj0 hjle
  have hlen : (d.nodes.set (j - 1) x).length = d.nodes.length := by simp
  have hself : getNodeL (d.nodes.set (j - 1) x) j = x := getNodeL_set_self d.nodes j x hj0 hjle
  have hne : ∀ i, i ≠ j → getNodeL (d.nodes.set (j - 1) x) i = getNodeL d.nodes i :=
    fun i hi => getNodeL_set_ne d.nodes j i x hj0 hi
  have hlinks : ∀ i, i ≠ 0 →
      (getNodeL (d.nodes.set (j - 1) x) i).parent = (getNodeL d.nodes i).parent ∧
      (getNodeL (d.nodes.set (j - 1) x) i).prev = (getNodeL d.nodes i).prev ∧
      (getNodeL (d.nodes.set (j - 1) x) i).next = (getNodeL d.nodes i).next := by
    intro i hi
    by_cases hij : i = j
    · subst hij; rw [hself]; exact ⟨hx1, hx2, hx3⟩
    · rw [hne i hij]; exact ⟨rfl, rfl, rfl⟩
  rw [treeWF_iff]
  refine ⟨?_, ?_, ?_, ?_, ?_, ?_, ?_⟩
  · show nodesOk (d.nodes.set (j - 1) x) = true
    rw [nodesOk_iff]
    intro q hq hqle
    by_cases hqj : q = j
    · subst hqj
      rw [hself, hx4, hx5, chainOk_zero_iff]
    · rw [hne q hqj]
      exact chainOk_mono_env (by omega) (fun i hi _ _ => hlinks i hi) _ _ _
        ((nodesOk_iff d.nodes).1 h1 q hq (by omega))
  · show rootOk (d.nodes.set (j - 1) x) (d.nodes.set (j - 1) x).length
      (rootHead (d.nodes.set (j - 1) x)) 0 = true
    have hh : rootHead (d.nodes.set (j - 1) x) = rootHead d.nodes := by
      unfold rootHead; rw [hlen]
    rw [hh, hlen]
    exact rootOk_mono_env (by omega) (fun i hi _ _ => hlinks i hi) _ _ _ h2
  · show parentLt (d.nodes.set (j - 1) x) = true
    rw [parentLt_iff]
    intro p hp hple
    rw [(hlinks p hp).1]
    exact parentLt_spec d.nodes h3 p hp (by omega)
  · show d.parent ≤ (d.nodes.set (j - 1) x).length
    omega
  · show j ≤ (d.nodes.set (j - 1) x).length
    omega
  · show pathOk (d.nodes.set (j - 1) x) ((d.nodes.set (j - 1) x).length + 1) d.parent = true
    have ht := pathOk_transfer d.parent (by omega) h3 h1 h2
      (fun i hi _ _ => hlinks i hi)
      (fun q hq hqP => by
        have hqj : q ≠ j := by omega
        rw [hne q hqj]
        exact ⟨rfl, rfl⟩)
      (d.nodes.length + 1) d.parent (le_refl _) h6
    rw [hlen]
    exact ht
  · show j = 0 ∨ ((getNodeL (d.nodes.set (j - 1) x) j).parent = d.parent ∧
      sibMem (d.nodes.set (j - 1) x) d.parent j = true)
    right
    refine ⟨by rw [(hlinks j hj0).1]; exact hjp, ?_⟩
    refine sibMem_stable d.parent j hlen h1 h2 h4
      (fun k hk hkle => (hlinks k hk).2.2) (fun hq => ?_) hjm
    have hpj : d.parent ≠ j := by omega
    rw [hne d.parent hpj]
    exact ⟨rfl, rfl⟩

/-- Appending a fresh node after the cursor inside a parent (`pn_data_add`,
second branch with `data->parent` set) preserves the invariant.  The store
`ns'` is described pointwise: the fresh node at `len+1`, the old cursor with
its `next` bent to the fresh node, the parent with one more child, everything
else untouched. -/
theorem treeWF_append_child (d : PnData) (ns' : List PnNode)
    (h : treeWF d = true)
    (hP0 : d.parent ≠ 0) (hc0 : d.current ≠ 0)
    (hcn : (getNodeL d.nodes d.current).next = 0)
    (hlen : ns'.length = d.nodes.length + 1)
    (hn1 : (getNodeL ns' (d.nodes.length + 1)).parent = d.parent)
    (hn2 : (getNodeL ns' (d.nodes.length + 1)).prev = d.current)
    (hn3 : (getNodeL ns' (d.nodes.length + 1)).next = 0)
    (hn4 : (getNodeL ns' (d.nodes.length + 1)).down = 0)
    (hn5 : (getNodeL ns' (d.nodes.length + 1)).children = 0)
    (hc1 : (getNodeL ns' d.current).parent = (getNodeL d.nodes d.current).parent)
    (hc2 : (getNodeL ns' d.current).prev = (getNodeL d.nodes d.current).prev)
    (hc3 : (getNodeL ns' d.current).next = d.nodes.length + 1)
    (hc4 : (getNodeL ns' d.current).down = (getNodeL d.nodes d.current).down)
    (hc5 : (getNodeL ns' d.current).children = (getNodeL d.nodes d.current).children)
    (hp1 : (getNodeL ns' d.parent).parent = (getNodeL d.nodes d.parent).parent)
    (hp2 : (getNodeL ns' d.parent).prev = (getNodeL d.nodes d.parent).prev)
    (hp3 : (getNodeL ns' d.parent).next = (getNodeL d.nodes d.parent).next)
    (hp4 : (getNodeL d.nodes d.parent).down ≠ 0 →
      (getNodeL ns' d.parent).down = (getNodeL d.nodes d.parent).down)
    (hp5 : (getNodeL ns' d.parent).children = (getNodeL d.nodes d.parent).children + 1)
    (hother : ∀ i, i ≠ 0 → i ≤ d.nodes.length → i ≠ d.current → i ≠ d.parent →
      getNodeL ns' i = getNodeL d.nodes i)
    (S : PnData) (hSn : S.nodes = ns') (hSp : S.parent = d.parent)
    (hSc : S.current = d.nodes.length + 1) :
    treeWF S = true := by
  rw [treeWF_iff] at h
  obtain ⟨h1, h2, h3, h4, h5, h6, h7⟩ := h
  rcases h7 with h70 | ⟨h71, h72⟩
  · exact absurd h70 hc0
  have hclt : d.parent < d.current := h71 ▸ parentLt_spec d.nodes h3 d.current hc0 h5
  have hokP := (nodesOk_iff d.nodes).1 h1 d.parent hP0 h4
  have hmemP : chainMem d.nodes (getNodeL d.nodes d.parent).down
      (getNodeL d.nodes d.parent).children d.current = true := by
    unfold sibMem at h72
    rwa [if_neg hP0] at h72
  obtain ⟨c, hcc⟩ : ∃ c, (getNodeL d.nodes d.parent).children = c + 1 := by
    cases hch : (getNodeL d.nodes d.parent).children with
    | zero => rw [hch] at hmemP; simp [chainMem] at hmemP
    | succ c => exact ⟨c, rfl⟩
  have hdn : (getNodeL d.nodes d.parent).down ≠ 0 := by
    rw [hcc] at hokP
    rw [chainOk_succ_iff] at hokP
    exact hokP.1
  have hp4' : (getNodeL ns' d.parent).down = (getNodeL d.nodes d.parent).down := hp4 hdn
  have hlinksA : ∀ i, i ≠ 0 → i ≤ d.nodes.length → i ≠ d.current →
      (getNodeL ns' i).parent = (getNodeL d.nodes i).parent ∧
      (getNodeL ns' i).prev = (getNodeL d.nodes i).prev ∧
      (getNodeL ns' i).next = (getNodeL d.nodes i).next := by
    intro i hi hile hic
    by_cases hip : i = d.parent
    · subst hip; exact ⟨hp1, hp2, hp3⟩
    · rw [hother i hi hile hic hip]; exact ⟨rfl, rfl, rfl⟩
  have hExt := @chainOk_extend d.nodes ns' d.parent d.current (d.nodes.length + 1)
    (by omega) (by omega) (by omega)
    ⟨hn1, hn2, hn3⟩ ⟨hc1, hc2, hc3⟩
    (fun i hi hile hip hine => hlinksA i hi hile hine)
    (getNodeL d.nodes d.parent).children (getNodeL d.nodes d.parent).down 0
    hokP hmemP hcn
  have hlpos : 0 < d.nodes.length := by omega
  have hplt : parentLt ns' = true := by
    rw [parentLt_iff]
    intro p hp hple
    by_cases hpn : p = d.nodes.length + 1
    · subst hpn; rw [hn1]; omega
    · have hple' : p ≤ d.nodes.length := by omega
      by_cases hpc : p = d.current
      · subst hpc; rw [hc1]; exact parentLt_spec d.nodes h3 d.current hp hple'
      · rw [(hlinksA p hp hple' hpc).1]
        exact parentLt_spec d.nodes h3 p hp hple'
  rw [treeWF_iff, hSn, hSp, hSc]
  refine ⟨?_, ?_, ?_, by omega, by omega, ?_, ?_⟩
  · rw [nodesOk_iff]
    intro q hq hqle
    by_cases hqn : q = d.nodes.length + 1
    · subst hqn
      rw [hn4, hn5, chainOk_zero_iff]
    · have hqle' : q ≤ d.nodes.length := by omega
      by_cases hqp : q = d.parent
      · subst hqp
        rw [hp4', hp5, hcc]
        rw [hcc] at hExt
        exact hExt.1
      · have hdce : (getNodeL ns' q).down = (getNodeL d.nodes q).down ∧
            (getNodeL ns' q).children = (getNodeL d.nodes q).children := by
          by_cases hqc : q = d.current
          · subst hqc; exact ⟨hc4, hc5⟩
          · rw [hother q hq hqle' hqc hqp]; exact ⟨rfl, rfl⟩
        rw [hdce.1, hdce.2]
        refine chainOk_mono_env (by omega) ?_ _ _ _
          ((nodesOk_iff d.nodes).1 h1 q hq hqle')
        intro i hi hile hip
        have hic : i ≠ d.current := by
          intro he; subst he; rw [h71] at hip; exact hqp hip.symm
        exact hlinksA i hi hile hic
  · have hh : rootHead ns' = 1 := by unfold rootHead; rw [if_neg (by omega)]
    have hh0 : rootHead d.nodes = 1 := by unfold rootHead; rw [if_neg (by omega)]
    rw [hh, hlen]
    rw [hh0] at h2
    refine rootOk_fuel_mono d.nodes.length (d.nodes.length + 1) 1 0 (by omega) ?_
    refine rootOk_mono_env (by omega : d.nodes.length ≤ ns'.length) ?_ _ _ _ h2
    intro i hi hile hi0
    have hic : i ≠ d.current := by
      intro he; subst he; rw [h71] at hi0; exact hP0 hi0
    exact hlinksA i hi hile hic
  · exact hplt
  · have ht := pathOk_transfer d.parent (by omega) h3 h1 h2
      (fun i hi hile hip => hlinksA i hi hile
        (fun he => hip (he ▸ h71)))
      (fun q hq hqP => by
        have hqc : q ≠ d.current := by omega
        have hqp : q ≠ d.parent := by omega
        rw [hother q hq (by omega) hqc hqp]
        exact ⟨rfl, rfl⟩)
      (d.nodes.length + 1) d.parent (le_refl _) h6
    have := pathOk_fuel_change hplt d.parent (d.nodes.length + 1) (d.nodes.length + 2)
      (by omega) (by omega) ht
    rw [hlen]
    exact this
  · right
    refine ⟨hn1, ?_⟩
    unfold sibMem
    rw [if_neg hP0, hp4', hp5]
    exact hExt.2

/-- Appending a fresh node after the cursor at the top level (`pn_data_add`,
second branch with `data->parent = 0`). -/
theorem treeWF_append_root (d : PnData) (ns' : List PnNode)
    (h : treeWF d = true)
    (hP0 : d.parent = 0) (hc0 : d.current ≠ 0)
    (hcn : (getNodeL d.nodes d.current).next = 0)
    (hlen : ns'.length = d.nodes.length + 1)
    (hn1 : (getNodeL ns' (d.nodes.length + 1)).parent = 0)
    (hn2 : (getNodeL ns' (d.nodes.length + 1)).prev = d.current)
    (hn3 : (getNodeL ns' (d.nodes.length + 1)).next = 0)
    (hn4 : (getNodeL ns' (d.nodes.length + 1)).down = 0)
    (hn5 : (getNodeL ns' (d.nodes.length + 1)).children = 0)
    (hc1 : (getNodeL ns' d.current).parent = (getNodeL d.nodes d.current).parent)
    (hc2 : (getNodeL ns' d.current).prev = (getNodeL d.nodes d.current).prev)
    (hc3 : (getNodeL ns' d.current).next = d.nodes.length + 1)
    (hc4 : (getNodeL ns' d.current).down = (getNodeL d.nodes d.current).down)
    (hc5 : (getNodeL ns' d.current).children = (getNodeL d.nodes d.current).children)
    (hother : ∀ i, i ≠ 0 → i ≤ d.nodes.length → i ≠ d.current →
      getNodeL ns' i = getNodeL d.nodes i)
    (S : PnData) (hSn : S.nodes = ns') (hSp : S.parent = d.parent)
    (hSc : S.current = d.nodes.length + 1) :
    treeWF S = true := by
  rw [treeWF_iff] at h
  obtain ⟨h1, h2, h3, h4, h5, h6, h7⟩ := h
  rcases h7 with h70 | ⟨h71, h72⟩
  · exact absurd h70 hc0
  rw [hP0] at h71
  have hmemR : rootMem d.nodes d.nodes.length (rootHead d.nodes) d.current = true := by
    unfold sibMem at h72
    rwa [if_pos hP0] at h72
  have hlpos : 0 < d.nodes.length := by omega
  have hh0 : rootHead d.nodes = 1 := by unfold rootHead; rw [if_neg (by omega)]
  have hlinksA : ∀ i, i ≠ 0 → i ≤ d.nodes.length → i ≠ d.current →
      (getNodeL ns' i).parent = (getNodeL d.nodes i).parent ∧
      (getNodeL ns' i).prev = (getNodeL d.nodes i).prev ∧
      (getNodeL ns' i).next = (getNodeL d.nodes i).next := by
    intro i hi hile hic
    rw [hother i hi hile hic]
    exact ⟨rfl, rfl, rfl⟩
  have hExt := @rootOk_extend d.nodes ns' d.current (d.nodes.length + 1)
    (by omega) (by omega) (by omega)
    ⟨hn1, hn2, hn3⟩ ⟨hc1, hc2, hc3⟩
    (fun i hi hile hip hine => hlinksA i hi hile hine)
    d.nodes.length (rootHead d.nodes) 0 h2 hmemR hcn
  rw [treeWF_iff, hSn, hSp, hSc, hP0]
  refine ⟨?_, ?_, ?_, by omega, by omega, pathOk_zero ns' _, ?_⟩
  · rw [nodesOk_iff]
    intro q hq hqle
    by_cases hqn : q = d.nodes.length + 1
    · subst hqn
      rw [hn4, hn5, chainOk_zero_iff]
    · have hqle' : q ≤ d.nodes.length := by omega
      have hdce : (getNodeL ns' q).down = (getNodeL d.nodes q).down ∧
          (getNodeL ns' q).children = (getNodeL d.nodes q).children := by
        by_cases hqc : q = d.current
        · subst hqc; exact ⟨hc4, hc5⟩
        · rw [hother q hq hqle' hqc]; exact ⟨rfl, rfl⟩
      rw [hdce.1, hdce.2]
      refine chainOk_mono_env (by omega) ?_ _ _ _
        ((nodesOk_iff d.nodes).1 h1 q hq hqle')
      intro i hi hile hip
      have hic : i ≠ d.current := by
        intro he; subst he; rw [h71] at hip; exact hq hip.symm
      exact hlinksA i hi hile hic
  · have hh : rootHead ns' = 1 := by unfold rootHead; rw [if_neg (by omega)]
    rw [hh, hlen]
    rw [hh0] at hExt
    exact hExt.1
  · rw [parentLt_iff]
    intro p hp hple
    by_cases hpn : p = d.nodes.length + 1
    · subst hpn; rw [hn1]; omega
    · have hple' : p ≤ d.nodes.length := by omega
      by_cases hpc : p = d.current
      · subst hpc; rw [hc1]; exact parentLt_spec d.nodes h3 d.current hp hple'
      · rw [(hlinksA p hp hple' hpc).1]
        exact parentLt_spec d.nodes h3 p hp hple'
  · right
    refine ⟨hn1, ?_⟩
    unfold sibMem
    rw [if_pos rfl]
    have hh : rootHead ns' = 1 := by unfold rootHead; rw [if_neg (by omega)]
    rw [hh, hlen]
    rw [hh0] at hExt
    exact hExt.2

/-- Adding the first child below `data->parent` (`pn_data_add`, fourth
branch: cursor unset, parent's `down` empty). -/
theorem treeWF_first_child (d : PnData) (ns' : List PnNode)
    (h : treeWF d = true)
    (hP0 : d.parent ≠ 0)
    (hd : (getNodeL d.nodes d.parent).down = 0)
    (hlen : ns'.length = d.nodes.length + 1)
    (hn1 : (getNodeL ns' (d.nodes.length + 1)).parent = d.parent)
    (hn2 : (getNodeL ns' (d.nodes.length + 1)).prev = 0)
    (hn3 : (getNodeL ns' (d.nodes.length + 1)).next = 0)
    (hn4 : (getNodeL ns' (d.nodes.length + 1)).down = 0)
    (hn5 : (getNodeL ns' (d.nodes.length + 1)).children = 0)
    (hp1 : (getNodeL ns' d.parent).parent = (getNodeL d.nodes d.parent).parent)
    (hp2 : (getNodeL ns' d.parent).prev = (getNodeL d.nodes d.parent).prev)
    (hp3 : (getNodeL ns' d.parent).next = (getNodeL d.nodes d.parent).next)
    (hp4 : (getNodeL ns' d.parent).down = d.nodes.length + 1)
    (hp5 : (getNodeL ns' d.parent).children = (getNodeL d.nodes d.parent).children + 1)
    (hother : ∀ i, i ≠ 0 → i ≤ d.nodes.length → i ≠ d.parent →
      getNodeL ns' i = getNodeL d.nodes i)
    (S : PnData) (hSn : S.nodes = ns') (hSp : S.parent = d.parent)
    (hSc : S.current = d.nodes.length + 1) :
    treeWF S = true := by
  rw [treeWF_iff] at h
  obtain ⟨h1, h2, h3, h4, h5, h6, h7⟩ := h
  have hokP := (nodesOk_iff d.nodes).1 h1 d.parent hP0 h4
  rw [hd] at hokP
  have hch0 : (getNodeL d.nodes d.parent).children = 0 :=
    chainOk_head_zero d.nodes d.parent 0 _ hokP
  have hlpos : 0 < d.nodes.length := by omega
  have hlinksA : ∀ i, i ≠ 0 → i ≤ d.nodes.length →
      (getNodeL ns' i).parent = (getNodeL d.nodes i).parent ∧
      (getNodeL ns' i).prev = (getNodeL d.nodes i).prev ∧
      (getNodeL ns' i).next = (getNodeL d.nodes i).next := by
    intro i hi hile
    by_cases hip : i = d.parent
    · subst hip; exact ⟨hp1, hp2, hp3⟩
    · rw [hother i hi hile hip]; exact ⟨rfl, rfl, rfl⟩
  have hplt : parentLt ns' = true := by
    rw [parentLt_iff]
    intro p hp hple
    by_cases hpn : p = d.nodes.length + 1
    · subst hpn; rw [hn1]; omega
    · have hple' : p ≤ d.nodes.length := by omega
      rw [(hlinksA p hp hple').1]
      exact parentLt_spec d.nodes h3 p hp hple'
  rw [treeWF_iff, hSn, hSp, hSc]
  refine ⟨?_, ?_, hplt, by omega, by omega, ?_, ?_⟩
  · rw [nodesOk_iff]
    intro q hq hqle
    by_cases hqn : q = d.nodes.length + 1
    · subst hqn
      rw [hn4, hn5, chainOk_zero_iff]
    · have hqle' : q ≤ d.nodes.length := by omega
      by_cases hqp : q = d.parent
      · subst hqp
        rw [hp4, hp5, hch0]
        rw [chainOk_succ_iff]
        refine ⟨by omega, by omega, hn1, hn2, ?_⟩
        rw [hn3, chainOk_zero_iff]
      · have hoq := hother q hq hqle' hqp
        rw [hoq]
        refine chainOk_mono_env (by omega) ?_ _ _ _
          ((nodesOk_iff d.nodes).1 h1 q hq hqle')
        intro i hi hile hip
        exact hlinksA i hi hile
  · have hh : rootHead ns' = 1 := by unfold rootHead; rw [if_neg (by omega)]
    have hh0 : rootHead d.nodes = 1 := by unfold rootHead; rw [if_neg (by omega)]
    rw [hh, hlen]
    rw [hh0] at h2
    refine rootOk_fuel_mono d.nodes.length (d.nodes.length + 1) 1 0 (by omega) ?_
    refine rootOk_mono_env (by omega : d.nodes.length ≤ ns'.length) ?_ _ _ _ h2
    intro i hi hile hi0
    exact hlinksA i hi hile
  · have ht := pathOk_transfer d.parent (by omega) h3 h1 h2
      (fun i hi hile hip => hlinksA i hi hile)
      (fun q hq hqP => by
        have hqp : q ≠ d.parent := by omega
        rw [hother q hq (by omega) hqp]
        exact ⟨rfl, rfl⟩)
      (d.nodes.length + 1) d.parent (le_refl _) h6
    have ht2 := pathOk_fuel_change hplt d.parent (d.nodes.length + 1) (d.nodes.length + 2)
      (by omega) (by omega) ht
    rw [hlen]
    exact ht2
  · right
    refine ⟨hn1, ?_⟩
    unfold sibMem
    rw [if_neg hP0, hp4, hp5, hch0]
    rw [chainMem_succ_iff]
    exact ⟨by omega, Or.inl rfl⟩

/-- The very first node of an empty tree (`pn_data_add`, last branch). -/
theorem treeWF_root_empty (d : PnData) (ns' : List PnNode)
    (hl : d.nodes.length = 0) (hP0 : d.parent = 0)
    (hlen : ns'.length = 1)
    (h11 : (getNodeL ns' 1).parent = 0)
    (h12 : (getNodeL ns' 1).prev = 0)
    (h13 : (getNodeL ns' 1).next = 0)
    (h14 : (getNodeL ns' 1).down = 0)
    (h15 : (getNodeL ns' 1).children = 0)
    (S : PnData) (hSn : S.nodes = ns') (hSp : S.parent = d.parent)
    (hSc : S.current = 1) :
    treeWF S = true := by
  rw [treeWF_iff, hSn, hSp, hSc, hP0]
  refine ⟨?_, ?_, ?_, by omega, by omega, pathOk_zero ns' _, ?_⟩
  · rw [nodesOk_iff]
    intro q hq hqle
    have hq1 : q = 1 := by omega
    subst hq1
    rw [h14, h15, chainOk_zero_iff]
  · have hh : rootHead ns' = 1 := by unfold rootHead; rw [if_neg (by omega)]
    rw [hh, hlen]
    rw [rootOk_succ_iff]
    refine Or.inr ⟨by omega, h11, h12, ?_⟩
    rw [h13]
    exact rootOk_zero_head ns' 0 1
  · rw [parentLt_iff]
    intro p hp hple
    have hp1 : p = 1 := by omega
    subst hp1
    rw [h11]
    omega
  · right
    refine ⟨h11, ?_⟩
    unfold sibMem
    rw [if_pos rfl]
    have hh : rootHead ns' = 1 := by unfold rootHead; rw [if_neg (by omega)]
    rw [hh, hlen]
    rw [rootMem_succ_iff]
    exact ⟨by omega, Or.inl rfl⟩

/-! Glue: each `pn_data_add` branch lands in one of the shapes above. -/

theorem add_finish_state (d : PnData) (j : Nat) (hj0 : j ≠ 0) :
    (pn_data_add_finish d j).1 =
      { d with
        nodes := d.nodes.set (j - 1) { getNodeL d.nodes j with down := 0, children := 0, dataFlag := false, data_offset := 0, data_size := 0 }
        current := j } := by
  unfold pn_data_add_finish updNode getNodeL
  rw [if_neg hj0, if_neg hj0]

theorem pn_data_add_case_append_child (d : PnData) (hc : d.current ≠ 0)
    (hnx : (getNode d d.current).next = 0) (hp : d.parent ≠ 0) :
    pn_data_add d =
      pn_data_add_finish
        (updNode (updNode (updNode { d with nodes := d.nodes ++ [{}] } (d.nodes.length + 1)
            (fun nd => { nd with prev := d.current, parent := d.parent }))
          d.current (fun nd => { nd with next := d.nodes.length + 1 }))
          d.parent (fun p => { p with down := if p.down = 0 then d.nodes.length + 1 else p.down, children := p.children + 1 }))
        (d.nodes.length + 1) := by
  rw [pn_data_add_case_append d hc hnx]
  simp only []
  rw [if_pos hp]

theorem pn_data_add_case_append_root (d : PnData) (hc : d.current ≠ 0)
    (hnx : (getNode d d.current).next = 0) (hp : d.parent = 0) :
    pn_data_add d =
      pn_data_add_finish
        (updNode (updNode { d with nodes := d.nodes ++ [{}] } (d.nodes.length + 1)
            (fun nd => { nd with prev := d.current, parent := d.parent }))
          d.current (fun nd => { nd with next := d.nodes.length + 1 }))
        (d.nodes.length + 1) := by
  rw [pn_data_add_case_append d hc hnx]
  simp only []
  rw [if_neg (by simp [hp])]

theorem add_wf_reuse_next (d : PnData) (h : treeWF d = true) (hc : d.current ≠ 0)
    (hnx : (getNode d d.current).next ≠ 0) :
    treeWF (pn_data_add d).1 = true := by
  obtain ⟨h1, h2, h3, h4, h5, h6, h7⟩ := (treeWF_iff d).1 h
  rcases h7 with h70 | ⟨h71, h72⟩
  · exact absurd h70 hc
  have hnx' : (getNodeL d.nodes d.current).next ≠ 0 := hnx
  have hfacts : ((getNodeL d.nodes ((getNodeL d.nodes d.current).next)).parent = d.parent ∧
      (getNodeL d.nodes d.current).next ≤ d.nodes.length) ∧
      sibMem d.nodes d.parent ((getNodeL d.nodes d.current).next) = true := by
    unfold sibMem at h72 ⊢
    by_cases hP : d.parent = 0
    · rw [if_pos hP] at h72 ⊢
      have hm := rootMem_next d.nodes.length (rootHead d.nodes) 0 d.current h2 h72 hnx'
      have hs := rootMem_spec d.nodes.length (rootHead d.nodes) 0 _ h2 hm
      exact ⟨⟨by rw [hs.2.2, hP], hs.2.1⟩, hm⟩
    · rw [if_neg hP] at h72 ⊢
      have hok := (nodesOk_iff d.nodes).1 h1 d.parent hP h4
      have hm := chainMem_next _ _ 0 d.current hok h72 hnx'
      have hs := chainMem_spec _ _ 0 _ hok hm
      exact ⟨⟨hs.2.2, hs.2.1⟩, hm⟩
  rw [pn_data_add_case_reuse_next d hc hnx, add_finish_state d _ hnx]
  exact treeWF_reuse_core d _ _ h hnx hfacts.1.2 hfacts.1.1 hfacts.2 rfl rfl rfl rfl rfl

theorem add_wf_reuse_down (d : PnData) (h : treeWF d = true) (hc : d.current = 0)
    (hP : d.parent ≠ 0) (hd : (getNode d d.parent).down ≠ 0) :
    treeWF (pn_data_add d).1 = true := by
  obtain ⟨h1, h2, h3, h4, h5, h6, h7⟩ := (treeWF_iff d).1 h
  have hok := (nodesOk_iff d.nodes).1 h1 d.parent hP h4
  obtain ⟨c, hcc⟩ : ∃ c, (getNodeL d.nodes d.parent).children = c + 1 := by
    cases hch : (getNodeL d.nodes d.parent).children with
    | zero =>
      rw [hch, chainOk_zero_iff] at hok
      exact absurd hok hd
    | succ c => exact ⟨c, rfl⟩
  rw [hcc, chainOk_succ_iff] at hok
  have hjm : sibMem d.nodes d.parent ((getNodeL d.nodes d.parent).down) = true := by
    unfold sibMem
    rw [if_neg hP, hcc, chainMem_succ_iff]
    exact ⟨hok.1, Or.inl rfl⟩
  rw [pn_data_add_case_reuse_down d hc hP hd, add_finish_state d _ hd]
  exact treeWF_reuse_core d _ _ h hd hok.2.1 hok.2.2.1 hjm rfl rfl rfl rfl rfl

theorem add_wf_root_reuse (d : PnData) (h : treeWF d = true) (hc : d.current = 0)
    (hP : d.parent = 0) (hl : d.nodes.length ≠ 0) :
    treeWF (pn_data_add d).1 = true := by
  obtain ⟨h1, h2, h3, h4, h5, h6, h7⟩ := (treeWF_iff d).1 h
  have hh : rootHead d.nodes = 1 := by unfold rootHead; rw [if_neg hl]
  obtain ⟨f, hf⟩ : ∃ f, d.nodes.length = f + 1 := ⟨d.nodes.length - 1, by omega⟩
  rw [hh, hf, rootOk_succ_iff] at h2
  rcases h2 with h20 | ⟨h21, h22, h23, h24⟩
  · exact absurd h20 one_ne_zero
  have hjm : sibMem d.nodes d.parent 1 = true := by
    unfold sibMem
    rw [if_pos hP, hh, hf, rootMem_succ_iff]
    exact ⟨one_ne_zero, Or.inl rfl⟩
  rw [pn_data_add_case_root_reuse d hc hP hl, add_finish_state d 1 one_ne_zero]
  exact treeWF_reuse_core d 1 _ h one_ne_zero (by omega) (by rw [h22, hP]) hjm
    rfl rfl rfl rfl rfl

theorem add_wf_append_child (d : PnData) (h : treeWF d = true) (hc : d.current ≠ 0)
    (hnx : (getNode d d.current).next = 0) (hp : d.parent ≠ 0) :
    treeWF (pn_data_add d).1 = true := by
  obtain ⟨h1, h2, h3, h4, h5, h6, h7⟩ := (treeWF_iff d).1 h
  rcases h7 with h70 | ⟨h71, h72⟩
  · exact absurd h70 hc
  have hclt : d.parent < d.current := h71 ▸ parentLt_spec d.nodes h3 d.current hc h5
  rw [pn_data_add_case_append_child d hc hnx hp]
  set X1 : PnData := { d with nodes := d.nodes ++ [{}] } with hX1
  set D2 : PnData := updNode X1 (d.nodes.length + 1)
    (fun nd => { nd with prev := d.current, parent := d.parent }) with hD2
  set D3 : PnData := updNode D2 d.current
    (fun nd => { nd with next := d.nodes.length + 1 }) with hD3
  set D4 : PnData := updNode D3 d.parent
    (fun p => { p with down := if p.down = 0 then d.nodes.length + 1 else p.down, children := p.children + 1 }) with hD4
  set S : PnData := (pn_data_add_finish D4 (d.nodes.length + 1)).1 with hS
  have hlX : X1.nodes.length = d.nodes.length + 1 := by rw [hX1]; simp
  have hlD2 : D2.nodes.length = d.nodes.length + 1 := by rw [hD2]; simp [hlX]
  have hlD3 : D3.nodes.length = d.nodes.length + 1 := by rw [hD3]; simp [hlD2]
  have hlD4 : D4.nodes.length = d.nodes.length + 1 := by rw [hD4]; simp [hlD3]
  have hlS : S.nodes.length = d.nodes.length + 1 := by
    rw [hS]; simp [pn_data_add_finish, hlD4]
  have eS : ∀ i, getNode S i =
      getNode (updNode D4 (d.nodes.length + 1)
        (fun n => { n with down := 0, children := 0, dataFlag := false, data_offset := 0, data_size := 0 })) i := by
    intro i
    rw [hS]
    exact getNode_set_current _ _ i
  have gn : getNode S (d.nodes.length + 1) = { ({} : PnNode) with prev := d.current, parent := d.parent } := by
    rw [eS, getNode_updNode_self D4 (d.nodes.length + 1) _ (by omega) (by omega), hD4,
      getNode_updNode_ne D3 d.parent (d.nodes.length + 1) _ (by omega), hD3,
      getNode_updNode_ne D2 d.current (d.nodes.length + 1) _ (by omega), hD2,
      getNode_updNode_self X1 (d.nodes.length + 1) _ (by omega) (by omega), hX1,
      getNode_append_eq d {}]
  have gcur : getNode S d.current = { getNode d d.current with next := d.nodes.length + 1 } := by
    rw [eS, getNode_updNode_ne D4 (d.nodes.length + 1) d.current _ (by omega), hD4,
      getNode_updNode_ne D3 d.parent d.current _ (by omega), hD3,
      getNode_updNode_self D2 d.current _ hc (by omega), hD2,
      getNode_updNode_ne X1 (d.nodes.length + 1) d.current _ (by omega), hX1,
      getNode_append_lt d {} d.current h5]
  have gP : getNode S d.parent =
      { getNode d d.parent with
        down := if (getNode d d.parent).down = 0 then d.nodes.length + 1 else (getNode d d.parent).down
        children := (getNode d d.parent).children + 1 } := by
    rw [eS, getNode_updNode_ne D4 (d.nodes.length + 1) d.parent _ (by omega), hD4,
      getNode_updNode_self D3 d.parent _ hp (by omega), hD3,
      getNode_updNode_ne D2 d.current d.parent _ (by omega), hD2,
      getNode_updNode_ne X1 (d.nodes.length + 1) d.parent _ (by omega), hX1,
      getNode_append_lt d {} d.parent h4]
  have gother : ∀ i, i ≠ 0 → i ≤ d.nodes.length → i ≠ d.current → i ≠ d.parent →
      getNode S i = getNode d i := by
    intro i hi hile hic hip
    rw [eS, getNode_updNode_ne D4 (d.nodes.length + 1) i _ (by omega), hD4,
      getNode_updNode_ne D3 d.parent i _ hip, hD3,
      getNode_updNode_ne D2 d.current i _ hic, hD2,
      getNode_updNode_ne X1 (d.nodes.length + 1) i _ (by omega), hX1,
      getNode_append_lt d {} i hile]
  refine treeWF_append_child d S.nodes h hp hc hnx hlS ?_ ?_ ?_ ?_ ?_ ?_ ?_ ?_ ?_ ?_
    ?_ ?_ ?_ ?_ ?_ ?_ S rfl ?_ ?_
  · simp only [getNodeL_eq_getNode, gn]
  · simp only [getNodeL_eq_getNode, gn]
  · simp only [getNodeL_eq_getNode, gn]
  · simp only [getNodeL_eq_getNode, gn]
  · simp only [getNodeL_eq_getNode, gn]
  · simp only [getNodeL_eq_getNode, gcur]
  · simp only [getNodeL_eq_getNode, gcur]
  · simp only [getNodeL_eq_getNode, gcur]
  · simp only [getNodeL_eq_getNode, gcur]
  · simp only [getNodeL_eq_getNode, gcur]
  · simp only [getNodeL_eq_getNode, gP]
  · simp only [getNodeL_eq_getNode, gP]
  · simp only [getNodeL_eq_getNode, gP]
  · intro hdz
    have hdz2 : (getNode d d.parent).down ≠ 0 := hdz
    simp only [getNodeL_eq_getNode, gP]
    rw [if_neg hdz2]
  · simp only [getNodeL_eq_getNode, gP]
  · intro i hi hile hic hip
    rw [getNodeL_eq_getNode S i, getNodeL_eq_getNode d i]
    exact gother i hi hile hic hip
  · rw [hS]; simp [pn_data_add_finish, hD4, hD3, hD2, hX1]
  · rw [hS]; simp [pn_data_add_finish]

theorem add_wf_append_root (d : PnData) (h : treeWF d = true) (hc : d.current ≠ 0)
    (hnx : (getNode d d.current).next = 0) (hp : d.parent = 0) :
    treeWF (pn_data_add d).1 = true := by
  obtain ⟨h1, h2, h3, h4, h5, h6, h7⟩ := (treeWF_iff d).1 h
  rw [pn_data_add_case_append_root d hc hnx hp]
  set X1 : PnData := { d with nodes := d.nodes ++ [{}] } with hX1
  set D2 : PnData := updNode X1 (d.nodes.length + 1)
    (fun nd => { nd with prev := d.current, parent := d.parent }) with hD2
  set D3 : PnData := updNode D2 d.current
    (fun nd => { nd with next := d.nodes.length + 1 }) with hD3
  set S : PnData := (pn_data_add_finish D3 (d.nodes.length + 1)).1 with hS
  have hlX : X1.nodes.length = d.nodes.length + 1 := by rw [hX1]; simp
  have hlD2 : D2.nodes.length = d.nodes.length + 1 := by rw [hD2]; simp [hlX]
  have hlD3 : D3.nodes.length = d.nodes.length + 1 := by rw [hD3]; simp [hlD2]
  have hlS : S.nodes.length = d.nodes.length + 1 := by
    rw [hS]; simp [pn_data_add_finish, hlD3]
  have eS : ∀ i, getNode S i =
      getNode (updNode D3 (d.nodes.length + 1)
        (fun n => { n with down := 0, children := 0, dataFlag := false, data_offset := 0, data_size := 0 })) i := by
    intro i
    rw [hS]
    exact getNode_set_current _ _ i
  have gn : getNode S (d.nodes.length + 1) = { ({} : PnNode) with prev := d.current, parent := d.parent } := by
    rw [eS, getNode_updNode_self D3 (d.nodes.length + 1) _ (by omega) (by omega), hD3,
      getNode_updNode_ne D2 d.current (d.nodes.length + 1) _ (by omega), hD2,
      getNode_updNode_self X1 (d.nodes.length + 1) _ (by omega) (by omega), hX1,
      getNode_append_eq d {}]
  have gcur : getNode S d.current = { getNode d d.current with next := d.nodes.length + 1 } := by
    rw [eS, getNode_updNode_ne D3 (d.nodes.length + 1) d.current _ (by omega), hD3,
      getNode_updNode_self D2 d.current _ hc (by omega), hD2,
      getNode_updNode_ne X1 (d.nodes.length + 1) d.current _ (by omega), hX1,
      getNode_append_lt d {} d.current h5]
  have gother : ∀ i, i ≠ 0 → i ≤ d.nodes.length → i ≠ d.current →
      getNode S i = getNode d i := by
    intro i hi hile hic
    rw [eS, getNode_updNode_ne D3 (d.nodes.length + 1) i _ (by omega), hD3,
      getNode_updNode_ne D2 d.current i _ hic, hD2,
      getNode_updNode_ne X1 (d.nodes.length + 1) i _ (by omega), hX1,
      getNode_append_lt d {} i hile]
  refine treeWF_append_root d S.nodes h hp hc hnx hlS ?_ ?_ ?_ ?_ ?_ ?_ ?_ ?_ ?_ ?_
    ?_ S rfl ?_ ?_
  · simp only [getNodeL_eq_getNode, gn, hp]
  · rw [getNodeL_eq_getNode S _, gn]
  · rw [getNodeL_eq_getNode S _, gn]
  · rw [getNodeL_eq_getNode S _, gn]
  · rw [getNodeL_eq_getNode S _, gn]
  · simp only [getNodeL_eq_getNode, gcur]
  · simp only [getNodeL_eq_getNode, gcur]
  · simp only [getNodeL_eq_getNode, gcur]
  · simp only [getNodeL_eq_getNode, gcur]
  · simp only [getNodeL_eq_getNode, gcur]
  · intro i hi hile hic
    rw [getNodeL_eq_getNode S i, getNodeL_eq_getNode d i]
    exact gother i hi hile hic
  · rw [hS]; simp [pn_data_add_finish, hD3, hD2, hX1]
  · rw [hS]; simp [pn_data_add_finish]

theorem add_wf_first_child (d : PnData) (h : treeWF d = true) (hc : d.current = 0)
    (hp : d.parent ≠ 0) (hd : (getNode d d.parent).down = 0) :
    treeWF (pn_data_add d).1 = true := by
  obtain ⟨h1, h2, h3, h4, h5, h6, h7⟩ := (treeWF_iff d).1 h
  rw [pn_data_add_case_first_child d hc hp hd]
  set X1 : PnData := { d with nodes := d.nodes ++ [{}] } with hX1
  set D2 : PnData := updNode X1 (d.nodes.length + 1)
    (fun nd => { nd with prev := 0, parent := d.parent }) with hD2
  set D3 : PnData := updNode D2 d.parent
    (fun p => { p with down := d.nodes.length + 1, children := p.children + 1 }) with hD3
  set S : PnData := (pn_data_add_finish D3 (d.nodes.length + 1)).1 with hS
  have hlX : X1.nodes.length = d.nodes.length + 1 := by rw [hX1]; simp
  have hlD2 : D2.nodes.length = d.nodes.length + 1 := by rw [hD2]; simp [hlX]
  have hlD3 : D3.nodes.length = d.nodes.length + 1 := by rw [hD3]; simp [hlD2]
  have hlS : S.nodes.length = d.nodes.length + 1 := by
    rw [hS]; simp [pn_data_add_finish, hlD3]
  have eS : ∀ i, getNode S i =
      getNode (updNode D3 (d.nodes.length + 1)
        (fun n => { n with down := 0, children := 0, dataFlag := false, data_offset := 0, data_size := 0 })) i := by
    intro i
    rw [hS]
    exact getNode_set_current _ _ i
  have gn : getNode S (d.nodes.length + 1) = { ({} : PnNode) with parent := d.parent } := by
    rw [eS, getNode_updNode_self D3 (d.nodes.length + 1) _ (by omega) (by omega), hD3,
      getNode_updNode_ne D2 d.parent (d.nodes.length + 1) _ (by omega), hD2,
      getNode_updNode_self X1 (d.nodes.length + 1) _ (by omega) (by omega), hX1,
      getNode_append_eq d {}]
  have gP : getNode S d.parent =
      { getNode d d.parent with
        down := d.nodes.length + 1
        children := (getNode d d.parent).children + 1 } := by
    rw [eS, getNode_updNode_ne D3 (d.nodes.length + 1) d.parent _ (by omega), hD3,
      getNode_updNode_self D2 d.parent _ hp (by omega), hD2,
      getNode_updNode_ne X1 (d.nodes.length + 1) d.parent _ (by omega), hX1,
      getNode_append_lt d {} d.parent h4]
  have gother : ∀ i, i ≠ 0 → i ≤ d.nodes.length → i ≠ d.parent →
      getNode S i = getNode d i := by
    intro i hi hile hip
    rw [eS, getNode_updNode_ne D3 (d.nodes.length + 1) i _ (by omega), hD3,
      getNode_updNode_ne D2 d.parent i _ hip, hD2,
      getNode_updNode_ne X1 (d.nodes.length + 1) i _ (by omega), hX1,
      getNode_append_lt d {} i hile]
  refine treeWF_first_child d S.nodes h hp hd hlS ?_ ?_ ?_ ?_ ?_ ?_ ?_ ?_ ?_ ?_
    ?_ S rfl ?_ ?_
  · simp only [getNodeL_eq_getNode, gn]
  · simp only [getNodeL_eq_getNode, gn]
  · simp only [getNodeL_eq_getNode, gn]
  · simp only [getNodeL_eq_getNode, gn]
  · simp only [getNodeL_eq_getNode, gn]
  · simp only [getNodeL_eq_getNode, gP]
  · simp only [getNodeL_eq_getNode, gP]
  · simp only [getNodeL_eq_getNode, gP]
  · simp only [getNodeL_eq_getNode, gP]
  · simp only [getNodeL_eq_getNode, gP]
  · intro i hi hile hip
    rw [getNodeL_eq_getNode S i, getNodeL_eq_getNode d i]
    exact gother i hi hile hip
  · rw [hS]; simp [pn_data_add_finish, hD3, hD2, hX1]
  · rw [hS]; simp [pn_data_add_finish]

theorem add_wf_root_empty (d : PnData) (hc : d.current = 0)
    (hp : d.parent = 0) (hl : d.nodes.length = 0) :
    treeWF (pn_data_add d).1 = true := by
  rw [pn_data_add_case_root_empty d hc hp hl]
  set X1 : PnData := { d with nodes := d.nodes ++ [{}] } with hX1
  set D2 : PnData := updNode X1 1
    (fun nd => { nd with prev := 0, parent := 0 }) with hD2
  set S : PnData := (pn_data_add_finish D2 1).1 with hS
  have hlX : X1.nodes.length = d.nodes.length + 1 := by rw [hX1]; simp
  have hlD2 : D2.nodes.length = d.nodes.length + 1 := by rw [hD2]; simp [hlX]
  have hlS : S.nodes.length = 1 := by
    rw [hS]; simp [pn_data_add_finish, hlD2, hl]
  have eS : ∀ i, getNode S i =
      getNode (updNode D2 1
        (fun n => { n with down := 0, children := 0, dataFlag := false, data_offset := 0, data_size := 0 })) i := by
    intro i
    rw [hS]
    exact getNode_set_current _ _ i
  have hone : (1 : Nat) = d.nodes.length + 1 := by omega
  have g1 : getNode S 1 = ({} : PnNode) := by
    rw [eS, getNode_updNode_self D2 1 _ one_ne_zero (by omega), hD2,
      getNode_updNode_self X1 1 _ one_ne_zero (by omega), hX1, hone,
      getNode_append_eq d {}]
  refine treeWF_root_empty d S.nodes hl hp hlS ?_ ?_ ?_ ?_ ?_ S rfl ?_ ?_
  · simp only [getNodeL_eq_getNode, g1]
  · simp only [getNodeL_eq_getNode, g1]
  · simp only [getNodeL_eq_getNode, g1]
  · simp only [getNodeL_eq_getNode, g1]
  · simp only [getNodeL_eq_getNode, g1]
  · rw [hS]; simp [pn_data_add_finish, hD2, hX1]
  · rw [hS]; simp [pn_data_add_finish]

/-- `pn_data_add` preserves the structural invariant, in every branch. -/
theorem add_treeWF (d : PnData) (h : treeWF d = true) :
    treeWF (pn_data_add d).1 = true := by
  by_cases hc : d.current = 0
  · by_cases hp : d.parent = 0
    · by_cases hl : d.nodes.length = 0
      · exact add_wf_root_empty d hc hp hl
      · exact add_wf_root_reuse d h hc hp hl
    · by_cases hd : (getNode d d.parent).down = 0
      · exact add_wf_first_child d h hc hp hd
      · exact add_wf_reuse_down d h hc hp hd
  · by_cases hnx : (getNode d d.current).next = 0
    · by_cases hp : d.parent = 0
      · exact add_wf_append_root d h hc hnx hp
      · exact add_wf_append_child d h hc hnx hp
    · exact add_wf_reuse_next d h hc hnx

/-- An `updNode` that keeps the five structural fields keeps the invariant. -/
theorem treeWF_updNode_pres (d : PnData) (j : Nat) (f : PnNode → PnNode)
    (hf : ∀ nd, (f nd).parent = nd.parent ∧ (f nd).prev = nd.prev ∧
      (f nd).next = nd.next ∧ (f nd).down = nd.down ∧ (f nd).children = nd.children)
    (h : treeWF d = true) : treeWF (updNode d j f) = true := by
  by_cases hj : j = 0
  · subst hj
    unfold updNode
    simpa using h
  refine treeWF_congr (by simp) (by simp) (by simp) ?_ h
  intro i hi
  rw [show (updNode d j f).nodes = d.nodes.set (j - 1) (f (getNodeL d.nodes j)) from
    updNode_nodes_ne d j f hj]
  by_cases hij : i = j
  · subst hij
    by_cases hle : i ≤ d.nodes.length
    · rw [getNodeL_set_self d.nodes i _ hi hle]
      exact hf (getNodeL d.nodes i)
    · have hoob : d.nodes.length < i := by omega
      have : (d.nodes.set (i - 1) (f (getNodeL d.nodes i))).length < i := by simp; omega
      rw [getNodeL_oob _ i this, getNodeL_oob d.nodes i hoob]
      exact ⟨rfl, rfl, rfl, rfl, rfl⟩
  · rw [getNodeL_set_ne d.nodes j i _ hj hij]
    exact ⟨rfl, rfl, rfl, rfl, rfl⟩

theorem treeWF_extras (d : PnData) (e : Nat) : treeWF { d with extras := e } = treeWF d :=
  rfl

/-- Every `pn_data_put_*` goes through `pn_data_add` followed by writes of
non-structural fields, so each preserves the invariant. -/
theorem putAtom_treeWF (d : PnData) (a : PnAtom) (h : treeWF d = true) :
    treeWF (putAtom d a) = true := by
  unfold putAtom
  exact treeWF_updNode_pres _ _ _ (fun nd => ⟨rfl, rfl, rfl, rfl, rfl⟩) (add_treeWF d h)

theorem internCurrent_treeWF (d : PnData) (h : treeWF d = true) :
    treeWF (internCurrent d) = true := by
  unfold internCurrent
  exact treeWF_updNode_pres _ _ _ (fun nd => ⟨rfl, rfl, rfl, rfl, rfl⟩) h

theorem put_array_treeWF (d : PnData) (b : Bool) (t : PnType) (h : treeWF d = true) :
    treeWF (pn_data_put_array d b t) = true := by
  have base := treeWF_updNode_pres (pn_data_add d).1 (pn_data_add d).2
    (fun n => { n with atom := PnAtom.aarray 0, described := b, etype := t })
    (fun nd => ⟨rfl, rfl, rfl, rfl, rfl⟩) (add_treeWF d h)
  unfold pn_data_put_array
  exact treeWF_congr rfl rfl rfl (fun i hi => ⟨rfl, rfl, rfl, rfl, rfl⟩) base

theorem applyPut_treeWF (op : PutOp) (d : PnData) (h : treeWF d = true) :
    treeWF (applyPut op d) = true := by
  cases op with
  | pnull => exact putAtom_treeWF d _ h
  | pbool b => exact putAtom_treeWF d _ h
  | pubyte v => exact putAtom_treeWF d _ h
  | pbyte v => exact putAtom_treeWF d _ h
  | pushort v => exact putAtom_treeWF d _ h
  | pshort v => exact putAtom_treeWF d _ h
  | puint v => exact putAtom_treeWF d _ h
  | pint v => exact putAtom_treeWF d _ h
  | pchar v => exact putAtom_treeWF d _ h
  | pulong v => exact putAtom_treeWF d _ h
  | plong v => exact putAtom_treeWF d _ h
  | ptimestamp v => exact putAtom_treeWF d _ h
  | pfloat v => exact putAtom_treeWF d _ h
  | pdouble v => exact putAtom_treeWF d _ h
  | pdec32 v => exact putAtom_treeWF d _ h
  | pdec64 v => exact putAtom_treeWF d _ h
  | pdec128 bs => exact putAtom_treeWF d _ h
  | puuid bs => exact putAtom_treeWF d _ h
  | pbinary bs => exact internCurrent_treeWF _ (putAtom_treeWF d _ h)
  | pstring bs => exact internCurrent_treeWF _ (putAtom_treeWF d _ h)
  | psymbol bs => exact internCurrent_treeWF _ (putAtom_treeWF d _ h)
  | plist => exact putAtom_treeWF d _ h
  | pmap => exact putAtom_treeWF d _ h
  | pdescribed => exact putAtom_treeWF d _ h
  | parray described t => exact put_array_treeWF d _ _ h

theorem pn_data_enter_treeWF (d : PnData) (h : treeWF d = true) :
    treeWF (pn_data_enter d).2 = true := by
  unfold pn_data_enter
  by_cases hc : d.current ≠ 0
  · rw [if_pos hc]
    show treeWF { d with parent := d.current, current := 0 } = true
    obtain ⟨h1, h2, h3, h4, h5, h6, h7⟩ := (treeWF_iff d).1 h
    rcases h7 with h70 | ⟨h71, h72⟩
    · exact absurd h70 hc
    rw [treeWF_iff]
    refine ⟨h1, h2, h3, ?_, ?_, ?_, Or.inl rfl⟩
    · show d.current ≤ d.nodes.length
      exact h5
    · show (0 : Nat) ≤ d.nodes.length
      omega
    · show pathOk d.nodes (d.nodes.length + 1) d.current = true
      rw [pathOk_succ_iff]
      refine Or.inr ⟨h5, by rw [h71]; exact h72, ?_⟩
      rw [h71]
      exact pathOk_fuel_change h3 d.parent (d.nodes.length + 1) d.nodes.length
        (by omega) h4 h6
  · rw [if_neg hc]
    exact h

theorem pn_data_exit_treeWF (d : PnData) (h : treeWF d = true) :
    treeWF (pn_data_exit d).2 = true := by
  unfold pn_data_exit
  by_cases hp : d.parent ≠ 0
  · rw [if_pos hp]
    show treeWF { d with current := d.parent, parent := (getNode d d.parent).parent } = true
    obtain ⟨h1, h2, h3, h4, h5, h6, h7⟩ := (treeWF_iff d).1 h
    rw [pathOk_succ_iff] at h6
    rcases h6 with h60 | ⟨h61, h62, h63⟩
    · exact absurd h60 hp
    have hqlt : (getNodeL d.nodes d.parent).parent < d.parent :=
      parentLt_spec d.nodes h3 d.parent hp h4
    rw [treeWF_iff]
    refine ⟨h1, h2, h3, ?_, ?_, ?_, Or.inr ⟨?_, ?_⟩⟩
    · show (getNodeL d.nodes d.parent).parent ≤ d.nodes.length
      omega
    · show d.parent ≤ d.nodes.length
      exact h4
    · show pathOk d.nodes (d.nodes.length + 1) ((getNodeL d.nodes d.parent).parent) = true
      exact pathOk_fuel_change h3 _ d.nodes.length (d.nodes.length + 1)
        (by omega) (by omega) h63
    · show (getNodeL d.nodes d.parent).parent = (getNodeL d.nodes d.parent).parent
      rfl
    · show sibMem d.nodes ((getNodeL d.nodes d.parent).parent) d.parent = true
      exact h62
  · rw [if_neg hp]
    exact h

/-- The walkup's sentinel reset (`current->down = 0; current->children = 0`)
keeps the invariant: the cursor node's own child list just becomes empty. -/
theorem treeWF_reset_current (d : PnData) (h : treeWF d = true) :
    treeWF (updNode d d.current (fun nd => { nd with down := 0, children := 0 })) = true := by
  by_cases hc : d.current = 0
  · rw [hc]
    unfold updNode
    simpa using h
  obtain ⟨h1, h2, h3, h4, h5, h6, h7⟩ := (treeWF_iff d).1 h
  rcases h7 with h70 | ⟨h71, h72⟩
  · exact absurd h70 hc
  have hg : getNodeL d.nodes d.current = d.nodes.getD (d.current - 1) {} := by
    unfold getNodeL
    rw [if_neg hc]
  unfold updNode
  rw [if_neg hc]
  have core := treeWF_reuse_core d d.current
    { getNodeL d.nodes d.current with down := 0, children := 0 }
    h hc h5 h71 h72 rfl rfl rfl rfl rfl
  rw [hg] at core
  exact core

theorem vfill_walkup_treeWF (fuel : Nat) : ∀ d : PnData, treeWF d = true →
    treeWF (pn_data_vfill_walkup fuel d) = true := by
  induction fuel with
  | zero =>
    intro d h
    simpa [pn_data_vfill_walkup] using h
  | succ f ih =>
    intro d h
    unfold pn_data_vfill_walkup
    cases hnd : pn_data_node d d.parent with
    | none => exact h
    | some parent =>
      simp only []
      by_cases hd1 : parent.atom.ptype = PnType.tDescriptor ∧ parent.children = 2
      · rw [if_pos hd1]
        exact ih _ (pn_data_exit_treeWF d h)
      · rw [if_neg hd1]
        by_cases hd2 : parent.atom.ptype = PnType.tNull ∧ parent.children = 1
        · rw [if_pos hd2]
          exact ih _ (treeWF_reset_current _ (pn_data_exit_treeWF d h))
        · rw [if_neg hd2]
          exact h

theorem vfill_syms_treeWF (count : Nat) : ∀ (d : PnData) (syms : List (Option (List Nat))),
    treeWF d = true → treeWF (pn_data_vfill_syms d syms count) = true := by
  induction count with
  | zero =>
    intro d syms h
    simpa [pn_data_vfill_syms] using h
  | succ c ih =>
    intro d syms h
    unfold pn_data_vfill_syms
    cases syms.headD none with
    | some bs =>
      exact ih _ _ (vfill_walkup_treeWF _ _
        (internCurrent_treeWF _ (putAtom_treeWF d _ h)))
    | none =>
      exact ih _ _ (vfill_walkup_treeWF _ _ (putAtom_treeWF d _ h))

theorem appendn_copy_treeWF (data src : PnData) (level count : Nat)
    (h : treeWF data = true) :
    treeWF (pn_data_appendn_copy data src level count).1 = true := by
  unfold pn_data_appendn_copy
  cases pn_data_type src with
  | none => exact h
  | some t =>
    cases t with
    | tNull => exact putAtom_treeWF data _ h
    | tBool => exact putAtom_treeWF data _ h
    | tUbyte => exact putAtom_treeWF data _ h
    | tByte => exact putAtom_treeWF data _ h
    | tUshort => exact putAtom_treeWF data _ h
    | tShort => exact putAtom_treeWF data _ h
    | tUint => exact putAtom_treeWF data _ h
    | tInt => exact putAtom_treeWF data _ h
    | tChar => exact putAtom_treeWF data _ h
    | tUlong => exact putAtom_treeWF data _ h
    | tLong => exact putAtom_treeWF data _ h
    | tTimestamp => exact putAtom_treeWF data _ h
    | tFloat => exact putAtom_treeWF data _ h
    | tDouble => exact putAtom_treeWF data _ h
    | tDec32 => exact putAtom_treeWF data _ h
    | tDec64 => exact putAtom_treeWF data _ h
    | tDec128 => exact putAtom_treeWF data _ h
    | tUuid => exact putAtom_treeWF data _ h
    | tBinary => exact internCurrent_treeWF _ (putAtom_treeWF data _ h)
    | tString => exact internCurrent_treeWF _ (putAtom_treeWF data _ h)
    | tSymbol => exact internCurrent_treeWF _ (putAtom_treeWF data _ h)
    | tDescriptor => exact pn_data_enter_treeWF _ (putAtom_treeWF data _ h)
    | tArray => exact pn_data_enter_treeWF _ (put_array_treeWF data _ _ h)
    | tList => exact pn_data_enter_treeWF _ (putAtom_treeWF data _ h)
    | tMap => exact pn_data_enter_treeWF _ (putAtom_treeWF data _ h)
    | tType => exact h

theorem appendn_loop_treeWF (fuel : Nat) : ∀ (data src : PnData) (limit : Int)
    (level count : Nat), treeWF data = true →
    treeWF (pn_data_appendn_loop fuel data src limit level count).1 = true := by
  induction fuel with
  | zero =>
    intro data src limit level count h
    simpa [pn_data_appendn_loop] using h
  | succ f ih =>
    intro data src limit level count h
    have hx : treeWF (pn_data_exit data).2 = true := pn_data_exit_treeWF data h
    unfold pn_data_appendn_loop
    by_cases hn1 : (pn_data_next src).1 = true
    · simp only [hn1, if_true]
      by_cases hend : level = 0 ∧ (count : Int) = limit
      · rw [if_pos hend]
        exact h
      · rw [if_neg hend]
        exact ih _ _ _ _ _ (appendn_copy_treeWF data _ level count h)
    · simp only [if_neg hn1]
      by_cases hl : level > 0
      · simp only [if_pos hl]
        by_cases hn2 : (pn_data_next (pn_data_exit (pn_data_next src).2).2).1 = true
        · simp only [hn2, if_true]
          by_cases hend : level - 1 = 0 ∧ (count : Int) = limit
          · rw [if_pos hend]
            exact hx
          · rw [if_neg hend]
            exact ih _ _ _ _ _ (appendn_copy_treeWF _ _ _ _ hx)
        · simp only [if_neg hn2]
          exact hx
      · simp only [if_neg hl]
        by_cases hn2 : (pn_data_next (pn_data_next src).2).1 = true
        · simp only [hn2, if_true]
          by_cases hend : level = 0 ∧ (count : Int) = limit
          · rw [if_pos hend]
            exact h
          · rw [if_neg hend]
            exact ih _ _ _ _ _ (appendn_copy_treeWF _ _ _ _ h)
        · simp only [if_neg hn2]
          exact h

theorem appendn_treeWF (data src : PnData) (limit : Int) (h : treeWF data = true) :
    treeWF (pn_data_appendn data src limit).1 = true := by
  unfold pn_data_appendn
  exact appendn_loop_treeWF _ _ _ _ _ _ h

/-! One-step equations for `pn_data_vfill_go`, used to drive the
invariant-preservation proof cheaply. -/

theorem vfillGoEq_leaf (f : Nat) (d : PnData) (fmt : List FChar) (args : List FillArg)
    (prevT : Bool) :
    (pn_data_vfill_go (f + 1) d (.fn :: fmt) args prevT =
      pn_data_vfill_go f (pn_data_vfill_walkup ((pn_data_put_null d).nodes.length + 2)
        (pn_data_put_null d)) fmt args false) ∧
    (pn_data_vfill_go (f + 1) d (.fo :: fmt) args prevT =
      pn_data_vfill_go f (pn_data_vfill_walkup
        ((pn_data_put_bool d ((args.headD (.aNat 0)).getNat ≠ 0)).nodes.length + 2)
        (pn_data_put_bool d ((args.headD (.aNat 0)).getNat ≠ 0))) fmt (args.drop 1) false) ∧
    (pn_data_vfill_go (f + 1) d (.fB :: fmt) args prevT =
      pn_data_vfill_go f (pn_data_vfill_walkup
        ((pn_data_put_ubyte d (args.headD (.aNat 0)).getNat).nodes.length + 2)
        (pn_data_put_ubyte d (args.headD (.aNat 0)).getNat)) fmt (args.drop 1) false) ∧
    (pn_data_vfill_go (f + 1) d (.fb :: fmt) args prevT =
      pn_data_vfill_go f (pn_data_vfill_walkup
        ((pn_data_put_byte d (args.headD (.aInt 0)).getInt).nodes.length + 2)
        (pn_data_put_byte d (args.headD (.aInt 0)).getInt)) fmt (args.drop 1) false) ∧
    (pn_data_vfill_go (f + 1) d (.fH :: fmt) args prevT =
      pn_data_vfill_go f (pn_data_vfill_walkup
        ((pn_data_put_ushort d (args.headD (.aNat 0)).getNat).nodes.length + 2)
        (pn_data_put_ushort d (args.headD (.aNat 0)).getNat)) fmt (args.drop 1) false) ∧
    (pn_data_vfill_go (f + 1) d (.fh :: fmt) args prevT =
      pn_data_vfill_go f (pn_data_vfill_walkup
        ((pn_data_put_short d (args.headD (.aInt 0)).getInt).nodes.length + 2)
        (pn_data_put_short d (args.headD (.aInt 0)).getInt)) fmt (args.drop 1) false) ∧
    (pn_data_vfill_go (f + 1) d (.fI :: fmt) args prevT =
      pn_data_vfill_go f (pn_data_vfill_walkup
        ((pn_data_put_uint d (args.headD (.aNat 0)).getNat).nodes.length + 2)
        (pn_data_put_uint d (args.headD (.aNat 0)).getNat)) fmt (args.drop 1) false) ∧
    (pn_data_vfill_go (f + 1) d (.fi :: fmt) args prevT =
      pn_data_vfill_go f (pn_data_vfill_walkup
        ((pn_data_put_int d (args.headD (.aInt 0)).getInt).nodes.length + 2)
        (pn_data_put_int d (args.headD (.aInt 0)).getInt)) fmt (args.drop 1) false) ∧
    (pn_data_vfill_go (f + 1) d (.fL :: fmt) args prevT =
      pn_data_vfill_go f (pn_data_vfill_walkup
        ((pn_data_put_ulong d (args.headD (.aNat 0)).getNat).nodes.length + 2)
        (pn_data_put_ulong d (args.headD (.aNat 0)).getNat)) fmt (args.drop 1) false) ∧
    (pn_data_vfill_go (f + 1) d (.fl :: fmt) args prevT =
      pn_data_vfill_go f (pn_data_vfill_walkup
        ((pn_data_put_long d (args.headD (.aInt 0)).getInt).nodes.length + 2)
        (pn_data_put_long d (args.headD (.aInt 0)).getInt)) fmt (args.drop 1) false) ∧
    (pn_data_vfill_go (f + 1) d (.ft :: fmt) args prevT =
      pn_data_vfill_go f (pn_data_vfill_walkup
        ((pn_data_put_timestamp d (args.headD (.aInt 0)).getInt).nodes.length + 2)
        (pn_data_put_timestamp d (args.headD (.aInt 0)).getInt)) fmt (args.drop 1) false) ∧
    (pn_data_vfill_go (f + 1) d (.ff :: fmt) args prevT =
      pn_data_vfill_go f (pn_data_vfill_walkup
        ((pn_data_put_float d (args.headD (.aNat 0)).getNat).nodes.length + 2)
        (pn_data_put_float d (args.headD (.aNat 0)).getNat)) fmt (args.drop 1) false) ∧
    (pn_data_vfill_go (f + 1) d (.fd :: fmt) args prevT =
      pn_data_vfill_go f (pn_data_vfill_walkup
        ((pn_data_put_double d (args.headD (.aNat 0)).getNat).nodes.length + 2)
        (pn_data_put_double d (args.headD (.aNat 0)).getNat)) fmt (args.drop 1) false) :=
  ⟨rfl, rfl, rfl, rfl, rfl, rfl, rfl, rfl, rfl, rfl, rfl, rfl, rfl⟩

theorem vfillGoEq_bytes (f : Nat) (d : PnData) (fmt : List FChar) (args : List FillArg)
    (prevT : Bool) :
    (pn_data_vfill_go (f + 1) d (.fz :: fmt) args prevT =
      match (args.headD (.aBytes none)).getBytes with
      | some bs => pn_data_vfill_go f (pn_data_vfill_walkup
          ((pn_data_put_binary d bs).nodes.length + 2) (pn_data_put_binary d bs))
          fmt (args.drop 1) false
      | none => pn_data_vfill_go f (pn_data_vfill_walkup
          ((pn_data_put_null d).nodes.length + 2) (pn_data_put_null d))
          fmt (args.drop 1) false) ∧
    (pn_data_vfill_go (f + 1) d (.fS :: fmt) args prevT =
      match (args.headD (.aBytes none)).getBytes with
      | some bs => pn_data_vfill_go f (pn_data_vfill_walkup
          ((pn_data_put_string d bs).nodes.length + 2) (pn_data_put_string d bs))
          fmt (args.drop 1) false
      | none => pn_data_vfill_go f (pn_data_vfill_walkup
          ((pn_data_put_null d).nodes.length + 2) (pn_data_put_null d))
          fmt (args.drop 1) false) ∧
    (pn_data_vfill_go (f + 1) d (.fs :: fmt) args prevT =
      match (args.headD (.aBytes none)).getBytes with
      | some bs => pn_data_vfill_go f (pn_data_vfill_walkup
          ((pn_data_put_symbol d bs).nodes.length + 2) (pn_data_put_symbol d bs))
          fmt (args.drop 1) false
      | none => pn_data_vfill_go f (pn_data_vfill_walkup
          ((pn_data_put_null d).nodes.length + 2) (pn_data_put_null d))
          fmt (args.drop 1) false) :=
  ⟨rfl, rfl, rfl⟩

theorem vfillGoEq_struct (f : Nat) (d : PnData) (fmt : List FChar) (args : List FillArg)
    (prevT : Bool) :
    (pn_data_vfill_go (f + 1) d (.fD :: fmt) args prevT =
      pn_data_vfill_go f (pn_data_vfill_walkup
        (((pn_data_enter (pn_data_put_described d)).2).nodes.length + 2)
        (pn_data_enter (pn_data_put_described d)).2) fmt args false) ∧
    (pn_data_vfill_go (f + 1) d (.fT :: fmt) args prevT =
      match pn_data_node d d.parent with
      | some parent =>
        if parent.atom.ptype = PnType.tArray then
          pn_data_vfill_go f (pn_data_vfill_walkup
            ((updNode d d.parent (fun nd =>
              { nd with etype := (args.headD (.aType .tNull)).getType })).nodes.length + 2)
            (updNode d d.parent (fun nd =>
              { nd with etype := (args.headD (.aType .tNull)).getType })))
            fmt (args.drop 1) true
        else (.err, d)
      | none => (.err, d)) ∧
    (pn_data_vfill_go (f + 1) d (.fLBracket :: fmt) args prevT =
      if prevT then pn_data_vfill_go f d fmt args false
      else pn_data_vfill_go f (pn_data_vfill_walkup
        (((pn_data_enter (pn_data_put_list d)).2).nodes.length + 2)
        (pn_data_enter (pn_data_put_list d)).2) fmt args false) ∧
    (pn_data_vfill_go (f + 1) d (.fLBrace :: fmt) args prevT =
      pn_data_vfill_go f (pn_data_vfill_walkup
        (((pn_data_enter (pn_data_put_map d)).2).nodes.length + 2)
        (pn_data_enter (pn_data_put_map d)).2) fmt args false) ∧
    (pn_data_vfill_go (f + 1) d (.fRBracket :: fmt) args prevT =
      if (pn_data_exit d).1 then
        pn_data_vfill_go f (pn_data_vfill_walkup
          (((pn_data_exit d).2).nodes.length + 2) (pn_data_exit d).2) fmt args false
      else (.err, (pn_data_exit d).2)) ∧
    (pn_data_vfill_go (f + 1) d (.fRBrace :: fmt) args prevT =
      if (pn_data_exit d).1 then
        pn_data_vfill_go f (pn_data_vfill_walkup
          (((pn_data_exit d).2).nodes.length + 2) (pn_data_exit d).2) fmt args false
      else (.err, (pn_data_exit d).2)) ∧
    (pn_data_vfill_go (f + 1) d (.fQuest :: fmt) args prevT =
      if (args.headD (.aPred false)).getPred then
        pn_data_vfill_go f (pn_data_vfill_walkup (d.nodes.length + 2) d)
          fmt (args.drop 1) false
      else
        pn_data_vfill_go f (pn_data_vfill_walkup
          (((pn_data_enter (pn_data_put_null d)).2).nodes.length + 2)
          (pn_data_enter (pn_data_put_null d)).2) fmt (args.drop 1) false) ∧
    (pn_data_vfill_go (f + 1) d (.fDot :: fmt) args prevT = (.argErr, d)) ∧
    (pn_data_vfill_go (f + 1) d (.fc :: fmt) args prevT = (.argErr, d)) :=
  ⟨rfl, rfl, rfl, rfl, rfl, rfl, rfl, rfl, rfl⟩

theorem vfillGoEq_at (f : Nat) (d : PnData) (fmt : List FChar) (args : List FillArg)
    (prevT : Bool) :
    pn_data_vfill_go (f + 1) d (.fAt :: fmt) args prevT =
      match fmt with
      | _ :: .fD :: fmt1 =>
        pn_data_vfill_go f (pn_data_vfill_walkup
          (((pn_data_enter (pn_data_put_array d true .tNull)).2).nodes.length + 2)
          (pn_data_enter (pn_data_put_array d true .tNull)).2) (.fD :: fmt1) args false
      | _ =>
        pn_data_vfill_go f (pn_data_vfill_walkup
          (((pn_data_enter (pn_data_put_array d false .tNull)).2).nodes.length + 2)
          (pn_data_enter (pn_data_put_array d false .tNull)).2) fmt args false := rfl

theorem vfillGoEq_star (f : Nat) (d : PnData) (fmt : List FChar) (args : List FillArg)
    (prevT : Bool) :
    pn_data_vfill_go (f + 1) d (.fStar :: fmt) args prevT =
      match fmt with
      | .fs :: fmt1 =>
        pn_data_vfill_go f (pn_data_vfill_walkup
          ((pn_data_vfill_syms d ((args.getD 1 (.aSymbols [])).getSymbols)
            ((args.headD (.aNat 0)).getNat)).nodes.length + 2)
          (pn_data_vfill_syms d ((args.getD 1 (.aSymbols [])).getSymbols)
            ((args.headD (.aNat 0)).getNat))) fmt1 (args.drop 2) false
      | _ => (.argErr, d) := rfl

theorem vfillGoEq_copy (f : Nat) (d : PnData) (fmt : List FChar) (args : List FillArg)
    (prevT : Bool) :
    pn_data_vfill_go (f + 1) d (.fC :: fmt) args prevT =
      match (args.headD (.aBytes none)).getTree with
      | some src =>
        if pn_data_size src > 0 then
          pn_data_vfill_go f (pn_data_vfill_walkup
            (((pn_data_appendn d src 1).1).nodes.length + 2)
            (pn_data_appendn d src 1).1) fmt (args.drop 1) false
        else
          pn_data_vfill_go f (pn_data_vfill_walkup
            ((pn_data_put_null d).nodes.length + 2) (pn_data_put_null d))
            fmt (args.drop 1) false
      | none =>
        pn_data_vfill_go f (pn_data_vfill_walkup
          ((pn_data_put_null d).nodes.length + 2) (pn_data_put_null d))
          fmt (args.drop 1) false := rfl

theorem vfill_go_treeWF (fuel : Nat) : ∀ (d : PnData) (fmt : List FChar)
    (args : List FillArg) (prevT : Bool), treeWF d = true →
    treeWF (pn_data_vfill_go fuel d fmt args prevT).2 = true := by
  induction fuel with
  | zero =>
    intro d fmt args prevT h
    exact h
  | succ f ih =>
    intro d fmt args prevT h
    cases fmt with
    | nil => exact h
    | cons code fmt =>
      have hw : forall d1 : PnData, treeWF d1 = true ->
          treeWF (pn_data_vfill_walkup (d1.nodes.length + 2) d1) = true :=
        fun d1 h1 => vfill_walkup_treeWF _ _ h1
      cases code with
      | fn =>
        rw [(vfillGoEq_leaf f d fmt args prevT).1]
        exact ih _ _ _ _ (hw _ (putAtom_treeWF d _ h))
      | fo =>
        rw [(vfillGoEq_leaf f d fmt args prevT).2.1]
        exact ih _ _ _ _ (hw _ (putAtom_treeWF d _ h))
      | fB =>
        rw [(vfillGoEq_leaf f d fmt args prevT).2.2.1]
        exact ih _ _ _ _ (hw _ (putAtom_treeWF d _ h))
      | fb =>
        rw [(vfillGoEq_leaf f d fmt args prevT).2.2.2.1]
        exact ih _ _ _ _ (hw _ (putAtom_treeWF d _ h))
      | fH =>
        rw [(vfillGoEq_leaf f d fmt args prevT).2.2.2.2.1]
        exact ih _ _ _ _ (hw _ (putAtom_treeWF d _ h))
      | fh =>
        rw [(vfillGoEq_leaf f d fmt args prevT).2.2.2.2.2.1]
        exact ih _ _ _ _ (hw _ (putAtom_treeWF d _ h))
      | fI =>
        rw [(vfillGoEq_leaf f d fmt args prevT).2.2.2.2.2.2.1]
        exact ih _ _ _ _ (hw _ (putAtom_treeWF d _ h))
      | fi =>
        rw [(vfillGoEq_leaf f d fmt args prevT).2.2.2.2.2.2.2.1]
        exact ih _ _ _ _ (hw _ (putAtom_treeWF d _ h))
      | fL =>
        rw [(vfillGoEq_leaf f d fmt args prevT).2.2.2.2.2.2.2.2.1]
        exact ih _ _ _ _ (hw _ (putAtom_treeWF d _ h))
      | fl =>
        rw [(vfillGoEq_leaf f d fmt args prevT).2.2.2.2.2.2.2.2.2.1]
        exact ih _ _ _ _ (hw _ (putAtom_treeWF d _ h))
      | ft =>
        rw [(vfillGoEq_leaf f d fmt args prevT).2.2.2.2.2.2.2.2.2.2.1]
        exact ih _ _ _ _ (hw _ (putAtom_treeWF d _ h))
      | ff =>
        rw [(vfillGoEq_leaf f d fmt args prevT).2.2.2.2.2.2.2.2.2.2.2.1]
        exact ih _ _ _ _ (hw _ (putAtom_treeWF d _ h))
      | fd =>
        rw [(vfillGoEq_leaf f d fmt args prevT).2.2.2.2.2.2.2.2.2.2.2.2]
        exact ih _ _ _ _ (hw _ (putAtom_treeWF d _ h))
      | fz =>
        rw [(vfillGoEq_bytes f d fmt args prevT).1]
        cases (args.headD (.aBytes none)).getBytes with
        | some bs => exact ih _ _ _ _ (hw _ (internCurrent_treeWF _ (putAtom_treeWF d _ h)))
        | none => exact ih _ _ _ _ (hw _ (putAtom_treeWF d _ h))
      | fS =>
        rw [(vfillGoEq_bytes f d fmt args prevT).2.1]
        cases (args.headD (.aBytes none)).getBytes with
        | some bs => exact ih _ _ _ _ (hw _ (internCurrent_treeWF _ (putAtom_treeWF d _ h)))
        | none => exact ih _ _ _ _ (hw _ (putAtom_treeWF d _ h))
      | fs =>
        rw [(vfillGoEq_bytes f d fmt args prevT).2.2]
        cases (args.headD (.aBytes none)).getBytes with
        | some bs => exact ih _ _ _ _ (hw _ (internCurrent_treeWF _ (putAtom_treeWF d _ h)))
        | none => exact ih _ _ _ _ (hw _ (putAtom_treeWF d _ h))
      | fD =>
        rw [(vfillGoEq_struct f d fmt args prevT).1]
        exact ih _ _ _ _ (hw _ (pn_data_enter_treeWF _ (putAtom_treeWF d _ h)))
      | fT =>
        rw [(vfillGoEq_struct f d fmt args prevT).2.1]
        cases pn_data_node d d.parent with
        | none => exact h
        | some parent =>
          simp only []
          by_cases ha : parent.atom.ptype = PnType.tArray
          · rw [if_pos ha]
            exact ih _ _ _ _ (hw _ (treeWF_updNode_pres _ _ _
              (fun nd => ⟨rfl, rfl, rfl, rfl, rfl⟩) h))
          · rw [if_neg ha]
            exact h
      | fAt =>
        rw [vfillGoEq_at f d fmt args prevT]
        rcases fmt with _ | ⟨c1, _ | ⟨c3, fmt1⟩⟩
        · exact ih _ _ _ _ (hw _ (pn_data_enter_treeWF _ (put_array_treeWF d _ _ h)))
        · exact ih _ _ _ _ (hw _ (pn_data_enter_treeWF _ (put_array_treeWF d _ _ h)))
        · cases c3 <;>
            exact ih _ _ _ _ (hw _ (pn_data_enter_treeWF _ (put_array_treeWF d _ _ h)))
      | fLBracket =>
        rw [(vfillGoEq_struct f d fmt args prevT).2.2.1]
        cases prevT with
        | true => exact ih _ _ _ _ h
        | false => exact ih _ _ _ _ (hw _ (pn_data_enter_treeWF _ (putAtom_treeWF d _ h)))
      | fLBrace =>
        rw [(vfillGoEq_struct f d fmt args prevT).2.2.2.1]
        exact ih _ _ _ _ (hw _ (pn_data_enter_treeWF _ (putAtom_treeWF d _ h)))
      | fRBracket =>
        rw [(vfillGoEq_struct f d fmt args prevT).2.2.2.2.1]
        by_cases hr : (pn_data_exit d).1 = true
        · rw [if_pos hr]
          exact ih _ _ _ _ (hw _ (pn_data_exit_treeWF d h))
        · rw [if_neg hr]
          exact pn_data_exit_treeWF d h
      | fRBrace =>
        rw [(vfillGoEq_struct f d fmt args prevT).2.2.2.2.2.1]
        by_cases hr : (pn_data_exit d).1 = true
        · rw [if_pos hr]
          exact ih _ _ _ _ (hw _ (pn_data_exit_treeWF d h))
        · rw [if_neg hr]
          exact pn_data_exit_treeWF d h
      | fQuest =>
        rw [(vfillGoEq_struct f d fmt args prevT).2.2.2.2.2.2.1]
        by_cases hp : (args.headD (.aPred false)).getPred = true
        · rw [if_pos hp]
          exact ih _ _ _ _ (hw _ h)
        · rw [if_neg hp]
          exact ih _ _ _ _ (hw _ (pn_data_enter_treeWF _ (putAtom_treeWF d _ h)))
      | fStar =>
        rw [vfillGoEq_star f d fmt args prevT]
        rcases fmt with _ | ⟨c2, fmt2⟩
        · exact h
        · cases c2 with
          | fs => exact ih _ _ _ _ (hw _ (vfill_syms_treeWF _ _ _ h))
          | fn => exact h
          | fo => exact h
          | fB => exact h
          | fb => exact h
          | fH => exact h
          | fh => exact h
          | fI => exact h
          | fi => exact h
          | fc => exact h
          | fL => exact h
          | fl => exact h
          | ft => exact h
          | ff => exact h
          | fd => exact h
          | fz => exact h
          | fS => exact h
          | fD => exact h
          | fT => exact h
          | fAt => exact h
          | fLBracket => exact h
          | fRBracket => exact h
          | fLBrace => exact h
          | fRBrace => exact h
          | fQuest => exact h
          | fStar => exact h
          | fC => exact h
          | fDot => exact h
      | fC =>
        rw [vfillGoEq_copy f d fmt args prevT]
        cases (args.headD (.aBytes none)).getTree with
        | none => exact ih _ _ _ _ (hw _ (putAtom_treeWF d _ h))
        | some src =>
          simp only []
          by_cases hs : pn_data_size src > 0
          · rw [if_pos hs]
            exact ih _ _ _ _ (hw _ (appendn_treeWF d src 1 h))
          · rw [if_neg hs]
            exact ih _ _ _ _ (hw _ (putAtom_treeWF d _ h))
      | fDot =>
        rw [(vfillGoEq_struct f d fmt args prevT).2.2.2.2.2.2.2.1]
        exact h
      | fc =>
        rw [(vfillGoEq_struct f d fmt args prevT).2.2.2.2.2.2.2.2]
        exact h

/-- C7.  Every mutating tree operation preserves the structural invariants
captured by `treeWF`: each child list is a doubly linked sibling list headed
by the owner's `down` link whose members carry the owner's index in `parent`
and whose length equals the owner's `children` count (plus a well-formed
top-level list, parents preceding children, and a valid cursor).  The 25
`pn_data_put_*` operations (via `pn_data_add`), `pn_data_enter`,
`pn_data_exit` and the whole fill interpreter `pn_data_vfill` all map
invariant-satisfying states to invariant-satisfying states. -/
theorem c7_structural_invariants (d : PnData) (h : treeWF d = true) :
    (∀ op : PutOp, treeWF (applyPut op d) = true) ∧
    treeWF (pn_data_enter d).2 = true ∧
    treeWF (pn_data_exit d).2 = true ∧
    ∀ (fmt : List FChar) (args : List FillArg),
      treeWF (pn_data_vfill d fmt args).2 = true :=
  ⟨fun op => applyPut_treeWF op d h, pn_data_enter_treeWF d h, pn_data_exit_treeWF d h,
   fun fmt args => vfill_go_treeWF _ _ _ _ _ h⟩

theorem c7_structural_invariants_witness :
    treeWF (applyPut (PutOp.puint 7) {}) = true ∧
    treeWF (pn_data_vfill {} [.fD, .fL, .fl] [.aNat 18, .aInt (-7)]).2 = true :=
  ⟨(c7_structural_invariants {} (by decide)).1 (PutOp.puint 7),
   (c7_structural_invariants {} (by decide)).2.2.2 [.fD, .fL, .fl] [.aNat 18, .aInt (-7)]⟩

theorem c3_map_suspend_guard_witness :
    (pn_data_vscan_step { d := {} } FChar.fLBrace []).1.resume_count = 0 ∧
    (pn_data_vscan_step { d := {} } FChar.fLBracket []).1.resume_count = 1 ∧
    (pn_data_vscan_step { d := {} } FChar.fD []).1.resume_count = 2 :=
  ⟨(c3_map_suspend_guard { d := {} } [] rfl rfl (by decide)).1.2.2.2.1,
   (c3_map_suspend_guard { d := {} } [] rfl rfl (by decide)).1.2.2.1.1,
   (c3_map_suspend_guard { d := {} } [] rfl rfl (by decide)).1.1.1⟩


/-! ## C1: the value grammar, its wire image and its atom image.

The round-trip claim quantifies over trees built by the `pn_data_put_*` /
`pn_data_enter` / `pn_data_exit` operations.  `AVal` is the value grammar of
such builds: one constructor per put kind, plus described pairs, lists and
maps whose children are given as a `vseqCons`/`vseqNil` chain (kept inside the
same inductive so that every companion function is plain structural
recursion).  `AVal.wf false` states that a term is value-shaped and every
payload is within the width of its wire encoding; `AVal.wf true` states that a
term is a sequence chain of such values. -/

inductive AVal where
  | vnull
  | vbool (b : Bool)
  | vubyte (v : Nat)
  | vbyte (v : Int)
  | vushort (v : Nat)
  | vshort (v : Int)
  | vuint (v : Nat)
  | vint (v : Int)
  | vchar (v : Nat)
  | vulong (v : Nat)
  | vlong (v : Int)
  | vtimestamp (v : Int)
  | vfloat (bits : Nat)
  | vdouble (bits : Nat)
  | vdec32 (v : Nat)
  | vdec64 (v : Nat)
  | vdec128 (bs : List Nat)
  | vuuid (bs : List Nat)
  | vbinary (bs : List Nat)
  | vstring (bs : List Nat)
  | vsymbol (bs : List Nat)
  | vdescribed (descr val : AVal)
  | vlist (items : AVal)
  | vmap (items : AVal)
  | vseqNil
  | vseqCons (head tail : AVal)
  deriving DecidableEq, Repr

/-- Number of elements of a sequence chain (0 on values). -/
def AVal.seqLen : AVal → Nat
  | .vseqCons _ t => t.seqLen + 1
  | _ => 0

/-- Number of `pn_node_t` records the build of a value allocates. -/
def AVal.nnodes : AVal → Nat
  | .vdescribed a b => 1 + a.nnodes + b.nnodes
  | .vlist xs => 1 + xs.nnodes
  | .vmap xs => 1 + xs.nnodes
  | .vseqNil => 0
  | .vseqCons h t => h.nnodes + t.nnodes
  | _ => 1

/-- Shape and payload bounds: `wf false` for a value, `wf true` for a chain. -/
def AVal.wf : AVal → Bool → Bool
  | .vseqNil, s => s
  | .vseqCons h t, s => s && h.wf false && t.wf true
  | .vdescribed a b, s => !s && a.wf false && b.wf false
  | .vlist xs, s => !s && xs.wf true && decide (xs.seqLen < 2 ^ 32)
  | .vmap xs, s => !s && xs.wf true && decide (xs.seqLen < 2 ^ 32)
  | .vnull, s => !s
  | .vbool _, s => !s
  | .vubyte v, s => !s && decide (v < 256)
  | .vbyte v, s => !s && decide (-128 ≤ v ∧ v < 128)
  | .vushort v, s => !s && decide (v < 2 ^ 16)
  | .vshort v, s => !s && decide (-(2 ^ 15) ≤ v ∧ v < 2 ^ 15)
  | .vuint v, s => !s && decide (v < 2 ^ 32)
  | .vint v, s => !s && decide (-(2 ^ 31) ≤ v ∧ v < 2 ^ 31)
  | .vchar v, s => !s && decide (v < 2 ^ 32)
  | .vulong v, s => !s && decide (v < 2 ^ 64)
  | .vlong v, s => !s && decide (-(2 ^ 63) ≤ v ∧ v < 2 ^ 63)
  | .vtimestamp v, s => !s && decide (-(2 ^ 63) ≤ v ∧ v < 2 ^ 63)
  | .vfloat b, s => !s && decide (b < 2 ^ 32)
  | .vdouble b, s => !s && decide (b < 2 ^ 64)
  | .vdec32 v, s => !s && decide (v < 2 ^ 32)
  | .vdec64 v, s => !s && decide (v < 2 ^ 64)
  | .vdec128 bs, s => !s && decide (bs.length = 16) && bs.all (fun b => decide (b < 256))
  | .vuuid bs, s => !s && decide (bs.length = 16) && bs.all (fun b => decide (b < 256))
  | .vbinary bs, s => !s && bs.all (fun b => decide (b < 256)) && decide (bs.length < 2 ^ 32)
  | .vstring bs, s => !s && bs.all (fun b => decide (b < 256)) && decide (bs.length < 2 ^ 32)
  | .vsymbol bs, s => !s && bs.all (fun b => decide (b < 256)) && decide (bs.length < 2 ^ 32)

/-- The build of a value: exactly the put/enter/exit calls of the claim (and
the ones `pn_data_parse_atoms` itself performs to rebuild a decoded tree). -/
def buildVal : AVal → PnData → PnData
  | .vnull, d => pn_data_put_null d
  | .vbool b, d => pn_data_put_bool d b
  | .vubyte v, d => pn_data_put_ubyte d v
  | .vbyte v, d => pn_data_put_byte d v
  | .vushort v, d => pn_data_put_ushort d v
  | .vshort v, d => pn_data_put_short d v
  | .vuint v, d => pn_data_put_uint d v
  | .vint v, d => pn_data_put_int d v
  | .vchar v, d => pn_data_put_char d v
  | .vulong v, d => pn_data_put_ulong d v
  | .vlong v, d => pn_data_put_long d v
  | .vtimestamp v, d => pn_data_put_timestamp d v
  | .vfloat b, d => pn_data_put_float d b
  | .vdouble b, d => pn_data_put_double d b
  | .vdec32 v, d => pn_data_put_decimal32 d v
  | .vdec64 v, d => pn_data_put_decimal64 d v
  | .vdec128 bs, d => pn_data_put_decimal128 d bs
  | .vuuid bs, d => pn_data_put_uuid d bs
  | .vbinary bs, d => pn_data_put_binary d bs
  | .vstring bs, d => pn_data_put_string d bs
  | .vsymbol bs, d => pn_data_put_symbol d bs
  | .vdescribed a b, d =>
    (pn_data_exit (buildVal b (buildVal a
      (pn_data_enter (pn_data_put_described d)).2))).2
  | .vlist xs, d =>
    (pn_data_exit (buildVal xs (pn_data_enter (pn_data_put_list d)).2)).2
  | .vmap xs, d =>
    (pn_data_exit (buildVal xs (pn_data_enter (pn_data_put_map d)).2)).2
  | .vseqNil, d => d
  | .vseqCons h t, d => buildVal t (buildVal h d)

/-- The flat atom stream the byte-level decode of a value's wire image emits
(pre-order, with the descriptor marker atom before a described pair). -/
def atomsOf : AVal → List PnAtom
  | .vnull => [.anull]
  | .vbool b => [.abool b]
  | .vubyte v => [.aubyte v]
  | .vbyte v => [.abyte v]
  | .vushort v => [.aushort v]
  | .vshort v => [.ashort v]
  | .vuint v => [.auint v]
  | .vint v => [.aint v]
  | .vchar v => [.achar v]
  | .vulong v => [.aulong v]
  | .vlong v => [.along v]
  | .vtimestamp v => [.atimestamp v]
  | .vfloat b => [.afloat b]
  | .vdouble b => [.adouble b]
  | .vdec32 v => [.adec32 v]
  | .vdec64 v => [.adec64 v]
  | .vdec128 bs => [.adec128 bs]
  | .vuuid bs => [.auuid bs]
  | .vbinary bs => [.abinary bs]
  | .vstring bs => [.astring bs]
  | .vsymbol bs => [.asymbol bs]
  | .vdescribed a b => .adescriptor :: (atomsOf a ++ atomsOf b)
  | .vlist xs => .alist xs.seqLen :: atomsOf xs
  | .vmap xs => .amap xs.seqLen :: atomsOf xs
  | .vseqNil => []
  | .vseqCons h t => atomsOf h ++ atomsOf t

/-- Length of `atomsOf`, as a recursive function. -/
def natomsOf : AVal → Nat
  | .vdescribed a b => 1 + natomsOf a + natomsOf b
  | .vlist xs => 1 + natomsOf xs
  | .vmap xs => 1 + natomsOf xs
  | .vseqNil => 0
  | .vseqCons h t => natomsOf h + natomsOf t
  | _ => 1

/-- Big-endian byte image of a 16-bit write (`pn_i_bytes_writef16`). -/
def be16 (v : Nat) : List Nat := [(v >>> 8) % 256, v % 256]

/-- Big-endian byte image of a 32-bit write (`pn_i_bytes_writef32`). -/
def be32 (v : Nat) : List Nat :=
  [(v >>> 24) % 256, (v >>> 16) % 256, (v >>> 8) % 256, v % 256]

/-- Big-endian byte image of a 64-bit write (`pn_i_bytes_writef64`). -/
def be64 (v : Nat) : List Nat :=
  [(v >>> 56) % 256, (v >>> 48) % 256, (v >>> 40) % 256, (v >>> 32) % 256,
   (v >>> 24) % 256, (v >>> 16) % 256, (v >>> 8) % 256, v % 256]

/-- The wire image of a value: the bytes `pn_data_encode` emits for its build
(sizes of lists and maps included, as the encoder back-fills them). -/
def wire : AVal → List Nat
  | .vnull => [PNE_NULL]
  | .vbool b => [if b then PNE_TRUE else PNE_FALSE]
  | .vubyte v => [PNE_UBYTE, v % 256]
  | .vbyte v => [PNE_BYTE, toUnsigned v 256 % 256]
  | .vushort v => PNE_USHORT :: be16 v
  | .vshort v => PNE_SHORT :: be16 (toUnsigned v (2 ^ 16))
  | .vuint v => if v < 256 then [PNE_SMALLUINT, v % 256] else PNE_UINT :: be32 v
  | .vint v => PNE_INT :: be32 (toUnsigned v (2 ^ 32))
  | .vchar v => PNE_UTF32 :: be32 v
  | .vulong v => if v < 256 then [PNE_SMALLULONG, v % 256] else PNE_ULONG :: be64 v
  | .vlong v => PNE_LONG :: be64 (toUnsigned v (2 ^ 64))
  | .vtimestamp v => PNE_MS64 :: be64 (toUnsigned v (2 ^ 64))
  | .vfloat b => PNE_FLOAT :: be32 b
  | .vdouble b => PNE_DOUBLE :: be64 b
  | .vdec32 v => PNE_DECIMAL32 :: be32 v
  | .vdec64 v => PNE_DECIMAL64 :: be64 v
  | .vdec128 bs => PNE_DECIMAL128 :: (bs.take 16).map (fun b => b % 256)
  | .vuuid bs => PNE_UUID :: (bs.take 16).map (fun b => b % 256)
  | .vbinary bs =>
    if bs.length < 256 then PNE_VBIN8 :: bs.length % 256 :: bs.map (fun b => b % 256)
    else PNE_VBIN32 :: (be32 bs.length ++ bs.map (fun b => b % 256))
  | .vstring bs =>
    if bs.length < 256 then PNE_STR8_UTF8 :: bs.length % 256 :: bs.map (fun b => b % 256)
    else PNE_STR32_UTF8 :: (be32 bs.length ++ bs.map (fun b => b % 256))
  | .vsymbol bs =>
    if bs.length < 256 then PNE_SYM8 :: bs.length % 256 :: bs.map (fun b => b % 256)
    else PNE_SYM32 :: (be32 bs.length ++ bs.map (fun b => b % 256))
  | .vdescribed a b => PNE_DESCRIPTOR :: (wire a ++ wire b)
  | .vlist xs => PNE_LIST32 :: (be32 ((wire xs).length + 4) ++ be32 xs.seqLen ++ wire xs)
  | .vmap xs => PNE_MAP32 :: (be32 ((wire xs).length + 4) ++ be32 xs.seqLen ++ wire xs)
  | .vseqNil => []
  | .vseqCons h t => wire h ++ wire t

/-- Wire length of a value. -/
def wlen (v : AVal) : Nat := (wire v).length


/-! ## C1 stage 1: `pn_data_parse_atoms` rebuilds the build of a value from
its atom stream.  The loop lemma is proved by one induction over `AVal`: a
value-position statement (one item is consumed, the cursor of the scan moves
by `natomsOf v`) and a sequence-position statement (a full sub-scan with the
item count as its limit terminates with the fold of the builds). -/

/-- Fuel bound for `pn_data_parse_atoms_loop` on the atom stream of a value. -/
def needP (v : AVal) : Nat := 2 * natomsOf v + 2

theorem atomsOf_length (v : AVal) : (atomsOf v).length = natomsOf v := by
  induction v <;> simp [atomsOf, natomsOf, *] <;> omega

theorem natomsOf_pos (v : AVal) (h : v.wf false = true) : 1 ≤ natomsOf v := by
  cases v
  case vseqNil => simp [AVal.wf] at h
  case vseqCons x y => simp [AVal.wf] at h
  all_goals (simp [natomsOf]; try omega)

theorem getD_append_cons (pre : List PnAtom) (x : PnAtom) (rest post : List PnAtom)
    (df : PnAtom) : (pre ++ (x :: rest) ++ post).getD pre.length df = x := by
  induction pre with
  | nil => rfl
  | cons a pre ih =>
    simp only [List.cons_append, List.length_cons, List.getD_cons_succ]
    exact ih

/-- Terminal step of the parse loop: at the end of the stream or at the item
limit the loop returns the items consumed and the tree unchanged. -/
theorem parse_loop_done (fuel : Nat) (d : PnData) (atoms : List PnAtom)
    (offset i : Nat) (limit : Int) (count : Nat)
    (h : atoms.length ≤ i ∨ (count : Int) = limit) :
    pn_data_parse_atoms_loop (fuel + 1) d atoms offset i limit count =
      (.ok, i - offset, d) := by
  rcases h with h | h
  · rw [pn_data_parse_atoms_loop, if_pos (by omega)]
  · rw [pn_data_parse_atoms_loop]
    by_cases h2 : i ≥ atoms.length
    · rw [if_pos h2]
    · rw [if_neg h2, if_pos h]

/-- The dispatch body of one parse-loop iteration, keyed on the atom read. -/
def parseStepFn (a : PnAtom) (fuel : Nat) (d : PnData) (atoms : List PnAtom)
    (offset i : Nat) (limit : Int) (count : Nat) : PnRes × Nat × PnData :=
  match a with
  | .atype _ => (.err, 0, d)
  | .anull => pn_data_parse_atoms_loop fuel (pn_data_put_null d) atoms offset (i + 1)
      limit (count + 1)
  | .abool b => pn_data_parse_atoms_loop fuel (pn_data_put_bool d b) atoms offset
      (i + 1) limit (count + 1)
  | .aubyte v => pn_data_parse_atoms_loop fuel (pn_data_put_ubyte d v) atoms offset
      (i + 1) limit (count + 1)
  | .abyte v => pn_data_parse_atoms_loop fuel (pn_data_put_byte d v) atoms offset
      (i + 1) limit (count + 1)
  | .aushort v => pn_data_parse_atoms_loop fuel (pn_data_put_ushort d v) atoms offset
      (i + 1) limit (count + 1)
  | .ashort v => pn_data_parse_atoms_loop fuel (pn_data_put_short d v) atoms offset
      (i + 1) limit (count + 1)
  | .auint v => pn_data_parse_atoms_loop fuel (pn_data_put_uint d v) atoms offset
      (i + 1) limit (count + 1)
  | .aint v => pn_data_parse_atoms_loop fuel (pn_data_put_int d v) atoms offset
      (i + 1) limit (count + 1)
  | .achar v => pn_data_parse_atoms_loop fuel (pn_data_put_char d v) atoms offset
      (i + 1) limit (count + 1)
  | .aulong v => pn_data_parse_atoms_loop fuel (pn_data_put_ulong d v) atoms offset
      (i + 1) limit (count + 1)
  | .along v => pn_data_parse_atoms_loop fuel (pn_data_put_long d v) atoms offset
      (i + 1) limit (count + 1)
  | .atimestamp v => pn_data_parse_atoms_loop fuel (pn_data_put_timestamp d v) atoms
      offset (i + 1) limit (count + 1)
  | .afloat v => pn_data_parse_atoms_loop fuel (pn_data_put_float d v) atoms offset
      (i + 1) limit (count + 1)
  | .adouble v => pn_data_parse_atoms_loop fuel (pn_data_put_double d v) atoms offset
      (i + 1) limit (count + 1)
  | .adec32 v => pn_data_parse_atoms_loop fuel (pn_data_put_decimal32 d v) atoms
      offset (i + 1) limit (count + 1)
  | .adec64 v => pn_data_parse_atoms_loop fuel (pn_data_put_decimal64 d v) atoms
      offset (i + 1) limit (count + 1)
  | .adec128 v => pn_data_parse_atoms_loop fuel (pn_data_put_decimal128 d v) atoms
      offset (i + 1) limit (count + 1)
  | .auuid v => pn_data_parse_atoms_loop fuel (pn_data_put_uuid d v) atoms offset
      (i + 1) limit (count + 1)
  | .abinary v => pn_data_parse_atoms_loop fuel (pn_data_put_binary d v) atoms offset
      (i + 1) limit (count + 1)
  | .astring v => pn_data_parse_atoms_loop fuel (pn_data_put_string d v) atoms offset
      (i + 1) limit (count + 1)
  | .asymbol v => pn_data_parse_atoms_loop fuel (pn_data_put_symbol d v) atoms offset
      (i + 1) limit (count + 1)
  | .alist n =>
    let d1 := (pn_data_enter (pn_data_put_list d)).2
    match pn_data_parse_atoms_loop fuel d1 atoms (i + 1) (i + 1) (n : Int) 0 with
    | (.ok, step, d2) =>
      let d3 := (pn_data_exit d2).2
      pn_data_parse_atoms_loop fuel d3 atoms offset (i + step + 1) limit (count + 1)
    | (e, s, d2) => (e, s, d2)
  | .amap n =>
    let d1 := (pn_data_enter (pn_data_put_map d)).2
    match pn_data_parse_atoms_loop fuel d1 atoms (i + 1) (i + 1) (n : Int) 0 with
    | (.ok, step, d2) =>
      let d3 := (pn_data_exit d2).2
      pn_data_parse_atoms_loop fuel d3 atoms offset (i + step + 1) limit (count + 1)
    | (e, s, d2) => (e, s, d2)
  | .adescriptor =>
    let d1 := (pn_data_enter (pn_data_put_described d)).2
    match pn_data_parse_atoms_loop fuel d1 atoms (i + 1) (i + 1) 2 0 with
    | (.ok, step, d2) =>
      let d3 := (pn_data_exit d2).2
      pn_data_parse_atoms_loop fuel d3 atoms offset (i + step + 1) limit (count + 1)
    | (e, s, d2) => (e, s, d2)
  | .aarray n =>
    let described := (atoms.getD (i + 1) .anull) = .adescriptor
    let d1 := pn_data_put_array d described .tNull
    let arrayId := d1.current
    let d2 := (pn_data_enter d1).2
    let afterDesc : PnRes × Nat × PnData :=
      if described then
        match pn_data_parse_atoms_loop fuel d2 atoms (i + 2) (i + 2) 1 0 with
        | (.ok, step, dd) => (.ok, i + 1 + step, dd)
        | (e, s, dd) => (e, s, dd)
      else (.ok, i, d2)
    match afterDesc with
    | (.ok, i1, d3) =>
      match atoms.getD (i1 + 1) .anull with
      | .atype t =>
        let d4 := updNode d3 arrayId (fun nd => { nd with etype := t })
        let i2 := i1 + 1
        match pn_data_parse_atoms_loop fuel d4 atoms (i2 + 1) (i2 + 1) (n : Int) 0 with
        | (.ok, step, d5) =>
          let d6 := (pn_data_exit d5).2
          pn_data_parse_atoms_loop fuel d6 atoms offset (i2 + step + 1) limit
            (count + 1)
        | (e, s, d5) => (e, s, d5)
      | _ => (.err, 0, d3)
    | (e, s, d3) => (e, s, d3)

/-- One non-terminal parse-loop iteration dispatches on the atom read. -/
theorem parse_loop_step (fuel : Nat) (d : PnData) (atoms : List PnAtom)
    (offset i : Nat) (limit : Int) (count : Nat)
    (h1 : i < atoms.length) (h2 : ¬((count : Int) = limit)) :
    pn_data_parse_atoms_loop (fuel + 1) d atoms offset i limit count =
      parseStepFn (atoms.getD i .anull) fuel d atoms offset i limit count := by
  rw [pn_data_parse_atoms_loop, if_neg (by omega), if_neg h2]
  cases atoms.getD i .anull <;> rfl


/-- Main parse-loop lemma, by induction over the value grammar.  First
conjunct (value position): one iteration chain consumes `atomsOf v` and builds
`buildVal v` onto the tree, moving the scan index by `natomsOf v` and the item
count by one.  Second conjunct (sequence position): a sub-scan whose item
limit is the chain length consumes the whole chain and returns the folded
build. -/
theorem parse_atoms_run (v : AVal) :
    (v.wf false = true → ∀ (fuel : Nat) (d : PnData) (atoms pre post : List PnAtom)
      (offset : Nat) (limit : Int) (count : Nat),
      atoms = pre ++ atomsOf v ++ post → needP v ≤ fuel + 1 →
      ¬((count : Int) = limit) →
      pn_data_parse_atoms_loop (fuel + 1) d atoms offset pre.length limit count =
        pn_data_parse_atoms_loop fuel (buildVal v d) atoms offset
          (pre.length + natomsOf v) limit (count + 1)) ∧
    (v.wf true = true → ∀ (fuel : Nat) (d : PnData) (atoms pre post : List PnAtom)
      (offset c : Nat),
      atoms = pre ++ atomsOf v ++ post → needP v ≤ fuel →
      pn_data_parse_atoms_loop fuel d atoms offset pre.length
        (((c + v.seqLen : Nat) : Int)) c =
        (.ok, pre.length + natomsOf v - offset, buildVal v d)) := by
  induction v
  case vseqNil =>
    refine ⟨fun hwf => by simp [AVal.wf] at hwf,
      fun hwf fuel d atoms pre post offset c hat hneed => ?_⟩
    subst hat
    obtain ⟨f, rfl⟩ : ∃ f, fuel = f + 1 :=
      ⟨fuel - 1, by simp [needP] at hneed; omega⟩
    rw [parse_loop_done f d _ offset pre.length _ c (Or.inr (by simp [AVal.seqLen]))]
    simp [natomsOf, buildVal]
  case vseqCons h t ihh iht =>
    refine ⟨fun hwf => by simp [AVal.wf] at hwf,
      fun hwf fuel d atoms pre post offset c hat hneed => ?_⟩
    have hw : h.wf false = true ∧ t.wf true = true := by
      simpa [AVal.wf] using hwf
    have hnh := natomsOf_pos h hw.1
    subst hat
    obtain ⟨f, rfl⟩ : ∃ f, fuel = f + 1 :=
      ⟨fuel - 1, by simp [needP] at hneed; omega⟩
    have hlim : ((c + AVal.seqLen (AVal.vseqCons h t) : Nat) : Int) =
        (((c + 1) + t.seqLen : Nat) : Int) := by
      simp [AVal.seqLen]; omega
    rw [hlim]
    rw [ihh.1 hw.1 f d (pre ++ atomsOf (AVal.vseqCons h t) ++ post) pre
      (atomsOf t ++ post) offset _ c
      (by simp [atomsOf])
      (by simp [needP, natomsOf] at hneed ⊢; omega)
      (by omega)]
    have hS := iht.2 hw.2 f (buildVal h d)
      (pre ++ atomsOf (AVal.vseqCons h t) ++ post) (pre ++ atomsOf h) post offset (c + 1)
      (by simp [atomsOf])
      (by simp [needP, natomsOf] at hneed ⊢; omega)
    rw [List.length_append, atomsOf_length] at hS
    rw [hS]
    have hidx : pre.length + natomsOf h + natomsOf t =
        pre.length + natomsOf (AVal.vseqCons h t) := by
      simp [natomsOf]; omega
    rw [hidx]
    rfl
  case vdescribed a b iha ihb =>
    refine ⟨fun hwf fuel d atoms pre post offset limit count hat hneed hcl => ?_,
      fun hwf => by simp [AVal.wf] at hwf⟩
    have hw : a.wf false = true ∧ b.wf false = true := by
      simpa [AVal.wf] using hwf
    have hna := natomsOf_pos a hw.1
    have hnb := natomsOf_pos b hw.2
    subst hat
    rw [parse_loop_step fuel d _ offset pre.length limit count
      (by simp only [atomsOf, List.length_append, List.length_cons]; omega) hcl]
    simp only [atomsOf]
    rw [getD_append_cons]
    simp only [parseStepFn]
    obtain ⟨f1, rfl⟩ : ∃ f1, fuel = f1 + 1 :=
      ⟨fuel - 1, by simp [needP, natomsOf] at hneed; omega⟩
    have hPa := iha.1 hw.1 f1 ((pn_data_enter (pn_data_put_described d)).2)
      (pre ++ (PnAtom.adescriptor :: (atomsOf a ++ atomsOf b)) ++ post)
      (pre ++ [PnAtom.adescriptor]) (atomsOf b ++ post) (pre.length + 1) 2 0
      (by simp [atomsOf]) (by simp [needP, natomsOf] at hneed ⊢; omega) (by decide)
    simp only [List.length_append, List.length_cons, List.length_nil] at hPa
    rw [hPa]
    obtain ⟨f2, rfl⟩ : ∃ f2, f1 = f2 + 1 :=
      ⟨f1 - 1, by simp [needP, natomsOf] at hneed; omega⟩
    have hPb := ihb.1 hw.2 f2
      (buildVal a ((pn_data_enter (pn_data_put_described d)).2))
      (pre ++ (PnAtom.adescriptor :: (atomsOf a ++ atomsOf b)) ++ post)
      (pre ++ [PnAtom.adescriptor] ++ atomsOf a) post (pre.length + 1) 2 1
      (by simp [atomsOf]) (by simp [needP, natomsOf] at hneed ⊢; omega) (by decide)
    simp only [List.length_append, List.length_cons, List.length_nil,
      atomsOf_length] at hPb
    rw [hPb]
    obtain ⟨f3, rfl⟩ : ∃ f3, f2 = f3 + 1 :=
      ⟨f2 - 1, by simp [needP, natomsOf] at hneed; omega⟩
    rw [parse_loop_done f3 _ _ (pre.length + 1) _ 2 (1 + 1) (Or.inr (by norm_num))]
    simp only []
    have hstep : pre.length + 1 + natomsOf a + natomsOf b - (pre.length + 1) =
        natomsOf a + natomsOf b := by omega
    rw [hstep]
    have hidx : pre.length + (natomsOf a + natomsOf b) + 1 =
        pre.length + natomsOf (AVal.vdescribed a b) := by
      simp [natomsOf]; omega
    rw [hidx]
    rfl
  case vlist xs ih =>
    refine ⟨fun hwf fuel d atoms pre post offset limit count hat hneed hcl => ?_,
      fun hwf => by simp [AVal.wf] at hwf⟩
    have hw : xs.wf true = true := by
      have := hwf; simp [AVal.wf] at this; exact this.1
    subst hat
    rw [parse_loop_step fuel d _ offset pre.length limit count
      (by simp only [atomsOf, List.length_append, List.length_cons]; omega) hcl]
    simp only [atomsOf]
    rw [getD_append_cons]
    simp only [parseStepFn]
    have hS := ih.2 hw fuel ((pn_data_enter (pn_data_put_list d)).2)
      (pre ++ (PnAtom.alist xs.seqLen :: atomsOf xs) ++ post)
      (pre ++ [PnAtom.alist xs.seqLen]) post (pre.length + 1) 0
      (by simp [atomsOf]) (by simp [needP, natomsOf] at hneed ⊢; omega)
    simp only [List.length_append, List.length_cons, List.length_nil,
      Nat.zero_add] at hS
    rw [hS]
    simp only []
    have hstep : pre.length + 1 + natomsOf xs - (pre.length + 1) = natomsOf xs := by
      omega
    rw [hstep]
    have hidx : pre.length + natomsOf xs + 1 =
        pre.length + natomsOf (AVal.vlist xs) := by
      simp [natomsOf]; omega
    rw [hidx]
    rfl
  case vmap xs ih =>
    refine ⟨fun hwf fuel d atoms pre post offset limit count hat hneed hcl => ?_,
      fun hwf => by simp [AVal.wf] at hwf⟩
    have hw : xs.wf true = true := by
      have := hwf; simp [AVal.wf] at this; exact this.1
    subst hat
    rw [parse_loop_step fuel d _ offset pre.length limit count
      (by simp only [atomsOf, List.length_append, List.length_cons]; omega) hcl]
    simp only [atomsOf]
    rw [getD_append_cons]
    simp only [parseStepFn]
    have hS := ih.2 hw fuel ((pn_data_enter (pn_data_put_map d)).2)
      (pre ++ (PnAtom.amap xs.seqLen :: atomsOf xs) ++ post)
      (pre ++ [PnAtom.amap xs.seqLen]) post (pre.length + 1) 0
      (by simp [atomsOf]) (by simp [needP, natomsOf] at hneed ⊢; omega)
    simp only [List.length_append, List.length_cons, List.length_nil,
      Nat.zero_add] at hS
    rw [hS]
    simp only []
    have hstep : pre.length + 1 + natomsOf xs - (pre.length + 1) = natomsOf xs := by
      omega
    rw [hstep]
    have hidx : pre.length + natomsOf xs + 1 =
        pre.length + natomsOf (AVal.vmap xs) := by
      simp [natomsOf]; omega
    rw [hidx]
    rfl
  all_goals {
    refine ⟨fun hwf fuel d atoms pre post offset limit count hat hneed hcl => ?_,
      fun hwf => by simp [AVal.wf] at hwf⟩
    subst hat
    simp only [atomsOf]
    rw [parse_loop_step fuel d _ offset pre.length limit count
      (by simp only [List.length_append, List.length_cons]; omega) hcl]
    rw [getD_append_cons]
    simp only [parseStepFn, buildVal, natomsOf]
  }

/-- Top-level form of `pn_data_parse_atoms` on the atom stream of a value:
the rebuild is literally `buildVal v` applied to the argument tree. -/
theorem parse_atoms_spec (v : AVal) (hwf : v.wf false = true) (d : PnData) :
    pn_data_parse_atoms d (atomsOf v) 0 (-1) = (.ok, natomsOf v, buildVal v d) := by
  unfold pn_data_parse_atoms
  obtain ⟨f, hf⟩ : ∃ f, 4 * (atomsOf v).length + 8 = f + 1 :=
    ⟨4 * (atomsOf v).length + 7, by omega⟩
  rw [hf]
  have hP := (parse_atoms_run v).1 hwf f d (atomsOf v) [] [] 0 (-1) 0
    (by simp) (by rw [atomsOf_length] at hf; simp [needP]; omega) (by decide)
  simp only [List.length_nil, Nat.zero_add] at hP
  rw [hP]
  obtain ⟨g, rfl⟩ : ∃ g, f = g + 1 := ⟨f - 1, by omega⟩
  rw [parse_loop_done g _ _ 0 (natomsOf v) (-1) 1 (Or.inl (by simp [atomsOf_length]))]
  simp


/-! ## C1 stage 2: the byte-level decode of a wire image emits the atom
stream.  Helper layer: atom-buffer folds, descriptor-prefix decompositions
and read-back of the big-endian writes. -/

/-- Emit a list of atoms in order. -/
def ABuf.emits (ab : ABuf) (as : List PnAtom) : ABuf := as.foldl ABuf.emit ab

theorem ABuf.emits_nil (ab : ABuf) : ab.emits [] = ab := rfl

theorem ABuf.emits_eq (as : List PnAtom) (ab : ABuf) :
    ab.emits as = ⟨ab.rem - as.length, ab.out ++ as⟩ := by
  induction as generalizing ab with
  | nil => simp [ABuf.emits]
  | cons a as ih =>
    show (ab.emit a).emits as = _
    rw [ih]
    simp [ABuf.emit]
    omega

theorem ABuf.emits_append (ab : ABuf) (l1 l2 : List PnAtom) :
    ab.emits (l1 ++ l2) = (ab.emits l1).emits l2 := by
  simp [ABuf.emits, List.foldl_append]

theorem ABuf.emit_eq_emits (ab : ABuf) (a : PnAtom) : ab.emit a = ab.emits [a] := rfl

theorem ABuf.emits_rem (ab : ABuf) (as : List PnAtom) :
    (ab.emits as).rem = ab.rem - as.length := by
  rw [ABuf.emits_eq]

/-- The chain of descriptor markers and descriptor values in front of the
innermost non-described core of a value. -/
def preAtoms : AVal → List PnAtom
  | .vdescribed a b => .adescriptor :: (atomsOf a ++ preAtoms b)
  | _ => []

/-- Length of `preAtoms`. -/
def npre : AVal → Nat
  | .vdescribed a b => 1 + natomsOf a + npre b
  | _ => 0

/-- The innermost non-described value. -/
def coreOf : AVal → AVal
  | .vdescribed _ b => coreOf b
  | v => v

/-- Wire bytes of the descriptor prefix. -/
def descBytes : AVal → List Nat
  | .vdescribed a b => PNE_DESCRIPTOR :: (wire a ++ descBytes b)
  | _ => []

theorem preAtoms_length (v : AVal) : (preAtoms v).length = npre v := by
  induction v <;> simp [preAtoms, npre, atomsOf_length, *] <;> omega

theorem atomsOf_decomp (v : AVal) :
    atomsOf v = preAtoms v ++ atomsOf (coreOf v) := by
  induction v <;> simp [preAtoms, coreOf, atomsOf, *]

theorem wire_decomp (v : AVal) : wire v = descBytes v ++ wire (coreOf v) := by
  induction v <;> simp [descBytes, coreOf, wire, *]

theorem wlen_core_le (v : AVal) : wlen (coreOf v) ≤ wlen v := by
  rw [wlen, wlen, wire_decomp v]
  simp

theorem natoms_decomp (v : AVal) :
    natomsOf v = npre v + natomsOf (coreOf v) := by
  have h := congrArg List.length (atomsOf_decomp v)
  rw [atomsOf_length, List.length_append, preAtoms_length, atomsOf_length] at h
  exact h

theorem coreOf_not_desc (v : AVal) (a b : AVal) : coreOf v ≠ AVal.vdescribed a b := by
  induction v <;> simp [coreOf, *]

theorem coreOf_wf (v : AVal) (h : v.wf false = true) :
    (coreOf v).wf false = true := by
  induction v
  case vdescribed a b iha ihb =>
    have hw : a.wf false = true ∧ b.wf false = true := by simpa [AVal.wf] using h
    exact ihb hw.2
  all_goals exact h

theorem wire_ne_nil (v : AVal) (h : v.wf false = true) : wire v ≠ [] := by
  cases v
  case vseqNil => simp [AVal.wf] at h
  case vseqCons a b => simp [AVal.wf] at h
  all_goals simp only [wire]
  all_goals try split
  all_goals simp

theorem wire_head_ne_zero (v : AVal) (h : v.wf false = true)
    (hnd : ∀ a b, v ≠ AVal.vdescribed a b) :
    (wire v).headD 0 ≠ PNE_DESCRIPTOR := by
  cases v
  case vseqNil => simp [AVal.wf] at h
  case vseqCons a b => simp [AVal.wf] at h
  case vdescribed a b => exact absurd rfl (hnd a b)
  all_goals simp only [wire]
  all_goals try split
  all_goals simp [PNE_DESCRIPTOR, PNE_NULL, PNE_TRUE,
    PNE_FALSE, PNE_UBYTE, PNE_BYTE, PNE_USHORT, PNE_SHORT, PNE_SMALLUINT,
    PNE_UINT, PNE_INT, PNE_UTF32, PNE_SMALLULONG, PNE_ULONG, PNE_LONG,
    PNE_MS64, PNE_FLOAT, PNE_DOUBLE, PNE_DECIMAL32, PNE_DECIMAL64,
    PNE_DECIMAL128, PNE_UUID, PNE_VBIN8, PNE_VBIN32, PNE_STR8_UTF8,
    PNE_STR32_UTF8, PNE_SYM8, PNE_SYM32, PNE_LIST32, PNE_MAP32]

theorem read_guard8_cons (b : Nat) (rest : List Nat) :
    pn_read_guard8 (b :: rest) = (.ok, b, rest) := by
  simp [pn_read_guard8, pn_i_bytes_readf8]

theorem read_guard16_be (x : Nat) (rest : List Nat) :
    pn_read_guard16 (be16 x ++ rest) = (.ok, x % 2 ^ 16, rest) := by
  have hlen : (be16 x ++ rest).length = rest.length + 2 := by simp [be16]
  rw [pn_read_guard16, if_neg (by omega)]
  have e : (2 : Nat) ^ 16 = 65536 := by norm_num
  simp [pn_i_bytes_readf16, be16, Nat.shiftRight_eq_div_pow, e]
  omega

theorem readf32_be (x : Nat) (rest : List Nat) :
    pn_i_bytes_readf32 (be32 x ++ rest) = (x % 2 ^ 32, rest) := by
  have e : (2 : Nat) ^ 32 = 4294967296 := by norm_num
  have e8 : (2 : Nat) ^ 8 = 256 := by norm_num
  have e16 : (2 : Nat) ^ 16 = 65536 := by norm_num
  have e24 : (2 : Nat) ^ 24 = 16777216 := by norm_num
  simp [pn_i_bytes_readf32, be32, Nat.shiftRight_eq_div_pow, e, e8, e16, e24]
  omega

theorem read_guard32_be (x : Nat) (rest : List Nat) :
    pn_read_guard32 (be32 x ++ rest) = (.ok, x % 2 ^ 32, rest) := by
  have hlen : (be32 x ++ rest).length = rest.length + 4 := by simp [be32]
  rw [pn_read_guard32, if_neg (by omega)]
  simp [readf32_be x rest]

theorem be64_eq (x : Nat) : be64 x = be32 (x >>> 32) ++ be32 x := by
  simp [be64, be32, Nat.shiftRight_eq_div_pow, Nat.div_div_eq_div_mul]

theorem read_guard64_be (x : Nat) (rest : List Nat) :
    pn_read_guard64 (be64 x ++ rest) = (.ok, x % 2 ^ 64, rest) := by
  have hlen : (be64 x ++ rest).length = rest.length + 8 := by simp [be64]
  rw [pn_read_guard64, if_neg (by omega)]
  rw [be64_eq, List.append_assoc]
  simp only [pn_i_bytes_readf64, readf32_be]
  have e32 : x >>> 32 = x / 4294967296 := by
    simp [Nat.shiftRight_eq_div_pow]
  have e : (2 : Nat) ^ 32 = 4294967296 := by norm_num
  have e64 : (2 : Nat) ^ 64 = 18446744073709551616 := by norm_num
  rw [e32, e, e64]
  have : x / 4294967296 % 4294967296 * 4294967296 + x % 4294967296 =
      x % 18446744073709551616 := by omega
  rw [this]

theorem read_guard128_of (bs rest : List Nat) (h : bs.length = 16) :
    pn_read_guard128 (bs ++ rest) = (.ok, bs, rest) := by
  simp [pn_read_guard128, h, List.take_left' h, List.drop_left' h]

theorem map_mod_id (bs : List Nat) (h : ∀ b ∈ bs, b < 256) :
    bs.map (fun b => b % 256) = bs := by
  induction bs with
  | nil => rfl
  | cons b bs ih =>
    simp only [List.map_cons]
    rw [Nat.mod_eq_of_lt (h b (by simp)), ih (fun x hx => h x (by simp [hx]))]

theorem toUnsigned_lt (x : Int) (m : Nat) (h : 0 < m) : toUnsigned x m < m := by
  simp only [toUnsigned]
  have h1 : 0 ≤ x % (m : Int) := Int.emod_nonneg x (by exact_mod_cast h.ne.symm)
  have h2 : x % (m : Int) < (m : Int) := Int.emod_lt_of_pos x (by exact_mod_cast h)
  omega

theorem toSigned_toUnsigned (x : Int) (m : Nat) (h1 : 0 < m)
    (h2 : -((m : Int) / 2) ≤ x) (h3 : x < (m : Int) / 2) :
    toSigned (toUnsigned x m) m = x := by
  have hm : (0 : Int) < (m : Int) := by exact_mod_cast h1
  have hlow : 0 ≤ x % (m : Int) := Int.emod_nonneg x (by omega)
  have hhigh : x % (m : Int) < (m : Int) := Int.emod_lt_of_pos x hm
  have hchar : x % (m : Int) = x ∨ x % (m : Int) = x + (m : Int) := by
    rcases le_or_lt 0 x with hx | hx
    · exact Or.inl (Int.emod_eq_of_lt hx (by omega))
    · refine Or.inr ?_
      have h5 : (x + (m : Int)) % (m : Int) = x + (m : Int) :=
        Int.emod_eq_of_lt (by omega) (by omega)
      have h6 : (x + (m : Int)) % (m : Int) = x % (m : Int) := by simp
      omega
  simp only [toSigned, toUnsigned]
  split <;> omega


theorem wlen_pos (v : AVal) (h : v.wf false = true) : 1 ≤ wlen v := by
  have hne := wire_ne_nil v h
  rw [wlen]
  exact List.length_pos.mpr hne

theorem wlen_eq_cons (h t : AVal) : wlen (.vseqCons h t) = wlen h + wlen t := by
  simp [wlen, wire]

theorem wlen_eq_desc (a b : AVal) : wlen (.vdescribed a b) = wlen a + wlen b + 1 := by
  simp [wlen, wire]

theorem wlen_eq_list (xs : AVal) : wlen (.vlist xs) = wlen xs + 9 := by
  simp [wlen, wire, be32]

theorem wlen_eq_map (xs : AVal) : wlen (.vmap xs) = wlen xs + 9 := by
  simp [wlen, wire, be32]

theorem natoms_le_wlen (v : AVal) : natomsOf v ≤ wlen v := by
  induction v
  case vdescribed a b iha ihb =>
    simp only [natomsOf]
    rw [wlen_eq_desc]
    omega
  case vlist xs ih =>
    simp only [natomsOf]
    rw [wlen_eq_list]
    omega
  case vmap xs ih =>
    simp only [natomsOf]
    rw [wlen_eq_map]
    omega
  case vseqNil => simp [natomsOf, wlen, wire]
  case vseqCons h t ihh iht =>
    simp only [natomsOf]
    rw [wlen_eq_cons]
    omega
  all_goals simp only [natomsOf, wlen, wire]
  all_goals try split
  all_goals simp

/-- Behaviour of `pn_decode_type` on the wire image of a value followed by
anything: the descriptor prefix is unrolled (emitting its atoms), the core
constructor byte is consumed and returned. -/
def DTstmt (v : AVal) : Prop :=
  v.wf false = true → ∀ (rest : List Nat) (ab : ABuf) (f : Nat), 2 * wlen v ≤ f →
    (npre v + 1 ≤ ab.rem →
      pn_decode_go f .dtype (wire v ++ rest) ab =
        (.ok, (wire (coreOf v)).drop 1 ++ rest, ab.emits (preAtoms v),
          (wire (coreOf v)).headD 0)) ∧
    (ab.rem < npre v + 1 →
      (pn_decode_go f .dtype (wire v ++ rest) ab).1 = .overflow)

/-- Behaviour of `pn_decode_value` on the payload of a non-described value. -/
def DVstmt (v : AVal) : Prop :=
  v.wf false = true → ∀ (rest : List Nat) (ab : ABuf) (f : Nat), 2 * wlen v ≤ f →
    (natomsOf v ≤ ab.rem →
      pn_decode_go f (.dvalue ((wire v).headD 0)) ((wire v).drop 1 ++ rest) ab =
        (.ok, rest, ab.emits (atomsOf v), 0)) ∧
    (ab.rem < natomsOf v →
      (pn_decode_go f (.dvalue ((wire v).headD 0)) ((wire v).drop 1 ++ rest) ab).1 =
        .overflow)

/-- Behaviour of `pn_decode_atom` on the wire image of a value. -/
def DAstmt (v : AVal) : Prop :=
  v.wf false = true → ∀ (rest : List Nat) (ab : ABuf) (f : Nat), 2 * wlen v + 1 ≤ f →
    (natomsOf v ≤ ab.rem →
      pn_decode_go f .datom (wire v ++ rest) ab =
        (.ok, rest, ab.emits (atomsOf v), 0)) ∧
    (ab.rem < natomsOf v →
      (pn_decode_go f .datom (wire v ++ rest) ab).1 = .overflow)

/-- Behaviour of the compound trailer loop on the wire image of a chain. -/
def ANstmt (v : AVal) : Prop :=
  v.wf true = true → ∀ (rest : List Nat) (ab : ABuf) (f : Nat), 2 * wlen v + 4 ≤ f →
    (natomsOf v ≤ ab.rem →
      pn_decode_go f (.datomsN v.seqLen) (wire v ++ rest) ab =
        (.ok, rest, ab.emits (atomsOf v), 0)) ∧
    (ab.rem < natomsOf v →
      (pn_decode_go f (.datomsN v.seqLen) (wire v ++ rest) ab).1 = .overflow)

/-- One step of `pn_decode_type` on a non-descriptor constructor byte. -/
theorem dtype_step_nondesc (v : AVal) (hwf : v.wf false = true)
    (hnd : ∀ a b, v ≠ AVal.vdescribed a b) (rest : List Nat) (ab : ABuf) (f1 : Nat) :
    pn_decode_go (f1 + 1) .dtype (wire v ++ rest) ab =
      if ab.rem = 0 then (.overflow, wire v ++ rest, ab, 0)
      else (.ok, (wire v).drop 1 ++ rest, ab, (wire v).headD 0) := by
  obtain ⟨c, t, hct⟩ : ∃ c t, wire v = c :: t := by
    rcases hw : wire v with _ | ⟨c, t⟩
    · exact absurd hw (wire_ne_nil v hwf)
    · exact ⟨c, t, rfl⟩
  have hc0 : ¬(c = PNE_DESCRIPTOR) := by
    have h2 := wire_head_ne_zero v hwf hnd
    rw [hct] at h2
    simpa using h2
  rw [hct, List.cons_append]
  rw [pn_decode_go]
  try simp only []
  rw [if_neg (by simp)]
  by_cases hr : ab.rem = 0
  · rw [if_pos hr, if_pos hr]
  · rw [if_neg hr, if_neg hr,
      if_pos (show (c :: (t ++ rest)).headD 0 ≠ PNE_DESCRIPTOR by simpa using hc0)]
    simp

/-- `DTstmt` holds for every non-described value. -/
theorem DT_of_nondesc (v : AVal) (hnd : ∀ a b, v ≠ AVal.vdescribed a b)
    (hcore : coreOf v = v) (hpre0 : npre v = 0) (hpre : preAtoms v = []) :
    DTstmt v := by
  intro hwf rest ab f hf
  obtain ⟨f1, rfl⟩ : ∃ f1, f = f1 + 1 := ⟨f - 1, by have := wlen_pos v hwf; omega⟩
  rw [dtype_step_nondesc v hwf hnd rest ab f1]
  constructor
  · intro hrem
    rw [hpre0] at hrem
    rw [if_neg (by omega), hcore, hpre, ABuf.emits_nil]
  · intro hrem
    rw [hpre0] at hrem
    rw [if_pos (by omega)]

/-- `pn_decode_atom` behaviour follows from the type and value stages. -/
theorem DA_of (v : AVal) (h1 : DTstmt v) (h2 : DVstmt (coreOf v)) : DAstmt v := by
  intro hwf rest ab f hf
  obtain ⟨f1, rfl⟩ : ∃ f1, f = f1 + 1 := ⟨f - 1, by omega⟩
  have hcwf := coreOf_wf v hwf
  have hncore := natomsOf_pos (coreOf v) hcwf
  have hdec := natoms_decomp v
  rw [pn_decode_go]
  try simp only []
  have hDT := h1 hwf rest ab f1 (by omega)
  have hDV := h2 hcwf rest (ab.emits (preAtoms v)) f1
    (by have := wlen_core_le v; omega)
  constructor
  · intro hrem
    rw [hDT.1 (by omega)]
    simp only []
    rw [hDV.1 (by rw [ABuf.emits_rem, preAtoms_length]; omega)]
    rw [← ABuf.emits_append, ← atomsOf_decomp]
  · intro hrem
    by_cases hp : npre v + 1 ≤ ab.rem
    · rw [hDT.1 hp]
      simp only []
      exact hDV.2 (by rw [ABuf.emits_rem, preAtoms_length]; omega)
    · have hovf := hDT.2 (by omega)
      rcases hE : pn_decode_go f1 .dtype (wire v ++ rest) ab with ⟨res, bs2, ab2, c2⟩
      rw [hE] at hovf
      simp only [] at hovf
      rw [hovf]


/-! Per-code equations of `pn_decode_value` at positive atom capacity. -/

theorem dval_overflow (f1 : Nat) (code : Nat) (bs : List Nat) (ab : ABuf)
    (hr : ab.rem = 0) :
    pn_decode_go (f1 + 1) (.dvalue code) bs ab = (.overflow, bs, ab, 0) := by
  rw [pn_decode_go]
  try simp only []
  rw [if_pos hr]

theorem dval_null (f1 : Nat) (bs : List Nat) (ab : ABuf) (hr : ab.rem ≠ 0) :
    pn_decode_go (f1 + 1) (.dvalue PNE_NULL) bs ab = (.ok, bs, ab.emit (.anull), 0) := by
  rw [pn_decode_go]
  try simp only []
  simp [hr, PNE_DESCRIPTOR, PNE_NULL, PNE_TRUE, PNE_FALSE, PNE_BOOLEAN, PNE_UBYTE,
    PNE_BYTE, PNE_USHORT, PNE_SHORT, PNE_UINT, PNE_UINT0, PNE_SMALLUINT,
    PNE_SMALLINT, PNE_INT, PNE_UTF32, PNE_FLOAT, PNE_DECIMAL32, PNE_ULONG,
    PNE_LONG, PNE_MS64, PNE_DOUBLE, PNE_DECIMAL64, PNE_ULONG0, PNE_SMALLULONG,
    PNE_SMALLLONG, PNE_DECIMAL128, PNE_UUID, PNE_VBIN8, PNE_STR8_UTF8, PNE_SYM8,
    PNE_VBIN32, PNE_STR32_UTF8, PNE_SYM32, PNE_LIST0, PNE_ARRAY8, PNE_ARRAY32,
    PNE_LIST8, PNE_LIST32, PNE_MAP8, PNE_MAP32]

theorem dval_true (f1 : Nat) (bs : List Nat) (ab : ABuf) (hr : ab.rem ≠ 0) :
    pn_decode_go (f1 + 1) (.dvalue PNE_TRUE) bs ab = (.ok, bs, ab.emit (.abool true), 0) := by
  rw [pn_decode_go]
  try simp only []
  simp [hr, PNE_DESCRIPTOR, PNE_NULL, PNE_TRUE, PNE_FALSE, PNE_BOOLEAN, PNE_UBYTE,
    PNE_BYTE, PNE_USHORT, PNE_SHORT, PNE_UINT, PNE_UINT0, PNE_SMALLUINT,
    PNE_SMALLINT, PNE_INT, PNE_UTF32, PNE_FLOAT, PNE_DECIMAL32, PNE_ULONG,
    PNE_LONG, PNE_MS64, PNE_DOUBLE, PNE_DECIMAL64, PNE_ULONG0, PNE_SMALLULONG,
    PNE_SMALLLONG, PNE_DECIMAL128, PNE_UUID, PNE_VBIN8, PNE_STR8_UTF8, PNE_SYM8,
    PNE_VBIN32, PNE_STR32_UTF8, PNE_SYM32, PNE_LIST0, PNE_ARRAY8, PNE_ARRAY32,
    PNE_LIST8, PNE_LIST32, PNE_MAP8, PNE_MAP32]

theorem dval_false (f1 : Nat) (bs : List Nat) (ab : ABuf) (hr : ab.rem ≠ 0) :
    pn_decode_go (f1 + 1) (.dvalue PNE_FALSE) bs ab = (.ok, bs, ab.emit (.abool false), 0) := by
  rw [pn_decode_go]
  try simp only []
  simp [hr, PNE_DESCRIPTOR, PNE_NULL, PNE_TRUE, PNE_FALSE, PNE_BOOLEAN, PNE_UBYTE,
    PNE_BYTE, PNE_USHORT, PNE_SHORT, PNE_UINT, PNE_UINT0, PNE_SMALLUINT,
    PNE_SMALLINT, PNE_INT, PNE_UTF32, PNE_FLOAT, PNE_DECIMAL32, PNE_ULONG,
    PNE_LONG, PNE_MS64, PNE_DOUBLE, PNE_DECIMAL64, PNE_ULONG0, PNE_SMALLULONG,
    PNE_SMALLLONG, PNE_DECIMAL128, PNE_UUID, PNE_VBIN8, PNE_STR8_UTF8, PNE_SYM8,
    PNE_VBIN32, PNE_STR32_UTF8, PNE_SYM32, PNE_LIST0, PNE_ARRAY8, PNE_ARRAY32,
    PNE_LIST8, PNE_LIST32, PNE_MAP8, PNE_MAP32]

theorem dval_ubyte (f1 : Nat) (bs : List Nat) (ab : ABuf) (hr : ab.rem ≠ 0) :
    pn_decode_go (f1 + 1) (.dvalue PNE_UBYTE) bs ab =
      match pn_read_guard8 bs with
      | (.ok, v, bs1) => (.ok, bs1, ab.emit (.aubyte v), 0)
      | (e, _, bs1) => (e, bs1, ab, 0) := by
  rw [pn_decode_go]
  try simp only []
  simp [hr, PNE_DESCRIPTOR, PNE_NULL, PNE_TRUE, PNE_FALSE, PNE_BOOLEAN, PNE_UBYTE,
    PNE_BYTE, PNE_USHORT, PNE_SHORT, PNE_UINT, PNE_UINT0, PNE_SMALLUINT,
    PNE_SMALLINT, PNE_INT, PNE_UTF32, PNE_FLOAT, PNE_DECIMAL32, PNE_ULONG,
    PNE_LONG, PNE_MS64, PNE_DOUBLE, PNE_DECIMAL64, PNE_ULONG0, PNE_SMALLULONG,
    PNE_SMALLLONG, PNE_DECIMAL128, PNE_UUID, PNE_VBIN8, PNE_STR8_UTF8, PNE_SYM8,
    PNE_VBIN32, PNE_STR32_UTF8, PNE_SYM32, PNE_LIST0, PNE_ARRAY8, PNE_ARRAY32,
    PNE_LIST8, PNE_LIST32, PNE_MAP8, PNE_MAP32]

theorem dval_byte (f1 : Nat) (bs : List Nat) (ab : ABuf) (hr : ab.rem ≠ 0) :
    pn_decode_go (f1 + 1) (.dvalue PNE_BYTE) bs ab =
      match pn_read_guard8 bs with
      | (.ok, v, bs1) => (.ok, bs1, ab.emit (.abyte (toSigned v 256)), 0)
      | (e, _, bs1) => (e, bs1, ab, 0) := by
  rw [pn_decode_go]
  try simp only []
  simp [hr, PNE_DESCRIPTOR, PNE_NULL, PNE_TRUE, PNE_FALSE, PNE_BOOLEAN, PNE_UBYTE,
    PNE_BYTE, PNE_USHORT, PNE_SHORT, PNE_UINT, PNE_UINT0, PNE_SMALLUINT,
    PNE_SMALLINT, PNE_INT, PNE_UTF32, PNE_FLOAT, PNE_DECIMAL32, PNE_ULONG,
    PNE_LONG, PNE_MS64, PNE_DOUBLE, PNE_DECIMAL64, PNE_ULONG0, PNE_SMALLULONG,
    PNE_SMALLLONG, PNE_DECIMAL128, PNE_UUID, PNE_VBIN8, PNE_STR8_UTF8, PNE_SYM8,
    PNE_VBIN32, PNE_STR32_UTF8, PNE_SYM32, PNE_LIST0, PNE_ARRAY8, PNE_ARRAY32,
    PNE_LIST8, PNE_LIST32, PNE_MAP8, PNE_MAP32]

theorem dval_smalluint (f1 : Nat) (bs : List Nat) (ab : ABuf) (hr : ab.rem ≠ 0) :
    pn_decode_go (f1 + 1) (.dvalue PNE_SMALLUINT) bs ab =
      match pn_read_guard8 bs with
      | (.ok, v, bs1) => (.ok, bs1, ab.emit (.auint v), 0)
      | (e, _, bs1) => (e, bs1, ab, 0) := by
  rw [pn_decode_go]
  try simp only []
  simp [hr, PNE_DESCRIPTOR, PNE_NULL, PNE_TRUE, PNE_FALSE, PNE_BOOLEAN, PNE_UBYTE,
    PNE_BYTE, PNE_USHORT, PNE_SHORT, PNE_UINT, PNE_UINT0, PNE_SMALLUINT,
    PNE_SMALLINT, PNE_INT, PNE_UTF32, PNE_FLOAT, PNE_DECIMAL32, PNE_ULONG,
    PNE_LONG, PNE_MS64, PNE_DOUBLE, PNE_DECIMAL64, PNE_ULONG0, PNE_SMALLULONG,
    PNE_SMALLLONG, PNE_DECIMAL128, PNE_UUID, PNE_VBIN8, PNE_STR8_UTF8, PNE_SYM8,
    PNE_VBIN32, PNE_STR32_UTF8, PNE_SYM32, PNE_LIST0, PNE_ARRAY8, PNE_ARRAY32,
    PNE_LIST8, PNE_LIST32, PNE_MAP8, PNE_MAP32]

theorem dval_smallulong (f1 : Nat) (bs : List Nat) (ab : ABuf) (hr : ab.rem ≠ 0) :
    pn_decode_go (f1 + 1) (.dvalue PNE_SMALLULONG) bs ab =
      match pn_read_guard8 bs with
      | (.ok, v, bs1) => (.ok, bs1, ab.emit (.aulong v), 0)
      | (e, _, bs1) => (e, bs1, ab, 0) := by
  rw [pn_decode_go]
  try simp only []
  simp [hr, PNE_DESCRIPTOR, PNE_NULL, PNE_TRUE, PNE_FALSE, PNE_BOOLEAN, PNE_UBYTE,
    PNE_BYTE, PNE_USHORT, PNE_SHORT, PNE_UINT, PNE_UINT0, PNE_SMALLUINT,
    PNE_SMALLINT, PNE_INT, PNE_UTF32, PNE_FLOAT, PNE_DECIMAL32, PNE_ULONG,
    PNE_LONG, PNE_MS64, PNE_DOUBLE, PNE_DECIMAL64, PNE_ULONG0, PNE_SMALLULONG,
    PNE_SMALLLONG, PNE_DECIMAL128, PNE_UUID, PNE_VBIN8, PNE_STR8_UTF8, PNE_SYM8,
    PNE_VBIN32, PNE_STR32_UTF8, PNE_SYM32, PNE_LIST0, PNE_ARRAY8, PNE_ARRAY32,
    PNE_LIST8, PNE_LIST32, PNE_MAP8, PNE_MAP32]

theorem dval_ushort (f1 : Nat) (bs : List Nat) (ab : ABuf) (hr : ab.rem ≠ 0) :
    pn_decode_go (f1 + 1) (.dvalue PNE_USHORT) bs ab =
      match pn_read_guard16 bs with
      | (.ok, v, bs1) => (.ok, bs1, ab.emit (.aushort v), 0)
      | (e, _, bs1) => (e, bs1, ab, 0) := by
  rw [pn_decode_go]
  try simp only []
  simp [hr, PNE_DESCRIPTOR, PNE_NULL, PNE_TRUE, PNE_FALSE, PNE_BOOLEAN, PNE_UBYTE,
    PNE_BYTE, PNE_USHORT, PNE_SHORT, PNE_UINT, PNE_UINT0, PNE_SMALLUINT,
    PNE_SMALLINT, PNE_INT, PNE_UTF32, PNE_FLOAT, PNE_DECIMAL32, PNE_ULONG,
    PNE_LONG, PNE_MS64, PNE_DOUBLE, PNE_DECIMAL64, PNE_ULONG0, PNE_SMALLULONG,
    PNE_SMALLLONG, PNE_DECIMAL128, PNE_UUID, PNE_VBIN8, PNE_STR8_UTF8, PNE_SYM8,
    PNE_VBIN32, PNE_STR32_UTF8, PNE_SYM32, PNE_LIST0, PNE_ARRAY8, PNE_ARRAY32,
    PNE_LIST8, PNE_LIST32, PNE_MAP8, PNE_MAP32]

theorem dval_short (f1 : Nat) (bs : List Nat) (ab : ABuf) (hr : ab.rem ≠ 0) :
    pn_decode_go (f1 + 1) (.dvalue PNE_SHORT) bs ab =
      match pn_read_guard16 bs with
      | (.ok, v, bs1) => (.ok, bs1, ab.emit (.ashort (toSigned v (2 ^ 16))), 0)
      | (e, _, bs1) => (e, bs1, ab, 0) := by
  rw [pn_decode_go]
  try simp only []
  simp [hr, PNE_DESCRIPTOR, PNE_NULL, PNE_TRUE, PNE_FALSE, PNE_BOOLEAN, PNE_UBYTE,
    PNE_BYTE, PNE_USHORT, PNE_SHORT, PNE_UINT, PNE_UINT0, PNE_SMALLUINT,
    PNE_SMALLINT, PNE_INT, PNE_UTF32, PNE_FLOAT, PNE_DECIMAL32, PNE_ULONG,
    PNE_LONG, PNE_MS64, PNE_DOUBLE, PNE_DECIMAL64, PNE_ULONG0, PNE_SMALLULONG,
    PNE_SMALLLONG, PNE_DECIMAL128, PNE_UUID, PNE_VBIN8, PNE_STR8_UTF8, PNE_SYM8,
    PNE_VBIN32, PNE_STR32_UTF8, PNE_SYM32, PNE_LIST0, PNE_ARRAY8, PNE_ARRAY32,
    PNE_LIST8, PNE_LIST32, PNE_MAP8, PNE_MAP32]

theorem dval_uint (f1 : Nat) (bs : List Nat) (ab : ABuf) (hr : ab.rem ≠ 0) :
    pn_decode_go (f1 + 1) (.dvalue PNE_UINT) bs ab =
      match pn_read_guard32 bs with
      | (.ok, v, bs1) => (.ok, bs1, ab.emit (.auint v), 0)
      | (e, _, bs1) => (e, bs1, ab, 0) := by
  rw [pn_decode_go]
  try simp only []
  simp [hr, PNE_DESCRIPTOR, PNE_NULL, PNE_TRUE, PNE_FALSE, PNE_BOOLEAN, PNE_UBYTE,
    PNE_BYTE, PNE_USHORT, PNE_SHORT, PNE_UINT, PNE_UINT0, PNE_SMALLUINT,
    PNE_SMALLINT, PNE_INT, PNE_UTF32, PNE_FLOAT, PNE_DECIMAL32, PNE_ULONG,
    PNE_LONG, PNE_MS64, PNE_DOUBLE, PNE_DECIMAL64, PNE_ULONG0, PNE_SMALLULONG,
    PNE_SMALLLONG, PNE_DECIMAL128, PNE_UUID, PNE_VBIN8, PNE_STR8_UTF8, PNE_SYM8,
    PNE_VBIN32, PNE_STR32_UTF8, PNE_SYM32, PNE_LIST0, PNE_ARRAY8, PNE_ARRAY32,
    PNE_LIST8, PNE_LIST32, PNE_MAP8, PNE_MAP32]

theorem dval_int (f1 : Nat) (bs : List Nat) (ab : ABuf) (hr : ab.rem ≠ 0) :
    pn_decode_go (f1 + 1) (.dvalue PNE_INT) bs ab =
      match pn_read_guard32 bs with
      | (.ok, v, bs1) => (.ok, bs1, ab.emit (.aint (toSigned v (2 ^ 32))), 0)
      | (e, _, bs1) => (e, bs1, ab, 0) := by
  rw [pn_decode_go]
  try simp only []
  simp [hr, PNE_DESCRIPTOR, PNE_NULL, PNE_TRUE, PNE_FALSE, PNE_BOOLEAN, PNE_UBYTE,
    PNE_BYTE, PNE_USHORT, PNE_SHORT, PNE_UINT, PNE_UINT0, PNE_SMALLUINT,
    PNE_SMALLINT, PNE_INT, PNE_UTF32, PNE_FLOAT, PNE_DECIMAL32, PNE_ULONG,
    PNE_LONG, PNE_MS64, PNE_DOUBLE, PNE_DECIMAL64, PNE_ULONG0, PNE_SMALLULONG,
    PNE_SMALLLONG, PNE_DECIMAL128, PNE_UUID, PNE_VBIN8, PNE_STR8_UTF8, PNE_SYM8,
    PNE_VBIN32, PNE_STR32_UTF8, PNE_SYM32, PNE_LIST0, PNE_ARRAY8, PNE_ARRAY32,
    PNE_LIST8, PNE_LIST32, PNE_MAP8, PNE_MAP32]

theorem dval_utf32 (f1 : Nat) (bs : List Nat) (ab : ABuf) (hr : ab.rem ≠ 0) :
    pn_decode_go (f1 + 1) (.dvalue PNE_UTF32) bs ab =
      match pn_read_guard32 bs with
      | (.ok, v, bs1) => (.ok, bs1, ab.emit (.achar v), 0)
      | (e, _, bs1) => (e, bs1, ab, 0) := by
  rw [pn_decode_go]
  try simp only []
  simp [hr, PNE_DESCRIPTOR, PNE_NULL, PNE_TRUE, PNE_FALSE, PNE_BOOLEAN, PNE_UBYTE,
    PNE_BYTE, PNE_USHORT, PNE_SHORT, PNE_UINT, PNE_UINT0, PNE_SMALLUINT,
    PNE_SMALLINT, PNE_INT, PNE_UTF32, PNE_FLOAT, PNE_DECIMAL32, PNE_ULONG,
    PNE_LONG, PNE_MS64, PNE_DOUBLE, PNE_DECIMAL64, PNE_ULONG0, PNE_SMALLULONG,
    PNE_SMALLLONG, PNE_DECIMAL128, PNE_UUID, PNE_VBIN8, PNE_STR8_UTF8, PNE_SYM8,
    PNE_VBIN32, PNE_STR32_UTF8, PNE_SYM32, PNE_LIST0, PNE_ARRAY8, PNE_ARRAY32,
    PNE_LIST8, PNE_LIST32, PNE_MAP8, PNE_MAP32]

theorem dval_float (f1 : Nat) (bs : List Nat) (ab : ABuf) (hr : ab.rem ≠ 0) :
    pn_decode_go (f1 + 1) (.dvalue PNE_FLOAT) bs ab =
      match pn_read_guard32 bs with
      | (.ok, v, bs1) => (.ok, bs1, ab.emit (.afloat v), 0)
      | (e, _, bs1) => (e, bs1, ab, 0) := by
  rw [pn_decode_go]
  try simp only []
  simp [hr, PNE_DESCRIPTOR, PNE_NULL, PNE_TRUE, PNE_FALSE, PNE_BOOLEAN, PNE_UBYTE,
    PNE_BYTE, PNE_USHORT, PNE_SHORT, PNE_UINT, PNE_UINT0, PNE_SMALLUINT,
    PNE_SMALLINT, PNE_INT, PNE_UTF32, PNE_FLOAT, PNE_DECIMAL32, PNE_ULONG,
    PNE_LONG, PNE_MS64, PNE_DOUBLE, PNE_DECIMAL64, PNE_ULONG0, PNE_SMALLULONG,
    PNE_SMALLLONG, PNE_DECIMAL128, PNE_UUID, PNE_VBIN8, PNE_STR8_UTF8, PNE_SYM8,
    PNE_VBIN32, PNE_STR32_UTF8, PNE_SYM32, PNE_LIST0, PNE_ARRAY8, PNE_ARRAY32,
    PNE_LIST8, PNE_LIST32, PNE_MAP8, PNE_MAP32]

theorem dval_dec32 (f1 : Nat) (bs : List Nat) (ab : ABuf) (hr : ab.rem ≠ 0) :
    pn_decode_go (f1 + 1) (.dvalue PNE_DECIMAL32) bs ab =
      match pn_read_guard32 bs with
      | (.ok, v, bs1) => (.ok, bs1, ab.emit (.adec32 v), 0)
      | (e, _, bs1) => (e, bs1, ab, 0) := by
  rw [pn_decode_go]
  try simp only []
  simp [hr, PNE_DESCRIPTOR, PNE_NULL, PNE_TRUE, PNE_FALSE, PNE_BOOLEAN, PNE_UBYTE,
    PNE_BYTE, PNE_USHORT, PNE_SHORT, PNE_UINT, PNE_UINT0, PNE_SMALLUINT,
    PNE_SMALLINT, PNE_INT, PNE_UTF32, PNE_FLOAT, PNE_DECIMAL32, PNE_ULONG,
    PNE_LONG, PNE_MS64, PNE_DOUBLE, PNE_DECIMAL64, PNE_ULONG0, PNE_SMALLULONG,
    PNE_SMALLLONG, PNE_DECIMAL128, PNE_UUID, PNE_VBIN8, PNE_STR8_UTF8, PNE_SYM8,
    PNE_VBIN32, PNE_STR32_UTF8, PNE_SYM32, PNE_LIST0, PNE_ARRAY8, PNE_ARRAY32,
    PNE_LIST8, PNE_LIST32, PNE_MAP8, PNE_MAP32]

theorem dval_ulong (f1 : Nat) (bs : List Nat) (ab : ABuf) (hr : ab.rem ≠ 0) :
    pn_decode_go (f1 + 1) (.dvalue PNE_ULONG) bs ab =
      match pn_read_guard64 bs with
      | (.ok, v, bs1) => (.ok, bs1, ab.emit (.aulong v), 0)
      | (e, _, bs1) => (e, bs1, ab, 0) := by
  rw [pn_decode_go]
  try simp only []
  simp [hr, PNE_DESCRIPTOR, PNE_NULL, PNE_TRUE, PNE_FALSE, PNE_BOOLEAN, PNE_UBYTE,
    PNE_BYTE, PNE_USHORT, PNE_SHORT, PNE_UINT, PNE_UINT0, PNE_SMALLUINT,
    PNE_SMALLINT, PNE_INT, PNE_UTF32, PNE_FLOAT, PNE_DECIMAL32, PNE_ULONG,
    PNE_LONG, PNE_MS64, PNE_DOUBLE, PNE_DECIMAL64, PNE_ULONG0, PNE_SMALLULONG,
    PNE_SMALLLONG, PNE_DECIMAL128, PNE_UUID, PNE_VBIN8, PNE_STR8_UTF8, PNE_SYM8,
    PNE_VBIN32, PNE_STR32_UTF8, PNE_SYM32, PNE_LIST0, PNE_ARRAY8, PNE_ARRAY32,
    PNE_LIST8, PNE_LIST32, PNE_MAP8, PNE_MAP32]

theorem dval_long (f1 : Nat) (bs : List Nat) (ab : ABuf) (hr : ab.rem ≠ 0) :
    pn_decode_go (f1 + 1) (.dvalue PNE_LONG) bs ab =
      match pn_read_guard64 bs with
      | (.ok, v, bs1) => (.ok, bs1, ab.emit (.along (toSigned v (2 ^ 64))), 0)
      | (e, _, bs1) => (e, bs1, ab, 0) := by
  rw [pn_decode_go]
  try simp only []
  simp [hr, PNE_DESCRIPTOR, PNE_NULL, PNE_TRUE, PNE_FALSE, PNE_BOOLEAN, PNE_UBYTE,
    PNE_BYTE, PNE_USHORT, PNE_SHORT, PNE_UINT, PNE_UINT0, PNE_SMALLUINT,
    PNE_SMALLINT, PNE_INT, PNE_UTF32, PNE_FLOAT, PNE_DECIMAL32, PNE_ULONG,
    PNE_LONG, PNE_MS64, PNE_DOUBLE, PNE_DECIMAL64, PNE_ULONG0, PNE_SMALLULONG,
    PNE_SMALLLONG, PNE_DECIMAL128, PNE_UUID, PNE_VBIN8, PNE_STR8_UTF8, PNE_SYM8,
    PNE_VBIN32, PNE_STR32_UTF8, PNE_SYM32, PNE_LIST0, PNE_ARRAY8, PNE_ARRAY32,
    PNE_LIST8, PNE_LIST32, PNE_MAP8, PNE_MAP32]

theorem dval_ms64 (f1 : Nat) (bs : List Nat) (ab : ABuf) (hr : ab.rem ≠ 0) :
    pn_decode_go (f1 + 1) (.dvalue PNE_MS64) bs ab =
      match pn_read_guard64 bs with
      | (.ok, v, bs1) => (.ok, bs1, ab.emit (.atimestamp (toSigned v (2 ^ 64))), 0)
      | (e, _, bs1) => (e, bs1, ab, 0) := by
  rw [pn_decode_go]
  try simp only []
  simp [hr, PNE_DESCRIPTOR, PNE_NULL, PNE_TRUE, PNE_FALSE, PNE_BOOLEAN, PNE_UBYTE,
    PNE_BYTE, PNE_USHORT, PNE_SHORT, PNE_UINT, PNE_UINT0, PNE_SMALLUINT,
    PNE_SMALLINT, PNE_INT, PNE_UTF32, PNE_FLOAT, PNE_DECIMAL32, PNE_ULONG,
    PNE_LONG, PNE_MS64, PNE_DOUBLE, PNE_DECIMAL64, PNE_ULONG0, PNE_SMALLULONG,
    PNE_SMALLLONG, PNE_DECIMAL128, PNE_UUID, PNE_VBIN8, PNE_STR8_UTF8, PNE_SYM8,
    PNE_VBIN32, PNE_STR32_UTF8, PNE_SYM32, PNE_LIST0, PNE_ARRAY8, PNE_ARRAY32,
    PNE_LIST8, PNE_LIST32, PNE_MAP8, PNE_MAP32]

theorem dval_double (f1 : Nat) (bs : List Nat) (ab : ABuf) (hr : ab.rem ≠ 0) :
    pn_decode_go (f1 + 1) (.dvalue PNE_DOUBLE) bs ab =
      match pn_read_guard64 bs with
      | (.ok, v, bs1) => (.ok, bs1, ab.emit (.adouble v), 0)
      | (e, _, bs1) => (e, bs1, ab, 0) := by
  rw [pn_decode_go]
  try simp only []
  simp [hr, PNE_DESCRIPTOR, PNE_NULL, PNE_TRUE, PNE_FALSE, PNE_BOOLEAN, PNE_UBYTE,
    PNE_BYTE, PNE_USHORT, PNE_SHORT, PNE_UINT, PNE_UINT0, PNE_SMALLUINT,
    PNE_SMALLINT, PNE_INT, PNE_UTF32, PNE_FLOAT, PNE_DECIMAL32, PNE_ULONG,
    PNE_LONG, PNE_MS64, PNE_DOUBLE, PNE_DECIMAL64, PNE_ULONG0, PNE_SMALLULONG,
    PNE_SMALLLONG, PNE_DECIMAL128, PNE_UUID, PNE_VBIN8, PNE_STR8_UTF8, PNE_SYM8,
    PNE_VBIN32, PNE_STR32_UTF8, PNE_SYM32, PNE_LIST0, PNE_ARRAY8, PNE_ARRAY32,
    PNE_LIST8, PNE_LIST32, PNE_MAP8, PNE_MAP32]

theorem dval_dec64 (f1 : Nat) (bs : List Nat) (ab : ABuf) (hr : ab.rem ≠ 0) :
    pn_decode_go (f1 + 1) (.dvalue PNE_DECIMAL64) bs ab =
      match pn_read_guard64 bs with
      | (.ok, v, bs1) => (.ok, bs1, ab.emit (.adec64 v), 0)
      | (e, _, bs1) => (e, bs1, ab, 0) := by
  rw [pn_decode_go]
  try simp only []
  simp [hr, PNE_DESCRIPTOR, PNE_NULL, PNE_TRUE, PNE_FALSE, PNE_BOOLEAN, PNE_UBYTE,
    PNE_BYTE, PNE_USHORT, PNE_SHORT, PNE_UINT, PNE_UINT0, PNE_SMALLUINT,
    PNE_SMALLINT, PNE_INT, PNE_UTF32, PNE_FLOAT, PNE_DECIMAL32, PNE_ULONG,
    PNE_LONG, PNE_MS64, PNE_DOUBLE, PNE_DECIMAL64, PNE_ULONG0, PNE_SMALLULONG,
    PNE_SMALLLONG, PNE_DECIMAL128, PNE_UUID, PNE_VBIN8, PNE_STR8_UTF8, PNE_SYM8,
    PNE_VBIN32, PNE_STR32_UTF8, PNE_SYM32, PNE_LIST0, PNE_ARRAY8, PNE_ARRAY32,
    PNE_LIST8, PNE_LIST32, PNE_MAP8, PNE_MAP32]

theorem dval_dec128 (f1 : Nat) (bs : List Nat) (ab : ABuf) (hr : ab.rem ≠ 0) :
    pn_decode_go (f1 + 1) (.dvalue PNE_DECIMAL128) bs ab =
      match pn_read_guard128 bs with
      | (.ok, v, bs1) => (.ok, bs1, ab.emit (.adec128 v), 0)
      | (e, _, bs1) => (e, bs1, ab, 0) := by
  rw [pn_decode_go]
  try simp only []
  simp [hr, PNE_DESCRIPTOR, PNE_NULL, PNE_TRUE, PNE_FALSE, PNE_BOOLEAN, PNE_UBYTE,
    PNE_BYTE, PNE_USHORT, PNE_SHORT, PNE_UINT, PNE_UINT0, PNE_SMALLUINT,
    PNE_SMALLINT, PNE_INT, PNE_UTF32, PNE_FLOAT, PNE_DECIMAL32, PNE_ULONG,
    PNE_LONG, PNE_MS64, PNE_DOUBLE, PNE_DECIMAL64, PNE_ULONG0, PNE_SMALLULONG,
    PNE_SMALLLONG, PNE_DECIMAL128, PNE_UUID, PNE_VBIN8, PNE_STR8_UTF8, PNE_SYM8,
    PNE_VBIN32, PNE_STR32_UTF8, PNE_SYM32, PNE_LIST0, PNE_ARRAY8, PNE_ARRAY32,
    PNE_LIST8, PNE_LIST32, PNE_MAP8, PNE_MAP32]

theorem dval_uuid (f1 : Nat) (bs : List Nat) (ab : ABuf) (hr : ab.rem ≠ 0) :
    pn_decode_go (f1 + 1) (.dvalue PNE_UUID) bs ab =
      match pn_read_guard128 bs with
      | (.ok, v, bs1) => (.ok, bs1, ab.emit (.auuid v), 0)
      | (e, _, bs1) => (e, bs1, ab, 0) := by
  rw [pn_decode_go]
  try simp only []
  simp [hr, PNE_DESCRIPTOR, PNE_NULL, PNE_TRUE, PNE_FALSE, PNE_BOOLEAN, PNE_UBYTE,
    PNE_BYTE, PNE_USHORT, PNE_SHORT, PNE_UINT, PNE_UINT0, PNE_SMALLUINT,
    PNE_SMALLINT, PNE_INT, PNE_UTF32, PNE_FLOAT, PNE_DECIMAL32, PNE_ULONG,
    PNE_LONG, PNE_MS64, PNE_DOUBLE, PNE_DECIMAL64, PNE_ULONG0, PNE_SMALLULONG,
    PNE_SMALLLONG, PNE_DECIMAL128, PNE_UUID, PNE_VBIN8, PNE_STR8_UTF8, PNE_SYM8,
    PNE_VBIN32, PNE_STR32_UTF8, PNE_SYM32, PNE_LIST0, PNE_ARRAY8, PNE_ARRAY32,
    PNE_LIST8, PNE_LIST32, PNE_MAP8, PNE_MAP32]

theorem dval_vbin8 (f1 : Nat) (bs : List Nat) (ab : ABuf) (hr : ab.rem ≠ 0) :
    pn_decode_go (f1 + 1) (.dvalue PNE_VBIN8) bs ab =
      match pn_read_guard8 bs with
      | (.ok, size, bs1) =>
        if bs1.length < size then (.underflow, bs1, ab, 0)
        else (.ok, bs1.drop size, ab.emit (.abinary (bs1.take size)), 0)
      | (e, _, bs1) => (e, bs1, ab, 0) := by
  rw [pn_decode_go]
  try simp only []
  simp [hr, PNE_DESCRIPTOR, PNE_NULL, PNE_TRUE, PNE_FALSE, PNE_BOOLEAN, PNE_UBYTE,
    PNE_BYTE, PNE_USHORT, PNE_SHORT, PNE_UINT, PNE_UINT0, PNE_SMALLUINT,
    PNE_SMALLINT, PNE_INT, PNE_UTF32, PNE_FLOAT, PNE_DECIMAL32, PNE_ULONG,
    PNE_LONG, PNE_MS64, PNE_DOUBLE, PNE_DECIMAL64, PNE_ULONG0, PNE_SMALLULONG,
    PNE_SMALLLONG, PNE_DECIMAL128, PNE_UUID, PNE_VBIN8, PNE_STR8_UTF8, PNE_SYM8,
    PNE_VBIN32, PNE_STR32_UTF8, PNE_SYM32, PNE_LIST0, PNE_ARRAY8, PNE_ARRAY32,
    PNE_LIST8, PNE_LIST32, PNE_MAP8, PNE_MAP32,
    show ((0xa0 : Nat) &&& 0xF0) = 0xa0 from by decide,
    show ((0xa0 : Nat) &&& 0x0F) = 0 from by decide]

theorem dval_str8 (f1 : Nat) (bs : List Nat) (ab : ABuf) (hr : ab.rem ≠ 0) :
    pn_decode_go (f1 + 1) (.dvalue PNE_STR8_UTF8) bs ab =
      match pn_read_guard8 bs with
      | (.ok, size, bs1) =>
        if bs1.length < size then (.underflow, bs1, ab, 0)
        else (.ok, bs1.drop size, ab.emit (.astring (bs1.take size)), 0)
      | (e, _, bs1) => (e, bs1, ab, 0) := by
  rw [pn_decode_go]
  try simp only []
  simp [hr, PNE_DESCRIPTOR, PNE_NULL, PNE_TRUE, PNE_FALSE, PNE_BOOLEAN, PNE_UBYTE,
    PNE_BYTE, PNE_USHORT, PNE_SHORT, PNE_UINT, PNE_UINT0, PNE_SMALLUINT,
    PNE_SMALLINT, PNE_INT, PNE_UTF32, PNE_FLOAT, PNE_DECIMAL32, PNE_ULONG,
    PNE_LONG, PNE_MS64, PNE_DOUBLE, PNE_DECIMAL64, PNE_ULONG0, PNE_SMALLULONG,
    PNE_SMALLLONG, PNE_DECIMAL128, PNE_UUID, PNE_VBIN8, PNE_STR8_UTF8, PNE_SYM8,
    PNE_VBIN32, PNE_STR32_UTF8, PNE_SYM32, PNE_LIST0, PNE_ARRAY8, PNE_ARRAY32,
    PNE_LIST8, PNE_LIST32, PNE_MAP8, PNE_MAP32,
    show ((0xa1 : Nat) &&& 0xF0) = 0xa0 from by decide,
    show ((0xa1 : Nat) &&& 0x0F) = 1 from by decide]

theorem dval_sym8 (f1 : Nat) (bs : List Nat) (ab : ABuf) (hr : ab.rem ≠ 0) :
    pn_decode_go (f1 + 1) (.dvalue PNE_SYM8) bs ab =
      match pn_read_guard8 bs with
      | (.ok, size, bs1) =>
        if bs1.length < size then (.underflow, bs1, ab, 0)
        else (.ok, bs1.drop size, ab.emit (.asymbol (bs1.take size)), 0)
      | (e, _, bs1) => (e, bs1, ab, 0) := by
  rw [pn_decode_go]
  try simp only []
  simp [hr, PNE_DESCRIPTOR, PNE_NULL, PNE_TRUE, PNE_FALSE, PNE_BOOLEAN, PNE_UBYTE,
    PNE_BYTE, PNE_USHORT, PNE_SHORT, PNE_UINT, PNE_UINT0, PNE_SMALLUINT,
    PNE_SMALLINT, PNE_INT, PNE_UTF32, PNE_FLOAT, PNE_DECIMAL32, PNE_ULONG,
    PNE_LONG, PNE_MS64, PNE_DOUBLE, PNE_DECIMAL64, PNE_ULONG0, PNE_SMALLULONG,
    PNE_SMALLLONG, PNE_DECIMAL128, PNE_UUID, PNE_VBIN8, PNE_STR8_UTF8, PNE_SYM8,
    PNE_VBIN32, PNE_STR32_UTF8, PNE_SYM32, PNE_LIST0, PNE_ARRAY8, PNE_ARRAY32,
    PNE_LIST8, PNE_LIST32, PNE_MAP8, PNE_MAP32,
    show ((0xa3 : Nat) &&& 0xF0) = 0xa0 from by decide,
    show ((0xa3 : Nat) &&& 0x0F) = 3 from by decide]

theorem dval_vbin32 (f1 : Nat) (bs : List Nat) (ab : ABuf) (hr : ab.rem ≠ 0) :
    pn_decode_go (f1 + 1) (.dvalue PNE_VBIN32) bs ab =
      match pn_read_guard32 bs with
      | (.ok, size, bs1) =>
        if bs1.length < size then (.underflow, bs1, ab, 0)
        else (.ok, bs1.drop size, ab.emit (.abinary (bs1.take size)), 0)
      | (e, _, bs1) => (e, bs1, ab, 0) := by
  rw [pn_decode_go]
  try simp only []
  simp [hr, PNE_DESCRIPTOR, PNE_NULL, PNE_TRUE, PNE_FALSE, PNE_BOOLEAN, PNE_UBYTE,
    PNE_BYTE, PNE_USHORT, PNE_SHORT, PNE_UINT, PNE_UINT0, PNE_SMALLUINT,
    PNE_SMALLINT, PNE_INT, PNE_UTF32, PNE_FLOAT, PNE_DECIMAL32, PNE_ULONG,
    PNE_LONG, PNE_MS64, PNE_DOUBLE, PNE_DECIMAL64, PNE_ULONG0, PNE_SMALLULONG,
    PNE_SMALLLONG, PNE_DECIMAL128, PNE_UUID, PNE_VBIN8, PNE_STR8_UTF8, PNE_SYM8,
    PNE_VBIN32, PNE_STR32_UTF8, PNE_SYM32, PNE_LIST0, PNE_ARRAY8, PNE_ARRAY32,
    PNE_LIST8, PNE_LIST32, PNE_MAP8, PNE_MAP32,
    show ((0xb0 : Nat) &&& 0xF0) = 0xb0 from by decide,
    show ((0xb0 : Nat) &&& 0x0F) = 0 from by decide]

theorem dval_str32 (f1 : Nat) (bs : List Nat) (ab : ABuf) (hr : ab.rem ≠ 0) :
    pn_decode_go (f1 + 1) (.dvalue PNE_STR32_UTF8) bs ab =
      match pn_read_guard32 bs with
      | (.ok, size, bs1) =>
        if bs1.length < size then (.underflow, bs1, ab, 0)
        else (.ok, bs1.drop size, ab.emit (.astring (bs1.take size)), 0)
      | (e, _, bs1) => (e, bs1, ab, 0) := by
  rw [pn_decode_go]
  try simp only []
  simp [hr, PNE_DESCRIPTOR, PNE_NULL, PNE_TRUE, PNE_FALSE, PNE_BOOLEAN, PNE_UBYTE,
    PNE_BYTE, PNE_USHORT, PNE_SHORT, PNE_UINT, PNE_UINT0, PNE_SMALLUINT,
    PNE_SMALLINT, PNE_INT, PNE_UTF32, PNE_FLOAT, PNE_DECIMAL32, PNE_ULONG,
    PNE_LONG, PNE_MS64, PNE_DOUBLE, PNE_DECIMAL64, PNE_ULONG0, PNE_SMALLULONG,
    PNE_SMALLLONG, PNE_DECIMAL128, PNE_UUID, PNE_VBIN8, PNE_STR8_UTF8, PNE_SYM8,
    PNE_VBIN32, PNE_STR32_UTF8, PNE_SYM32, PNE_LIST0, PNE_ARRAY8, PNE_ARRAY32,
    PNE_LIST8, PNE_LIST32, PNE_MAP8, PNE_MAP32,
    show ((0xb1 : Nat) &&& 0xF0) = 0xb0 from by decide,
    show ((0xb1 : Nat) &&& 0x0F) = 1 from by decide]

theorem dval_sym32 (f1 : Nat) (bs : List Nat) (ab : ABuf) (hr : ab.rem ≠ 0) :
    pn_decode_go (f1 + 1) (.dvalue PNE_SYM32) bs ab =
      match pn_read_guard32 bs with
      | (.ok, size, bs1) =>
        if bs1.length < size then (.underflow, bs1, ab, 0)
        else (.ok, bs1.drop size, ab.emit (.asymbol (bs1.take size)), 0)
      | (e, _, bs1) => (e, bs1, ab, 0) := by
  rw [pn_decode_go]
  try simp only []
  simp [hr, PNE_DESCRIPTOR, PNE_NULL, PNE_TRUE, PNE_FALSE, PNE_BOOLEAN, PNE_UBYTE,
    PNE_BYTE, PNE_USHORT, PNE_SHORT, PNE_UINT, PNE_UINT0, PNE_SMALLUINT,
    PNE_SMALLINT, PNE_INT, PNE_UTF32, PNE_FLOAT, PNE_DECIMAL32, PNE_ULONG,
    PNE_LONG, PNE_MS64, PNE_DOUBLE, PNE_DECIMAL64, PNE_ULONG0, PNE_SMALLULONG,
    PNE_SMALLLONG, PNE_DECIMAL128, PNE_UUID, PNE_VBIN8, PNE_STR8_UTF8, PNE_SYM8,
    PNE_VBIN32, PNE_STR32_UTF8, PNE_SYM32, PNE_LIST0, PNE_ARRAY8, PNE_ARRAY32,
    PNE_LIST8, PNE_LIST32, PNE_MAP8, PNE_MAP32,
    show ((0xb3 : Nat) &&& 0xF0) = 0xb0 from by decide,
    show ((0xb3 : Nat) &&& 0x0F) = 3 from by decide]

theorem dval_list32 (f1 : Nat) (bs : List Nat) (ab : ABuf) (hr : ab.rem ≠ 0) :
    pn_decode_go (f1 + 1) (.dvalue PNE_LIST32) bs ab =
      pn_decode_go f1
        (.datomsN (pn_i_bytes_readf32 (pn_i_bytes_readf32 bs).2).1)
        (pn_i_bytes_readf32 (pn_i_bytes_readf32 bs).2).2
        (ab.emit (.alist (pn_i_bytes_readf32 (pn_i_bytes_readf32 bs).2).1)) := by
  rw [pn_decode_go]
  try simp only []
  simp [hr, PNE_DESCRIPTOR, PNE_NULL, PNE_TRUE, PNE_FALSE, PNE_BOOLEAN, PNE_UBYTE,
    PNE_BYTE, PNE_USHORT, PNE_SHORT, PNE_UINT, PNE_UINT0, PNE_SMALLUINT,
    PNE_SMALLINT, PNE_INT, PNE_UTF32, PNE_FLOAT, PNE_DECIMAL32, PNE_ULONG,
    PNE_LONG, PNE_MS64, PNE_DOUBLE, PNE_DECIMAL64, PNE_ULONG0, PNE_SMALLULONG,
    PNE_SMALLLONG, PNE_DECIMAL128, PNE_UUID, PNE_VBIN8, PNE_STR8_UTF8, PNE_SYM8,
    PNE_VBIN32, PNE_STR32_UTF8, PNE_SYM32, PNE_LIST0, PNE_ARRAY8, PNE_ARRAY32,
    PNE_LIST8, PNE_LIST32, PNE_MAP8, PNE_MAP32]

theorem dval_map32 (f1 : Nat) (bs : List Nat) (ab : ABuf) (hr : ab.rem ≠ 0) :
    pn_decode_go (f1 + 1) (.dvalue PNE_MAP32) bs ab =
      pn_decode_go f1
        (.datomsN (pn_i_bytes_readf32 (pn_i_bytes_readf32 bs).2).1)
        (pn_i_bytes_readf32 (pn_i_bytes_readf32 bs).2).2
        (ab.emit (.amap (pn_i_bytes_readf32 (pn_i_bytes_readf32 bs).2).1)) := by
  rw [pn_decode_go]
  try simp only []
  simp [hr, PNE_DESCRIPTOR, PNE_NULL, PNE_TRUE, PNE_FALSE, PNE_BOOLEAN, PNE_UBYTE,
    PNE_BYTE, PNE_USHORT, PNE_SHORT, PNE_UINT, PNE_UINT0, PNE_SMALLUINT,
    PNE_SMALLINT, PNE_INT, PNE_UTF32, PNE_FLOAT, PNE_DECIMAL32, PNE_ULONG,
    PNE_LONG, PNE_MS64, PNE_DOUBLE, PNE_DECIMAL64, PNE_ULONG0, PNE_SMALLULONG,
    PNE_SMALLLONG, PNE_DECIMAL128, PNE_UUID, PNE_VBIN8, PNE_STR8_UTF8, PNE_SYM8,
    PNE_VBIN32, PNE_STR32_UTF8, PNE_SYM32, PNE_LIST0, PNE_ARRAY8, PNE_ARRAY32,
    PNE_LIST8, PNE_LIST32, PNE_MAP8, PNE_MAP32]


/-! Per-kind `pn_decode_value` behaviour on the wire payload of each leaf. -/

theorem dv_null : DVstmt AVal.vnull := by
  intro hwf rest ab f hf
  obtain ⟨f1, rfl⟩ : ∃ f1, f = f1 + 1 := ⟨f - 1, by have := wlen_pos _ hwf; omega⟩
  constructor
  · intro hrem
    have hr : ab.rem ≠ 0 := by simp only [natomsOf] at hrem; omega
    simp only [wire, List.headD_cons, List.drop_one, List.tail_cons, List.nil_append]
    rw [dval_null f1 _ ab hr]
    simp [atomsOf, ABuf.emit_eq_emits]
  · intro hrem
    have hr : ab.rem = 0 := by simp only [natomsOf] at hrem; omega
    rw [dval_overflow f1 _ _ ab hr]

theorem dv_bool (b : Bool) : DVstmt (AVal.vbool b) := by
  intro hwf rest ab f hf
  obtain ⟨f1, rfl⟩ : ∃ f1, f = f1 + 1 := ⟨f - 1, by have := wlen_pos _ hwf; omega⟩
  constructor
  · intro hrem
    have hr : ab.rem ≠ 0 := by simp only [natomsOf] at hrem; omega
    cases b
    · simp only [wire, if_false, Bool.false_eq_true, List.headD_cons, List.drop_one,
        List.tail_cons, List.nil_append]
      rw [dval_false f1 _ ab hr]
      simp [atomsOf, ABuf.emit_eq_emits]
    · simp only [wire, if_true, List.headD_cons, List.drop_one,
        List.tail_cons, List.nil_append]
      rw [dval_true f1 _ ab hr]
      simp [atomsOf, ABuf.emit_eq_emits]
  · intro hrem
    have hr : ab.rem = 0 := by simp only [natomsOf] at hrem; omega
    rw [dval_overflow f1 _ _ ab hr]

theorem dv_ubyte (x : Nat) : DVstmt (AVal.vubyte x) := by
  intro hwf rest ab f hf
  have hx : x < 256 := by simpa [AVal.wf] using hwf
  obtain ⟨f1, rfl⟩ : ∃ f1, f = f1 + 1 := ⟨f - 1, by have := wlen_pos _ hwf; omega⟩
  constructor
  · intro hrem
    have hr : ab.rem ≠ 0 := by simp only [natomsOf] at hrem; omega
    simp only [wire, List.headD_cons, List.drop_one, List.tail_cons,
        List.cons_append, List.nil_append]
    rw [dval_ubyte f1 _ ab hr, read_guard8_cons]
    simp only []
    rw [Nat.mod_eq_of_lt hx]
    simp [atomsOf, ABuf.emit_eq_emits]
  · intro hrem
    have hr : ab.rem = 0 := by simp only [natomsOf] at hrem; omega
    rw [dval_overflow f1 _ _ ab hr]

theorem dv_byte (x : Int) : DVstmt (AVal.vbyte x) := by
  intro hwf rest ab f hf
  have hx : -128 ≤ x ∧ x < 128 := by simpa [AVal.wf] using hwf
  obtain ⟨f1, rfl⟩ : ∃ f1, f = f1 + 1 := ⟨f - 1, by have := wlen_pos _ hwf; omega⟩
  constructor
  · intro hrem
    have hr : ab.rem ≠ 0 := by simp only [natomsOf] at hrem; omega
    simp only [wire, List.headD_cons, List.drop_one, List.tail_cons,
        List.cons_append, List.nil_append]
    rw [dval_byte f1 _ ab hr, read_guard8_cons]
    simp only []
    rw [Nat.mod_eq_of_lt (toUnsigned_lt x 256 (by norm_num))]
    rw [toSigned_toUnsigned x 256 (by norm_num)
      (by have h1 := hx.1; norm_num at h1 ⊢; omega)
      (by have h2 := hx.2; norm_num at h2 ⊢; omega)]
    simp [atomsOf, ABuf.emit_eq_emits]
  · intro hrem
    have hr : ab.rem = 0 := by simp only [natomsOf] at hrem; omega
    rw [dval_overflow f1 _ _ ab hr]

theorem dv_ushort (x : Nat) : DVstmt (AVal.vushort x) := by
  intro hwf rest ab f hf
  have hx : x < 2 ^ 16 := by simpa [AVal.wf] using hwf
  obtain ⟨f1, rfl⟩ : ∃ f1, f = f1 + 1 := ⟨f - 1, by have := wlen_pos _ hwf; omega⟩
  constructor
  · intro hrem
    have hr : ab.rem ≠ 0 := by simp only [natomsOf] at hrem; omega
    simp only [wire, List.headD_cons, List.drop_one, List.tail_cons,
        List.cons_append, List.nil_append]
    rw [dval_ushort f1 _ ab hr, read_guard16_be]
    simp only []
    rw [Nat.mod_eq_of_lt hx]
    simp [atomsOf, ABuf.emit_eq_emits]
  · intro hrem
    have hr : ab.rem = 0 := by simp only [natomsOf] at hrem; omega
    rw [dval_overflow f1 _ _ ab hr]

theorem dv_short (x : Int) : DVstmt (AVal.vshort x) := by
  intro hwf rest ab f hf
  have hx : -(2 ^ 15) ≤ x ∧ x < 2 ^ 15 := by simpa [AVal.wf] using hwf
  obtain ⟨f1, rfl⟩ : ∃ f1, f = f1 + 1 := ⟨f - 1, by have := wlen_pos _ hwf; omega⟩
  constructor
  · intro hrem
    have hr : ab.rem ≠ 0 := by simp only [natomsOf] at hrem; omega
    simp only [wire, List.headD_cons, List.drop_one, List.tail_cons,
        List.cons_append, List.nil_append]
    rw [dval_short f1 _ ab hr, read_guard16_be]
    simp only []
    rw [Nat.mod_eq_of_lt (toUnsigned_lt x (2 ^ 16) (by norm_num))]
    rw [toSigned_toUnsigned x (2 ^ 16) (by norm_num)
      (by have h1 := hx.1; norm_num at h1 ⊢; omega)
      (by have h2 := hx.2; norm_num at h2 ⊢; omega)]
    simp [atomsOf, ABuf.emit_eq_emits]
  · intro hrem
    have hr : ab.rem = 0 := by simp only [natomsOf] at hrem; omega
    rw [dval_overflow f1 _ _ ab hr]

theorem dv_int (x : Int) : DVstmt (AVal.vint x) := by
  intro hwf rest ab f hf
  have hx : -(2 ^ 31) ≤ x ∧ x < 2 ^ 31 := by simpa [AVal.wf] using hwf
  obtain ⟨f1, rfl⟩ : ∃ f1, f = f1 + 1 := ⟨f - 1, by have := wlen_pos _ hwf; omega⟩
  constructor
  · intro hrem
    have hr : ab.rem ≠ 0 := by simp only [natomsOf] at hrem; omega
    simp only [wire, List.headD_cons, List.drop_one, List.tail_cons,
        List.cons_append, List.nil_append]
    rw [dval_int f1 _ ab hr, read_guard32_be]
    simp only []
    rw [Nat.mod_eq_of_lt (toUnsigned_lt x (2 ^ 32) (by norm_num))]
    rw [toSigned_toUnsigned x (2 ^ 32) (by norm_num)
      (by have h1 := hx.1; norm_num at h1 ⊢; omega)
      (by have h2 := hx.2; norm_num at h2 ⊢; omega)]
    simp [atomsOf, ABuf.emit_eq_emits]
  · intro hrem
    have hr : ab.rem = 0 := by simp only [natomsOf] at hrem; omega
    rw [dval_overflow f1 _ _ ab hr]

theorem dv_char (x : Nat) : DVstmt (AVal.vchar x) := by
  intro hwf rest ab f hf
  have hx : x < 2 ^ 32 := by simpa [AVal.wf] using hwf
  obtain ⟨f1, rfl⟩ : ∃ f1, f = f1 + 1 := ⟨f - 1, by have := wlen_pos _ hwf; omega⟩
  constructor
  · intro hrem
    have hr : ab.rem ≠ 0 := by simp only [natomsOf] at hrem; omega
    simp only [wire, List.headD_cons, List.drop_one, List.tail_cons,
        List.cons_append, List.nil_append]
    rw [dval_utf32 f1 _ ab hr, read_guard32_be]
    simp only []
    rw [Nat.mod_eq_of_lt hx]
    simp [atomsOf, ABuf.emit_eq_emits]
  · intro hrem
    have hr : ab.rem = 0 := by simp only [natomsOf] at hrem; omega
    rw [dval_overflow f1 _ _ ab hr]

theorem dv_long (x : Int) : DVstmt (AVal.vlong x) := by
  intro hwf rest ab f hf
  have hx : -(2 ^ 63) ≤ x ∧ x < 2 ^ 63 := by simpa [AVal.wf] using hwf
  obtain ⟨f1, rfl⟩ : ∃ f1, f = f1 + 1 := ⟨f - 1, by have := wlen_pos _ hwf; omega⟩
  constructor
  · intro hrem
    have hr : ab.rem ≠ 0 := by simp only [natomsOf] at hrem; omega
    simp only [wire, List.headD_cons, List.drop_one, List.tail_cons,
        List.cons_append, List.nil_append]
    rw [dval_long f1 _ ab hr, read_guard64_be]
    simp only []
    rw [Nat.mod_eq_of_lt (toUnsigned_lt x (2 ^ 64) (by norm_num))]
    rw [toSigned_toUnsigned x (2 ^ 64) (by norm_num)
      (by have h1 := hx.1; norm_num at h1 ⊢; omega)
      (by have h2 := hx.2; norm_num at h2 ⊢; omega)]
    simp [atomsOf, ABuf.emit_eq_emits]
  · intro hrem
    have hr : ab.rem = 0 := by simp only [natomsOf] at hrem; omega
    rw [dval_overflow f1 _ _ ab hr]

theorem dv_timestamp (x : Int) : DVstmt (AVal.vtimestamp x) := by
  intro hwf rest ab f hf
  have hx : -(2 ^ 63) ≤ x ∧ x < 2 ^ 63 := by simpa [AVal.wf] using hwf
  obtain ⟨f1, rfl⟩ : ∃ f1, f = f1 + 1 := ⟨f - 1, by have := wlen_pos _ hwf; omega⟩
  constructor
  · intro hrem
    have hr : ab.rem ≠ 0 := by simp only [natomsOf] at hrem; omega
    simp only [wire, List.headD_cons, List.drop_one, List.tail_cons,
        List.cons_append, List.nil_append]
    rw [dval_ms64 f1 _ ab hr, read_guard64_be]
    simp only []
    rw [Nat.mod_eq_of_lt (toUnsigned_lt x (2 ^ 64) (by norm_num))]
    rw [toSigned_toUnsigned x (2 ^ 64) (by norm_num)
      (by have h1 := hx.1; norm_num at h1 ⊢; omega)
      (by have h2 := hx.2; norm_num at h2 ⊢; omega)]
    simp [atomsOf, ABuf.emit_eq_emits]
  · intro hrem
    have hr : ab.rem = 0 := by simp only [natomsOf] at hrem; omega
    rw [dval_overflow f1 _ _ ab hr]

theorem dv_float (x : Nat) : DVstmt (AVal.vfloat x) := by
  intro hwf rest ab f hf
  have hx : x < 2 ^ 32 := by simpa [AVal.wf] using hwf
  obtain ⟨f1, rfl⟩ : ∃ f1, f = f1 + 1 := ⟨f - 1, by have := wlen_pos _ hwf; omega⟩
  constructor
  · intro hrem
    have hr : ab.rem ≠ 0 := by simp only [natomsOf] at hrem; omega
    simp only [wire, List.headD_cons, List.drop_one, List.tail_cons,
        List.cons_append, List.nil_append]
    rw [dval_float f1 _ ab hr, read_guard32_be]
    simp only []
    rw [Nat.mod_eq_of_lt hx]
    simp [atomsOf, ABuf.emit_eq_emits]
  · intro hrem
    have hr : ab.rem = 0 := by simp only [natomsOf] at hrem; omega
    rw [dval_overflow f1 _ _ ab hr]

theorem dv_double (x : Nat) : DVstmt (AVal.vdouble x) := by
  intro hwf rest ab f hf
  have hx : x < 2 ^ 64 := by simpa [AVal.wf] using hwf
  obtain ⟨f1, rfl⟩ : ∃ f1, f = f1 + 1 := ⟨f - 1, by have := wlen_pos _ hwf; omega⟩
  constructor
  · intro hrem
    have hr : ab.rem ≠ 0 := by simp only [natomsOf] at hrem; omega
    simp only [wire, List.headD_cons, List.drop_one, List.tail_cons,
        List.cons_append, List.nil_append]
    rw [dval_double f1 _ ab hr, read_guard64_be]
    simp only []
    rw [Nat.mod_eq_of_lt hx]
    simp [atomsOf, ABuf.emit_eq_emits]
  · intro hrem
    have hr : ab.rem = 0 := by simp only [natomsOf] at hrem; omega
    rw [dval_overflow f1 _ _ ab hr]

theorem dv_dec32 (x : Nat) : DVstmt (AVal.vdec32 x) := by
  intro hwf rest ab f hf
  have hx : x < 2 ^ 32 := by simpa [AVal.wf] using hwf
  obtain ⟨f1, rfl⟩ : ∃ f1, f = f1 + 1 := ⟨f - 1, by have := wlen_pos _ hwf; omega⟩
  constructor
  · intro hrem
    have hr : ab.rem ≠ 0 := by simp only [natomsOf] at hrem; omega
    simp only [wire, List.headD_cons, List.drop_one, List.tail_cons,
        List.cons_append, List.nil_append]
    rw [dval_dec32 f1 _ ab hr, read_guard32_be]
    simp only []
    rw [Nat.mod_eq_of_lt hx]
    simp [atomsOf, ABuf.emit_eq_emits]
  · intro hrem
    have hr : ab.rem = 0 := by simp only [natomsOf] at hrem; omega
    rw [dval_overflow f1 _ _ ab hr]

theorem dv_dec64 (x : Nat) : DVstmt (AVal.vdec64 x) := by
  intro hwf rest ab f hf
  have hx : x < 2 ^ 64 := by simpa [AVal.wf] using hwf
  obtain ⟨f1, rfl⟩ : ∃ f1, f = f1 + 1 := ⟨f - 1, by have := wlen_pos _ hwf; omega⟩
  constructor
  · intro hrem
    have hr : ab.rem ≠ 0 := by simp only [natomsOf] at hrem; omega
    simp only [wire, List.headD_cons, List.drop_one, List.tail_cons,
        List.cons_append, List.nil_append]
    rw [dval_dec64 f1 _ ab hr, read_guard64_be]
    simp only []
    rw [Nat.mod_eq_of_lt hx]
    simp [atomsOf, ABuf.emit_eq_emits]
  · intro hrem
    have hr : ab.rem = 0 := by simp only [natomsOf] at hrem; omega
    rw [dval_overflow f1 _ _ ab hr]

theorem dv_uint (x : Nat) : DVstmt (AVal.vuint x) := by
  intro hwf rest ab f hf
  have hx : x < 2 ^ 32 := by simpa [AVal.wf] using hwf
  obtain ⟨f1, rfl⟩ : ∃ f1, f = f1 + 1 := ⟨f - 1, by have := wlen_pos _ hwf; omega⟩
  constructor
  · intro hrem
    have hr : ab.rem ≠ 0 := by simp only [natomsOf] at hrem; omega
    by_cases hlt : x < 256
    · simp only [wire, if_pos hlt, List.headD_cons, List.drop_one, List.tail_cons,
        List.cons_append, List.nil_append]
      rw [dval_smalluint f1 _ ab hr, read_guard8_cons]
      simp only []
      rw [Nat.mod_eq_of_lt hlt]
      simp [atomsOf, ABuf.emit_eq_emits]
    · simp only [wire, if_neg hlt, List.headD_cons, List.drop_one, List.tail_cons,
        List.cons_append, List.nil_append]
      rw [dval_uint f1 _ ab hr, read_guard32_be]
      simp only []
      rw [Nat.mod_eq_of_lt hx]
      simp [atomsOf, ABuf.emit_eq_emits]
  · intro hrem
    have hr : ab.rem = 0 := by simp only [natomsOf] at hrem; omega
    rw [dval_overflow f1 _ _ ab hr]

theorem dv_ulong (x : Nat) : DVstmt (AVal.vulong x) := by
  intro hwf rest ab f hf
  have hx : x < 2 ^ 64 := by simpa [AVal.wf] using hwf
  obtain ⟨f1, rfl⟩ : ∃ f1, f = f1 + 1 := ⟨f - 1, by have := wlen_pos _ hwf; omega⟩
  constructor
  · intro hrem
    have hr : ab.rem ≠ 0 := by simp only [natomsOf] at hrem; omega
    by_cases hlt : x < 256
    · simp only [wire, if_pos hlt, List.headD_cons, List.drop_one, List.tail_cons,
        List.cons_append, List.nil_append]
      rw [dval_smallulong f1 _ ab hr, read_guard8_cons]
      simp only []
      rw [Nat.mod_eq_of_lt hlt]
      simp [atomsOf, ABuf.emit_eq_emits]
    · simp only [wire, if_neg hlt, List.headD_cons, List.drop_one, List.tail_cons,
        List.cons_append, List.nil_append]
      rw [dval_ulong f1 _ ab hr, read_guard64_be]
      simp only []
      rw [Nat.mod_eq_of_lt hx]
      simp [atomsOf, ABuf.emit_eq_emits]
  · intro hrem
    have hr : ab.rem = 0 := by simp only [natomsOf] at hrem; omega
    rw [dval_overflow f1 _ _ ab hr]

theorem dv_dec128 (bs : List Nat) : DVstmt (AVal.vdec128 bs) := by
  intro hwf rest ab f hf
  have hx : bs.length = 16 ∧ ∀ b ∈ bs, b < 256 := by simpa [AVal.wf] using hwf
  obtain ⟨f1, rfl⟩ : ∃ f1, f = f1 + 1 := ⟨f - 1, by have := wlen_pos _ hwf; omega⟩
  constructor
  · intro hrem
    have hr : ab.rem ≠ 0 := by simp only [natomsOf] at hrem; omega
    have ht : bs.take 16 = bs := by
      rw [← hx.1]
      exact List.take_length bs
    simp only [wire, List.headD_cons, List.drop_one, List.tail_cons,
      List.cons_append, List.nil_append, ht, map_mod_id bs hx.2]
    rw [dval_dec128 f1 _ ab hr, read_guard128_of bs rest hx.1]
    simp only []
    simp [atomsOf, ABuf.emit_eq_emits]
  · intro hrem
    have hr : ab.rem = 0 := by simp only [natomsOf] at hrem; omega
    rw [dval_overflow f1 _ _ ab hr]

theorem dv_uuid (bs : List Nat) : DVstmt (AVal.vuuid bs) := by
  intro hwf rest ab f hf
  have hx : bs.length = 16 ∧ ∀ b ∈ bs, b < 256 := by simpa [AVal.wf] using hwf
  obtain ⟨f1, rfl⟩ : ∃ f1, f = f1 + 1 := ⟨f - 1, by have := wlen_pos _ hwf; omega⟩
  constructor
  · intro hrem
    have hr : ab.rem ≠ 0 := by simp only [natomsOf] at hrem; omega
    have ht : bs.take 16 = bs := by
      rw [← hx.1]
      exact List.take_length bs
    simp only [wire, List.headD_cons, List.drop_one, List.tail_cons,
      List.cons_append, List.nil_append, ht, map_mod_id bs hx.2]
    rw [dval_uuid f1 _ ab hr, read_guard128_of bs rest hx.1]
    simp only []
    simp [atomsOf, ABuf.emit_eq_emits]
  · intro hrem
    have hr : ab.rem = 0 := by simp only [natomsOf] at hrem; omega
    rw [dval_overflow f1 _ _ ab hr]

theorem dv_binary (bs : List Nat) : DVstmt (AVal.vbinary bs) := by
  intro hwf rest ab f hf
  have hx : (∀ b ∈ bs, b < 256) ∧ bs.length < 2 ^ 32 := by simpa [AVal.wf] using hwf
  obtain ⟨f1, rfl⟩ : ∃ f1, f = f1 + 1 := ⟨f - 1, by have := wlen_pos _ hwf; omega⟩
  have hml : (bs.map (fun b => b % 256)).length = bs.length := by simp
  constructor
  · intro hrem
    have hr : ab.rem ≠ 0 := by simp only [natomsOf] at hrem; omega
    by_cases hlt : bs.length < 256
    · simp only [wire, if_pos hlt, List.headD_cons, List.drop_one, List.tail_cons,
        List.cons_append, List.nil_append]
      rw [dval_vbin8 f1 _ ab hr, read_guard8_cons]
      simp only []
      rw [Nat.mod_eq_of_lt hlt]
      rw [if_neg (by simp only [List.length_append, hml]; omega)]
      rw [show bs.length = (bs.map (fun b => b % 256)).length from hml.symm,
        List.take_left, List.drop_left, map_mod_id bs hx.1]
      simp [atomsOf, ABuf.emit_eq_emits]
    · simp only [wire, if_neg hlt, List.headD_cons, List.drop_one, List.tail_cons,
        List.append_assoc, List.cons_append, List.nil_append]
      rw [dval_vbin32 f1 _ ab hr, read_guard32_be]
      simp only []
      rw [Nat.mod_eq_of_lt hx.2]
      rw [if_neg (by simp only [List.length_append, hml]; omega)]
      rw [show bs.length = (bs.map (fun b => b % 256)).length from hml.symm,
        List.take_left, List.drop_left, map_mod_id bs hx.1]
      simp [atomsOf, ABuf.emit_eq_emits]
  · intro hrem
    have hr : ab.rem = 0 := by simp only [natomsOf] at hrem; omega
    rw [dval_overflow f1 _ _ ab hr]

theorem dv_string (bs : List Nat) : DVstmt (AVal.vstring bs) := by
  intro hwf rest ab f hf
  have hx : (∀ b ∈ bs, b < 256) ∧ bs.length < 2 ^ 32 := by simpa [AVal.wf] using hwf
  obtain ⟨f1, rfl⟩ : ∃ f1, f = f1 + 1 := ⟨f - 1, by have := wlen_pos _ hwf; omega⟩
  have hml : (bs.map (fun b => b % 256)).length = bs.length := by simp
  constructor
  · intro hrem
    have hr : ab.rem ≠ 0 := by simp only [natomsOf] at hrem; omega
    by_cases hlt : bs.length < 256
    · simp only [wire, if_pos hlt, List.headD_cons, List.drop_one, List.tail_cons,
        List.cons_append, List.nil_append]
      rw [dval_str8 f1 _ ab hr, read_guard8_cons]
      simp only []
      rw [Nat.mod_eq_of_lt hlt]
      rw [if_neg (by simp only [List.length_append, hml]; omega)]
      rw [show bs.length = (bs.map (fun b => b % 256)).length from hml.symm,
        List.take_left, List.drop_left, map_mod_id bs hx.1]
      simp [atomsOf, ABuf.emit_eq_emits]
    · simp only [wire, if_neg hlt, List.headD_cons, List.drop_one, List.tail_cons,
        List.append_assoc, List.cons_append, List.nil_append]
      rw [dval_str32 f1 _ ab hr, read_guard32_be]
      simp only []
      rw [Nat.mod_eq_of_lt hx.2]
      rw [if_neg (by simp only [List.length_append, hml]; omega)]
      rw [show bs.length = (bs.map (fun b => b % 256)).length from hml.symm,
        List.take_left, List.drop_left, map_mod_id bs hx.1]
      simp [atomsOf, ABuf.emit_eq_emits]
  · intro hrem
    have hr : ab.rem = 0 := by simp only [natomsOf] at hrem; omega
    rw [dval_overflow f1 _ _ ab hr]

theorem dv_symbol (bs : List Nat) : DVstmt (AVal.vsymbol bs) := by
  intro hwf rest ab f hf
  have hx : (∀ b ∈ bs, b < 256) ∧ bs.length < 2 ^ 32 := by simpa [AVal.wf] using hwf
  obtain ⟨f1, rfl⟩ : ∃ f1, f = f1 + 1 := ⟨f - 1, by have := wlen_pos _ hwf; omega⟩
  have hml : (bs.map (fun b => b % 256)).length = bs.length := by simp
  constructor
  · intro hrem
    have hr : ab.rem ≠ 0 := by simp only [natomsOf] at hrem; omega
    by_cases hlt : bs.length < 256
    · simp only [wire, if_pos hlt, List.headD_cons, List.drop_one, List.tail_cons,
        List.cons_append, List.nil_append]
      rw [dval_sym8 f1 _ ab hr, read_guard8_cons]
      simp only []
      rw [Nat.mod_eq_of_lt hlt]
      rw [if_neg (by simp only [List.length_append, hml]; omega)]
      rw [show bs.length = (bs.map (fun b => b % 256)).length from hml.symm,
        List.take_left, List.drop_left, map_mod_id bs hx.1]
      simp [atomsOf, ABuf.emit_eq_emits]
    · simp only [wire, if_neg hlt, List.headD_cons, List.drop_one, List.tail_cons,
        List.append_assoc, List.cons_append, List.nil_append]
      rw [dval_sym32 f1 _ ab hr, read_guard32_be]
      simp only []
      rw [Nat.mod_eq_of_lt hx.2]
      rw [if_neg (by simp only [List.length_append, hml]; omega)]
      rw [show bs.length = (bs.map (fun b => b % 256)).length from hml.symm,
        List.take_left, List.drop_left, map_mod_id bs hx.1]
      simp [atomsOf, ABuf.emit_eq_emits]
  · intro hrem
    have hr : ab.rem = 0 := by simp only [natomsOf] at hrem; omega
    rw [dval_overflow f1 _ _ ab hr]


theorem an_nil : ANstmt AVal.vseqNil := by
  intro hwf rest ab f hf
  obtain ⟨f1, rfl⟩ : ∃ f1, f = f1 + 1 := ⟨f - 1, by omega⟩
  constructor
  · intro hrem
    rw [show AVal.seqLen AVal.vseqNil = 0 from rfl]
    rw [pn_decode_go]
    try simp only []
    simp [wire, atomsOf, ABuf.emits_nil]
  · intro hrem
    simp only [natomsOf] at hrem
    omega

theorem an_cons (h t : AVal) (hDAh : DAstmt h) (hANt : ANstmt t) :
    ANstmt (.vseqCons h t) := by
  intro hwf rest ab f hf
  have hw : h.wf false = true ∧ t.wf true = true := by simpa [AVal.wf] using hwf
  have hwlh := wlen_pos h hw.1
  have hnh := natomsOf_pos h hw.1
  have hwc := wlen_eq_cons h t
  obtain ⟨f1, rfl⟩ : ∃ f1, f = f1 + 1 := ⟨f - 1, by omega⟩
  rw [show AVal.seqLen (.vseqCons h t) = t.seqLen + 1 from rfl,
    show wire (.vseqCons h t) = wire h ++ wire t from rfl, List.append_assoc]
  rw [pn_decode_go]
  try simp only []
  have hDA := hDAh hw.1 (wire t ++ rest) ab f1 (by omega)
  constructor
  · intro hrem
    simp only [natomsOf] at hrem
    rw [hDA.1 (by omega)]
    try simp only []
    have hAN := hANt hw.2 rest (ab.emits (atomsOf h)) f1 (by omega)
    rw [hAN.1 (by rw [ABuf.emits_rem, atomsOf_length]; omega)]
    rw [← ABuf.emits_append]
    rw [show atomsOf (.vseqCons h t) = atomsOf h ++ atomsOf t from rfl]
  · intro hrem
    simp only [natomsOf] at hrem
    by_cases hp : natomsOf h ≤ ab.rem
    · rw [hDA.1 hp]
      try simp only []
      have hAN := hANt hw.2 rest (ab.emits (atomsOf h)) f1 (by omega)
      exact hAN.2 (by rw [ABuf.emits_rem, atomsOf_length]; omega)
    · have hovf := hDA.2 (by omega)
      rcases hE : pn_decode_go f1 .datom (wire h ++ (wire t ++ rest)) ab
        with ⟨res, bs2, ab2, c2⟩
      rw [hE] at hovf
      simp only [] at hovf
      rw [hovf]

theorem dv_list (xs : AVal) (hAN : ANstmt xs) : DVstmt (.vlist xs) := by
  intro hwf rest ab f hf
  have hw : xs.wf true = true ∧ xs.seqLen < 2 ^ 32 := by simpa [AVal.wf] using hwf
  have hwl := wlen_eq_list xs
  obtain ⟨f1, rfl⟩ : ∃ f1, f = f1 + 1 := ⟨f - 1, by omega⟩
  have hcomp : pn_i_bytes_readf32 (pn_i_bytes_readf32
      (be32 ((wire xs).length + 4) ++ (be32 xs.seqLen ++ (wire xs ++ rest)))).2 =
      (xs.seqLen % 2 ^ 32, wire xs ++ rest) := by
    rw [readf32_be]
    exact readf32_be _ _
  constructor
  · intro hrem
    simp only [natomsOf] at hrem
    have hr : ab.rem ≠ 0 := by omega
    simp only [wire, List.headD_cons, List.drop_one, List.tail_cons,
      List.append_assoc]
    rw [dval_list32 f1 _ ab hr, hcomp]
    simp only []
    rw [Nat.mod_eq_of_lt hw.2]
    have hANi := hAN hw.1 rest (ab.emit (.alist xs.seqLen)) f1 (by omega)
    rw [hANi.1 (by simp [ABuf.emit]; omega)]
    rw [ABuf.emit_eq_emits, ← ABuf.emits_append]
    simp [atomsOf]
  · intro hrem
    simp only [natomsOf] at hrem
    by_cases hr : ab.rem = 0
    · rw [dval_overflow f1 _ _ ab hr]
    · simp only [wire, List.headD_cons, List.drop_one, List.tail_cons,
        List.append_assoc]
      rw [dval_list32 f1 _ ab hr, hcomp]
      simp only []
      rw [Nat.mod_eq_of_lt hw.2]
      have hANi := hAN hw.1 rest (ab.emit (.alist xs.seqLen)) f1 (by omega)
      exact hANi.2 (by simp [ABuf.emit]; omega)

theorem dv_map (xs : AVal) (hAN : ANstmt xs) : DVstmt (.vmap xs) := by
  intro hwf rest ab f hf
  have hw : xs.wf true = true ∧ xs.seqLen < 2 ^ 32 := by simpa [AVal.wf] using hwf
  have hwl := wlen_eq_map xs
  obtain ⟨f1, rfl⟩ : ∃ f1, f = f1 + 1 := ⟨f - 1, by omega⟩
  have hcomp : pn_i_bytes_readf32 (pn_i_bytes_readf32
      (be32 ((wire xs).length + 4) ++ (be32 xs.seqLen ++ (wire xs ++ rest)))).2 =
      (xs.seqLen % 2 ^ 32, wire xs ++ rest) := by
    rw [readf32_be]
    exact readf32_be _ _
  constructor
  · intro hrem
    simp only [natomsOf] at hrem
    have hr : ab.rem ≠ 0 := by omega
    simp only [wire, List.headD_cons, List.drop_one, List.tail_cons,
      List.append_assoc]
    rw [dval_map32 f1 _ ab hr, hcomp]
    simp only []
    rw [Nat.mod_eq_of_lt hw.2]
    have hANi := hAN hw.1 rest (ab.emit (.amap xs.seqLen)) f1 (by omega)
    rw [hANi.1 (by simp [ABuf.emit]; omega)]
    rw [ABuf.emit_eq_emits, ← ABuf.emits_append]
    simp [atomsOf]
  · intro hrem
    simp only [natomsOf] at hrem
    by_cases hr : ab.rem = 0
    · rw [dval_overflow f1 _ _ ab hr]
    · simp only [wire, List.headD_cons, List.drop_one, List.tail_cons,
        List.append_assoc]
      rw [dval_map32 f1 _ ab hr, hcomp]
      simp only []
      rw [Nat.mod_eq_of_lt hw.2]
      have hANi := hAN hw.1 rest (ab.emit (.amap xs.seqLen)) f1 (by omega)
      exact hANi.2 (by simp [ABuf.emit]; omega)

theorem dt_desc (a b : AVal) (hDAa : DAstmt a) (hDTb : DTstmt b) :
    DTstmt (.vdescribed a b) := by
  intro hwf rest ab f hf
  have hw : a.wf false = true ∧ b.wf false = true := by simpa [AVal.wf] using hwf
  have hwla := wlen_pos a hw.1
  have hwlb := wlen_pos b hw.2
  have hna := natomsOf_pos a hw.1
  have hwd := wlen_eq_desc a b
  obtain ⟨f1, rfl⟩ : ∃ f1, f = f1 + 1 := ⟨f - 1, by omega⟩
  rw [show wire (.vdescribed a b) = PNE_DESCRIPTOR :: (wire a ++ wire b) from rfl,
    List.cons_append]
  rw [pn_decode_go]
  try simp only []
  rw [if_neg (by simp)]
  constructor
  · intro hrem
    simp only [npre] at hrem
    rw [if_neg (by omega), if_neg (by simp)]
    simp only [List.drop_one, List.tail_cons, List.append_assoc]
    have hDA := hDAa hw.1 (wire b ++ rest) (ab.emit .adescriptor) f1 (by omega)
    rw [hDA.1 (by simp [ABuf.emit]; omega)]
    try simp only []
    have hDT := hDTb hw.2 rest ((ab.emit .adescriptor).emits (atomsOf a)) f1 (by omega)
    rw [hDT.1 (by rw [ABuf.emits_rem, atomsOf_length]; simp [ABuf.emit]; omega)]
    rw [ABuf.emit_eq_emits, ← ABuf.emits_append, ← ABuf.emits_append]
    rw [show coreOf (.vdescribed a b) = coreOf b from rfl,
      show preAtoms (.vdescribed a b) = .adescriptor :: (atomsOf a ++ preAtoms b)
        from rfl]
    simp
  · intro hrem
    simp only [npre] at hrem
    by_cases hr : ab.rem = 0
    · rw [if_pos hr]
    · rw [if_neg hr, if_neg (by simp)]
      simp only [List.drop_one, List.tail_cons, List.append_assoc]
      have hDA := hDAa hw.1 (wire b ++ rest) (ab.emit .adescriptor) f1 (by omega)
      by_cases hp : natomsOf a ≤ ab.rem - 1
      · rw [hDA.1 (by simp [ABuf.emit]; omega)]
        try simp only []
        have hDT := hDTb hw.2 rest ((ab.emit .adescriptor).emits (atomsOf a)) f1
          (by omega)
        exact hDT.2 (by rw [ABuf.emits_rem, atomsOf_length]; simp [ABuf.emit]; omega)
      · have hovf := hDA.2 (by simp [ABuf.emit]; omega)
        rcases hE : pn_decode_go f1 .datom (wire a ++ (wire b ++ rest))
          (ab.emit .adescriptor) with ⟨res, bs2, ab2, c2⟩
        rw [hE] at hovf
        simp only [] at hovf
        rw [hovf]

/-- The joint decode statement, by induction over the value grammar. -/
theorem decode_run (v : AVal) : DTstmt v ∧ DVstmt (coreOf v) ∧ DAstmt v ∧ ANstmt v := by
  induction v
  case vdescribed a b iha ihb =>
    have hDT := dt_desc a b iha.2.2.1 ihb.1
    exact ⟨hDT, ihb.2.1, DA_of _ hDT ihb.2.1, fun h => by simp [AVal.wf] at h⟩
  case vlist xs ih =>
    have hDV := dv_list xs ih.2.2.2
    have hDT := DT_of_nondesc (AVal.vlist xs) (by simp) rfl rfl rfl
    exact ⟨hDT, hDV, DA_of _ hDT hDV, fun h => by simp [AVal.wf] at h⟩
  case vmap xs ih =>
    have hDV := dv_map xs ih.2.2.2
    have hDT := DT_of_nondesc (AVal.vmap xs) (by simp) rfl rfl rfl
    exact ⟨hDT, hDV, DA_of _ hDT hDV, fun h => by simp [AVal.wf] at h⟩
  case vseqNil =>
    exact ⟨fun h => by simp [AVal.wf] at h, fun h => by simp [AVal.wf] at h,
      fun h => by simp [AVal.wf] at h, an_nil⟩
  case vseqCons h t ihh iht =>
    exact ⟨fun hh => by simp [AVal.wf] at hh, fun hh => by simp [AVal.wf] at hh,
      fun hh => by simp [AVal.wf] at hh, an_cons h t ihh.2.2.1 iht.2.2.2⟩
  case vnull =>
    have hDT := DT_of_nondesc AVal.vnull (by simp) rfl rfl rfl
    exact ⟨hDT, dv_null, DA_of _ hDT dv_null, fun h => by simp [AVal.wf] at h⟩
  case vbool b =>
    have hDT := DT_of_nondesc (AVal.vbool b) (by simp) rfl rfl rfl
    exact ⟨hDT, dv_bool b, DA_of _ hDT (dv_bool b), fun h => by simp [AVal.wf] at h⟩
  case vubyte x =>
    have hDT := DT_of_nondesc (AVal.vubyte x) (by simp) rfl rfl rfl
    exact ⟨hDT, dv_ubyte x, DA_of _ hDT (dv_ubyte x), fun h => by simp [AVal.wf] at h⟩
  case vbyte x =>
    have hDT := DT_of_nondesc (AVal.vbyte x) (by simp) rfl rfl rfl
    exact ⟨hDT, dv_byte x, DA_of _ hDT (dv_byte x), fun h => by simp [AVal.wf] at h⟩
  case vushort x =>
    have hDT := DT_of_nondesc (AVal.vushort x) (by simp) rfl rfl rfl
    exact ⟨hDT, dv_ushort x, DA_of _ hDT (dv_ushort x),
      fun h => by simp [AVal.wf] at h⟩
  case vshort x =>
    have hDT := DT_of_nondesc (AVal.vshort x) (by simp) rfl rfl rfl
    exact ⟨hDT, dv_short x, DA_of _ hDT (dv_short x), fun h => by simp [AVal.wf] at h⟩
  case vuint x =>
    have hDT := DT_of_nondesc (AVal.vuint x) (by simp) rfl rfl rfl
    exact ⟨hDT, dv_uint x, DA_of _ hDT (dv_uint x), fun h => by simp [AVal.wf] at h⟩
  case vint x =>
    have hDT := DT_of_nondesc (AVal.vint x) (by simp) rfl rfl rfl
    exact ⟨hDT, dv_int x, DA_of _ hDT (dv_int x), fun h => by simp [AVal.wf] at h⟩
  case vchar x =>
    have hDT := DT_of_nondesc (AVal.vchar x) (by simp) rfl rfl rfl
    exact ⟨hDT, dv_char x, DA_of _ hDT (dv_char x), fun h => by simp [AVal.wf] at h⟩
  case vulong x =>
    have hDT := DT_of_nondesc (AVal.vulong x) (by simp) rfl rfl rfl
    exact ⟨hDT, dv_ulong x, DA_of _ hDT (dv_ulong x), fun h => by simp [AVal.wf] at h⟩
  case vlong x =>
    have hDT := DT_of_nondesc (AVal.vlong x) (by simp) rfl rfl rfl
    exact ⟨hDT, dv_long x, DA_of _ hDT (dv_long x), fun h => by simp [AVal.wf] at h⟩
  case vtimestamp x =>
    have hDT := DT_of_nondesc (AVal.vtimestamp x) (by simp) rfl rfl rfl
    exact ⟨hDT, dv_timestamp x, DA_of _ hDT (dv_timestamp x),
      fun h => by simp [AVal.wf] at h⟩
  case vfloat x =>
    have hDT := DT_of_nondesc (AVal.vfloat x) (by simp) rfl rfl rfl
    exact ⟨hDT, dv_float x, DA_of _ hDT (dv_float x), fun h => by simp [AVal.wf] at h⟩
  case vdouble x =>
    have hDT := DT_of_nondesc (AVal.vdouble x) (by simp) rfl rfl rfl
    exact ⟨hDT, dv_double x, DA_of _ hDT (dv_double x),
      fun h => by simp [AVal.wf] at h⟩
  case vdec32 x =>
    have hDT := DT_of_nondesc (AVal.vdec32 x) (by simp) rfl rfl rfl
    exact ⟨hDT, dv_dec32 x, DA_of _ hDT (dv_dec32 x), fun h => by simp [AVal.wf] at h⟩
  case vdec64 x =>
    have hDT := DT_of_nondesc (AVal.vdec64 x) (by simp) rfl rfl rfl
    exact ⟨hDT, dv_dec64 x, DA_of _ hDT (dv_dec64 x), fun h => by simp [AVal.wf] at h⟩
  case vdec128 bs =>
    have hDT := DT_of_nondesc (AVal.vdec128 bs) (by simp) rfl rfl rfl
    exact ⟨hDT, dv_dec128 bs, DA_of _ hDT (dv_dec128 bs),
      fun h => by simp [AVal.wf] at h⟩
  case vuuid bs =>
    have hDT := DT_of_nondesc (AVal.vuuid bs) (by simp) rfl rfl rfl
    exact ⟨hDT, dv_uuid bs, DA_of _ hDT (dv_uuid bs), fun h => by simp [AVal.wf] at h⟩
  case vbinary bs =>
    have hDT := DT_of_nondesc (AVal.vbinary bs) (by simp) rfl rfl rfl
    exact ⟨hDT, dv_binary bs, DA_of _ hDT (dv_binary bs),
      fun h => by simp [AVal.wf] at h⟩
  case vstring bs =>
    have hDT := DT_of_nondesc (AVal.vstring bs) (by simp) rfl rfl rfl
    exact ⟨hDT, dv_string bs, DA_of _ hDT (dv_string bs),
      fun h => by simp [AVal.wf] at h⟩
  case vsymbol bs =>
    have hDT := DT_of_nondesc (AVal.vsymbol bs) (by simp) rfl rfl rfl
    exact ⟨hDT, dv_symbol bs, DA_of _ hDT (dv_symbol bs),
      fun h => by simp [AVal.wf] at h⟩


/-- `pn_decode_one` on the wire image of a value: success with the full byte
count and exactly the atom stream at sufficient capacity, `PN_OVERFLOW` below
it. -/
theorem decode_one_spec (v : AVal) (hwf : v.wf false = true) (asize : Nat) :
    (natomsOf v ≤ asize →
      pn_decode_one (wire v) asize = (.ok, wlen v, atomsOf v)) ∧
    (asize < natomsOf v → (pn_decode_one (wire v) asize).1 = .overflow) := by
  have hDA := (decode_run v).2.2.1 hwf [] ⟨asize, []⟩ (4 * (wire v).length + 8)
    (by have := wlen_pos v hwf; simp only [wlen] at this ⊢; omega)
  rw [List.append_nil] at hDA
  constructor
  · intro hle
    unfold pn_decode_one pn_decode_atom
    rw [hDA.1 hle]
    simp [ABuf.emits_eq, wlen]
  · intro hlt
    have h2 := hDA.2 hlt
    rcases hE : pn_decode_go (4 * (wire v).length + 8) .datom (wire v) ⟨asize, []⟩
      with ⟨res, bs1, ab1, c1⟩
    rw [hE] at h2
    simp only [] at h2
    unfold pn_decode_one pn_decode_atom
    rw [hE]
    subst h2
    rfl

/-- The retry loop of `pn_data_decode` terminates with the parse of the atom
stream once the doubling capacity covers the atom count. -/
theorem decode_loop_spec (v : AVal) (hwf : v.wf false = true) (d : PnData) :
    ∀ (k asize : Nat), 1 ≤ asize → natomsOf v ≤ asize * 2 ^ k →
      pn_data_decode_loop (k + 1) asize d (wire v) =
        (.ok, wlen v, buildVal v d) := by
  intro k
  induction k with
  | zero =>
    intro asize h1 h2
    simp only [pow_zero, mul_one] at h2
    rw [pn_data_decode_loop]
    rw [(decode_one_spec v hwf asize).1 h2]
    try simp only []
    rw [parse_atoms_spec v hwf d]
  | succ k ih =>
    intro asize h1 h2
    by_cases hle : natomsOf v ≤ asize
    · rw [pn_data_decode_loop]
      rw [(decode_one_spec v hwf asize).1 hle]
      try simp only []
      rw [parse_atoms_spec v hwf d]
    · rw [pn_data_decode_loop]
      rcases hE : pn_decode_one (wire v) asize with ⟨res, n, atoms⟩
      have h3 := (decode_one_spec v hwf asize).2 (by omega)
      rw [hE] at h3
      simp only [] at h3
      subst h3
      try simp only []
      refine ih (asize * 2) (by omega) ?_
      refine le_trans h2 (le_of_eq ?_)
      ring

/-- `pn_data_decode` on the wire image of a value: success, all bytes
consumed, and the tree extended by exactly the build of the value. -/
theorem decode_spec (v : AVal) (hwf : v.wf false = true) (d : PnData) :
    pn_data_decode d (wire v) = (.ok, wlen v, buildVal v d) := by
  unfold pn_data_decode
  have hk : (wire v).length + 2 = ((wire v).length + 1) + 1 := by omega
  rw [hk]
  apply decode_loop_spec v hwf d ((wire v).length + 1) 64 (by omega)
  have h1 := natoms_le_wlen v
  have h2 : (wire v).length < 2 ^ (wire v).length := Nat.lt_two_pow _
  have h3 : (2 : Nat) ^ (wire v).length ≤ 2 ^ ((wire v).length + 1) :=
    Nat.pow_le_pow_right (by norm_num) (by omega)
  have h4 : (2 : Nat) ^ ((wire v).length + 1) ≤ 64 * 2 ^ ((wire v).length + 1) :=
    Nat.le_mul_of_pos_left _ (by norm_num)
  simp only [wlen] at h1
  omega

/-! ## C1 stage 4: the node layout of a fresh build.  `shapeOk` states the
fields of a value's subtree that the encoder walk reads (atom, `down`, `next`,
`parent`, `children`); the build-effect lemma shows `buildVal` from a fresh
cursor appends exactly this layout. -/

/-- The atom stored by the put of a leaf value (compound arms unused). -/
def leafAtom : AVal → PnAtom
  | .vnull => .anull
  | .vbool b => .abool b
  | .vubyte v => .aubyte v
  | .vbyte v => .abyte v
  | .vushort v => .aushort v
  | .vshort v => .ashort v
  | .vuint v => .auint v
  | .vint v => .aint v
  | .vchar v => .achar v
  | .vulong v => .aulong v
  | .vlong v => .along v
  | .vtimestamp v => .atimestamp v
  | .vfloat b => .afloat b
  | .vdouble b => .adouble b
  | .vdec32 v => .adec32 v
  | .vdec64 v => .adec64 v
  | .vdec128 bs => .adec128 bs
  | .vuuid bs => .auuid bs
  | .vbinary bs => .abinary bs
  | .vstring bs => .astring bs
  | .vsymbol bs => .asymbol bs
  | _ => .anull

/-- Walk-relevant fields of the subtree of a value rooted at node `n` whose
parent id is `par` and whose root `next` link is `nxt`.  For a sequence chain
the `nxt` argument is ignored: each element's root links to the next element's
root and the last element's `next` is zero. -/
def shapeOk : PnData → Nat → AVal → Nat → Nat → Prop
  | d, n, .vlist xs, par, nxt =>
    (getNode d n).atom = .alist 0 ∧ (getNode d n).parent = par ∧
    (getNode d n).next = nxt ∧ (getNode d n).children = xs.seqLen ∧
    (getNode d n).down = (if xs.seqLen = 0 then 0 else n + 1) ∧
    shapeOk d (n + 1) xs n 0
  | d, n, .vmap xs, par, nxt =>
    (getNode d n).atom = .amap 0 ∧ (getNode d n).parent = par ∧
    (getNode d n).next = nxt ∧ (getNode d n).children = xs.seqLen ∧
    (getNode d n).down = (if xs.seqLen = 0 then 0 else n + 1) ∧
    shapeOk d (n + 1) xs n 0
  | d, n, .vdescribed a b, par, nxt =>
    (getNode d n).atom = .adescriptor ∧ (getNode d n).parent = par ∧
    (getNode d n).next = nxt ∧ (getNode d n).children = 2 ∧
    (getNode d n).down = n + 1 ∧
    shapeOk d (n + 1) a n (n + 1 + a.nnodes) ∧
    shapeOk d (n + 1 + a.nnodes) b n 0
  | _, _, .vseqNil, _, _ => True
  | d, n, .vseqCons h t, par, _ =>
    shapeOk d n h par (if t.seqLen = 0 then 0 else n + h.nnodes) ∧
    shapeOk d (n + h.nnodes) t par 0
  | d, n, v, par, nxt =>
    (getNode d n).atom = leafAtom v ∧ (getNode d n).parent = par ∧
    (getNode d n).next = nxt ∧ (getNode d n).down = 0

/-- Agreement of the walk-relevant fields of one node between two states. -/
def sameShapeAt (d1 d2 : PnData) (i : Nat) : Prop :=
  (getNode d2 i).atom = (getNode d1 i).atom ∧
  (getNode d2 i).down = (getNode d1 i).down ∧
  (getNode d2 i).next = (getNode d1 i).next ∧
  (getNode d2 i).parent = (getNode d1 i).parent ∧
  (getNode d2 i).children = (getNode d1 i).children

theorem sameShapeAt_of_eq {d1 d2 : PnData} {i : Nat}
    (h : getNode d2 i = getNode d1 i) : sameShapeAt d1 d2 i := by
  unfold sameShapeAt
  rw [h]
  exact ⟨rfl, rfl, rfl, rfl, rfl⟩

/-- A value subtree occupies at least one node. -/
theorem nnodes_pos (v : AVal) (h : v.wf false = true) : 1 ≤ v.nnodes := by
  cases v <;> simp [AVal.wf] at h <;> simp [AVal.nnodes] <;> omega

/-- Shape congruence: a state that agrees on the walk fields of every node of
the subtree satisfies the same shape. -/
theorem shapeOk_congr (v : AVal) : ∀ (d1 d2 : PnData) (n par nxt : Nat),
    shapeOk d1 n v par nxt →
    (∀ i, n ≤ i → i < n + v.nnodes → sameShapeAt d1 d2 i) →
    shapeOk d2 n v par nxt := by
  induction v with
  | vdescribed a b iha ihb =>
    intro d1 d2 n par nxt h hint
    obtain ⟨h1, h2, h3, h4, h5, h6, h7⟩ := h
    have hr := hint n (le_refl n) (by simp only [AVal.nnodes]; omega)
    exact ⟨hr.1.trans h1, hr.2.2.2.1.trans h2, hr.2.2.1.trans h3,
      hr.2.2.2.2.trans h4, hr.2.1.trans h5,
      iha d1 d2 (n + 1) n _ h6
        (fun i hi1 hi2 => hint i (by omega) (by simp only [AVal.nnodes]; omega)),
      ihb d1 d2 (n + 1 + a.nnodes) n _ h7
        (fun i hi1 hi2 => hint i (by omega) (by simp only [AVal.nnodes]; omega))⟩
  | vlist xs ih =>
    intro d1 d2 n par nxt h hint
    obtain ⟨h1, h2, h3, h4, h5, h6⟩ := h
    have hr := hint n (le_refl n) (by simp only [AVal.nnodes]; omega)
    exact ⟨hr.1.trans h1, hr.2.2.2.1.trans h2, hr.2.2.1.trans h3,
      hr.2.2.2.2.trans h4, hr.2.1.trans h5,
      ih d1 d2 (n + 1) n 0 h6
        (fun i hi1 hi2 => hint i (by omega) (by simp only [AVal.nnodes]; omega))⟩
  | vmap xs ih =>
    intro d1 d2 n par nxt h hint
    obtain ⟨h1, h2, h3, h4, h5, h6⟩ := h
    have hr := hint n (le_refl n) (by simp only [AVal.nnodes]; omega)
    exact ⟨hr.1.trans h1, hr.2.2.2.1.trans h2, hr.2.2.1.trans h3,
      hr.2.2.2.2.trans h4, hr.2.1.trans h5,
      ih d1 d2 (n + 1) n 0 h6
        (fun i hi1 hi2 => hint i (by omega) (by simp only [AVal.nnodes]; omega))⟩
  | vseqNil =>
    intro d1 d2 n par nxt h hint
    exact trivial
  | vseqCons hd tl ihh iht =>
    intro d1 d2 n par nxt h hint
    exact ⟨ihh d1 d2 n par _ h.1
        (fun i hi1 hi2 => hint i (by omega) (by simp only [AVal.nnodes]; omega)),
      iht d1 d2 (n + hd.nnodes) par 0 h.2
        (fun i hi1 hi2 => hint i (by omega) (by simp only [AVal.nnodes]; omega))⟩
  | _ =>
    intro d1 d2 n par nxt h hint
    obtain ⟨h1, h2, h3, h4⟩ := h
    have hr := hint n (le_refl n) (by simp only [AVal.nnodes]; omega)
    exact ⟨hr.1.trans h1, hr.2.2.2.1.trans h2, hr.2.2.1.trans h3, hr.2.1.trans h4⟩

/-- Shape transfer with a retargeted root `next` (for a well-formed value): a
state that agrees on the walk fields of the proper subtree and on the root's
fields except `next` satisfies the shape with the new `next` link. -/
theorem shapeOk_retarget (v : AVal) (hv : v.wf false = true)
    (d1 d2 : PnData) (n par nxt1 nxt2 : Nat)
    (h : shapeOk d1 n v par nxt1)
    (hint : ∀ i, n < i → i < n + v.nnodes → sameShapeAt d1 d2 i)
    (hatom : (getNode d2 n).atom = (getNode d1 n).atom)
    (hdown : (getNode d2 n).down = (getNode d1 n).down)
    (hpar : (getNode d2 n).parent = (getNode d1 n).parent)
    (hch : (getNode d2 n).children = (getNode d1 n).children)
    (hnx : (getNode d2 n).next = nxt2) :
    shapeOk d2 n v par nxt2 := by
  cases v with
  | vdescribed a b =>
    obtain ⟨h1, h2, h3, h4, h5, h6, h7⟩ := h
    exact ⟨hatom.trans h1, hpar.trans h2, hnx, hch.trans h4, hdown.trans h5,
      shapeOk_congr a d1 d2 (n + 1) n _ h6
        (fun i hi1 hi2 => hint i (by omega) (by simp only [AVal.nnodes]; omega)),
      shapeOk_congr b d1 d2 (n + 1 + a.nnodes) n _ h7
        (fun i hi1 hi2 => hint i (by omega) (by simp only [AVal.nnodes]; omega))⟩
  | vlist xs =>
    obtain ⟨h1, h2, h3, h4, h5, h6⟩ := h
    exact ⟨hatom.trans h1, hpar.trans h2, hnx, hch.trans h4, hdown.trans h5,
      shapeOk_congr xs d1 d2 (n + 1) n 0 h6
        (fun i hi1 hi2 => hint i (by omega) (by simp only [AVal.nnodes]; omega))⟩
  | vmap xs =>
    obtain ⟨h1, h2, h3, h4, h5, h6⟩ := h
    exact ⟨hatom.trans h1, hpar.trans h2, hnx, hch.trans h4, hdown.trans h5,
      shapeOk_congr xs d1 d2 (n + 1) n 0 h6
        (fun i hi1 hi2 => hint i (by omega) (by simp only [AVal.nnodes]; omega))⟩
  | vseqNil => simp [AVal.wf] at hv
  | vseqCons hd tl => simp [AVal.wf] at hv
  | vnull =>
    obtain ⟨h1, h2, h3, h4⟩ := h
    exact ⟨hatom.trans h1, hpar.trans h2, hnx, hdown.trans h4⟩
  | vbool b =>
    obtain ⟨h1, h2, h3, h4⟩ := h
    exact ⟨hatom.trans h1, hpar.trans h2, hnx, hdown.trans h4⟩
  | vubyte x =>
    obtain ⟨h1, h2, h3, h4⟩ := h
    exact ⟨hatom.trans h1, hpar.trans h2, hnx, hdown.trans h4⟩
  | vbyte x =>
    obtain ⟨h1, h2, h3, h4⟩ := h
    exact ⟨hatom.trans h1, hpar.trans h2, hnx, hdown.trans h4⟩
  | vushort x =>
    obtain ⟨h1, h2, h3, h4⟩ := h
    exact ⟨hatom.trans h1, hpar.trans h2, hnx, hdown.trans h4⟩
  | vshort x =>
    obtain ⟨h1, h2, h3, h4⟩ := h
    exact ⟨hatom.trans h1, hpar.trans h2, hnx, hdown.trans h4⟩
  | vuint x =>
    obtain ⟨h1, h2, h3, h4⟩ := h
    exact ⟨hatom.trans h1, hpar.trans h2, hnx, hdown.trans h4⟩
  | vint x =>
    obtain ⟨h1, h2, h3, h4⟩ := h
    exact ⟨hatom.trans h1, hpar.trans h2, hnx, hdown.trans h4⟩
  | vchar x =>
    obtain ⟨h1, h2, h3, h4⟩ := h
    exact ⟨hatom.trans h1, hpar.trans h2, hnx, hdown.trans h4⟩
  | vulong x =>
    obtain ⟨h1, h2, h3, h4⟩ := h
    exact ⟨hatom.trans h1, hpar.trans h2, hnx, hdown.trans h4⟩
  | vlong x =>
    obtain ⟨h1, h2, h3, h4⟩ := h
    exact ⟨hatom.trans h1, hpar.trans h2, hnx, hdown.trans h4⟩
  | vtimestamp x =>
    obtain ⟨h1, h2, h3, h4⟩ := h
    exact ⟨hatom.trans h1, hpar.trans h2, hnx, hdown.trans h4⟩
  | vfloat x =>
    obtain ⟨h1, h2, h3, h4⟩ := h
    exact ⟨hatom.trans h1, hpar.trans h2, hnx, hdown.trans h4⟩
  | vdouble x =>
    obtain ⟨h1, h2, h3, h4⟩ := h
    exact ⟨hatom.trans h1, hpar.trans h2, hnx, hdown.trans h4⟩
  | vdec32 x =>
    obtain ⟨h1, h2, h3, h4⟩ := h
    exact ⟨hatom.trans h1, hpar.trans h2, hnx, hdown.trans h4⟩
  | vdec64 x =>
    obtain ⟨h1, h2, h3, h4⟩ := h
    exact ⟨hatom.trans h1, hpar.trans h2, hnx, hdown.trans h4⟩
  | vdec128 x =>
    obtain ⟨h1, h2, h3, h4⟩ := h
    exact ⟨hatom.trans h1, hpar.trans h2, hnx, hdown.trans h4⟩
  | vuuid x =>
    obtain ⟨h1, h2, h3, h4⟩ := h
    exact ⟨hatom.trans h1, hpar.trans h2, hnx, hdown.trans h4⟩
  | vbinary x =>
    obtain ⟨h1, h2, h3, h4⟩ := h
    exact ⟨hatom.trans h1, hpar.trans h2, hnx, hdown.trans h4⟩
  | vstring x =>
    obtain ⟨h1, h2, h3, h4⟩ := h
    exact ⟨hatom.trans h1, hpar.trans h2, hnx, hdown.trans h4⟩
  | vsymbol x =>
    obtain ⟨h1, h2, h3, h4⟩ := h
    exact ⟨hatom.trans h1, hpar.trans h2, hnx, hdown.trans h4⟩

/-- Root fields a value's shape pins down. -/
theorem shapeOk_root (v : AVal) (hv : v.wf false = true)
    {d : PnData} {n par nxt : Nat} (h : shapeOk d n v par nxt) :
    (getNode d n).next = nxt ∧ (getNode d n).parent = par := by
  cases v <;> simp [AVal.wf] at hv <;>
    first
    | exact ⟨h.2.2.1, h.2.1⟩

end Codec
